import Mathlib

/-!
The in-memory entry store of vtfs (`src/module/storage.c`) and the hard-link
operation of the adapter (`src/module/inode_ops.c`).

The store of the C module is a heap of `struct vtfs_entry` records that are
chained by intrusive lists.  Here the heap is a map from addresses to records,
the `children` list of a directory and the global `all_entries` list are lists
of addresses (head of the C list first), and every C function is a state
transformer on `vtfs_storage`.

What the environment decides is an explicit argument of the operation:
* `kz : Option Ptr` is the answer of `kzalloc` (`none` for `NULL`, `some p` for
  a block at address `p`);
* `alloc : Option (Nat → Nat)` is the answer of `krealloc` (`none` for `NULL`,
  `some fill` for a block whose bytes beyond the copied prefix are `fill i`,
  the allocator does not clear them);
* `now : Nat` is the reading of `ktime_get_real_ts64`.

The spin lock is not modelled (one caller at a time), and the remote replay a
mutation issues after the lock is released does not touch the store or the
returned value and is not part of these state transformers; the third part
adds it.

The second part is the HTTP client (`src/module/http.c`).  A C string is the
list of its bytes before the NUL, a pointer into a string is the rest of the
string from that position on, and the string functions of the kernel
(`strstr`, `strchr`, `strlcat`, `snprintf`, `simple_strtoul`, `kstrtoll`,
`kstrtoint`) are functions on such lists.  The module state (`server_host`,
`server_port`, `http_initialized`, the token) is a record `http_config`.
Again the environment is an explicit argument:
* `net : net_reply` is what the allocator and the socket do during one
  `vtfs_http_call` (no memory, no connection, a failed send or receive, or
  the text received);
* `stack : CStr` is the content of the uninitialised `response` array of the
  caller, which stays in place when `parse_http_response` stores no body;
* `km : Bool` tells whether the `kmalloc` of the operation itself succeeds.

A write past the end of a heap block has no defined result in C; the one
place where `http.c` can do it (the decoded bytes of a read) is an outcome of
its own, `read_outcome.overrun`.

The third part joins the two: the full path of an entry (`build_path`), the
replay of create, write and delete to the remote side (`sync_create_to_server`,
`sync_delete_to_server`, `sync_write_to_server` and the functions named
`..._remote`, which are the C functions with their replay), and the lookup and
the read of the adapter (`fetch_from_remote`, `vtfs_lookup` of `inode_ops.c`,
`vtfs_read` of `file_ops.c`).  The recursion of `build_path` over the parent
pointers is bounded by a number of steps given as an argument; a function that
calls it returns `Except fault`, where `fault.no_fuel` says that the bound was
reached and `fault.overrun` passes on the overrun of a remote read.  The
value of `vtfs_get_server_url()` is the argument `server_url`, and what the
environment does during one remote call is a record `remote_call`.

The last part has the directory operations of the adapter as far as the store
is concerned (`vtfs_mkdir`, `vtfs_rmdir` of `inode_ops.c`, `vtfs_iterate` of
`dir_ops.c`, where the callback behind `dir_emit` is the argument `emit`), and
concurrent callers of `create_entry_internal`: a caller takes two steps, the
tests with the lookup (`create_check`) and the section under the lock
(`create_insert`), and an interleaving is a schedule that names the caller of
each step (`run_schedule`).

In the store the content of a file is a field of its record. `vtfs_link` makes
two records hold one buffer; for that the functions that touch the content
(`vtfs_storage_write`, `vtfs_storage_read`, `vtfs_storage_delete_entry`,
`vtfs_link`) are given a second time over `block_store`, where a record holds
the address of its buffer and the buffers are blocks of memory
(`vtfs_storage_write_blocks` and so on).
-/

namespace Vtfs

/-- Address of a `struct vtfs_entry`; an address the heap does not map plays
the part of `NULL`. -/
abbrev Ptr := Nat

/-- C string, given by its bytes before the terminating NUL. -/
abbrev CStr := List Nat

/-! ## Constants of `vtfs.h`, `stat.h` and `errno.h` -/

def VTFS_ROOT_INO : Nat := 1000

def VTFS_MAX_NAME_LEN : Nat := 255

def VTFS_MAX_FILE_SIZE : Nat := 1024 * 1024

def S_IFMT : Nat := 0o170000

def S_IFDIR : Nat := 0o040000

def S_IFREG : Nat := 0o100000

def S_ISDIR (m : Nat) : Bool := (m &&& S_IFMT) == S_IFDIR

def S_ISREG (m : Nat) : Bool := (m &&& S_IFMT) == S_IFREG

def EPERM : Int := 1

def ENOENT : Int := 2

def ENOMEM : Int := 12

def EBUSY : Int := 16

def EEXIST : Int := 17

def EINVAL : Int := 22

def EFBIG : Int := 27

def ENOTEMPTY : Int := 39

/-! ## Machine integers -/

/-- Conversion of a `loff_t` to `size_t` (64 bit, two's complement). -/
def to_size_t (x : Int) : Nat := (x % 18446744073709551616).toNat

/-- Conversion of a `size_t` to the `int` a function returns (32 bit). -/
def to_int (n : Nat) : Int := (((n + 2147483648) % 4294967296 : Nat) : Int) - 2147483648

/-- The operation `nlink--` on an `unsigned int`: zero wraps to `UINT_MAX`. -/
def nlink_dec (n : Nat) : Nat := if n = 0 then 4294967295 else n - 1

/-! ## Data model (`storage.h`) -/

/-- One `struct vtfs_entry`.  `data` is the content buffer (`none` for `NULL`),
all `capacity` allocated bytes of it; the `sibling` and `global_list` nodes are
the membership of the entry's address in a `children` list and in
`all_entries`.  The counters `nlink` (an `unsigned int`) and `ino` are natural
numbers: an increment is taken without wrap-around (2^32 links are out of
reach of a store whose every link is a record in memory), the decrement of
`nlink` wraps at zero as in C. -/
structure vtfs_entry where
  name : CStr
  ino : Nat
  mode : Nat
  data : Option (List Nat)
  size : Nat
  capacity : Nat
  nlink : Nat
  atime : Nat
  mtime : Nat
  ctime : Nat
  parent : Option Ptr
  children : List Ptr
deriving DecidableEq

/-- The `struct vtfs_storage` singleton together with the heap of entries. -/
structure vtfs_storage where
  root : Option Ptr
  all_entries : List Ptr
  next_ino : Nat
  mem : Ptr → Option vtfs_entry

/-- Heap update at one address. -/
def upd (m : Ptr → Option vtfs_entry) (p : Ptr) (v : Option vtfs_entry) :
    Ptr → Option vtfs_entry :=
  fun q => if q = p then v else m q

/-- The call `list_del(&entry->sibling)`: the entry leaves the children list
that holds it. -/
def unlink_sibling (m : Ptr → Option vtfs_entry) (p : Ptr) : Ptr → Option vtfs_entry :=
  fun q => (m q).map (fun x => { x with children := x.children.filter (fun c => decide (c ≠ p)) })

/-! ## Byte buffers -/

/-- The call `memcpy(dst + off, src, n)`. -/
def memcpy (dst : List Nat) (off : Nat) (src : List Nat) (n : Nat) : List Nat :=
  (List.range dst.length).map
    (fun i => if off ≤ i ∧ i < off + n then src.getD (i - off) 0 else dst.getD i 0)

/-- The call `memset(dst + off, c, n)`. -/
def memset (dst : List Nat) (off : Nat) (c : Nat) (n : Nat) : List Nat :=
  (List.range dst.length).map
    (fun i => if off ≤ i ∧ i < off + n then c else dst.getD i 0)

/-- The call `krealloc(data, n, GFP_ATOMIC)`: a block of `n` bytes that starts
with the old bytes; the bytes behind them are whatever the allocator hands
out. -/
def krealloc (alloc : Option (Nat → Nat)) (data : Option (List Nat)) (n : Nat) :
    Option (List Nat) :=
  match alloc with
  | none => none
  | some fill => some ((List.range n).map (fun i => (data.getD []).getD i (fill i)))

/-! ## Operations of `storage.c` -/

/-- The function `alloc_entry`: a zeroed record with the name cut to `VTFS_MAX_NAME_LEN`
bytes, link count 1, no content, no parent and the three time stamps set. -/
def alloc_entry (kz : Option Ptr) (now : Nat) (name : CStr) (mode ino : Nat) :
    Option (Ptr × vtfs_entry) :=
  match kz with
  | none => none
  | some p =>
    some (p, { name := name.take VTFS_MAX_NAME_LEN, ino := ino, mode := mode,
               data := none, size := 0, capacity := 0, nlink := 1,
               atime := now, mtime := now, ctime := now,
               parent := none, children := [] })

/-- The function `vtfs_storage_init`. -/
def vtfs_storage_init (kz : Option Ptr) (now : Nat) : vtfs_storage × Int :=
  match alloc_entry kz now [47] (S_IFDIR ||| 0o777) VTFS_ROOT_INO with
  | none =>
    ({ root := none, all_entries := [], next_ino := VTFS_ROOT_INO + 1, mem := fun _ => none },
      -ENOMEM)
  | some (p, e) =>
    ({ root := some p, all_entries := [p], next_ino := VTFS_ROOT_INO + 1,
       mem := upd (fun _ => none) p (some { e with parent := some p, nlink := 2 }) }, 0)

/-- The function `vtfs_storage_get_root`. -/
def vtfs_storage_get_root (s : vtfs_storage) : Option Ptr := s.root

/-- The function `vtfs_storage_lookup`: the first child of the directory whose stored name
equals `name`. -/
def vtfs_storage_lookup (s : vtfs_storage) (parent : Ptr) (name : CStr) : Option Ptr :=
  match s.mem parent with
  | none => none
  | some pe =>
    if !S_ISDIR pe.mode then none
    else pe.children.find? (fun c =>
      match s.mem c with
      | some ce => decide (ce.name = name)
      | none => false)

/-- The function `vtfs_storage_get_by_ino`: the first entry of the registry with that id. -/
def vtfs_storage_get_by_ino (s : vtfs_storage) (ino : Nat) : Option Ptr :=
  s.all_entries.find? (fun p =>
    match s.mem p with
    | some e => decide (e.ino = ino)
    | none => false)

/-- The function `create_entry_internal`.  `skip_sync` only decides whether the creation is
replayed to the remote side. -/
def create_entry_internal (s : vtfs_storage) (kz : Option Ptr) (now : Nat) (parent : Ptr)
    (name : CStr) (mode ino : Nat) (skip_sync : Bool) : vtfs_storage × Option Ptr :=
  match s.mem parent with
  | none => (s, none)
  | some pe =>
    if !S_ISDIR pe.mode then (s, none)
    else if (vtfs_storage_lookup s parent name).isSome then (s, none)
    else
      let ino1 := if ino = 0 then s.next_ino else ino
      let s1 := if ino = 0 then { s with next_ino := s.next_ino + 1 } else s
      match alloc_entry kz now name mode ino1 with
      | none => (s1, none)
      | some (p, e) =>
        let m1 := upd s1.mem p (some { e with parent := some parent })
        let m2 := upd m1 parent
          (some { pe with children := p :: pe.children,
                          nlink := if S_ISDIR mode then pe.nlink + 1 else pe.nlink })
        ({ s1 with mem := m2, all_entries := p :: s1.all_entries }, some p)

/-- The function `vtfs_storage_create_entry`. -/
def vtfs_storage_create_entry (s : vtfs_storage) (kz : Option Ptr) (now : Nat) (parent : Ptr)
    (name : CStr) (mode ino : Nat) : vtfs_storage × Option Ptr :=
  create_entry_internal s kz now parent name mode ino false

/-- The function `vtfs_storage_create_entry_no_sync`. -/
def vtfs_storage_create_entry_no_sync (s : vtfs_storage) (kz : Option Ptr) (now : Nat)
    (parent : Ptr) (name : CStr) (mode ino : Nat) : vtfs_storage × Option Ptr :=
  create_entry_internal s kz now parent name mode ino true

/-- The statement `entry->parent->nlink--` of `vtfs_storage_delete_entry`,
guarded by `S_ISDIR(entry->mode) && entry->parent`. -/
def drop_parent_link (m : Ptr → Option vtfs_entry) (e : vtfs_entry) : Ptr → Option vtfs_entry :=
  if S_ISDIR e.mode then
    match e.parent with
    | none => m
    | some q =>
      match m q with
      | none => m
      | some qe => upd m q (some { qe with nlink := nlink_dec qe.nlink })
  else m

/-- The function `vtfs_storage_delete_entry`. -/
def vtfs_storage_delete_entry (s : vtfs_storage) (entry : Ptr) : vtfs_storage × Int :=
  match s.mem entry with
  | none => (s, -EINVAL)
  | some e =>
    if s.root = some entry then (s, -EBUSY)
    else if S_ISDIR e.mode && !e.children.isEmpty then (s, -ENOTEMPTY)
    else
      let e1 := { e with nlink := nlink_dec e.nlink }
      let m1 := upd s.mem entry (some e1)
      if e1.nlink = 0 then
        let m2 := drop_parent_link m1 e1
        let m3 := unlink_sibling m2 entry
        let m4 := upd m3 entry none
        ({ s with mem := m4,
                  all_entries := s.all_entries.filter (fun c => decide (c ≠ entry)) }, 0)
      else ({ s with mem := m1 }, 0)

/-- The function `vtfs_storage_read`; the third component is the caller's buffer after the
call. -/
def vtfs_storage_read (s : vtfs_storage) (now : Nat) (entry : Ptr) (buffer : List Nat)
    (len : Nat) (offset : Int) : vtfs_storage × Int × List Nat :=
  match s.mem entry with
  | none => (s, -EINVAL, buffer)
  | some e =>
    if !S_ISREG e.mode then (s, -EINVAL, buffer)
    else if to_size_t offset ≥ e.size then (s, 0, buffer)
    else
      let bytes_to_read := min len (e.size - to_size_t offset)
      let buffer1 :=
        match e.data with
        | some d =>
          if bytes_to_read > 0 then memcpy buffer 0 (d.drop (to_size_t offset)) bytes_to_read
          else buffer
        | none => buffer
      ({ s with mem := upd s.mem entry (some { e with atime := now }) },
        to_int bytes_to_read, buffer1)

/-- The part of `vtfs_storage_write` behind the growth of the buffer: copy,
size update, time stamps. -/
def write_tail (s : vtfs_storage) (now : Nat) (entry : Ptr) (e : vtfs_entry)
    (buffer : List Nat) (len : Nat) (off new_size : Nat) : vtfs_storage × Int :=
  let e2 := { e with data := e.data.map (fun d => memcpy d off buffer len) }
  let e3 := if new_size > e2.size then { e2 with size := new_size } else e2
  ({ s with mem := upd s.mem entry (some { e3 with mtime := now, ctime := now }) }, to_int len)

/-- The function `vtfs_storage_write`.  `new_size` is computed in `size_t`, modulo 2^64.
The pointer `entry->data + offset` is formed with the offset as a natural
number, which is what C does for the offsets that are not negative. -/
def vtfs_storage_write (s : vtfs_storage) (alloc : Option (Nat → Nat)) (now : Nat)
    (entry : Ptr) (buffer : List Nat) (len : Nat) (offset : Int) : vtfs_storage × Int :=
  match s.mem entry with
  | none => (s, -EINVAL)
  | some e =>
    if !S_ISREG e.mode then (s, -EINVAL)
    else
      let off := to_size_t offset
      let new_size := (off + len) % 18446744073709551616
      if new_size > VTFS_MAX_FILE_SIZE then (s, -EFBIG)
      else if new_size > e.capacity then
        let c0 := max new_size (e.capacity * 2 % 18446744073709551616)
        let new_capacity := if c0 < 64 then 64 else c0
        match krealloc alloc e.data new_capacity with
        | none => (s, -ENOMEM)
        | some new_data =>
          let new_data1 :=
            if off > e.size then memset new_data e.size 0 (off - e.size) else new_data
          write_tail s now entry { e with data := some new_data1, capacity := new_capacity }
            buffer len off new_size
      else write_tail s now entry e buffer len off new_size

/-- The function `vtfs_storage_add_link`. -/
def vtfs_storage_add_link (s : vtfs_storage) (entry parent : Ptr) (name : CStr) :
    vtfs_storage × Int :=
  match s.mem entry, s.mem parent with
  | some e, some _ =>
    if S_ISDIR e.mode then (s, -EPERM)
    else ({ s with mem := upd s.mem entry (some { e with nlink := e.nlink + 1 }) }, 0)
  | _, _ => (s, -EINVAL)

/-! ## The hard-link operation of the adapter (`inode_ops.c`) -/

/-- The function `vtfs_link`, as far as the store is concerned: `old_ino` is the inode
number behind `old_dentry`, `dir_ino` the one of `parent_dir`, `new_name` the
name of `new_dentry`.  The new entry takes over the target's `data`, `size`
and `capacity` fields as they are at that moment: the C code copies the
pointer, this definition the bytes behind it, so it gives the state right
after the call; a later write or delete through one of the two entries reaches
the other one only in `vtfs_link_blocks`, the same function with the buffers
as blocks of memory, which keeps the pointer.  What the function does to the
inode and the dentry of the kernel is outside the store. -/
def vtfs_link (s : vtfs_storage) (kz : Option Ptr) (now : Nat) (old_ino dir_ino : Nat)
    (new_name : CStr) : vtfs_storage × Int :=
  match vtfs_storage_get_by_ino s old_ino with
  | none => (s, -ENOENT)
  | some target =>
    match s.mem target with
    | none => (s, -ENOENT)
    | some te =>
      if S_ISDIR te.mode then (s, -EPERM)
      else
        match vtfs_storage_get_by_ino s dir_ino with
        | none => (s, -ENOENT)
        | some parent =>
          match vtfs_storage_create_entry s kz now parent new_name te.mode te.ino with
          | (s1, none) => (s1, -EEXIST)
          | (s1, some link) =>
            let s2 : vtfs_storage :=
              match s1.mem link, s1.mem target with
              | some le, some te1 =>
                let le1 := { le with data := te1.data, size := te1.size,
                                     capacity := te1.capacity }
                { s1 with mem := upd s1.mem link (some le1) }
              | _, _ => s1
            let r := vtfs_storage_add_link s2 target parent new_name
            if r.2 ≠ 0 then ((vtfs_storage_delete_entry r.1 link).1, r.2)
            else (r.1, 0)

/-! ## Well-formed and reachable stores -/

/-- The content fields of an entry fit together: the buffer holds `capacity`
bytes, the size is within the capacity and within the size cap. -/
def buf_ok (e : vtfs_entry) : Prop :=
  e.size ≤ e.capacity ∧ e.size ≤ VTFS_MAX_FILE_SIZE ∧
    e.capacity ≤ 2 * VTFS_MAX_FILE_SIZE ∧ (e.data.getD []).length = e.capacity

/-- The address holds a directory. -/
def isDirAt (m : Ptr → Option vtfs_entry) (c : Ptr) : Bool :=
  match m c with
  | some ce => S_ISDIR ce.mode
  | none => false

/-- Number of directories among the given children. -/
def dirCount (m : Ptr → Option vtfs_entry) (cs : List Ptr) : Nat :=
  cs.countP (isDirAt m)

/-- Structural invariant of the store. -/
structure Inv (s : vtfs_storage) : Prop where
  root_live : ∃ r re, s.root = some r ∧ s.mem r = some re ∧ re.parent = some r ∧
    S_ISDIR re.mode = true
  child_live : ∀ q qe, s.mem q = some qe → ∀ c ∈ qe.children,
    s.root ≠ some c ∧ ∃ ce, s.mem c = some ce ∧ ce.parent = some q
  child_nodup : ∀ q qe, s.mem q = some qe → qe.children.Nodup
  not_own_child : ∀ q qe, s.mem q = some qe → q ∉ qe.children
  has_parent : ∀ p e, s.mem p = some e → s.root ≠ some p →
    ∃ q qe, e.parent = some q ∧ s.mem q = some qe ∧ p ∈ qe.children
  parent_dir : ∀ q qe, s.mem q = some qe → qe.children ≠ [] → S_ISDIR qe.mode = true
  registry : ∀ p, p ∈ s.all_entries ↔ s.mem p ≠ none
  registry_nodup : s.all_entries.Nodup
  buf : ∀ p e, s.mem p = some e → buf_ok e
  links : ∀ q qe, s.mem q = some qe →
    1 ≤ qe.nlink ∧ (S_ISDIR qe.mode = true → 1 + dirCount s.mem qe.children ≤ qe.nlink)

/-- No two children of one directory bear the same stored name. -/
def UniqueNames (s : vtfs_storage) : Prop :=
  ∀ q qe, s.mem q = some qe → ∀ c1 ∈ qe.children, ∀ c2 ∈ qe.children,
    ∀ e1 e2, s.mem c1 = some e1 → s.mem c2 = some e2 → e1.name = e2.name → c1 = c2

/-- The stores that `vtfs_storage_init` followed by calls of create, delete,
read, write and add_link produces, where the names handed to create satisfy
`ok` and `kzalloc` hands out addresses that are not in use. -/
inductive Reach (ok : CStr → Prop) : vtfs_storage → Prop
  | init (p now : Nat) : Reach ok (vtfs_storage_init (some p) now).1
  | create (s : vtfs_storage) (kz : Option Ptr) (now : Nat) (parent : Ptr) (name : CStr)
      (mode ino : Nat) (skip_sync : Bool) :
      Reach ok s → (∀ p, kz = some p → s.mem p = none) → ok name →
      Reach ok (create_entry_internal s kz now parent name mode ino skip_sync).1
  | delete (s : vtfs_storage) (entry : Ptr) :
      Reach ok s → Reach ok (vtfs_storage_delete_entry s entry).1
  | read (s : vtfs_storage) (now : Nat) (entry : Ptr) (buffer : List Nat) (len : Nat)
      (offset : Int) :
      Reach ok s → Reach ok (vtfs_storage_read s now entry buffer len offset).1
  | write (s : vtfs_storage) (alloc : Option (Nat → Nat)) (now : Nat) (entry : Ptr)
      (buffer : List Nat) (len : Nat) (offset : Int) :
      Reach ok s → Reach ok (vtfs_storage_write s alloc now entry buffer len offset).1
  | add_link (s : vtfs_storage) (entry parent : Ptr) (name : CStr) :
      Reach ok s → Reach ok (vtfs_storage_add_link s entry parent name).1

/-- Reachable with any names. -/
def Reachable (s : vtfs_storage) : Prop := Reach (fun _ => True) s

/-- Reachable with names that fit the name field of an entry. -/
def ReachableShort (s : vtfs_storage) : Prop :=
  Reach (fun name => name.length ≤ VTFS_MAX_NAME_LEN) s

/-- Delete the listed entries one after the other; `none` as soon as one call
does not return success. -/
def delete_each (s : vtfs_storage) : List Ptr → Option vtfs_storage
  | [] => some s
  | c :: cs =>
    if (vtfs_storage_delete_entry s c).2 = 0 then
      delete_each (vtfs_storage_delete_entry s c).1 cs
    else none

/-- The record `alloc_entry` hands to create, with its parent set -/
def fresh_entry (now : Nat) (N : CStr) (mode ino : Nat) (D : Ptr) : vtfs_entry :=
  { name := N.take VTFS_MAX_NAME_LEN, ino := ino, mode := mode, data := none, size := 0,
    capacity := 0, nlink := 1, atime := now, mtime := now, ctime := now,
    parent := some D, children := [] }

/-- The heap after the last link to `e` is gone -/
def removed_heap (m : Ptr → Option vtfs_entry) (e : Ptr) (ent : vtfs_entry) :
    Ptr → Option vtfs_entry :=
  upd (unlink_sibling
    (drop_parent_link (upd m e (some { ent with nlink := nlink_dec ent.nlink }))
      { ent with nlink := nlink_dec ent.nlink }) e) e none

/-- Byte `i` of the content buffer of an entry (0 outside the buffer). -/
def byte_at (e : vtfs_entry) (i : Nat) : Nat := (e.data.getD []).getD i 0

/-- The record a write leaves when the buffer needs no growth. -/
def written_inplace (e : vtfs_entry) (now : Nat) (buffer : List Nat) (len off : Nat) :
    vtfs_entry :=
  { e with data := e.data.map (fun d => memcpy d off buffer len),
           size := (if off + len > e.size then off + len else e.size),
           mtime := now, ctime := now }

/-- The capacity a growing write asks `krealloc` for. -/
def grown_capacity (e : vtfs_entry) (len off : Nat) : Nat :=
  if max (off + len) (e.capacity * 2) < 64 then 64 else max (off + len) (e.capacity * 2)

/-- The block `krealloc` returns to a growing write. -/
def grown_block (e : vtfs_entry) (fill : Nat → Nat) (len off : Nat) : List Nat :=
  (List.range (grown_capacity e len off)).map (fun i => (e.data.getD []).getD i (fill i))

/-- The record a write leaves when the buffer had to grow. -/
def written_grown (e : vtfs_entry) (fill : Nat → Nat) (now : Nat) (buffer : List Nat)
    (len off : Nat) : vtfs_entry :=
  { e with data := some (memcpy
             (if off > e.size then memset (grown_block e fill len off) e.size 0 (off - e.size)
              else grown_block e fill len off) off buffer len),
           capacity := grown_capacity e len off,
           size := (if off + len > e.size then off + len else e.size),
           mtime := now, ctime := now }

/-! ## Example stores -/

/-- The store right after `vtfs_storage_init`, the root at address 1. -/
def ex_root : vtfs_storage := (vtfs_storage_init (some 1) 0).1

/-- The root with one empty regular file `a` at address 2. -/
def ex_file : vtfs_storage :=
  (vtfs_storage_create_entry ex_root (some 2) 0 1 [97] (S_IFREG ||| 0o644) 0).1

/-- The root with one directory `d` at address 2 that holds one regular file `f` at
address 3. -/
def ex_dir_file : vtfs_storage :=
  (vtfs_storage_create_entry
    (vtfs_storage_create_entry ex_root (some 2) 0 1 [100] (S_IFDIR ||| 0o755) 0).1
    (some 3) 0 2 [102] (S_IFREG ||| 0o644) 0).1

/-- A name of 256 bytes. -/
def ex_long_name : CStr := List.replicate 256 97

/-- The example file after a write of the two bytes 7, 8 at offset 0. -/
def ex_written : vtfs_storage :=
  (vtfs_storage_write ex_file (some (fun _ => 0)) 1 2 [7, 8] 2 0).1

/-! ## C strings and the kernel's string helpers (`http.c` uses them) -/

/-- `VTFS_HTTP_BUFFER_SIZE` of `http.h`. -/
def VTFS_HTTP_BUFFER_SIZE : Nat := 4096
/-- Error number `EIO`. -/
def EIO : Int := 5
/-- Error number `ECONNREFUSED`. -/
def ECONNREFUSED : Int := 111

deriving instance DecidableEq for Except

/-- The bytes of an ASCII string literal. A C string is embedded as the list of
its bytes before the terminating NUL. -/
def str (s : String) : CStr := s.toList.map (fun c => c.toNat)

/-- The function `strchr(s, c)` for a byte `c` other than NUL: the rest of `s`
from the first occurrence of `c` on, `none` for the NULL pointer. -/
def strchr : CStr → Nat → Option CStr
  | [], _ => none
  | x :: t, c => if x = c then some (x :: t) else strchr t c

/-- The function `strstr(h, n)`: the rest of `h` from the first occurrence of
`n` on, `none` for the NULL pointer. -/
def strstr : CStr → CStr → Option CStr
  | [], n => if n = [] then some [] else none
  | x :: t, n => if n.isPrefixOf (x :: t) then some (x :: t) else strstr t n

/-- The function `strlcat(dst, src, size)`: appends as much of `src` as leaves
room for the NUL in a buffer of `size` bytes. -/
def strlcat (dst src : CStr) (size : Nat) : CStr :=
  dst ++ src.take (size - dst.length - 1)

/-- What `snprintf(buf, size, ...)` stores when the formatted text is `text`:
at most `size - 1` bytes. -/
def snprintf (size : Nat) (text : CStr) : CStr := text.take (size - 1)

/-- The digits of `n` in the given base, most significant first, as the
kernel's `vsnprintf` prints them for `%d`, `%lld`, `%zu` (base 10) and `%o`
(base 8). The first argument bounds the number of digits. -/
def fmt_digits (base : Nat) : Nat → Nat → CStr
  | 0, _ => []
  | fuel + 1, n =>
    if n < base then [48 + n] else fmt_digits base fuel (n / base) ++ [48 + n % base]

/-- The conversion `%zu` (and `%llu`). -/
def fmt_u (n : Nat) : CStr := fmt_digits 10 (n + 1) n

/-- The conversions `%d` and `%lld`. -/
def fmt_d (x : Int) : CStr := if x < 0 then 45 :: fmt_u x.natAbs else fmt_u x.natAbs

/-- The conversion `%o` of an `int`: the value is printed as an `unsigned int`. -/
def fmt_o (x : Int) : CStr :=
  fmt_digits 8 ((x % 4294967296).toNat + 1) (x % 4294967296).toNat

/-- The value of a digit as `_parse_integer` of the kernel reads it: decimal
digits, and the letters a to f in either case (the byte or-ed with 0x20). -/
def digit_value (c : Nat) : Option Nat :=
  if 48 ≤ c ∧ c ≤ 57 then some (c - 48)
  else if 97 ≤ (c ||| 32) ∧ (c ||| 32) ≤ 102 then some ((c ||| 32) - 97 + 10)
  else none

/-- The loop of `_parse_integer`: reads digits below `base`, returns the value
read (not reduced modulo 2^64) and the rest of the text. -/
def parse_integer (base : Nat) : CStr → Nat → Nat × CStr
  | [], res => (res, [])
  | c :: t, res =>
    match digit_value c with
    | some v => if v < base then parse_integer base t (res * base + v) else (res, c :: t)
    | none => (res, c :: t)

/-- The function `_parse_integer_fixup_radix` for an explicit base: in base 16
a leading `0x` or `0X` is skipped. -/
def parse_integer_fixup_radix (base : Nat) (s : CStr) : CStr :=
  match s with
  | 48 :: x :: t => if base = 16 ∧ (x ||| 32) = 120 then t else s
  | _ => s

/-- The function `simple_strtoul(s, &endp, base)`: the value of the leading
digits as an `unsigned long` (overflow wraps) and the text after them. -/
def simple_strtoul (s : CStr) (base : Nat) : Nat × CStr :=
  let r := parse_integer base (parse_integer_fixup_radix base s) 0
  (r.1 % 18446744073709551616, r.2)

/-- The function `_kstrtoull` in base 10: the whole text has to be a number,
with one optional newline after it; `none` stands for `-ERANGE` and `-EINVAL`. -/
def _kstrtoull (s : CStr) : Option Nat :=
  let r := parse_integer 10 s 0
  if 18446744073709551616 ≤ r.1 then none
  else if r.2.length = s.length then none
  else
    let rest := match r.2 with
      | 10 :: t => t
      | t => t
    if rest = [] then some r.1 else none

/-- The function `kstrtoull(s, 10, &res)`: an optional plus sign first. -/
def kstrtoull (s : CStr) : Option Nat :=
  match s with
  | 43 :: t => _kstrtoull t
  | _ => _kstrtoull s

/-- The function `kstrtoll(s, 10, &res)`; `none` stands for a nonzero return. -/
def kstrtoll (s : CStr) : Option Int :=
  match s with
  | 45 :: t =>
    match _kstrtoull t with
    | none => none
    | some v => if 9223372036854775808 < v then none else some (-(v : Int))
  | _ =>
    match kstrtoull s with
    | none => none
    | some v => if 9223372036854775808 ≤ v then none else some (v : Int)

/-- The function `kstrtoint(s, 10, &res)`: `kstrtoll` and a range check. -/
def kstrtoint (s : CStr) : Option Int :=
  match kstrtoll s with
  | none => none
  | some v => if v < -2147483648 ∨ 2147483647 < v then none else some v

/-! ## Base64 and percent-encoding (`http.c`) -/

/-- The table `base64_chars` of `bytes_to_base64` and `base64_decode`. -/
def base64_chars : CStr :=
  str "ABCDEFGHIJKLMNOPQRSTUVWXYZabcdefghijklmnopqrstuvwxyz0123456789+/"

/-- The loop of `bytes_to_base64`: three bytes per round, a missing byte reads
as 0 and its character is `=`. -/
def bytes_to_base64_loop : List Nat → CStr
  | [] => []
  | [a] =>
    [base64_chars.getD ((a >>> 2) &&& 63) 0,
     base64_chars.getD (((a <<< 4) ||| (0 >>> 4)) &&& 63) 0, 61, 61]
  | [a, b] =>
    [base64_chars.getD ((a >>> 2) &&& 63) 0,
     base64_chars.getD (((a <<< 4) ||| (b >>> 4)) &&& 63) 0,
     base64_chars.getD (((b <<< 2) ||| (0 >>> 6)) &&& 63) 0, 61]
  | a :: b :: c :: rest =>
    base64_chars.getD ((a >>> 2) &&& 63) 0 ::
    base64_chars.getD (((a <<< 4) ||| (b >>> 4)) &&& 63) 0 ::
    base64_chars.getD (((b <<< 2) ||| (c >>> 6)) &&& 63) 0 ::
    base64_chars.getD (c &&& 63) 0 :: bytes_to_base64_loop rest

/-- The function `bytes_to_base64(data, len, base64, base64_size)`: `-EINVAL`
when the text and its NUL do not fit `base64_size`, else the text. -/
def bytes_to_base64 (data : List Nat) (base64_size : Nat) : Except Int CStr :=
  if base64_size < ((data.length + 2) / 3) * 4 + 1 then .error (-EINVAL)
  else .ok (bytes_to_base64_loop data)

/-- The value `base64_decode` gives to one input character: 0 for `=`, the
position in `base64_chars` when `strchr` finds it, and 0 when it does not. -/
def base64_value (x : Nat) : Nat :=
  if x = 61 then 0
  else match strchr base64_chars x with
    | some pos => base64_chars.length - pos.length
    | none => 0

/-- The loop of `base64_decode`: four characters per round; `j` counts the
bytes stored so far and a byte is stored only while `j < *output_len`. -/
def base64_decode_loop (output_len : Nat) : Nat → CStr → List Nat
  | j, x0 :: x1 :: x2 :: x3 :: rest =>
    let a := base64_value x0
    let b := base64_value x1
    let c := base64_value x2
    let d := base64_value x3
    let o1 := if j < output_len then [((a <<< 2) ||| (b >>> 4)) % 256] else []
    let j1 := j + o1.length
    let o2 := if j1 < output_len then [((b <<< 4) ||| (c >>> 2)) % 256] else []
    let j2 := j1 + o2.length
    let o3 := if j2 < output_len then [((c <<< 6) ||| d) % 256] else []
    o1 ++ o2 ++ o3 ++ base64_decode_loop output_len (j2 + o3.length) rest
  | _, _ => []

/-- The value `*output_len` that `base64_decode` computes from the input. -/
def base64_output_len (input : CStr) : Nat :=
  let n := input.length
  let l0 := (n / 4) * 3
  let l1 := if 0 < n ∧ input.getD (n - 1) 0 = 61 then l0 - 1 else l0
  if 1 < n ∧ input.getD (n - 2) 0 = 61 then l1 - 1 else l1

/-- The function `base64_decode(input, output, &output_len)`: `-EINVAL` when
the length is not a multiple of 4, else the bytes stored in `output` (their
number is `*output_len`). -/
def base64_decode (input : CStr) : Except Int (List Nat) :=
  if input.length % 4 ≠ 0 then .error (-EINVAL)
  else .ok (base64_decode_loop (base64_output_len input) 0 input)

/-- The characters `url_encode` copies unchanged: letters, digits, `-`, `_`,
`.` and `~`. -/
def url_unreserved (c : Nat) : Bool :=
  (65 ≤ c && c ≤ 90) || (97 ≤ c && c ≤ 122) || (48 ≤ c && c ≤ 57) ||
  c = 45 || c = 95 || c = 46 || c = 126

/-- The table `hex` of `url_encode`. -/
def hex : CStr := str "0123456789ABCDEF"

/-- The loop of `url_encode`: `j` is the number of bytes stored so far, `limit`
is `dst_size - 3`; a byte is read only while `j < limit`. -/
def url_encode_loop (limit : Nat) : Nat → CStr → CStr
  | _, [] => []
  | j, c :: t =>
    if j < limit then
      if url_unreserved c then c :: url_encode_loop limit (j + 1) t
      else 37 :: hex.getD ((c >>> 4) &&& 15) 0 :: hex.getD (c &&& 15) 0 ::
        url_encode_loop limit (j + 3) t
    else []

/-- The function `url_encode(src, dst, dst_size)`: the text stored in `dst`;
the return value is its length. The bound `dst_size - 3` is a `size_t`. -/
def url_encode (src : CStr) (dst_size : Nat) : CStr :=
  url_encode_loop (to_size_t ((dst_size : Int) - 3)) 0 src

/-- Specification side, not part of `http.c`: the unreserved characters of
RFC 3986, which are the letters, the digits and `-`, `.`, `_`, `~`. -/
def rfc3986_unreserved (c : Nat) : Bool :=
  (65 ≤ c && c ≤ 90) || (97 ≤ c && c ≤ 122) || (48 ≤ c && c ≤ 57) ||
  c = 45 || c = 46 || c = 95 || c = 126

/-- Specification side: the uppercase hexadecimal digit of a value below 16. -/
def upper_hex_digit (d : Nat) : Nat := if d < 10 then 48 + d else 55 + d

/-- Specification side: the encoding of one byte, the byte itself when it is
unreserved and otherwise `%` with its two uppercase hexadecimal digits. -/
def percent_encode_byte (c : Nat) : CStr :=
  if rfc3986_unreserved c then [c] else [37, upper_hex_digit (c / 16), upper_hex_digit (c % 16)]

/-- Specification side: the encodings of the bytes one after the other. -/
def percent_encode : CStr → CStr
  | [] => []
  | c :: t => percent_encode_byte c ++ percent_encode t

/-- Specification side: percent-decoding as RFC 3986 defines it, `%` and two
hexadecimal digits stand for one byte, every other byte for itself. -/
def percent_decode : CStr → CStr
  | 37 :: h :: l :: t =>
    match digit_value h, digit_value l with
    | some x, some y => (16 * x + y) :: percent_decode t
    | _, _ => 37 :: percent_decode (h :: l :: t)
  | c :: t => c :: percent_decode t
  | [] => []

/-! ## Reading a response (`parse_http_response`) -/

/-- The loops `while (*chunk_ptr == '\r' || *chunk_ptr == '\n') chunk_ptr++`. -/
def skip_crlf : CStr → CStr
  | [] => []
  | c :: t => if c = 13 ∨ c = 10 then skip_crlf t else c :: t

/-- The chunk loop of `parse_http_response`. `limit` is `body_size - 1`,
`total` is `total_decoded`, `out` the bytes stored in `body` so far. Every
round that does not leave the loop adds at least one to `total`, so
`limit + 1` rounds (the first argument) are always enough. Bytes that
`memcpy` would read after the end of the response text are not modelled: the
copy stops there. A chunk size for which `total_decoded + chunk_size` wraps
around 2^64 escapes the clamp; the C code then copies close to 2^64 bytes,
which no run survives, and here the loop ends after that round. -/
def chunk_loop (limit : Nat) : Nat → CStr → Nat → List Nat → Nat × List Nat
  | 0, _, total, out => (total, out)
  | fuel + 1, chunk_ptr, total, out =>
    if total < limit then
      let r := simple_strtoul chunk_ptr 16
      if r.1 = 0 then (total, out)
      else
        let p := skip_crlf r.2
        let chunk_size :=
          if limit ≤ (total + r.1) % 18446744073709551616 then limit - total else r.1
        chunk_loop limit fuel (skip_crlf (p.drop chunk_size)) (total + chunk_size)
          (out ++ p.take chunk_size)
    else (total, out)

/-- What `parse_http_response` leaves behind. -/
structure parsed_response where
  /-- The return value. -/
  ret : Int
  /-- The content of the `body` buffer, `none` when the function did not store
  anything in it. -/
  body : Option CStr
  /-- The value stored in `*status_code`. -/
  status_code : Int
deriving DecidableEq

/-- The function `parse_http_response(response, body, body_size, &status_code)`. -/
def parse_http_response (response : CStr) (body_size : Nat) : parsed_response :=
  match strstr response (str "HTTP/1.") with
  | none => ⟨0, none, 500⟩
  | some s0 =>
    match strchr s0 32 with
    | none => ⟨0, none, 500⟩
    | some s1 =>
      let status_ul := (simple_strtoul (s1.drop 1) 10).1
      let status : Int := if 100 ≤ status_ul ∧ status_ul ≤ 599 then (status_ul : Int) else 500
      let found := match strstr response (str "\r\n\r\n") with
        | some b => some b
        | none => strstr response (str "\n\n")
      match found with
      | none => ⟨0, some [], status⟩
      | some b =>
        let body_start := if b.head? = some 13 then b.drop 4 else b.drop 2
        let limit := to_size_t ((body_size : Int) - 1)
        if (strstr response (str "Transfer-Encoding: chunked")).isSome then
          let r := chunk_loop limit (limit + 1) body_start 0 []
          ⟨to_int r.1, some r.2, status⟩
        else
          let body_len := if body_size ≤ body_start.length then limit else body_start.length
          ⟨to_int body_len, some (body_start.take body_len), status⟩

/-! ## One request (`vtfs_http_call`) -/

/-- The module state of `http.c` and the `token` parameter of the module. -/
structure http_config where
  /-- The variable `server_host`. -/
  server_host : CStr
  /-- The variable `server_port`. -/
  server_port : Int
  /-- The variable `http_initialized`. -/
  http_initialized : Bool
  /-- The value of `vtfs_get_token()`. -/
  token : CStr
deriving DecidableEq

/-- What the kernel and the network do during one `vtfs_http_call`. -/
inductive net_reply where
  /-- One of the three `kmalloc` calls returns NULL. -/
  | no_memory
  /-- The function `create_connection` returns NULL. -/
  | refused
  /-- The function `socket_send` returns the negative value `e`. -/
  | send_failed (e : Int)
  /-- The function `socket_recv` returns the negative value `e`. -/
  | recv_failed (e : Int)
  /-- The function `socket_recv` stores this text (at most 4095 bytes). -/
  | received (response : CStr)
deriving DecidableEq

/-- The outcome of one `vtfs_http_call`. -/
structure http_result where
  /-- The return value. -/
  ret : Int
  /-- The content of the caller's `response_buffer` afterwards. -/
  response_buffer : CStr
  /-- The text in the `request` buffer (empty when none was built). -/
  request : CStr
  /-- The length handed to `socket_send`: the return value of `snprintf`. -/
  request_len : Nat
deriving DecidableEq

/-- The loop of `vtfs_http_call` that builds `query_params` from the key and
value pairs; `i` is the number of pairs already appended. -/
def build_query : List (CStr × CStr) → Nat → CStr → CStr
  | [], _, q => q
  | (key, value) :: rest, i, q =>
    let q1 := if 0 < i then strlcat q (str "&") VTFS_HTTP_BUFFER_SIZE else q
    let q2 := strlcat q1 key VTFS_HTTP_BUFFER_SIZE
    let q3 := strlcat q2 (str "=") VTFS_HTTP_BUFFER_SIZE
    build_query rest (i + 1) (strlcat q3 (url_encode value 512) VTFS_HTTP_BUFFER_SIZE)

/-- The text that the `snprintf` of `vtfs_http_call` formats. -/
def format_request (cfg : http_config) (method query_params : CStr) : CStr :=
  let tail := str " HTTP/1.1\r\nHost: " ++ cfg.server_host ++ str ":" ++
    fmt_d cfg.server_port ++ str "\r\nConnection: close\r\n\r\n"
  if 0 < query_params.length then
    str "GET /" ++ method ++ str "?token=" ++ cfg.token ++ str "&" ++ query_params ++ tail
  else
    str "GET /" ++ method ++ str "?token=" ++ cfg.token ++ tail

/-- The function `vtfs_http_call(token, method, response_buffer, buffer_size,
n, key, value, ...)`. `buffer0` is what `response_buffer` holds before the
call (the callers pass an uninitialised array). -/
def vtfs_http_call (cfg : http_config) (net : net_reply) (method : CStr)
    (buffer0 : CStr) (buffer_size : Nat) (args : List (CStr × CStr)) : http_result :=
  if !cfg.http_initialized then ⟨-EINVAL, buffer0, [], 0⟩
  else
    let text := format_request cfg method (build_query args 0 [])
    let request := snprintf VTFS_HTTP_BUFFER_SIZE text
    match net with
    | .no_memory => ⟨-ENOMEM, buffer0, [], 0⟩
    | .refused => ⟨-ECONNREFUSED, buffer0, request, text.length⟩
    | .send_failed e => ⟨e, buffer0, request, text.length⟩
    | .recv_failed e => ⟨e, buffer0, request, text.length⟩
    | .received response =>
      let p := parse_http_response response buffer_size
      let body := match p.body with
        | some b => b
        | none => buffer0
      ⟨if 400 ≤ p.status_code then p.status_code else 0, body, request, text.length⟩

/-! ## JSON fields -/

/-- The function `extract_json_field(json, field, value, value_size)`: the
text between the first two double quotes after the first `"field"`. -/
def extract_json_field (json field : CStr) (value_size : Nat) : Except Int CStr :=
  let pattern := snprintf 128 (str "\"" ++ field ++ str "\"")
  match strstr json pattern with
  | none => .error (-ENOENT)
  | some field_start =>
    match strchr (field_start.drop pattern.length) 34 with
    | none => .error (-EINVAL)
    | some q =>
      let value_start := q.drop 1
      match strchr value_start 34 with
      | none => .error (-EINVAL)
      | some value_end =>
        let value_len := value_start.length - value_end.length
        let value_len := if value_size ≤ value_len then to_size_t ((value_size : Int) - 1) else value_len
        .ok (value_start.take value_len)

/-- The loop of `extract_json_number` that skips blanks and tabs. -/
def skip_blanks : CStr → CStr
  | [] => []
  | c :: t => if c = 32 ∨ c = 9 then skip_blanks t else c :: t

/-- The loop of `extract_json_number` that finds the end of the number: the
bytes before the first of `,` `}` `]` blank, tab, newline, carriage return. -/
def number_text : CStr → CStr
  | [] => []
  | c :: t =>
    if c ≠ 44 ∧ c ≠ 125 ∧ c ≠ 93 ∧ c ≠ 32 ∧ c ≠ 9 ∧ c ≠ 10 ∧ c ≠ 13 then c :: number_text t
    else []

/-- The function `extract_json_number(json, field, value, value_size)`. -/
def extract_json_number (json field : CStr) (value_size : Nat) : Except Int CStr :=
  let pattern := snprintf 128 (str "\"" ++ field ++ str "\"")
  match strstr json pattern with
  | none => .error (-ENOENT)
  | some field_start =>
    match strchr (field_start.drop pattern.length) 58 with
    | none => .error (-EINVAL)
    | some colon =>
      let value := number_text (skip_blanks (colon.drop 1))
      if value.length = 0 then .error (-EINVAL)
      else
        let value_len :=
          if value_size ≤ value.length then to_size_t ((value_size : Int) - 1) else value.length
        .ok (value.take value_len)

/-! ## The five remote operations -/

/-- The function `vtfs_http_create(path, type, mode)`. `stack` is what the
uninitialised array `response` holds. -/
def vtfs_http_create (cfg : http_config) (net : net_reply) (stack : CStr)
    (path type : CStr) (mode : Int) : Int :=
  if !cfg.http_initialized then 0
  else
    let mode_str := snprintf 16 (fmt_o mode)
    let r := vtfs_http_call cfg net (str "create") stack VTFS_HTTP_BUFFER_SIZE
      [(str "path", path), (str "type", type), (str "mode", mode_str)]
    if r.ret < 0 then r.ret
    else if (strstr r.response_buffer (str "\"error\"")).isSome then - EIO
    else 0

/-- The call of `vtfs_http_call` inside `vtfs_http_write(path, data, size,
offset)`, or the value returned before it; `km` tells whether `kmalloc`
gives a buffer for the base64 text. -/
def vtfs_http_write_call (cfg : http_config) (net : net_reply) (stack : CStr) (km : Bool)
    (path : CStr) (data : List Nat) (offset : Int) : Except Int http_result :=
  if !cfg.http_initialized then .error 0
  else if !km then .error (-ENOMEM)
  else
    match bytes_to_base64 data (((data.length + 2) / 3) * 4 + 1) with
    | .error e => .error e
    | .ok base64_data =>
      let offset_str := snprintf 32 (fmt_d offset)
      .ok (vtfs_http_call cfg net (str "write") stack VTFS_HTTP_BUFFER_SIZE
        [(str "path", path), (str "offset", offset_str), (str "data", base64_data)])

/-- The function `vtfs_http_write(path, data, size, offset)`; `size` is the
length of `data`. -/
def vtfs_http_write (cfg : http_config) (net : net_reply) (stack : CStr) (km : Bool)
    (path : CStr) (data : List Nat) (offset : Int) : Int :=
  match vtfs_http_write_call cfg net stack km path data offset with
  | .error e => e
  | .ok r =>
    if r.ret < 0 then r.ret
    else if (strstr r.response_buffer (str "\"error\"")).isSome then - EIO
    else to_int data.length

/-- The outcome of `vtfs_http_read`. -/
inductive read_outcome where
  /-- The function returns `code`; `buffer` holds the bytes it copied into
  the caller's buffer (none on an error). -/
  | ret (code : Int) (buffer : List Nat)
  /-- The function `base64_decode` stores `written` bytes in the block of
  `block` bytes that `kmalloc(size)` returned, with `block < written`: a write
  past the end of a heap block, after which the behaviour is undefined. -/
  | overrun (written block : Nat)
deriving DecidableEq

/-- The function `vtfs_http_read(path, buffer, size, offset)`; `km` tells
whether `kmalloc(size)` gives a block for the decoded bytes. -/
def vtfs_http_read (cfg : http_config) (net : net_reply) (stack : CStr) (km : Bool)
    (path : CStr) (size : Nat) (offset : Int) : read_outcome :=
  if !cfg.http_initialized then .ret (-ENOENT) []
  else
    let offset_str := snprintf 32 (fmt_d offset)
    let size_str := snprintf 32 (fmt_u size)
    let r := vtfs_http_call cfg net (str "read") stack VTFS_HTTP_BUFFER_SIZE
      [(str "path", path), (str "offset", offset_str), (str "size", size_str)]
    if r.ret ≠ 0 then .ret (-ENOENT) []
    else if (strstr r.response_buffer (str "\"error\"")).isSome then .ret (-ENOENT) []
    else
      match strstr r.response_buffer (str "\"result\"") with
      | none => .ret (-ENOENT) []
      | some p0 =>
        match strstr p0 (str "\"data\"") with
        | none => .ret (-ENOENT) []
        | some result_ptr =>
          match extract_json_field result_ptr (str "data") VTFS_HTTP_BUFFER_SIZE with
          | .error e => .ret e []
          | .ok data_str =>
            if !km then .ret (-ENOMEM) []
            else
              match base64_decode data_str with
              | .error e => .ret e []
              | .ok decoded =>
                if size < decoded.length then .overrun decoded.length size
                else
                  let decoded_len := if size < decoded.length then size else decoded.length
                  .ret (to_int decoded_len) (decoded.take decoded_len)

/-- The function `vtfs_http_delete(path)`. -/
def vtfs_http_delete (cfg : http_config) (net : net_reply) (stack : CStr)
    (path : CStr) : Int :=
  if !cfg.http_initialized then 0
  else
    let r := vtfs_http_call cfg net (str "delete") stack VTFS_HTTP_BUFFER_SIZE
      [(str "path", path)]
    if r.ret < 0 then r.ret
    else if (strstr r.response_buffer (str "\"error\"")).isSome then - EIO
    else 0

/-- The brace counting loop of `vtfs_http_stat`: `n` bytes are consumed so
far; returns `brace_count` and the number of bytes consumed at the end. -/
def brace_scan : CStr → Int → Nat → Int × Nat
  | [], brace_count, n => (brace_count, n)
  | c :: t, brace_count, n =>
    if 0 < brace_count then
      brace_scan t
        (if c = 123 then brace_count + 1 else if c = 125 then brace_count - 1 else brace_count)
        (n + 1)
    else (brace_count, n)

/-- The function `vtfs_http_stat(path, &mode, &size)` with both pointers
given: an error code, or the values stored in `*mode` and `*size`. -/
def vtfs_http_stat (cfg : http_config) (net : net_reply) (stack : CStr)
    (path : CStr) : Except Int (Nat × Int) :=
  if !cfg.http_initialized then .error (-ENOENT)
  else
    let r := vtfs_http_call cfg net (str "stat") stack VTFS_HTTP_BUFFER_SIZE
      [(str "path", path)]
    if r.ret < 0 then .error r.ret
    else if (strstr r.response_buffer (str "\"error\"")).isSome then .error (-ENOENT)
    else
      match strstr r.response_buffer (str "\"result\"") with
      | none => .error (- EIO)
      | some p0 =>
        match strchr p0 123 with
        | none => .error (- EIO)
        | some result_start =>
          let scan := brace_scan (result_start.drop 1) 1 0
          if scan.1 ≠ 0 then .error (- EIO)
          else
            let result_len :=
              if VTFS_HTTP_BUFFER_SIZE ≤ scan.2 + 1 then VTFS_HTTP_BUFFER_SIZE - 1 else scan.2 + 1
            let result_json := result_start.take result_len
            match extract_json_field result_json (str "type") 16 with
            | .error _ => .error (- EIO)
            | .ok type_str =>
              match extract_json_number result_json (str "size") 32 with
              | .error _ => .error (- EIO)
              | .ok size_str =>
                match kstrtoll size_str with
                | none => .error (- EIO)
                | some size_val =>
                  if type_str = str "file" then .ok (S_IFREG ||| 0o777, size_val)
                  else if type_str = str "dir" then .ok (S_IFDIR ||| 0o777, size_val)
                  else .error (- EIO)

/-! ## The server address (`parse_url`) -/

/-- The function `parse_url(url)` for a url other than NULL: it always returns
0 and stores the host and the port. -/
def parse_url (cfg : http_config) (url : CStr) : http_config :=
  let host_start := if (str "http://").isPrefixOf url then url.drop 7 else url
  let colon := strchr host_start 58
  let host_len0 := match colon with
    | some port_start => host_start.length - port_start.length
    | none => host_start.length
  let port : Int := match colon with
    | some port_start =>
      match kstrtoint (port_start.drop 1) with
      | some p => p
      | none => 8080
    | none => 8080
  let host_len1 := match strchr host_start 47 with
    | some slash =>
      if host_start.length - slash.length < host_len0 then host_start.length - slash.length
      else host_len0
    | none => host_len0
  let host_len := if 256 ≤ host_len1 then 255 else host_len1
  { cfg with server_host := host_start.take host_len, server_port := port }

/-- The function `vtfs_http_init(server_url)` for a url other than NULL. -/
def vtfs_http_init (cfg : http_config) (server_url : CStr) : http_config :=
  { parse_url cfg server_url with http_initialized := true }

/-- The module state at load time, after `vtfs_http_init` with the default
`server_url` of `vtfs_main.c`. -/
def ex_cfg : http_config :=
  vtfs_http_init ⟨str "127.0.0.1", 8080, false, []⟩ (str "http://127.0.0.1:8080")

/-! ## Chunked bodies (specification side) -/

/-- Specification side, not part of `http.c`: the lower-case hexadecimal digit
of a value below 16. -/
def lower_hex_digit (d : Nat) : Nat := if d < 10 then 48 + d else 87 + d

/-- Specification side: the size line of a chunk, the size in hexadecimal
without leading zeros. The first argument bounds the number of digits. -/
def chunk_size_text : Nat → Nat → CStr
  | 0, _ => []
  | fuel + 1, n =>
    if n < 16 then [lower_hex_digit n]
    else chunk_size_text fuel (n / 16) ++ [lower_hex_digit (n % 16)]

/-- Specification side: a chunked body, every chunk written as its size line,
CRLF, the payload and CRLF, with the zero-size chunk at the end. -/
def chunked_body : List CStr → CStr
  | [] => str "0\r\n\r\n"
  | p :: rest =>
    chunk_size_text (p.length + 1) p.length ++ str "\r\n" ++ p ++ str "\r\n" ++ chunked_body rest

/-- Specification side: the payloads of the chunks one after the other. -/
def chunk_payloads : List CStr → CStr
  | [] => []
  | p :: rest => p ++ chunk_payloads rest

/-- Specification side: the total length of the payloads. -/
def chunk_total : List CStr → Nat
  | [] => 0
  | p :: rest => p.length + chunk_total rest

/-! ## Stores reached from a given store -/

/-- The stores that calls of create, delete, read, write and add_link produce
from the store `s0`, where `kzalloc` hands out addresses that are not in use. -/
inductive ReachFrom (s0 : vtfs_storage) : vtfs_storage → Prop
  | refl : ReachFrom s0 s0
  | create (s : vtfs_storage) (kz : Option Ptr) (now : Nat) (parent : Ptr) (name : CStr)
      (mode ino : Nat) (skip_sync : Bool) :
      ReachFrom s0 s → (∀ p, kz = some p → s.mem p = none) →
      ReachFrom s0 (create_entry_internal s kz now parent name mode ino skip_sync).1
  | delete (s : vtfs_storage) (entry : Ptr) :
      ReachFrom s0 s → ReachFrom s0 (vtfs_storage_delete_entry s entry).1
  | read (s : vtfs_storage) (now : Nat) (entry : Ptr) (buffer : List Nat) (len : Nat)
      (offset : Int) :
      ReachFrom s0 s → ReachFrom s0 (vtfs_storage_read s now entry buffer len offset).1
  | write (s : vtfs_storage) (alloc : Option (Nat → Nat)) (now : Nat) (entry : Ptr)
      (buffer : List Nat) (len : Nat) (offset : Int) :
      ReachFrom s0 s → ReachFrom s0 (vtfs_storage_write s alloc now entry buffer len offset).1
  | add_link (s : vtfs_storage) (entry parent : Ptr) (name : CStr) :
      ReachFrom s0 s → ReachFrom s0 (vtfs_storage_add_link s entry parent name).1

/-! ## Link counts of directories -/

/-- The link count of every directory of the store: 2 for the root, 1 for
every other directory, plus the number of its children that are directories. -/
def DirLinks (s : vtfs_storage) : Prop :=
  ∀ q qe, s.mem q = some qe → S_ISDIR qe.mode = true →
    qe.nlink = (if s.root = some q then 2 else 1) + dirCount s.mem qe.children

/-- The root at address 1 with one empty directory `d` at address 2. -/
def ex_dir : vtfs_storage :=
  (vtfs_storage_create_entry ex_root (some 2) 0 1 [100] (S_IFDIR ||| 0o755) 0).1

/-! ## Ids of entries -/

/-- The stores that `vtfs_storage_init` followed by calls of create with the id
argument 0 (an automatic id), delete, read, write and add_link produces, where
`kzalloc` hands out addresses that are not in use. -/
inductive ReachAuto : vtfs_storage → Prop
  | init (p now : Nat) : ReachAuto (vtfs_storage_init (some p) now).1
  | create (s : vtfs_storage) (kz : Option Ptr) (now : Nat) (parent : Ptr) (name : CStr)
      (mode : Nat) (skip_sync : Bool) :
      ReachAuto s → (∀ p, kz = some p → s.mem p = none) →
      ReachAuto (create_entry_internal s kz now parent name mode 0 skip_sync).1
  | delete (s : vtfs_storage) (entry : Ptr) :
      ReachAuto s → ReachAuto (vtfs_storage_delete_entry s entry).1
  | read (s : vtfs_storage) (now : Nat) (entry : Ptr) (buffer : List Nat) (len : Nat)
      (offset : Int) :
      ReachAuto s → ReachAuto (vtfs_storage_read s now entry buffer len offset).1
  | write (s : vtfs_storage) (alloc : Option (Nat → Nat)) (now : Nat) (entry : Ptr)
      (buffer : List Nat) (len : Nat) (offset : Int) :
      ReachAuto s → ReachAuto (vtfs_storage_write s alloc now entry buffer len offset).1
  | add_link (s : vtfs_storage) (entry parent : Ptr) (name : CStr) :
      ReachAuto s → ReachAuto (vtfs_storage_add_link s entry parent name).1

/-- Every id in use is below the counter, and no two live entries share an id. -/
def FreshIds (s : vtfs_storage) : Prop :=
  (∀ p e, s.mem p = some e → e.ino < s.next_ino) ∧
  (∀ p q e1 e2, s.mem p = some e1 → s.mem q = some e2 → e1.ino = e2.ino → p = q)

/-- The example file `a` (address 2, id 1001) after `vtfs_link` has given it the
second name `b` in the root; the entry of `b` is at address 3. -/
def ex_linked : vtfs_storage := (vtfs_link ex_file (some 3) 1 1001 1000 [98]).1

/-! ## Full paths and the replay of operations to the remote side (`storage.c`) -/

/-- Error number `EFAULT`. -/
def EFAULT : Int := 14
/-- Error number `EISDIR`. -/
def EISDIR : Int := 21

/-- The function `use_remote_server`; the argument is the value of
`vtfs_get_server_url()`, `none` for NULL. -/
def use_remote_server (server_url : Option CStr) : Bool :=
  match server_url with
  | none => false
  | some url => decide (0 < url.length)

/-- The text that `strncpy(dst, src, n)` leaves in `dst` when `n` exceeds the
length of `src` (for a smaller `n` the bytes stored carry no NUL). -/
def strncpy (src : CStr) (n : Nat) : CStr := src.take n

/-- The function `build_path(entry, path, size)`: the text left in `path`. An
address that holds no entry plays the NULL pointer. The recursion follows the
parent pointers; the first argument bounds its depth, and `none` says that the
bound was reached. -/
def build_path (s : vtfs_storage) : Nat → Ptr → Nat → Option CStr
  | 0, _, _ => none
  | fuel + 1, entry, size =>
    match s.mem entry with
    | none => some (strncpy (str "/") size)
    | some e =>
      if s.root = some entry then some (strncpy (str "/") size)
      else
        match e.parent with
        | none => some (snprintf size (str "/" ++ e.name))
        | some parent =>
          if s.root ≠ some parent then
            match build_path s fuel parent size with
            | none => none
            | some path => some (strlcat (strlcat path (str "/") size) e.name size)
          else some (snprintf size (str "/" ++ e.name))

/-- The function `vtfs_get_full_path(entry, buf, size)`. -/
def vtfs_get_full_path (s : vtfs_storage) (fuel : Nat) (entry : Ptr) (size : Nat) :
    Option CStr :=
  build_path s fuel entry size

/-- What the environment does during one remote call. -/
structure remote_call where
  /-- The answer of the kernel and the network to the `vtfs_http_call`. -/
  net : net_reply
  /-- The content of the uninitialised `response` array. -/
  stack : CStr
  /-- Whether the `kmalloc` inside `vtfs_http_write` or `vtfs_http_read` gives a block. -/
  km : Bool
deriving DecidableEq

/-- What keeps a function from returning a value. -/
inductive fault where
  /-- The recursion of `build_path` did not end within the given bound. -/
  | no_fuel
  /-- The function `vtfs_http_read` stored `written` bytes in a block of
  `block` bytes: undefined behaviour. -/
  | overrun (written block : Nat)
deriving DecidableEq

/-- The function `sync_write_to_server(path, data, len)`: the call
`vtfs_http_write(path, data, len, 0)`, whose result it drops, given by the
`vtfs_http_call` made inside it; `none` when it makes no call. The bytes sent
are the first `len` bytes of `data`. -/
def sync_write_to_server (server_url : Option CStr) (cfg : http_config) (rc : remote_call)
    (path : CStr) (data : List Nat) (len : Nat) : Option (Except Int http_result) :=
  if !use_remote_server server_url then none
  else some (vtfs_http_write_call cfg rc.net rc.stack rc.km path (data.take len) 0)

/-- The whole of `vtfs_storage_write`: the local effect and return value, and
the replay that follows when the function gets as far as its last statement. -/
def vtfs_storage_write_remote (server_url : Option CStr) (cfg : http_config)
    (rc : remote_call) (fuel : Nat) (s : vtfs_storage) (alloc : Option (Nat → Nat))
    (now : Nat) (entry : Ptr) (buffer : List Nat) (len : Nat) (offset : Int) :
    Except fault ((vtfs_storage × Int) × Option (Except Int http_result)) :=
  let r := vtfs_storage_write s alloc now entry buffer len offset
  match s.mem entry with
  | none => .ok (r, none)
  | some e =>
    let new_size := (to_size_t offset + len) % 18446744073709551616
    if !S_ISREG e.mode then .ok (r, none)
    else if new_size > VTFS_MAX_FILE_SIZE then .ok (r, none)
    else if new_size > e.capacity ∧ alloc.isNone then .ok (r, none)
    else if use_remote_server server_url then
      match build_path r.1 fuel entry 512 with
      | none => .error .no_fuel
      | some path => .ok (r, sync_write_to_server server_url cfg rc path buffer len)
    else .ok (r, none)

/-! ## Lookup and read of the adapter (`inode_ops.c`, `file_ops.c`) -/

/-- What the environment does during one `vtfs_lookup`. -/
structure lookup_env where
  /-- During the `vtfs_http_stat` of `fetch_from_remote`. -/
  stat : remote_call
  /-- The answer of `kzalloc` to the creation of the entry. -/
  kz : Option Ptr
  /-- The clock at the creation of the entry. -/
  now : Nat
  /-- Whether `kmalloc(size)` gives a block for the content. -/
  km : Bool
  /-- During the `vtfs_http_read` of `fetch_from_remote`. -/
  read : remote_call
  /-- The answer of `krealloc` to the write of the content. -/
  alloc : Option (Nat → Nat)
  /-- The clock at the write of the content. -/
  now_write : Nat
  /-- During the replay of that write. -/
  write : remote_call
  /-- Whether `vtfs_get_inode` gives an inode. -/
  inode : Bool

/-- The path that `fetch_from_remote` asks the remote side for: the full path
of the parent, a `/` unless that path is `/`, and the name, in 512 bytes. -/
def remote_child_path (path0 name : CStr) : CStr :=
  strlcat (if path0 ≠ str "/" then strlcat path0 (str "/") 512 else path0) name 512

/-- The function `fetch_from_remote(parent, name)`: the store afterwards and
the entry returned. The buffer handed to `vtfs_storage_write` is given by the
bytes that `vtfs_http_read` stored in it. -/
def fetch_from_remote (server_url : Option CStr) (cfg : http_config) (fuel : Nat)
    (env : lookup_env) (s : vtfs_storage) (parent : Ptr) (name : CStr) :
    Except fault (vtfs_storage × Option Ptr) :=
  if !use_remote_server server_url then .ok (s, none)
  else
    match vtfs_get_full_path s fuel parent 512 with
    | none => .error .no_fuel
    | some path0 =>
      let full_path := remote_child_path path0 name
      match vtfs_http_stat cfg env.stat.net env.stat.stack full_path with
      | .error _ => .ok (s, none)
      | .ok (mode, size) =>
        match vtfs_storage_create_entry_no_sync s env.kz env.now parent name mode 0 with
        | (s1, none) => .ok (s1, none)
        | (s1, some entry) =>
          if S_ISREG mode ∧ size > 0 then
            if env.km then
              match vtfs_http_read cfg env.read.net env.read.stack env.read.km full_path
                  (to_size_t size) 0 with
              | .overrun written block => .error (.overrun written block)
              | .ret bytes buffer =>
                if bytes > 0 then
                  match vtfs_storage_write_remote server_url cfg env.write fuel s1 env.alloc
                      env.now_write entry buffer (to_size_t bytes) 0 with
                  | .error f => .error f
                  | .ok r => .ok (r.1.1, some entry)
                else .ok (s1, some entry)
            else .ok (s1, some entry)
          else .ok (s1, some entry)

/-- The function `vtfs_lookup(parent_inode, child_dentry, flags)`, where
`parent_ino` is `parent_inode->i_ino` and `name` the name of the dentry: the
store afterwards, the error code (0 when the function returns NULL) and the
entry whose inode the dentry receives (`none` when the dentry stays negative
and when an error is returned). -/
def vtfs_lookup (server_url : Option CStr) (cfg : http_config) (fuel : Nat)
    (env : lookup_env) (s : vtfs_storage) (parent_ino : Nat) (name : CStr) :
    Except fault (vtfs_storage × Int × Option Ptr) :=
  match vtfs_storage_get_by_ino s parent_ino with
  | none => .ok (s, -ENOENT, none)
  | some parent =>
    let found : Except fault (vtfs_storage × Option Ptr) :=
      match vtfs_storage_lookup s parent name with
      | some child => .ok (s, some child)
      | none => fetch_from_remote server_url cfg fuel env s parent name
    match found with
    | .error f => .error f
    | .ok (s1, none) => .ok (s1, 0, none)
    | .ok (s1, some child) =>
      if env.inode then .ok (s1, 0, some child) else .ok (s1, -ENOMEM, none)

/-- What the environment does during one `vtfs_read`. -/
structure read_env where
  /-- Whether `kmalloc(len)` gives a block. -/
  km : Bool
  /-- The content of that block, `len` bytes. -/
  kbuffer : List Nat
  /-- During the `vtfs_http_read`. -/
  read : remote_call
  /-- The clock at the local read. -/
  now : Nat
  /-- Whether `copy_to_user` copies everything. -/
  user : Bool

/-- The function `vtfs_read(filp, buffer, len, offset)`, where `ino` is the
inode number of the file and `offset` the value of `*offset`: the store
afterwards, the return value, the bytes copied to the buffer of the caller and
the value of `*offset` afterwards. -/
def vtfs_read (server_url : Option CStr) (cfg : http_config) (fuel : Nat) (env : read_env)
    (s : vtfs_storage) (ino : Nat) (len : Nat) (offset : Int) :
    Except fault (vtfs_storage × Int × List Nat × Int) :=
  match vtfs_storage_get_by_ino s ino with
  | none => .ok (s, -ENOENT, [], offset)
  | some entry =>
    match s.mem entry with
    | none => .ok (s, -ENOENT, [], offset)
    | some e =>
      if !S_ISREG e.mode then .ok (s, -EISDIR, [], offset)
      else if to_size_t offset ≥ e.size then .ok (s, 0, [], offset)
      else if !env.km then .ok (s, -ENOMEM, [], offset)
      else
        let remote : Except fault (Int × List Nat) :=
          if use_remote_server server_url then
            match vtfs_get_full_path s fuel entry 256 with
            | none => .error .no_fuel
            | some full_path =>
              match vtfs_http_read cfg env.read.net env.read.stack env.read.km full_path
                  len offset with
              | .overrun written block => .error (.overrun written block)
              | .ret code bytes => .ok (code, memcpy env.kbuffer 0 bytes bytes.length)
          else .ok (-1, env.kbuffer)
        match remote with
        | .error f => .error f
        | .ok (code, kbuffer) =>
          let r : vtfs_storage × Int × List Nat :=
            if code < 0 then vtfs_storage_read s env.now entry kbuffer len offset
            else (s, code, kbuffer)
          if r.2.1 < 0 then .ok (r.1, r.2.1, [], offset)
          else if !env.user then .ok (r.1, -EFAULT, [], offset)
          else .ok (r.1, r.2.1, r.2.2.take r.2.1.toNat, offset + r.2.1)

/-! ## Paths (specification side) -/

/-- Specification side: the entry at the address is reached from the root
through the names given, each the stored name of a child of the entry before. -/
inductive PathTo (s : vtfs_storage) : Ptr → List CStr → Prop
  | root (r : Ptr) : s.root = some r → PathTo s r []
  | child (q c : Ptr) (qe ce : vtfs_entry) (ns : List CStr) :
      PathTo s q ns → s.mem q = some qe → c ∈ qe.children → s.mem c = some ce →
      PathTo s c (ns ++ [ce.name])

/-- Specification side: the text `/n1/n2/.../nk`, empty for no name. -/
def path_join : List CStr → CStr
  | [] => []
  | n :: t => 47 :: (n ++ path_join t)

/-- Specification side: the path of the entry reached through the names: `/`
for the root, else `/n1/n2/.../nk`. -/
def path_text (ns : List CStr) : CStr :=
  if ns = [] then str "/" else path_join ns

/-- Every entry of the store is reached from the root. -/
def Rooted (s : vtfs_storage) : Prop :=
  ∀ p e, s.mem p = some e → ∃ ns, PathTo s p ns

/-! ## Directories of the adapter (`inode_ops.c`, `dir_ops.c`) -/

/-- Error number `ENOTDIR`. -/
def ENOTDIR : Int := 20

/-- The function `vtfs_mkdir`, as far as the store is concerned: `parent_ino`
is `parent_inode->i_ino`, `name` the name of the dentry, `inode` tells whether
`vtfs_get_inode` gives an inode. -/
def vtfs_mkdir (s : vtfs_storage) (kz : Option Ptr) (now : Nat) (inode : Bool)
    (parent_ino : Nat) (name : CStr) (mode : Nat) : vtfs_storage × Int :=
  match vtfs_storage_get_by_ino s parent_ino with
  | none => (s, -ENOENT)
  | some parent =>
    match vtfs_storage_create_entry s kz now parent name (S_IFDIR ||| (mode &&& 0o777)) 0 with
    | (s1, none) => (s1, -EEXIST)
    | (s1, some entry) =>
      let s2 : vtfs_storage :=
        match s1.mem entry with
        | some e => { s1 with mem := upd s1.mem entry (some { e with nlink := 2 }) }
        | none => s1
      if !inode then ((vtfs_storage_delete_entry s2 entry).1, -ENOMEM)
      else (s2, 0)

/-- The function `vtfs_rmdir`, as far as the store is concerned. -/
def vtfs_rmdir (s : vtfs_storage) (parent_ino : Nat) (name : CStr) : vtfs_storage × Int :=
  match vtfs_storage_get_by_ino s parent_ino with
  | none => (s, -ENOENT)
  | some parent =>
    match vtfs_storage_lookup s parent name with
    | none => (s, -ENOENT)
    | some child =>
      match s.mem child with
      | none => (s, -ENOENT)
      | some ce =>
        if !S_ISDIR ce.mode then (s, -ENOTDIR)
        else if !ce.children.isEmpty then (s, -ENOTEMPTY)
        else
          let r := vtfs_storage_delete_entry s child
          if r.2 ≠ 0 then (r.1, r.2) else (r.1, 0)

/-- The store after `vtfs_mkdir` of the directory `d` in the root of the fresh
store; the new entry is at address 2. -/
def ex_mkdir : vtfs_storage := (vtfs_mkdir ex_root (some 2) 0 true 1000 [100] 0o755).1

/-- The constant `DT_UNKNOWN`. -/
def DT_UNKNOWN : Nat := 0
/-- The constant `DT_DIR`. -/
def DT_DIR : Nat := 4
/-- The constant `DT_REG`. -/
def DT_REG : Nat := 8

/-- The arguments of one call of `dir_emit`: name (its length is the one of
the text), inode number and type. -/
structure dir_entry_out where
  name : CStr
  ino : Nat
  dtype : Nat
deriving DecidableEq

/-- The type `vtfs_iterate` reports for a child with the given mode. -/
def dtype_of_mode (mode : Nat) : Nat :=
  if S_ISDIR mode then DT_DIR else if S_ISREG mode then DT_REG else DT_UNKNOWN

/-- What `vtfs_iterate` hands to `dir_emit` for the child at the address. -/
def child_dirent (s : vtfs_storage) (c : Ptr) : Option dir_entry_out :=
  (s.mem c).map (fun ce => ⟨ce.name, ce.ino, dtype_of_mode ce.mode⟩)

/-- The loop of `vtfs_iterate` over the children. `emit` is the answer of the
callback behind `dir_emit`; the state of the loop is `offset`, `ctx->pos`,
`stored` and the entries accepted so far. The result is the return value,
`ctx->pos` and the entries accepted. A child address that holds no entry is
passed over. -/
def iterate_children (s : vtfs_storage) (emit : dir_entry_out → Bool) :
    List Ptr → Nat → Nat → Nat → List dir_entry_out → Int × Nat × List dir_entry_out
  | [], _, pos, stored, out => ((stored : Int), pos, out)
  | c :: rest, offset, pos, stored, out =>
    if offset > 2 then iterate_children s emit rest (offset - 1) pos stored out
    else
      match child_dirent s c with
      | none => iterate_children s emit rest offset pos stored out
      | some d =>
        if !emit d then ((stored : Int), pos, out)
        else iterate_children s emit rest offset (pos + 1) (stored + 1) (out ++ [d])

/-- The function `vtfs_iterate(filp, ctx)`: `ino` is the inode number of the
directory, `parent_ino` the one of the parent dentry when it has an inode,
`pos` the value of `ctx->pos`. The result is the return value, `ctx->pos`
afterwards and the entries the callback accepted. -/
def vtfs_iterate (s : vtfs_storage) (emit : dir_entry_out → Bool) (ino : Nat)
    (parent_ino : Option Nat) (pos : Nat) : Int × Nat × List dir_entry_out :=
  match vtfs_storage_get_by_ino s ino with
  | none => (-ENOENT, pos, [])
  | some dir_entry =>
    match s.mem dir_entry with
    | none => (-ENOENT, pos, [])
    | some de =>
      if !S_ISDIR de.mode then (-ENOTDIR, pos, [])
      else
        let dot : dir_entry_out := ⟨str ".", ino, DT_DIR⟩
        let dotdot : dir_entry_out := ⟨str "..", parent_ino.getD ino, DT_DIR⟩
        if pos = 0 then
          if !emit dot then (0, pos, [])
          else if !emit dotdot then (1, pos + 1, [dot])
          else iterate_children s emit de.children 2 (pos + 2) 2 [dot, dotdot]
        else if pos = 1 then
          if !emit dotdot then (0, pos, [])
          else iterate_children s emit de.children 2 (pos + 1) 1 [dotdot]
        else iterate_children s emit de.children pos pos 0 []

/-! ## The parent chain (specification side) -/

/-- Specification side: the entry reached from `p` by following the parent
pointer `n` times. -/
def parent_chain (s : vtfs_storage) : Nat → Ptr → Option Ptr
  | 0, p => some p
  | n + 1, p =>
    match s.mem p with
    | none => none
    | some e =>
      match e.parent with
      | none => none
      | some q => parent_chain s n q

/-! ## Concurrent calls of create -/

/-- The arguments of one call of `create_entry_internal` on a given parent,
with the answers of `kzalloc` and of the clock to that call. -/
structure create_call where
  name : CStr
  mode : Nat
  ino : Nat
  skip_sync : Bool
  kz : Option Ptr
  now : Nat
deriving DecidableEq

/-- Where a caller stands in `create_entry_internal`: before the tests, between
the tests and the locked section, or returned with a value. -/
inductive create_pc where
  | start
  | checked
  | done (r : Option Ptr)
deriving DecidableEq

/-- The first part of `create_entry_internal`: the test of the parent and the
call of `vtfs_storage_lookup`, which takes and releases the lock. The mode of
an entry is never written, so the two tests form one step. -/
def create_check (s : vtfs_storage) (parent : Ptr) (c : create_call) : create_pc :=
  match s.mem parent with
  | none => .done none
  | some pe =>
    if !S_ISDIR pe.mode then .done none
    else if (vtfs_storage_lookup s parent c.name).isSome then .done none
    else .checked

/-- The second part of `create_entry_internal`: the section under the lock,
from `spin_lock_irqsave` to `spin_unlock_irqrestore`. It reads the record of
the parent as it is at that moment. -/
def create_insert (s : vtfs_storage) (parent : Ptr) (c : create_call) :
    vtfs_storage × Option Ptr :=
  let ino1 := if c.ino = 0 then s.next_ino else c.ino
  let s1 := if c.ino = 0 then { s with next_ino := s.next_ino + 1 } else s
  match alloc_entry c.kz c.now c.name c.mode ino1 with
  | none => (s1, none)
  | some (p, e) =>
    let m1 := upd s1.mem p (some { e with parent := some parent })
    let m2 :=
      match m1 parent with
      | some pe =>
        upd m1 parent
          (some { pe with children := p :: pe.children,
                          nlink := if S_ISDIR c.mode then pe.nlink + 1 else pe.nlink })
      | none => m1
    ({ s1 with mem := m2, all_entries := p :: s1.all_entries }, some p)

/-- One caller of create: its call and where it stands. -/
structure create_thread where
  call : create_call
  pc : create_pc
deriving DecidableEq

/-- The next step of a caller. -/
def thread_step (s : vtfs_storage) (parent : Ptr) (t : create_thread) :
    vtfs_storage × create_thread :=
  match t.pc with
  | .start => (s, { t with pc := create_check s parent t.call })
  | .checked => ((create_insert s parent t.call).1,
      { t with pc := .done (create_insert s parent t.call).2 })
  | .done _ => (s, t)

/-- An interleaving: the schedule names, step by step, the caller that takes
its next step (a number that names no caller is passed over). -/
def run_schedule (parent : Ptr) :
    vtfs_storage × List create_thread → List Nat → vtfs_storage × List create_thread
  | st, [] => st
  | (s, ts), i :: rest =>
    match ts[i]? with
    | none => run_schedule parent (s, ts) rest
    | some t =>
      run_schedule parent ((thread_step s parent t).1, ts.set i (thread_step s parent t).2) rest

/-- The callers at the beginning, one for each call. -/
def start_threads (calls : List create_call) : List create_thread :=
  calls.map (fun c => ⟨c, .start⟩)

/-- The state of a run of concurrent creates with pairwise distinct names on
the directory `P`: the record of `P` is a directory; every child of `P` either
bears a name that no call uses or is the entry that a returned call has
created under its name; every call that has returned has returned its entry,
which is a child of `P` with that name; every call that has not returned has an
address from `kzalloc` that is not in use. -/
structure CreateInv (P : Ptr) (calls : List create_call) (s : vtfs_storage)
    (ts : List create_thread) : Prop where
  calls_eq : ts.map (fun t => t.call) = calls
  parent_dir : ∃ pe, s.mem P = some pe ∧ S_ISDIR pe.mode = true
  children : ∀ pe, s.mem P = some pe → ∀ c ∈ pe.children, ∀ ce, s.mem c = some ce →
    (∀ c1 ∈ calls, ce.name ≠ c1.name) ∨
    (∃ (j : Nat) (t : create_thread), ts[j]? = some t ∧ t.pc = .done (some c) ∧ ce.name = t.call.name)
  returned : ∀ (j : Nat) (t : create_thread) (r : Option Ptr), ts[j]? = some t → t.pc = .done r →
    ∃ p pe ce, r = some p ∧ t.call.kz = some p ∧ s.mem P = some pe ∧ p ∈ pe.children ∧
      s.mem p = some ce ∧ ce.name = t.call.name
  pending : ∀ (j : Nat) (t : create_thread), ts[j]? = some t → (∀ r, t.pc ≠ .done r) →
    ∃ p, t.call.kz = some p ∧ s.mem p = none ∧ p ≠ P

/-! ## Two entries of one stored name -/

/-- The store after init and two creates of the 256-byte name `ex_long_name`
in the root. The first entry (address 2) is stored under the first 255 bytes
of the name; the second create looks the 256 bytes up, finds nothing, and
makes a second entry (address 3) with the same stored name. -/
def ex_twins : vtfs_storage :=
  (vtfs_storage_create_entry
    (vtfs_storage_create_entry ex_root (some 2) 0 1 ex_long_name (S_IFREG ||| 0o644) 0).1
    (some 3) 0 1 ex_long_name (S_IFREG ||| 0o644) 0).1

/-- The store `ex_twins` after `vtfs_storage_add_link` on the older of the two
entries (address 2), which then has link count 2. -/
def ex_twins_linked : vtfs_storage := (vtfs_storage_add_link ex_twins 2 1 [98]).1

/-! ## The content buffers as blocks of memory (`storage.c`, `inode_ops.c`)

In the definitions above the field `data` of a record holds the bytes of the
buffer. That is what the C code computes as long as no two entries hold the
same pointer: a buffer comes from `krealloc` in `vtfs_storage_write` and is
assigned to the entry written, so this is the case in every store made by
create, delete, read, write and add_link. `vtfs_link` copies the pointer
(`link->data = target->data`). The definitions of this section keep the
pointers, so that two entries can hold one block. A call that reads, writes
or releases a block that has been released before has no defined result in C;
such a call returns `none` here. -/

/-- A store with the pointers `entry->data`: `data_ptr p` is the address in
the field `data` of the entry at `p` (`none` for `NULL`) and `blocks a` the
bytes of the block allocated at the address `a` (`none` when no block is
allocated there). The field `data` of the records of `store` is not used. -/
structure block_store where
  store : vtfs_storage
  data_ptr : Ptr → Option Nat
  blocks : Nat → Option (List Nat)

/-- The part of `vtfs_storage_write` behind the growth of the buffer, on
blocks: `memcpy(entry->data + offset, buffer, len)` changes the block the
pointer addresses, then the size and the time stamps are set. -/
def write_tail_blocks (h : block_store) (now : Nat) (entry : Ptr) (e : vtfs_entry)
    (buffer : List Nat) (len : Nat) (off new_size : Nat) : Option (block_store × Int) :=
  let blocks1 : Option (Nat → Option (List Nat)) :=
    match h.data_ptr entry with
    | none => some h.blocks
    | some a =>
      match h.blocks a with
      | none => none
      | some d => some (fun x => if x = a then some (memcpy d off buffer len) else h.blocks x)
  let e3 := if new_size > e.size then { e with size := new_size } else e
  blocks1.map (fun b =>
    ({ store := { h.store with mem := upd h.store.mem entry (some { e3 with mtime := now,
                                                                            ctime := now }) },
       data_ptr := h.data_ptr, blocks := b }, to_int len))

/-- The call `krealloc(entry->data, n, GFP_ATOMIC)` on blocks. The allocator
answers with `none` (failure, nothing changes) or with the address of the new
block, which is the address of the old block or one where no block is
allocated, and the bytes behind the copied ones; when the address is not the
one of the old block, the old block is released. The result is the address and
the bytes of the new block and the blocks that are left. -/
def krealloc_blocks (h : block_store) (alloc : Option (Nat × (Nat → Nat))) (entry : Ptr)
    (n : Nat) : Option (Option (Nat × List Nat × (Nat → Option (List Nat)))) :=
  match alloc with
  | none => some none
  | some (a, fill) =>
    match h.data_ptr entry with
    | none =>
      (krealloc (some fill) none n).map (fun new_data => some (a, new_data, h.blocks))
    | some old =>
      match h.blocks old with
      | none => none
      | some d =>
        (krealloc (some fill) (some d) n).map (fun new_data =>
          some (a, new_data, fun x => if x = old then none else h.blocks x))

/-- The function `vtfs_storage_write` on blocks. -/
def vtfs_storage_write_blocks (h : block_store) (alloc : Option (Nat × (Nat → Nat)))
    (now : Nat) (entry : Ptr) (buffer : List Nat) (len : Nat) (offset : Int) :
    Option (block_store × Int) :=
  match h.store.mem entry with
  | none => some (h, -EINVAL)
  | some e =>
    if !S_ISREG e.mode then some (h, -EINVAL)
    else
      let off := to_size_t offset
      let new_size := (off + len) % 18446744073709551616
      if new_size > VTFS_MAX_FILE_SIZE then some (h, -EFBIG)
      else if new_size > e.capacity then
        let c0 := max new_size (e.capacity * 2 % 18446744073709551616)
        let new_capacity := if c0 < 64 then 64 else c0
        match krealloc_blocks h alloc entry new_capacity with
        | none => none
        | some none => some (h, -ENOMEM)
        | some (some (a, new_data, rest)) =>
          let new_data1 :=
            if off > e.size then memset new_data e.size 0 (off - e.size) else new_data
          write_tail_blocks
            { store := h.store,
              data_ptr := fun p => if p = entry then some a else h.data_ptr p,
              blocks := fun x => if x = a then some new_data1 else rest x }
            now entry { e with capacity := new_capacity } buffer len off new_size
      else write_tail_blocks h now entry e buffer len off new_size

/-- The function `vtfs_storage_read` on blocks; the third component is the
caller's buffer after the call. -/
def vtfs_storage_read_blocks (h : block_store) (now : Nat) (entry : Ptr) (buffer : List Nat)
    (len : Nat) (offset : Int) : Option (block_store × Int × List Nat) :=
  match h.store.mem entry with
  | none => some (h, -EINVAL, buffer)
  | some e =>
    if !S_ISREG e.mode then some (h, -EINVAL, buffer)
    else if to_size_t offset ≥ e.size then some (h, 0, buffer)
    else
      let bytes_to_read := min len (e.size - to_size_t offset)
      let buffer1 : Option (List Nat) :=
        match h.data_ptr entry with
        | none => some buffer
        | some a =>
          if bytes_to_read > 0 then
            (h.blocks a).map (fun d => memcpy buffer 0 (d.drop (to_size_t offset)) bytes_to_read)
          else some buffer
      buffer1.map (fun b =>
        ({ store := { h.store with mem := upd h.store.mem entry (some { e with atime := now }) },
           data_ptr := h.data_ptr, blocks := h.blocks },
          to_int bytes_to_read, b))

/-- The function `vtfs_storage_delete_entry` on blocks: when the call takes the
entry out of the store, `free_entry` releases the block behind `entry->data`,
if the pointer is not `NULL`, together with the record. -/
def vtfs_storage_delete_entry_blocks (h : block_store) (entry : Ptr) :
    Option (block_store × Int) :=
  let r := vtfs_storage_delete_entry h.store entry
  match h.store.mem entry, r.1.mem entry with
  | some _, none =>
    match h.data_ptr entry with
    | none => some ({ store := r.1, data_ptr := h.data_ptr, blocks := h.blocks }, r.2)
    | some a =>
      match h.blocks a with
      | none => none
      | some _ =>
        some ({ store := r.1,
                data_ptr := fun p => if p = entry then none else h.data_ptr p,
                blocks := fun x => if x = a then none else h.blocks x }, r.2)
  | _, _ => some ({ store := r.1, data_ptr := h.data_ptr, blocks := h.blocks }, r.2)

/-- The function `vtfs_link` on blocks: the assignment `link->data = target->data`
gives the new entry the pointer of the target, so both entries hold one block;
`size` and `capacity` are copied as numbers. -/
def vtfs_link_blocks (h : block_store) (kz : Option Ptr) (now : Nat) (old_ino dir_ino : Nat)
    (new_name : CStr) : Option (block_store × Int) :=
  match vtfs_storage_get_by_ino h.store old_ino with
  | none => some (h, -ENOENT)
  | some target =>
    match h.store.mem target with
    | none => some (h, -ENOENT)
    | some te =>
      if S_ISDIR te.mode then some (h, -EPERM)
      else
        match vtfs_storage_get_by_ino h.store dir_ino with
        | none => some (h, -ENOENT)
        | some parent =>
          match vtfs_storage_create_entry h.store kz now parent new_name te.mode te.ino with
          | (s1, none) =>
            some ({ store := s1, data_ptr := h.data_ptr, blocks := h.blocks }, -EEXIST)
          | (s1, some link) =>
            let s2 : vtfs_storage :=
              match s1.mem link, s1.mem target with
              | some le, some te1 =>
                let le1 := { le with size := te1.size, capacity := te1.capacity }
                { s1 with mem := upd s1.mem link (some le1) }
              | _, _ => s1
            let ptr2 : Ptr → Option Nat :=
              fun p => if p = link then h.data_ptr target else h.data_ptr p
            let r := vtfs_storage_add_link s2 target parent new_name
            let h3 : block_store := { store := r.1, data_ptr := ptr2, blocks := h.blocks }
            if r.2 ≠ 0 then
              (vtfs_storage_delete_entry_blocks h3 link).map (fun d => (d.1, r.2))
            else some (h3, 0)

/-- The example file `a` (address 2, id 1001) with no buffer yet: every
pointer `data` is `NULL` and no block is allocated, as after init and create. -/
def ex_blocks_file : block_store :=
  { store := ex_file, data_ptr := fun _ => none, blocks := fun _ => none }

/-- The example file after a write of the two bytes 7, 8 at offset 0, for
which the allocator hands out the block at address 100. -/
def ex_blocks_written : Option block_store :=
  (vtfs_storage_write_blocks ex_blocks_file (some (100, fun _ => 0)) 1 2 [7, 8] 2 0).map
    (fun r => r.1)

/-- The written example file after `vtfs_link` has given it the second name
`b`; the entry of `b` is at address 3. -/
def ex_blocks_linked : Option block_store :=
  ex_blocks_written.bind (fun h =>
    (vtfs_link_blocks h (some 3) 1 1001 1000 [98]).map (fun r => r.1))

/-- The store a `block_store` stands for when every record carries the bytes
behind its pointer in the field `data`. -/
def content_view (h : block_store) : vtfs_storage :=
  { h.store with
    mem := fun p =>
      (h.store.mem p).map (fun e => { e with data := (h.data_ptr p).bind h.blocks }) }

/-- The stores that `vtfs_storage_init` followed by calls of the store's
create, delete, read, write and add_link and of the adapter's `vtfs_mkdir` and
`vtfs_rmdir` produces, where the names handed to create and `vtfs_mkdir`
satisfy `ok` and `kzalloc` hands out addresses that are not in use. -/
inductive ReachAdapter (ok : CStr → Prop) : vtfs_storage → Prop
  | init (p now : Nat) : ReachAdapter ok (vtfs_storage_init (some p) now).1
  | create (s : vtfs_storage) (kz : Option Ptr) (now : Nat) (parent : Ptr) (name : CStr)
      (mode ino : Nat) (skip_sync : Bool) :
      ReachAdapter ok s → (∀ p, kz = some p → s.mem p = none) → ok name →
      ReachAdapter ok (create_entry_internal s kz now parent name mode ino skip_sync).1
  | delete (s : vtfs_storage) (entry : Ptr) :
      ReachAdapter ok s → ReachAdapter ok (vtfs_storage_delete_entry s entry).1
  | read (s : vtfs_storage) (now : Nat) (entry : Ptr) (buffer : List Nat) (len : Nat)
      (offset : Int) :
      ReachAdapter ok s → ReachAdapter ok (vtfs_storage_read s now entry buffer len offset).1
  | write (s : vtfs_storage) (alloc : Option (Nat → Nat)) (now : Nat) (entry : Ptr)
      (buffer : List Nat) (len : Nat) (offset : Int) :
      ReachAdapter ok s →
      ReachAdapter ok (vtfs_storage_write s alloc now entry buffer len offset).1
  | add_link (s : vtfs_storage) (entry parent : Ptr) (name : CStr) :
      ReachAdapter ok s → ReachAdapter ok (vtfs_storage_add_link s entry parent name).1
  | mkdir (s : vtfs_storage) (kz : Option Ptr) (now : Nat) (inode : Bool) (parent_ino : Nat)
      (name : CStr) (mode : Nat) :
      ReachAdapter ok s → (∀ p, kz = some p → s.mem p = none) → ok name →
      ReachAdapter ok (vtfs_mkdir s kz now inode parent_ino name mode).1
  | rmdir (s : vtfs_storage) (parent_ino : Nat) (name : CStr) :
      ReachAdapter ok s → ReachAdapter ok (vtfs_rmdir s parent_ino name).1

/-! ## Basic facts -/

@[simp] theorem upd_same (m : Ptr → Option vtfs_entry) (p : Ptr) (v : Option vtfs_entry) :
    upd m p v p = v := by simp [upd]

theorem upd_other (m : Ptr → Option vtfs_entry) (p q : Ptr) (v : Option vtfs_entry)
    (h : q ≠ p) : upd m p v q = m q := by simp [upd, h]

theorem lookup_none_of_no_child (s : vtfs_storage) (D : Ptr) (d : vtfs_entry) (N : CStr)
    (hD : s.mem D = some d)
    (h : ∀ c ∈ d.children, ∀ ce, s.mem c = some ce → ce.name ≠ N) :
    vtfs_storage_lookup s D N = none := by
  unfold vtfs_storage_lookup
  simp only [hD]
  split
  · rfl
  · rw [List.find?_eq_none]
    intro c hc
    cases hce : s.mem c with
    | none => simp
    | some ce => simpa using h c hc ce hce

theorem create_ok (s : vtfs_storage) (D : Ptr) (d : vtfs_entry) (N : CStr) (mode ino : Nat)
    (p : Ptr) (now : Nat) (skip : Bool)
    (hD : s.mem D = some d) (hdir : S_ISDIR d.mode = true)
    (hN : vtfs_storage_lookup s D N = none) :
    create_entry_internal s (some p) now D N mode ino skip =
      ({ root := s.root,
         all_entries := p :: s.all_entries,
         next_ino := if ino = 0 then s.next_ino + 1 else s.next_ino,
         mem := upd (upd s.mem p (some
                  { name := N.take VTFS_MAX_NAME_LEN, ino := if ino = 0 then s.next_ino else ino,
                    mode := mode, data := none, size := 0, capacity := 0, nlink := 1,
                    atime := now, mtime := now, ctime := now,
                    parent := some D, children := [] })) D
                (some { d with children := p :: d.children,
                               nlink := if S_ISDIR mode then d.nlink + 1 else d.nlink }) },
       some p) := by
  unfold create_entry_internal
  simp only [hD, hdir, hN, alloc_entry]
  by_cases h0 : ino = 0 <;> simp [h0]

/-- a create on a name that lookup finds returns NULL and leaves the store as it is -/
theorem create_existing (s : vtfs_storage) (kz : Option Ptr) (now : Nat) (D : Ptr) (N : CStr)
    (mode ino : Nat) (skip : Bool) (c : Ptr) (h : vtfs_storage_lookup s D N = some c) :
    create_entry_internal s kz now D N mode ino skip = (s, none) := by
  unfold create_entry_internal
  cases hD : s.mem D with
  | none => rfl
  | some pe =>
    simp only [h, Option.isSome_some, if_true]
    split <;> rfl

/-! ## The invariant is kept by every operation -/

theorem dirCount_congr (m m1 : Ptr → Option vtfs_entry) (l : List Ptr)
    (h : ∀ c ∈ l, isDirAt m c = isDirAt m1 c) : dirCount m l = dirCount m1 l := by
  unfold dirCount
  apply List.countP_congr
  intro c hc
  rw [h c hc]

theorem isDirAt_upd_same_mode (m : Ptr → Option vtfs_entry) (p : Ptr) (e e1 : vtfs_entry)
    (hp : m p = some e) (hmode : e1.mode = e.mode) (c : Ptr) :
    isDirAt (upd m p (some e1)) c = isDirAt m c := by
  unfold isDirAt
  by_cases hc : c = p
  · subst hc; simp [hp, hmode]
  · rw [upd_other _ _ _ _ hc]

/-- what a lookup in the updated heap finds -/
theorem upd_eq_some (m : Ptr → Option vtfs_entry) (p q : Ptr) (e1 qe : vtfs_entry)
    (h : upd m p (some e1) q = some qe) : (q = p ∧ qe = e1) ∨ (q ≠ p ∧ m q = some qe) := by
  by_cases hq : q = p
  · subst hq; simp at h; exact Or.inl ⟨rfl, h.symm⟩
  · rw [upd_other _ _ _ _ hq] at h; exact Or.inr ⟨hq, h⟩

theorem Inv.upd_fields {s : vtfs_storage} (h : Inv s) (p : Ptr) (e e1 : vtfs_entry)
    (hp : s.mem p = some e)
    (hpar : e1.parent = e.parent) (hch : e1.children = e.children) (hmode : e1.mode = e.mode)
    (hbuf : buf_ok e1)
    (hl : 1 ≤ e1.nlink ∧ (S_ISDIR e.mode = true → 1 + dirCount s.mem e.children ≤ e1.nlink)) :
    Inv { s with mem := upd s.mem p (some e1) } := by
  have live : ∀ c ce, s.mem c = some ce →
      ∃ ce1, upd s.mem p (some e1) c = some ce1 ∧ ce1.parent = ce.parent ∧
        ce1.children = ce.children := by
    intro c ce hc
    by_cases hcp : c = p
    · subst hcp
      rw [hp] at hc; cases hc
      exact ⟨e1, by simp, hpar, hch⟩
    · exact ⟨ce, by rw [upd_other _ _ _ _ hcp]; exact hc, rfl, rfl⟩
  have back : ∀ q qe, upd s.mem p (some e1) q = some qe →
      ∃ qe0, s.mem q = some qe0 ∧ qe.parent = qe0.parent ∧ qe.children = qe0.children ∧
        qe.mode = qe0.mode := by
    intro q qe hq
    rcases upd_eq_some _ _ _ _ _ hq with ⟨rfl, rfl⟩ | ⟨_, hq0⟩
    · exact ⟨e, hp, hpar, hch, hmode⟩
    · exact ⟨qe, hq0, rfl, rfl, rfl⟩
  have hcount : ∀ l, dirCount (upd s.mem p (some e1)) l = dirCount s.mem l := fun l =>
    dirCount_congr _ _ l (fun c _ => isDirAt_upd_same_mode s.mem p e e1 hp hmode c)
  constructor
  · obtain ⟨r, re, h1, h2, h3, h4⟩ := h.root_live
    obtain ⟨re1, h5, h6, _⟩ := live r re h2
    obtain ⟨re0, h7, _, _, h8⟩ := back r re1 h5
    rw [h2] at h7; cases h7
    exact ⟨r, re1, h1, h5, by rw [h6]; exact h3, by rw [h8]; exact h4⟩
  · intro q qe hq c hc
    obtain ⟨qe0, hq0, _, hch0, _⟩ := back q qe hq
    rw [hch0] at hc
    obtain ⟨hr, ce, hce, hcp⟩ := h.child_live q qe0 hq0 c hc
    obtain ⟨ce1, hce1, hpar1, _⟩ := live c ce hce
    exact ⟨hr, ce1, hce1, by rw [hpar1]; exact hcp⟩
  · intro q qe hq
    obtain ⟨qe0, hq0, _, hch0, _⟩ := back q qe hq
    rw [hch0]; exact h.child_nodup q qe0 hq0
  · intro q qe hq
    obtain ⟨qe0, hq0, _, hch0, _⟩ := back q qe hq
    rw [hch0]; exact h.not_own_child q qe0 hq0
  · intro q qe hq hr
    obtain ⟨qe0, hq0, hpar0, _, _⟩ := back q qe hq
    obtain ⟨x, xe, hx1, hx2, hx3⟩ := h.has_parent q qe0 hq0 hr
    obtain ⟨xe1, hxe1, _, hxch⟩ := live x xe hx2
    exact ⟨x, xe1, by rw [hpar0]; exact hx1, hxe1, by rw [hxch]; exact hx3⟩
  · intro q qe hq hne
    obtain ⟨qe0, hq0, _, hch0, hm0⟩ := back q qe hq
    rw [hm0]; rw [hch0] at hne; exact h.parent_dir q qe0 hq0 hne
  · intro q
    rw [h.registry q]
    by_cases hqp : q = p
    · subst hqp; simp [hp]
    · simp only [upd_other _ _ _ _ hqp]
  · exact h.registry_nodup
  · intro q qe hq
    rcases upd_eq_some _ _ _ _ _ hq with ⟨rfl, rfl⟩ | ⟨_, hq0⟩
    · exact hbuf
    · exact h.buf q qe hq0
  · intro q qe hq
    show 1 ≤ qe.nlink ∧ (S_ISDIR qe.mode = true →
      1 + dirCount (upd s.mem p (some e1)) qe.children ≤ qe.nlink)
    rw [hcount]
    rcases upd_eq_some _ _ _ _ _ hq with ⟨rfl, rfl⟩ | ⟨_, hq0⟩
    · rw [hch, hmode]; exact hl
    · exact h.links q qe hq0

theorem S_ISDIR_root_mode : S_ISDIR (S_IFDIR ||| 0o777) = true := by decide

theorem Inv.init (p now : Nat) : Inv (vtfs_storage_init (some p) now).1 := by
  have hm : ∀ q qe, (vtfs_storage_init (some p) now).1.mem q = some qe →
      q = p ∧ qe.children = [] ∧ qe.nlink = 2 ∧ buf_ok qe := by
    intro q qe hq
    simp only [vtfs_storage_init, alloc_entry] at hq
    by_cases hqp : q = p
    · subst hqp
      simp at hq
      subst hq
      refine ⟨rfl, rfl, rfl, ?_⟩
      simp [buf_ok]
    · rw [upd_other _ _ _ _ hqp] at hq; cases hq
  constructor
  · have hr : ∃ re, (vtfs_storage_init (some p) now).1.mem p = some re ∧
        re.parent = some p ∧ S_ISDIR re.mode = true := by
      simp only [vtfs_storage_init, alloc_entry, upd_same]
      exact ⟨_, rfl, rfl, S_ISDIR_root_mode⟩
    obtain ⟨re, h1, h2, h3⟩ := hr
    exact ⟨p, re, rfl, h1, h2, h3⟩
  · intro q qe hq c hc
    rw [(hm q qe hq).2.1] at hc; cases hc
  · intro q qe hq
    rw [(hm q qe hq).2.1]; exact List.nodup_nil
  · intro q qe hq
    rw [(hm q qe hq).2.1]; simp
  · intro q qe hq hr
    exact absurd (by rw [(hm q qe hq).1]; rfl) hr
  · intro q qe hq hne
    exact absurd (hm q qe hq).2.1 hne
  · intro q
    simp only [vtfs_storage_init, alloc_entry]
    by_cases hqp : q = p
    · subst hqp; simp
    · simp [upd_other _ _ _ _ hqp, hqp]
  · simp [vtfs_storage_init, alloc_entry]
  · intro q qe hq
    exact (hm q qe hq).2.2.2
  · intro q qe hq
    obtain ⟨_, h1, h2, _⟩ := hm q qe hq
    rw [h1, h2]
    simp [dirCount]

theorem Inv.fresh_not_child {s : vtfs_storage} (h : Inv s) (p : Ptr) (hp : s.mem p = none)
    (q : Ptr) (qe : vtfs_entry) (hq : s.mem q = some qe) : p ∉ qe.children := by
  intro hc
  obtain ⟨_, ce, hce, _⟩ := h.child_live q qe hq p hc
  rw [hp] at hce; cases hce

theorem Inv.add_child {s : vtfs_storage} (h : Inv s) (D : Ptr) (d d1 ne : vtfs_entry)
    (p : Ptr) (n : Nat)
    (hD : s.mem D = some d) (hdir : S_ISDIR d.mode = true) (hp : s.mem p = none)
    (hd1p : d1.parent = d.parent) (hd1m : d1.mode = d.mode)
    (hd1c : d1.children = p :: d.children)
    (hd1n : d1.nlink = if S_ISDIR ne.mode then d.nlink + 1 else d.nlink)
    (hd1b : buf_ok d1)
    (hnep : ne.parent = some D) (hnec : ne.children = []) (hnen : ne.nlink = 1)
    (hneb : buf_ok ne) :
    Inv { root := s.root, all_entries := p :: s.all_entries, next_ino := n,
          mem := upd (upd s.mem p (some ne)) D (some d1) } := by
  have hpD : p ≠ D := by
    intro hh; rw [hh, hD] at hp; cases hp
  obtain ⟨r, re, hr1, hr2, hr3, hr4⟩ := h.root_live
  have hpr : p ≠ r := by
    intro hh; rw [hh, hr2] at hp; cases hp
  have mD : upd (upd s.mem p (some ne)) D (some d1) D = some d1 := by simp
  have mp : upd (upd s.mem p (some ne)) D (some d1) p = some ne := by
    rw [upd_other _ _ _ _ hpD]; simp
  have mo : ∀ x, x ≠ D → x ≠ p → upd (upd s.mem p (some ne)) D (some d1) x = s.mem x := by
    intro x h1 h2
    rw [upd_other _ _ _ _ h1, upd_other _ _ _ _ h2]
  have back : ∀ q qe, upd (upd s.mem p (some ne)) D (some d1) q = some qe →
      (q = D ∧ qe = d1) ∨ (q = p ∧ qe = ne) ∨ (q ≠ D ∧ q ≠ p ∧ s.mem q = some qe) := by
    intro q qe hq
    by_cases h1 : q = D
    · subst h1; rw [mD] at hq; cases hq; exact Or.inl ⟨rfl, rfl⟩
    · by_cases h2 : q = p
      · subst h2; rw [mp] at hq; cases hq; exact Or.inr (Or.inl ⟨rfl, rfl⟩)
      · rw [mo q h1 h2] at hq; exact Or.inr (Or.inr ⟨h1, h2, hq⟩)
  have live : ∀ c ce, s.mem c = some ce →
      c ≠ p ∧ ∃ ce1, upd (upd s.mem p (some ne)) D (some d1) c = some ce1 ∧
        ce1.parent = ce.parent ∧ ce1.mode = ce.mode ∧ ce.children ⊆ ce1.children := by
    intro c ce hc
    have hcp : c ≠ p := by
      intro hh; rw [hh, hp] at hc; cases hc
    refine ⟨hcp, ?_⟩
    by_cases h1 : c = D
    · subst h1
      rw [hD] at hc; cases hc
      exact ⟨d1, mD, hd1p, hd1m, by rw [hd1c]; exact List.subset_cons_self _ _⟩
    · exact ⟨ce, by rw [mo c h1 hcp]; exact hc, rfl, rfl, List.Subset.refl _⟩
  have dir_same : ∀ c, c ≠ p →
      isDirAt (upd (upd s.mem p (some ne)) D (some d1)) c = isDirAt s.mem c := by
    intro c hcp
    unfold isDirAt
    by_cases h1 : c = D
    · subst h1; simp only [mD, hD, hd1m]
    · rw [mo c h1 hcp]
  have count_same : ∀ q qe, s.mem q = some qe →
      dirCount (upd (upd s.mem p (some ne)) D (some d1)) qe.children =
        dirCount s.mem qe.children := by
    intro q qe hq
    apply dirCount_congr
    intro c hc
    apply dir_same
    intro hh
    exact h.fresh_not_child p hp q qe hq (hh ▸ hc)
  constructor
  · obtain ⟨_, re1, h1, h2, h3, _⟩ := live r re hr2
    exact ⟨r, re1, hr1, h1, by rw [h2]; exact hr3, by rw [h3]; exact hr4⟩
  · intro q qe hq c hc
    show s.root ≠ some c ∧ _
    rcases back q qe hq with ⟨rfl, rfl⟩ | ⟨rfl, rfl⟩ | ⟨_, _, hq0⟩
    · rw [hd1c] at hc
      rcases List.mem_cons.1 hc with rfl | hc
      · refine ⟨?_, ne, mp, hnep⟩
        rw [hr1]; intro hh; cases hh; exact hpr rfl
      · obtain ⟨h1, ce, h2, h3⟩ := h.child_live q d hD c hc
        obtain ⟨_, ce1, h4, h5, _⟩ := live c ce h2
        exact ⟨h1, ce1, h4, by rw [h5]; exact h3⟩
    · rw [hnec] at hc; cases hc
    · obtain ⟨h1, ce, h2, h3⟩ := h.child_live q qe hq0 c hc
      obtain ⟨_, ce1, h4, h5, _⟩ := live c ce h2
      exact ⟨h1, ce1, h4, by rw [h5]; exact h3⟩
  · intro q qe hq
    rcases back q qe hq with ⟨rfl, rfl⟩ | ⟨rfl, rfl⟩ | ⟨_, _, hq0⟩
    · rw [hd1c]
      exact List.nodup_cons.2 ⟨h.fresh_not_child p hp q d hD, h.child_nodup q d hD⟩
    · rw [hnec]; exact List.nodup_nil
    · exact h.child_nodup q qe hq0
  · intro q qe hq
    rcases back q qe hq with ⟨rfl, rfl⟩ | ⟨rfl, rfl⟩ | ⟨_, _, hq0⟩
    · rw [hd1c]
      intro hh
      rcases List.mem_cons.1 hh with hh | hh
      · exact hpD hh.symm
      · exact h.not_own_child q d hD hh
    · rw [hnec]; simp
    · exact h.not_own_child q qe hq0
  · intro q qe hq hroot
    rcases back q qe hq with ⟨rfl, rfl⟩ | ⟨rfl, rfl⟩ | ⟨_, _, hq0⟩
    · obtain ⟨x, xe, h1, h2, h3⟩ := h.has_parent q d hD hroot
      obtain ⟨_, xe1, h4, _, _, h5⟩ := live x xe h2
      exact ⟨x, xe1, by rw [hd1p]; exact h1, h4, h5 h3⟩
    · exact ⟨D, d1, hnep, mD, by rw [hd1c]; exact List.mem_cons_self _ _⟩
    · obtain ⟨x, xe, h1, h2, h3⟩ := h.has_parent q qe hq0 hroot
      obtain ⟨_, xe1, h4, _, _, h5⟩ := live x xe h2
      exact ⟨x, xe1, h1, h4, h5 h3⟩
  · intro q qe hq hne1
    rcases back q qe hq with ⟨rfl, rfl⟩ | ⟨rfl, rfl⟩ | ⟨_, _, hq0⟩
    · rw [hd1m]; exact hdir
    · exact absurd hnec hne1
    · exact h.parent_dir q qe hq0 hne1
  · intro q
    show q ∈ p :: s.all_entries ↔ upd (upd s.mem p (some ne)) D (some d1) q ≠ none
    by_cases h1 : q = D
    · subst h1
      rw [mD]
      simp only [List.mem_cons, ne_eq, not_false_eq_true, iff_true, reduceCtorEq]
      right; rw [h.registry q, hD]; simp
    · by_cases h2 : q = p
      · subst h2; rw [mp]; simp
      · rw [mo q h1 h2, List.mem_cons, h.registry q]
        simp [h2]
  · show (p :: s.all_entries).Nodup
    refine List.nodup_cons.2 ⟨?_, h.registry_nodup⟩
    rw [h.registry p]; simp [hp]
  · intro q qe hq
    rcases back q qe hq with ⟨rfl, rfl⟩ | ⟨rfl, rfl⟩ | ⟨_, _, hq0⟩
    · exact hd1b
    · exact hneb
    · exact h.buf q qe hq0
  · intro q qe hq
    show 1 ≤ qe.nlink ∧ (S_ISDIR qe.mode = true →
      1 + dirCount (upd (upd s.mem p (some ne)) D (some d1)) qe.children ≤ qe.nlink)
    rcases back q qe hq with ⟨rfl, rfl⟩ | ⟨rfl, rfl⟩ | ⟨_, _, hq0⟩
    · obtain ⟨h1, h2⟩ := h.links q d hD
      have h3 := h2 hdir
      have h4 := count_same q d hD
      rw [hd1c, hd1n]
      constructor
      · split <;> omega
      · intro _
        unfold dirCount at h3 h4 ⊢
        rw [List.countP_cons, h4]
        simp only [isDirAt, mp]
        split <;> omega
    · rw [hnec, hnen]
      simp [dirCount]
    · rw [count_same q qe hq0]
      exact h.links q qe hq0

theorem removed_heap_self (m : Ptr → Option vtfs_entry) (e : Ptr) (ent : vtfs_entry) :
    removed_heap m e ent e = none := by
  simp [removed_heap]

theorem drop_parent_link_other (m : Ptr → Option vtfs_entry) (e : Ptr) (ent e1 : vtfs_entry)
    (hm : e1.mode = ent.mode) (hp : e1.parent = ent.parent)
    (hpe : ent.parent ≠ some e) (x : Ptr) (hx : x ≠ e) :
    drop_parent_link (upd m e (some e1)) e1 x =
      (m x).map (fun xe => { xe with
        nlink := (if S_ISDIR ent.mode = true ∧ ent.parent = some x then nlink_dec xe.nlink else xe.nlink) }) := by
  unfold drop_parent_link
  rw [hm, hp]
  by_cases hdir : S_ISDIR ent.mode = true
  · simp only [hdir, if_true, true_and]
    cases hpar : ent.parent with
    | none =>
      simp only [upd_other _ _ _ _ hx]
      cases m x <;> simp
    | some q =>
      have hqe : q ≠ e := by
        intro hh; rw [hh] at hpar; exact hpe hpar
      simp only [upd_other _ _ _ _ hqe]
      cases hq : m q with
      | none =>
        simp only [upd_other _ _ _ _ hx]
        by_cases hxq : q = x
        · subst hxq; simp [hq]
        · cases m x <;> simp [hxq]
      | some qe =>
        simp only
        by_cases hxq : x = q
        · subst hxq; simp [hq]
        · rw [upd_other _ _ _ _ hxq, upd_other _ _ _ _ hx]
          have : ¬ (q = x) := fun hh => hxq hh.symm
          cases m x <;> simp [this]
  · simp only [hdir, if_false, false_and, Bool.false_eq_true]
    rw [upd_other _ _ _ _ hx]
    cases m x <;> simp

theorem removed_heap_other (m : Ptr → Option vtfs_entry) (e : Ptr) (ent : vtfs_entry)
    (hpe : ent.parent ≠ some e) (x : Ptr) (hx : x ≠ e) :
    removed_heap m e ent x =
      (m x).map (fun xe => { xe with
        children := xe.children.filter (fun c => decide (c ≠ e)),
        nlink := (if S_ISDIR ent.mode = true ∧ ent.parent = some x then nlink_dec xe.nlink else xe.nlink) }) := by
  unfold removed_heap
  rw [upd_other _ _ _ _ hx]
  unfold unlink_sibling
  rw [drop_parent_link_other m e ent { ent with nlink := nlink_dec ent.nlink } rfl rfl hpe x hx]
  cases m x <;> simp

theorem delete_removed (s : vtfs_storage) (e : Ptr) (ent : vtfs_entry)
    (he : s.mem e = some ent) (hroot : s.root ≠ some e)
    (hch : S_ISDIR ent.mode = true → ent.children = [])
    (hn : nlink_dec ent.nlink = 0) :
    vtfs_storage_delete_entry s e =
      ({ s with mem := removed_heap s.mem e ent,
                all_entries := s.all_entries.filter (fun c => decide (c ≠ e)) }, 0) := by
  unfold vtfs_storage_delete_entry removed_heap
  simp only [he, hroot, if_false]
  have : (S_ISDIR ent.mode && !ent.children.isEmpty) = false := by
    cases hd : S_ISDIR ent.mode
    · simp
    · simp [hch hd]
  simp [this, hn]

theorem delete_kept (s : vtfs_storage) (e : Ptr) (ent : vtfs_entry)
    (he : s.mem e = some ent) (hroot : s.root ≠ some e)
    (hch : S_ISDIR ent.mode = true → ent.children = [])
    (hn : nlink_dec ent.nlink ≠ 0) :
    vtfs_storage_delete_entry s e =
      ({ s with mem := upd s.mem e (some { ent with nlink := nlink_dec ent.nlink }) }, 0) := by
  unfold vtfs_storage_delete_entry
  simp only [he, hroot, if_false]
  have : (S_ISDIR ent.mode && !ent.children.isEmpty) = false := by
    cases hd : S_ISDIR ent.mode
    · simp
    · simp [hch hd]
  simp [this, hn]

theorem countP_filter_ne_le (P : Ptr → Bool) (e : Ptr) (l : List Ptr) :
    List.countP P (l.filter (fun c => decide (c ≠ e))) ≤ List.countP P l :=
  (List.filter_sublist l).countP_le P

theorem countP_filter_ne_lt (P : Ptr → Bool) (e : Ptr) (l : List Ptr) (he : e ∈ l)
    (hP : P e = true) :
    List.countP P (l.filter (fun c => decide (c ≠ e))) + 1 ≤ List.countP P l := by
  induction l with
  | nil => cases he
  | cons a t ih =>
    by_cases ha : a = e
    · subst ha
      have h1 : (a :: t).filter (fun c => decide (c ≠ a)) =
          t.filter (fun c => decide (c ≠ a)) := by
        simp [List.filter_cons]
      have h2 := countP_filter_ne_le P a t
      rw [h1, List.countP_cons, if_pos hP]
      omega
    · have het : e ∈ t := by
        rcases List.mem_cons.1 he with hh | hh
        · exact absurd hh.symm ha
        · exact hh
      have h1 : (a :: t).filter (fun c => decide (c ≠ e)) =
          a :: t.filter (fun c => decide (c ≠ e)) := by
        simp [List.filter_cons, ha]
      have h2 := ih het
      rw [h1, List.countP_cons, List.countP_cons]
      omega

theorem nlink_dec_eq_zero (n : Nat) (h : nlink_dec n = 0) : n = 1 := by
  unfold nlink_dec at h
  split at h <;> omega

theorem Inv.removed {s : vtfs_storage} (h : Inv s) (e : Ptr) (ent : vtfs_entry)
    (he : s.mem e = some ent) (hroot : s.root ≠ some e) (hch : ent.children = []) :
    Inv { s with mem := removed_heap s.mem e ent,
                 all_entries := s.all_entries.filter (fun c => decide (c ≠ e)) } := by
  obtain ⟨q, qe, hq1, hq2, hq3⟩ := h.has_parent e ent he hroot
  have hqe : q ≠ e := by
    intro hh; subst hh; rw [he] at hq2; cases hq2; rw [hch] at hq3; cases hq3
  have hpe : ent.parent ≠ some e := by
    rw [hq1]; intro hh; cases hh; exact hqe rfl
  have hqdir : S_ISDIR qe.mode = true :=
    h.parent_dir q qe hq2 (List.ne_nil_of_mem hq3)
  have val := removed_heap_other s.mem e ent hpe
  have back : ∀ x xe1, removed_heap s.mem e ent x = some xe1 → x ≠ e ∧ ∃ xe, s.mem x = some xe ∧
      xe1.children = xe.children.filter (fun c => decide (c ≠ e)) ∧ xe1.parent = xe.parent ∧
      xe1.mode = xe.mode ∧ buf_ok xe1 ∧
      xe1.nlink = (if S_ISDIR ent.mode = true ∧ ent.parent = some x then nlink_dec xe.nlink
        else xe.nlink) := by
    intro x xe1 hx
    have hxe : x ≠ e := by
      intro hh; rw [hh, removed_heap_self] at hx; cases hx
    refine ⟨hxe, ?_⟩
    rw [val x hxe] at hx
    cases hmx : s.mem x with
    | none => rw [hmx] at hx; cases hx
    | some xe =>
      rw [hmx] at hx
      simp only [Option.map_some'] at hx
      cases hx
      exact ⟨xe, rfl, rfl, rfl, rfl, h.buf x xe hmx, rfl⟩
  have live : ∀ x xe, s.mem x = some xe → x ≠ e → ∃ xe1, removed_heap s.mem e ent x = some xe1 ∧
      xe1.children = xe.children.filter (fun c => decide (c ≠ e)) ∧ xe1.parent = xe.parent ∧
      xe1.mode = xe.mode := by
    intro x xe hx hxe
    rw [val x hxe, hx]
    exact ⟨_, rfl, rfl, rfl, rfl⟩
  have dir_same : ∀ c, c ≠ e → isDirAt (removed_heap s.mem e ent) c = isDirAt s.mem c := by
    intro c hc
    unfold isDirAt
    rw [val c hc]
    cases s.mem c <;> rfl
  have count_eq : ∀ l : List Ptr,
      dirCount (removed_heap s.mem e ent) (l.filter (fun c => decide (c ≠ e))) =
        dirCount s.mem (l.filter (fun c => decide (c ≠ e))) := by
    intro l
    apply dirCount_congr
    intro c hc
    apply dir_same
    simpa using (List.mem_filter.1 hc).2
  constructor
  · obtain ⟨r, re, hr1, hr2, hr3, hr4⟩ := h.root_live
    have hre : r ≠ e := by
      intro hh; rw [hh] at hr1; exact hroot hr1
    obtain ⟨re1, h1, _, h2, h3⟩ := live r re hr2 hre
    exact ⟨r, re1, hr1, h1, by rw [h2]; exact hr3, by rw [h3]; exact hr4⟩
  · intro x xe1 hx c hc
    obtain ⟨_, xe, h1, h2, _, _, _, _⟩ := back x xe1 hx
    rw [h2] at hc
    obtain ⟨hc1, hc2⟩ := List.mem_filter.1 hc
    have hce : c ≠ e := by simpa using hc2
    obtain ⟨h3, ce, h4, h5⟩ := h.child_live x xe h1 c hc1
    obtain ⟨ce1, h6, _, h7, _⟩ := live c ce h4 hce
    exact ⟨h3, ce1, h6, by rw [h7]; exact h5⟩
  · intro x xe1 hx
    obtain ⟨_, xe, h1, h2, _, _, _, _⟩ := back x xe1 hx
    rw [h2]; exact (h.child_nodup x xe h1).filter _
  · intro x xe1 hx
    obtain ⟨_, xe, h1, h2, _, _, _, _⟩ := back x xe1 hx
    rw [h2]; intro hh
    exact h.not_own_child x xe h1 (List.mem_filter.1 hh).1
  · intro x xe1 hx hxr
    obtain ⟨hxe, xe, h1, _, h3, _, _, _⟩ := back x xe1 hx
    obtain ⟨y, ye, h4, h5, h6⟩ := h.has_parent x xe h1 hxr
    have hye : y ≠ e := by
      intro hh; subst hh; rw [he] at h5; cases h5; rw [hch] at h6; cases h6
    obtain ⟨ye1, h7, h8, _, _⟩ := live y ye h5 hye
    refine ⟨y, ye1, by rw [h3]; exact h4, h7, ?_⟩
    rw [h8]; exact List.mem_filter.2 ⟨h6, by simpa using hxe⟩
  · intro x xe1 hx hne
    obtain ⟨_, xe, h1, h2, _, h4, _, _⟩ := back x xe1 hx
    rw [h4]
    apply h.parent_dir x xe h1
    intro hh; rw [h2, hh] at hne; exact hne rfl
  · intro x
    show x ∈ s.all_entries.filter (fun c => decide (c ≠ e)) ↔ removed_heap s.mem e ent x ≠ none
    rw [List.mem_filter, h.registry x]
    by_cases hxe : x = e
    · subst hxe; simp [removed_heap_self]
    · rw [val x hxe]
      cases s.mem x <;> simp [hxe]
  · exact h.registry_nodup.filter _
  · intro x xe1 hx
    exact (back x xe1 hx).2.choose_spec.2.2.2.2.1
  · intro x xe1 hx
    show 1 ≤ xe1.nlink ∧ (S_ISDIR xe1.mode = true →
      1 + dirCount (removed_heap s.mem e ent) xe1.children ≤ xe1.nlink)
    obtain ⟨hxe, xe, h1, h2, _, h4, _, h6⟩ := back x xe1 hx
    obtain ⟨h7, h8⟩ := h.links x xe h1
    rw [h2, h4, h6, count_eq]
    have hle := countP_filter_ne_le (isDirAt s.mem) e xe.children
    by_cases hc : S_ISDIR ent.mode = true ∧ ent.parent = some x
    · have hxq : q = x := by
        have := hc.2; rw [hq1] at this; cases this; rfl
      subst hxq
      have hxe2 : qe = xe := by rw [hq2] at h1; exact Option.some.inj h1
      subst hxe2
      have hde : isDirAt s.mem e = true := by
        unfold isDirAt; rw [he]; exact hc.1
      have hlt := countP_filter_ne_lt (isDirAt s.mem) e qe.children hq3 hde
      have h9 := h8 hqdir
      unfold dirCount at h9 ⊢
      rw [if_pos hc]
      unfold nlink_dec
      split
      · omega
      · constructor
        · omega
        · intro _; omega
    · rw [if_neg hc]
      refine ⟨h7, fun hd => ?_⟩
      have h9 := h8 hd
      unfold dirCount at h9 ⊢
      omega

@[simp] theorem memcpy_length (dst : List Nat) (off : Nat) (src : List Nat) (n : Nat) :
    (memcpy dst off src n).length = dst.length := by
  simp [memcpy]

@[simp] theorem memset_length (dst : List Nat) (off c n : Nat) :
    (memset dst off c n).length = dst.length := by
  simp [memset]

theorem krealloc_length (alloc : Option (Nat → Nat)) (data : Option (List Nat)) (n : Nat)
    (d : List Nat) (h : krealloc alloc data n = some d) : d.length = n := by
  unfold krealloc at h
  cases alloc with
  | none => cases h
  | some fill => simp at h; subst h; simp

theorem Inv.next_ino {s : vtfs_storage} (h : Inv s) (n : Nat) :
    Inv { s with next_ino := n } :=
  ⟨h.root_live, h.child_live, h.child_nodup, h.not_own_child, h.has_parent, h.parent_dir,
    h.registry, h.registry_nodup, h.buf, h.links⟩

theorem Inv.create {s : vtfs_storage} (h : Inv s) (kz : Option Ptr) (now : Nat) (parent : Ptr)
    (name : CStr) (mode ino : Nat) (skip : Bool) (hfresh : ∀ p, kz = some p → s.mem p = none) :
    Inv (create_entry_internal s kz now parent name mode ino skip).1 := by
  cases hD : s.mem parent with
  | none => unfold create_entry_internal; rw [hD]; exact h
  | some d =>
    by_cases hdir : S_ISDIR d.mode = true
    · cases hl : vtfs_storage_lookup s parent name with
      | some c => rw [create_existing s kz now parent name mode ino skip c hl]; exact h
      | none =>
        cases kz with
        | none =>
          unfold create_entry_internal
          simp only [hD, hdir, hl, alloc_entry]
          by_cases h0 : ino = 0
          · simp [h0]; exact h.next_ino _
          · simp [h0]; exact h
        | some p =>
          rw [create_ok s parent d name mode ino p now skip hD hdir hl]
          exact Inv.add_child h parent d _ (fresh_entry now name mode
            (if ino = 0 then s.next_ino else ino) parent) p _ hD hdir (hfresh p rfl)
            rfl rfl rfl rfl (h.buf parent d hD) rfl rfl rfl (by simp [buf_ok, fresh_entry])
    · unfold create_entry_internal
      simp only [hD, hdir]
      exact h

theorem Inv.no_children {s : vtfs_storage} (h : Inv s) (e : Ptr) (ent : vtfs_entry)
    (he : s.mem e = some ent)
    (hg : (S_ISDIR ent.mode && !ent.children.isEmpty) = false) : ent.children = [] := by
  by_contra hne
  have hd := h.parent_dir e ent he hne
  rw [hd] at hg
  simp at hg
  exact hne hg

theorem Inv.delete {s : vtfs_storage} (h : Inv s) (e : Ptr) :
    Inv (vtfs_storage_delete_entry s e).1 := by
  cases he : s.mem e with
  | none => unfold vtfs_storage_delete_entry; rw [he]; exact h
  | some ent =>
    by_cases hroot : s.root = some e
    · unfold vtfs_storage_delete_entry; simp only [he, hroot, if_true]; exact h
    · cases hg : (S_ISDIR ent.mode && !ent.children.isEmpty) with
      | true =>
        unfold vtfs_storage_delete_entry; simp only [he, hroot, if_false, hg, if_true]; exact h
      | false =>
        have hch := h.no_children e ent he hg
        by_cases hn : nlink_dec ent.nlink = 0
        · rw [delete_removed s e ent he hroot (fun _ => hch) hn]
          exact h.removed e ent he hroot hch
        · rw [delete_kept s e ent he hroot (fun _ => hch) hn]
          have h1 : 1 ≤ nlink_dec ent.nlink := Nat.one_le_iff_ne_zero.2 hn
          have h2 : 1 + dirCount s.mem ent.children ≤ nlink_dec ent.nlink := by
            rw [hch]
            simp only [dirCount, List.countP_nil]
            omega
          exact h.upd_fields e ent _ he rfl rfl rfl (h.buf e ent he) ⟨h1, fun _ => h2⟩

theorem Inv.read {s : vtfs_storage} (h : Inv s) (now : Nat) (e : Ptr) (buffer : List Nat)
    (len : Nat) (offset : Int) : Inv (vtfs_storage_read s now e buffer len offset).1 := by
  unfold vtfs_storage_read
  cases he : s.mem e with
  | none => exact h
  | some ent =>
    simp only
    split
    · exact h
    · split
      · exact h
      · exact h.upd_fields e ent _ he rfl rfl rfl (h.buf e ent he) (h.links e ent he)

theorem Inv.add_link {s : vtfs_storage} (h : Inv s) (e parent : Ptr) (name : CStr) :
    Inv (vtfs_storage_add_link s e parent name).1 := by
  unfold vtfs_storage_add_link
  cases he : s.mem e with
  | none => exact h
  | some ent =>
    cases hp : s.mem parent with
    | none => exact h
    | some pe =>
      simp only
      by_cases hd : S_ISDIR ent.mode = true
      · simp only [hd, if_true]; exact h
      · simp only [hd, Bool.false_eq_true, if_false]
        have h1 : 1 ≤ ent.nlink + 1 := by omega
        exact h.upd_fields e ent _ he rfl rfl rfl (h.buf e ent he)
          ⟨h1, fun hh => absurd hh hd⟩

/-! ## Bytes and machine integers -/

theorem to_size_t_ofNat (n : Nat) (h : n < 18446744073709551616) : to_size_t (n : Int) = n := by
  unfold to_size_t; omega

theorem to_int_small (n : Nat) (h : n < 2147483648) : to_int n = (n : Int) := by
  unfold to_int; omega

theorem getD_range_map (n : Nat) (f : Nat → Nat) (i : Nat) :
    ((List.range n).map f).getD i 0 = if i < n then f i else 0 := by
  rw [List.getD_eq_getElem?_getD]
  by_cases h : i < n
  · simp [h]
  · have : (List.range n)[i]? = none := by
      rw [List.getElem?_eq_none_iff]; simp; omega
    simp [h, this]

theorem memcpy_getD (dst : List Nat) (off : Nat) (src : List Nat) (n i : Nat) :
    (memcpy dst off src n).getD i 0 =
      if i < dst.length then
        (if off ≤ i ∧ i < off + n then src.getD (i - off) 0 else dst.getD i 0)
      else 0 := by
  unfold memcpy; rw [getD_range_map]

theorem memset_getD (dst : List Nat) (off c n i : Nat) :
    (memset dst off c n).getD i 0 =
      if i < dst.length then (if off ≤ i ∧ i < off + n then c else dst.getD i 0) else 0 := by
  unfold memset; rw [getD_range_map]

/-! ## The outcomes of a write -/

theorem write_inplace (s : vtfs_storage) (alloc : Option (Nat → Nat)) (now : Nat) (entry : Ptr)
    (e : vtfs_entry) (buffer : List Nat) (len off : Nat)
    (he : s.mem entry = some e) (hreg : S_ISREG e.mode = true)
    (hsum : off + len ≤ VTFS_MAX_FILE_SIZE) (hfit : off + len ≤ e.capacity) :
    vtfs_storage_write s alloc now entry buffer len (off : Int) =
      ({ s with mem := upd s.mem entry (some (written_inplace e now buffer len off)) },
        (len : Int)) := by
  have hM : VTFS_MAX_FILE_SIZE = 1048576 := by decide
  rw [hM] at hsum
  have h1 : to_size_t (off : Int) = off := to_size_t_ofNat off (by omega)
  have h2 : (off + len) % 18446744073709551616 = off + len := Nat.mod_eq_of_lt (by omega)
  have h3 : to_int len = (len : Int) := to_int_small len (by omega)
  unfold vtfs_storage_write
  simp only [he, hreg, h1, h2, hM]
  have h4 : ¬ (off + len > 1048576) := by omega
  have h5 : ¬ (off + len > e.capacity) := by omega
  simp only [h4, h5, if_false, Bool.not_true, Bool.false_eq_true]
  unfold write_tail written_inplace
  simp only [h3]
  split <;> rfl

theorem write_grow (s : vtfs_storage) (fill : Nat → Nat) (now : Nat) (entry : Ptr)
    (e : vtfs_entry) (buffer : List Nat) (len off : Nat)
    (he : s.mem entry = some e) (hreg : S_ISREG e.mode = true)
    (hsum : off + len ≤ VTFS_MAX_FILE_SIZE) (hfit : e.capacity < off + len) :
    vtfs_storage_write s (some fill) now entry buffer len (off : Int) =
      ({ s with mem := upd s.mem entry (some (written_grown e fill now buffer len off)) },
        (len : Int)) := by
  have hM : VTFS_MAX_FILE_SIZE = 1048576 := by decide
  rw [hM] at hsum
  have h1 : to_size_t (off : Int) = off := to_size_t_ofNat off (by omega)
  have h2 : (off + len) % 18446744073709551616 = off + len := Nat.mod_eq_of_lt (by omega)
  have h3 : to_int len = (len : Int) := to_int_small len (by omega)
  have h6 : e.capacity * 2 % 18446744073709551616 = e.capacity * 2 :=
    Nat.mod_eq_of_lt (by omega)
  unfold vtfs_storage_write
  simp only [he, hreg, h1, h2, hM, h6]
  have h4 : ¬ (off + len > 1048576) := by omega
  have h5 : off + len > e.capacity := by omega
  simp only [h4, h5, if_false, if_true, Bool.not_true, Bool.false_eq_true, krealloc]
  unfold write_tail written_grown grown_block grown_capacity
  simp only [h3]
  split <;> rfl

theorem write_enomem (s : vtfs_storage) (now : Nat) (entry : Ptr)
    (e : vtfs_entry) (buffer : List Nat) (len off : Nat)
    (he : s.mem entry = some e) (hreg : S_ISREG e.mode = true)
    (hsum : off + len ≤ VTFS_MAX_FILE_SIZE) (hfit : e.capacity < off + len) :
    vtfs_storage_write s none now entry buffer len (off : Int) = (s, -ENOMEM) := by
  have hM : VTFS_MAX_FILE_SIZE = 1048576 := by decide
  rw [hM] at hsum
  have h1 : to_size_t (off : Int) = off := to_size_t_ofNat off (by omega)
  have h2 : (off + len) % 18446744073709551616 = off + len := Nat.mod_eq_of_lt (by omega)
  unfold vtfs_storage_write
  simp only [he, hreg, h1, h2, hM]
  have h4 : ¬ (off + len > 1048576) := by omega
  have h5 : off + len > e.capacity := by omega
  simp only [h4, h5, if_false, if_true, Bool.not_true, Bool.false_eq_true, krealloc]

theorem write_efbig (s : vtfs_storage) (alloc : Option (Nat → Nat)) (now : Nat) (entry : Ptr)
    (e : vtfs_entry) (buffer : List Nat) (len off : Nat)
    (he : s.mem entry = some e) (hreg : S_ISREG e.mode = true)
    (hrep : off + len < 18446744073709551616)
    (hsum : VTFS_MAX_FILE_SIZE < off + len) :
    vtfs_storage_write s alloc now entry buffer len (off : Int) = (s, -EFBIG) := by
  have hM : VTFS_MAX_FILE_SIZE = 1048576 := by decide
  rw [hM] at hsum
  have h1 : to_size_t (off : Int) = off := to_size_t_ofNat off (by omega)
  have h2 : (off + len) % 18446744073709551616 = off + len := Nat.mod_eq_of_lt (by omega)
  unfold vtfs_storage_write
  simp only [he, hreg, h1, h2, hM]
  have h4 : off + len > 1048576 := by omega
  simp only [h4, if_true, Bool.not_true, Bool.false_eq_true, if_false]

theorem Inv.tail_write {s : vtfs_storage} (h : Inv s) (now : Nat) (entry : Ptr)
    (e0 e : vtfs_entry) (buffer : List Nat) (len off new_size : Nat)
    (he : s.mem entry = some e0)
    (hpar : e.parent = e0.parent) (hch : e.children = e0.children) (hmode : e.mode = e0.mode)
    (hnl : e.nlink = e0.nlink) (hb : buf_ok e) (hns : new_size ≤ e.capacity)
    (hmax : new_size ≤ VTFS_MAX_FILE_SIZE) :
    Inv (write_tail s now entry e buffer len off new_size).1 := by
  unfold write_tail
  obtain ⟨b1, b2, b3, b4⟩ := hb
  have hlen : ((e.data.map (fun d => memcpy d off buffer len)).getD []).length = e.capacity := by
    rw [← b4]
    cases e.data <;> simp
  have hl := h.links entry e0 he
  simp only
  split
  · refine h.upd_fields entry e0 _ he hpar hch hmode ⟨hns, hmax, b3, hlen⟩ ?_
    show 1 ≤ e.nlink ∧ _
    rw [hnl]; exact hl
  · refine h.upd_fields entry e0 _ he hpar hch hmode ⟨b1, b2, b3, hlen⟩ ?_
    show 1 ≤ e.nlink ∧ _
    rw [hnl]; exact hl

theorem Inv.write {s : vtfs_storage} (h : Inv s) (alloc : Option (Nat → Nat)) (now : Nat)
    (entry : Ptr) (buffer : List Nat) (len : Nat) (offset : Int) :
    Inv (vtfs_storage_write s alloc now entry buffer len offset).1 := by
  have hM : VTFS_MAX_FILE_SIZE = 1048576 := by decide
  unfold vtfs_storage_write
  cases he : s.mem entry with
  | none => exact h
  | some e =>
    obtain ⟨b1, b2, b3, b4⟩ := h.buf entry e he
    rw [hM] at b2 b3
    simp only
    split
    · exact h
    · split
      · exact h
      · rename_i hbig
        rw [hM] at hbig
        split
        · rename_i hgrow
          have h6 : e.capacity * 2 % 18446744073709551616 = e.capacity * 2 :=
            Nat.mod_eq_of_lt (by omega)
          rw [h6]
          generalize (to_size_t offset + len) % 18446744073709551616 = N at hbig hgrow ⊢
          have key : N ≤ (if max N (e.capacity * 2) < 64 then 64 else max N (e.capacity * 2)) ∧
              (if max N (e.capacity * 2) < 64 then 64 else max N (e.capacity * 2)) ≤
                2 * 1048576 := by
            split <;> omega
          generalize (if max N (e.capacity * 2) < 64 then 64 else max N (e.capacity * 2)) = C
            at key ⊢
          cases hk : krealloc alloc e.data C with
          | none => exact h
          | some d =>
            have hd := krealloc_length _ _ _ _ hk
            simp only
            refine h.tail_write now entry e _ buffer len _ _ he ?_ ?_ ?_ ?_ ?_ ?_ ?_
            · rfl
            · rfl
            · rfl
            · rfl
            · refine ⟨?_, ?_, ?_, ?_⟩
              · show e.size ≤ C
                omega
              · show e.size ≤ VTFS_MAX_FILE_SIZE
                omega
              · show C ≤ 2 * VTFS_MAX_FILE_SIZE
                rw [hM]; omega
              · show (Option.getD (some _) []).length = _
                simp only [Option.getD_some]
                split <;> simp [hd]
            · show N ≤ C
              omega
            · rw [hM]; omega
        · rename_i hfit
          refine h.tail_write now entry e e buffer len _ _ he rfl rfl rfl rfl
            ⟨b1, by rw [hM]; exact b2, by rw [hM]; exact b3, b4⟩ ?_ ?_
          · omega
          · rw [hM]; omega

theorem Reach.inv {ok : CStr → Prop} {s : vtfs_storage} (h : Reach ok s) : Inv s := by
  induction h with
  | init p now => exact Inv.init p now
  | create s kz now parent name mode ino skip _ hf _ ih =>
    exact ih.create kz now parent name mode ino skip hf
  | delete s e _ ih => exact ih.delete e
  | read s now e buffer len offset _ ih => exact ih.read now e buffer len offset
  | write s alloc now e buffer len offset _ ih => exact ih.write alloc now e buffer len offset
  | add_link s e parent name _ ih => exact ih.add_link e parent name

theorem buf_ok_written_inplace (e : vtfs_entry) (now : Nat) (buffer : List Nat) (len off : Nat)
    (hb : buf_ok e) (hsum : off + len ≤ VTFS_MAX_FILE_SIZE) (hfit : off + len ≤ e.capacity) :
    buf_ok (written_inplace e now buffer len off) := by
  obtain ⟨b1, b2, b3, b4⟩ := hb
  refine ⟨?_, ?_, b3, ?_⟩
  · show (if off + len > e.size then off + len else e.size) ≤ e.capacity
    split <;> omega
  · show (if off + len > e.size then off + len else e.size) ≤ VTFS_MAX_FILE_SIZE
    split <;> omega
  · show ((e.data.map (fun d => memcpy d off buffer len)).getD []).length = e.capacity
    rw [← b4]
    cases e.data <;> simp

theorem byte_at_written_inplace (e : vtfs_entry) (now : Nat) (buffer : List Nat)
    (len off : Nat) (hb : buf_ok e) (hfit : off + len ≤ e.capacity) (i : Nat) :
    byte_at (written_inplace e now buffer len off) i =
      if off ≤ i ∧ i < off + len then buffer.getD (i - off) 0 else byte_at e i := by
  obtain ⟨_, _, _, b4⟩ := hb
  unfold byte_at written_inplace
  cases hd : e.data with
  | none =>
    rw [hd] at b4
    simp at b4
    have : ¬ (off ≤ i ∧ i < off + len) := by omega
    simp [this]
  | some d =>
    rw [hd] at b4
    simp only [Option.getD_some] at b4
    simp only [Option.map_some', Option.getD_some]
    rw [memcpy_getD]
    by_cases hi : i < d.length
    · simp [hi]
    · have h1 : ¬ (off ≤ i ∧ i < off + len) := by omega
      have h2 : d.getD i 0 = 0 := by
        rw [List.getD_eq_getElem?_getD, List.getElem?_eq_none (by omega)]; rfl
      rw [if_neg hi, if_neg h1, h2]

theorem grown_capacity_bounds (e : vtfs_entry) (len off : Nat) :
    off + len ≤ grown_capacity e len off ∧ e.capacity * 2 ≤ grown_capacity e len off ∧
      64 ≤ grown_capacity e len off ∧
      (grown_capacity e len off = 64 ∨ grown_capacity e len off = off + len ∨
        grown_capacity e len off = e.capacity * 2) := by
  unfold grown_capacity
  split <;> omega

theorem grown_block_length (e : vtfs_entry) (fill : Nat → Nat) (len off : Nat) :
    (grown_block e fill len off).length = grown_capacity e len off := by
  simp [grown_block]

theorem grown_block_getD (e : vtfs_entry) (fill : Nat → Nat) (len off : Nat)
    (hb : buf_ok e) (i : Nat) :
    (grown_block e fill len off).getD i 0 =
      if i < grown_capacity e len off then (if i < e.capacity then byte_at e i else fill i)
      else 0 := by
  obtain ⟨_, _, _, b4⟩ := hb
  unfold grown_block
  rw [getD_range_map]
  by_cases h1 : i < grown_capacity e len off
  · simp only [h1, if_true]
    by_cases h2 : i < e.capacity
    · simp only [h2, if_true, byte_at]
      rw [List.getD_eq_getElem?_getD, List.getD_eq_getElem?_getD,
        List.getElem?_eq_getElem (by omega)]
      rfl
    · simp only [h2, if_false]
      rw [List.getD_eq_getElem?_getD, List.getElem?_eq_none (by omega)]
      rfl
  · simp [h1]

theorem buf_ok_written_grown (e : vtfs_entry) (fill : Nat → Nat) (now : Nat)
    (buffer : List Nat) (len off : Nat)
    (hb : buf_ok e) (hsum : off + len ≤ VTFS_MAX_FILE_SIZE) (hfit : e.capacity < off + len) :
    buf_ok (written_grown e fill now buffer len off) := by
  obtain ⟨b1, b2, b3, b4⟩ := hb
  have hM : VTFS_MAX_FILE_SIZE = 1048576 := by decide
  rw [hM] at b2 b3 hsum
  obtain ⟨g1, g2, g3, g4⟩ := grown_capacity_bounds e len off
  refine ⟨?_, ?_, ?_, ?_⟩
  · show (if off + len > e.size then off + len else e.size) ≤ grown_capacity e len off
    split <;> omega
  · show (if off + len > e.size then off + len else e.size) ≤ VTFS_MAX_FILE_SIZE
    rw [hM]; split <;> omega
  · show grown_capacity e len off ≤ 2 * VTFS_MAX_FILE_SIZE
    rw [hM]; omega
  · show (Option.getD (some _) []).length = grown_capacity e len off
    simp only [Option.getD_some, memcpy_length]
    split <;> simp [grown_block_length]

theorem byte_at_written_grown (e : vtfs_entry) (fill : Nat → Nat) (now : Nat)
    (buffer : List Nat) (len off : Nat) (hb : buf_ok e) (hfit : e.capacity < off + len)
    (i : Nat) :
    byte_at (written_grown e fill now buffer len off) i =
      if off ≤ i ∧ i < off + len then buffer.getD (i - off) 0
      else if e.size ≤ i ∧ i < off then 0
      else if i < e.capacity then byte_at e i
      else if i < grown_capacity e len off then fill i
      else 0 := by
  obtain ⟨g1, g2, g3, g4⟩ := grown_capacity_bounds e len off
  have hb1 := hb.1
  have hblk := grown_block_getD e fill len off hb
  show (Option.getD (some _) []).getD i 0 = _
  simp only [Option.getD_some]
  rw [memcpy_getD]
  by_cases hz : off > e.size
  · simp only [hz, if_true, memset_length, grown_block_length, memset_getD, hblk]
    by_cases h1 : i < grown_capacity e len off
    · simp only [h1, if_true]
      by_cases h2 : off ≤ i ∧ i < off + len
      · simp [h2]
      · simp only [h2, if_false]
        by_cases h3 : e.size ≤ i ∧ i < off
        · have : e.size ≤ i ∧ i < e.size + (off - e.size) := by omega
          simp [h3, this]
        · have : ¬ (e.size ≤ i ∧ i < e.size + (off - e.size)) := by omega
          simp [h3, this]
    · have h2 : ¬ (off ≤ i ∧ i < off + len) := by omega
      have h3 : ¬ (e.size ≤ i ∧ i < off) := by omega
      have h4 : ¬ (i < e.capacity) := by omega
      simp [h1, h2, h3, h4]
  · simp only [hz, if_false, grown_block_length, hblk]
    have h3 : ¬ (e.size ≤ i ∧ i < off) := by omega
    by_cases h1 : i < grown_capacity e len off
    · simp only [h1, if_true, h3, if_false]
    · have h2 : ¬ (off ≤ i ∧ i < off + len) := by omega
      have h4 : ¬ (i < e.capacity) := by omega
      simp [h1, h2, h3, h4]

theorem write_spec (s : vtfs_storage) (alloc : Option (Nat → Nat)) (now : Nat) (entry : Ptr)
    (e : vtfs_entry) (buffer : List Nat) (len off : Nat)
    (he : s.mem entry = some e) (hreg : S_ISREG e.mode = true) (hb : buf_ok e)
    (hsum : off + len ≤ VTFS_MAX_FILE_SIZE)
    (hmem : e.capacity < off + len → alloc ≠ none) :
    ∃ e1, vtfs_storage_write s alloc now entry buffer len (off : Int) =
        ({ s with mem := upd s.mem entry (some e1) }, (len : Int)) ∧
      e1.mode = e.mode ∧ buf_ok e1 ∧
      e1.size = max e.size (off + len) ∧
      (∀ i, off ≤ i → i < off + len → byte_at e1 i = buffer.getD (i - off) 0) ∧
      (∀ i, i < e.size → ¬ (off ≤ i ∧ i < off + len) → byte_at e1 i = byte_at e i) ∧
      (e.capacity < off + len → ∀ i, e.size ≤ i → i < off → byte_at e1 i = 0) := by
  by_cases hfit : off + len ≤ e.capacity
  · refine ⟨written_inplace e now buffer len off,
      write_inplace s alloc now entry e buffer len off he hreg hsum hfit, rfl,
      buf_ok_written_inplace e now buffer len off hb hsum hfit, ?_, ?_, ?_, ?_⟩
    · show (if off + len > e.size then off + len else e.size) = max e.size (off + len)
      split <;> omega
    · intro i h1 h2
      rw [byte_at_written_inplace e now buffer len off hb hfit, if_pos ⟨h1, h2⟩]
    · intro i _ h2
      rw [byte_at_written_inplace e now buffer len off hb hfit, if_neg h2]
    · intro h; omega
  · have hgrow : e.capacity < off + len := by omega
    cases alloc with
    | none => exact absurd rfl (hmem hgrow)
    | some fill =>
      refine ⟨written_grown e fill now buffer len off,
        write_grow s fill now entry e buffer len off he hreg hsum hgrow, rfl,
        buf_ok_written_grown e fill now buffer len off hb hsum hgrow, ?_, ?_, ?_, ?_⟩
      · show (if off + len > e.size then off + len else e.size) = max e.size (off + len)
        split <;> omega
      · intro i h1 h2
        rw [byte_at_written_grown e fill now buffer len off hb hgrow, if_pos ⟨h1, h2⟩]
      · intro i h1 h2
        have := hb.1
        rw [byte_at_written_grown e fill now buffer len off hb hgrow, if_neg h2,
          if_neg (by omega), if_pos (by omega)]
      · intro _ i h1 h2
        rw [byte_at_written_grown e fill now buffer len off hb hgrow, if_neg (by omega),
          if_pos ⟨h1, h2⟩]

theorem getD_drop (d : List Nat) (off i : Nat) : (d.drop off).getD i 0 = d.getD (off + i) 0 := by
  rw [List.getD_eq_getElem?_getD, List.getD_eq_getElem?_getD, List.getElem?_drop]

/-- what a read at an offset below the stored size returns -/
theorem read_hit (s : vtfs_storage) (now : Nat) (entry : Ptr) (e : vtfs_entry)
    (buffer : List Nat) (len off : Nat)
    (he : s.mem entry = some e) (hreg : S_ISREG e.mode = true) (hb : buf_ok e)
    (hlt : off < e.size) :
    vtfs_storage_read s now entry buffer len (off : Int) =
      ({ s with mem := upd s.mem entry (some { e with atime := now }) },
        ((min len (e.size - off) : Nat) : Int),
        (List.range buffer.length).map (fun i =>
          if i < min len (e.size - off) then byte_at e (off + i) else buffer.getD i 0)) := by
  obtain ⟨b1, b2, b3, b4⟩ := hb
  have hM : VTFS_MAX_FILE_SIZE = 1048576 := by decide
  rw [hM] at b2 b3
  have h1 : to_size_t (off : Int) = off := to_size_t_ofNat off (by omega)
  have h3 : to_int (min len (e.size - off)) = ((min len (e.size - off) : Nat) : Int) :=
    to_int_small _ (by omega)
  have h4 : ¬ (off ≥ e.size) := by omega
  unfold vtfs_storage_read
  rw [he]
  simp only [hreg, h1, h4, if_false, Bool.not_true, Bool.false_eq_true, h3]
  refine Prod.ext rfl (Prod.ext rfl ?_)
  show _ = _
  simp only
  cases hd : e.data with
  | none =>
    rw [hd] at b4; simp at b4; omega
  | some d =>
    simp only
    by_cases hn : min len (e.size - off) > 0
    · simp only [hn, if_true, memcpy]
      apply List.map_congr_left
      intro i _
      simp only [Nat.zero_le, true_and, Nat.zero_add, Nat.sub_zero, byte_at, hd,
        Option.getD_some, getD_drop]
    · simp only [hn, if_false]
      apply List.ext_getElem
      · simp
      · intro i h5 h6
        have : ¬ (i < len ∧ i < e.size - off) := by omega
        simp [this, List.getD_eq_getElem?_getD, List.getElem?_eq_getElem h5]

theorem read_miss (s : vtfs_storage) (now : Nat) (entry : Ptr) (e : vtfs_entry)
    (buffer : List Nat) (len off : Nat)
    (he : s.mem entry = some e) (hreg : S_ISREG e.mode = true)
    (hoff : off < 18446744073709551616) (hge : e.size ≤ off) :
    vtfs_storage_read s now entry buffer len (off : Int) = (s, 0, buffer) := by
  have h1 : to_size_t (off : Int) = off := to_size_t_ofNat off hoff
  unfold vtfs_storage_read
  simp only [he, hreg, h1]
  have h4 : off ≥ e.size := hge
  simp only [h4, if_true, Bool.not_true, Bool.false_eq_true, if_false]

/-! ## Read and write -/

theorem range_map_getD (l : List Nat) :
    (List.range l.length).map (fun i => l.getD i 0) = l := by
  apply List.ext_getElem
  · simp
  · intro i h1 h2
    simp [List.getD_eq_getElem?_getD, List.getElem?_eq_getElem h2]

theorem read_not_regular (s : vtfs_storage) (now : Nat) (entry : Ptr) (e : vtfs_entry)
    (buffer : List Nat) (len : Nat) (offset : Int)
    (he : s.mem entry = some e) (hreg : S_ISREG e.mode = false) :
    vtfs_storage_read s now entry buffer len offset = (s, -EINVAL, buffer) := by
  unfold vtfs_storage_read
  simp only [he, hreg, Bool.not_false, if_true]

theorem ex_root_reach (ok : CStr → Prop) : Reach ok ex_root := Reach.init 1 0

theorem ex_file_reach (ok : CStr → Prop) (h : ok [97]) : Reach ok ex_file :=
  Reach.create ex_root (some 2) 0 1 [97] (S_IFREG ||| 0o644) 0 false (ex_root_reach ok)
    (fun p hp => by cases hp; rfl) h

/-- The part of C3 that holds: when the write past the end has to grow the buffer, the gap
between the old size and the offset reads back as zero bytes. -/
theorem sparse_write_zero_fill_when_grown (s : vtfs_storage) (hs : Reachable s) (entry : Ptr)
    (e : vtfs_entry) (he : s.mem entry = some e) (hreg : S_ISREG e.mode = true)
    (fill : Nat → Nat) (now1 now2 : Nat) (buffer out : List Nat) (len off : Nat)
    (hgap : e.size < off) (hsum : off + len ≤ VTFS_MAX_FILE_SIZE)
    (hgrow : e.capacity < off + len) (hout : out.length = off - e.size) :
    (vtfs_storage_read (vtfs_storage_write s (some fill) now1 entry buffer len (off : Int)).1
      now2 entry out (off - e.size) (e.size : Int)).2 =
      (((off - e.size : Nat) : Int), List.replicate (off - e.size) 0) := by
  have hb := hs.inv.buf entry e he
  obtain ⟨e1, hw, hmode, hb1, hsize, _, _, hzero⟩ :=
    write_spec s (some fill) now1 entry e buffer len off he hreg hb hsum (fun _ => by simp)
  rw [hw]
  dsimp only
  have he1 : ({ s with mem := upd s.mem entry (some e1) } : vtfs_storage).mem entry = some e1 := by
    simp
  have hreg1 : S_ISREG e1.mode = true := by rw [hmode]; exact hreg
  rw [read_hit _ now2 entry e1 out (off - e.size) e.size he1 hreg1 hb1 (by rw [hsize]; omega)]
  have hmin : min (off - e.size) (e1.size - e.size) = off - e.size := by rw [hsize]; omega
  rw [hmin]
  refine Prod.ext rfl ?_
  show _ = List.replicate (off - e.size) 0
  apply List.ext_getElem
  · simp [hout]
  · intro i h1 h2
    have h3 : i < off - e.size := by simpa using h2
    simp only [List.getElem_map, List.getElem_range, List.getElem_replicate, if_pos h3]
    exact hzero hgrow (e.size + i) (by omega) (by omega)

/-- The other half of the C3 finding: when the write past the end fits the buffer, every byte
of the gap between the old size and the offset keeps the value it had before the write. -/
theorem sparse_write_gap_kept_when_not_grown (s : vtfs_storage) (hs : Reachable s)
    (entry : Ptr) (e : vtfs_entry) (he : s.mem entry = some e) (hreg : S_ISREG e.mode = true)
    (alloc : Option (Nat → Nat)) (now : Nat) (buffer : List Nat) (len off : Nat)
    (hsum : off + len ≤ VTFS_MAX_FILE_SIZE) (hfit : off + len ≤ e.capacity) :
    ∃ e1, (vtfs_storage_write s alloc now entry buffer len (off : Int)).1.mem entry = some e1 ∧
      ∀ i, e.size ≤ i → i < off → byte_at e1 i = byte_at e i := by
  have hb := hs.inv.buf entry e he
  rw [write_inplace s alloc now entry e buffer len off he hreg hsum hfit]
  refine ⟨written_inplace e now buffer len off, upd_same _ _ _, ?_⟩
  intro i _ h2
  rw [byte_at_written_inplace e now buffer len off hb hfit, if_neg (by omega)]

theorem UniqueNames.of_shrink {s t : vtfs_storage} (hu : UniqueNames s)
    (hsub : ∀ q qe1, t.mem q = some qe1 →
      ∃ qe, s.mem q = some qe ∧ qe1.children ⊆ qe.children ∧ qe1.name = qe.name) :
    UniqueNames t := by
  intro q qe1 hq c1 hc1 c2 hc2 e1 e2 h1 h2 hname
  obtain ⟨qe, hq0, hsubq, _⟩ := hsub q qe1 hq
  obtain ⟨x1, hx1, _, hn1⟩ := hsub c1 e1 h1
  obtain ⟨x2, hx2, _, hn2⟩ := hsub c2 e2 h2
  exact hu q qe hq0 c1 (hsubq hc1) c2 (hsubq hc2) x1 x2 hx1 hx2 (by rw [← hn1, ← hn2]; exact hname)

theorem UniqueNames.names_upd_fields {s : vtfs_storage} (hu : UniqueNames s) (p : Ptr)
    (e e1 : vtfs_entry) (hp : s.mem p = some e) (hch : e1.children = e.children)
    (hname : e1.name = e.name) :
    UniqueNames { s with mem := upd s.mem p (some e1) } := by
  apply hu.of_shrink
  intro q qe1 hq
  rcases upd_eq_some _ _ _ _ _ hq with ⟨rfl, rfl⟩ | ⟨_, hq0⟩
  · exact ⟨e, hp, by rw [hch]; exact List.Subset.refl _, hname⟩
  · exact ⟨qe1, hq0, List.Subset.refl _, rfl⟩

theorem UniqueNames.names_removed {s : vtfs_storage} (hu : UniqueNames s) (e : Ptr)
    (ent : vtfs_entry) (hpe : ent.parent ≠ some e) :
    UniqueNames { s with mem := removed_heap s.mem e ent,
                         all_entries := s.all_entries.filter (fun c => decide (c ≠ e)) } := by
  apply hu.of_shrink
  intro q qe1 hq
  have hq' : removed_heap s.mem e ent q = some qe1 := hq
  have hqe : q ≠ e := by
    intro hh; rw [hh, removed_heap_self] at hq'; cases hq'
  rw [removed_heap_other s.mem e ent hpe q hqe] at hq'
  cases hmq : s.mem q with
  | none => rw [hmq] at hq'; cases hq'
  | some qe =>
    rw [hmq] at hq'
    simp only [Option.map_some'] at hq'
    cases hq'
    exact ⟨qe, rfl, (List.filter_sublist qe.children).subset, rfl⟩

theorem lookup_none_no_child (s : vtfs_storage) (D : Ptr) (d : vtfs_entry) (N : CStr)
    (hD : s.mem D = some d) (hdir : S_ISDIR d.mode = true)
    (h : vtfs_storage_lookup s D N = none) :
    ∀ c ∈ d.children, ∀ ce, s.mem c = some ce → ce.name ≠ N := by
  unfold vtfs_storage_lookup at h
  simp only [hD, hdir, Bool.not_true, Bool.false_eq_true, if_false] at h
  rw [List.find?_eq_none] at h
  intro c hc ce hce hname
  have := h c hc
  rw [hce] at this
  simp [hname] at this

theorem UniqueNames.names_add_child {s : vtfs_storage} (hu : UniqueNames s) (hi : Inv s) (D : Ptr)
    (d d1 ne : vtfs_entry) (p : Ptr) (n : Nat)
    (hD : s.mem D = some d) (hp : s.mem p = none)
    (hd1c : d1.children = p :: d.children) (hd1n : d1.name = d.name)
    (hnec : ne.children = [])
    (hN : ∀ c ∈ d.children, ∀ ce, s.mem c = some ce → ce.name ≠ ne.name) :
    UniqueNames { root := s.root, all_entries := p :: s.all_entries, next_ino := n,
                  mem := upd (upd s.mem p (some ne)) D (some d1) } := by
  have hpD : p ≠ D := by
    intro hh; rw [hh, hD] at hp; cases hp
  have mD : upd (upd s.mem p (some ne)) D (some d1) D = some d1 := by simp
  have mp : upd (upd s.mem p (some ne)) D (some d1) p = some ne := by
    rw [upd_other _ _ _ _ hpD]; simp
  have mo : ∀ x, x ≠ D → x ≠ p → upd (upd s.mem p (some ne)) D (some d1) x = s.mem x := by
    intro x h1 h2
    rw [upd_other _ _ _ _ h1, upd_other _ _ _ _ h2]
  have old : ∀ c ce1, c ≠ p → upd (upd s.mem p (some ne)) D (some d1) c = some ce1 →
      ∃ ce, s.mem c = some ce ∧ ce1.name = ce.name := by
    intro c ce1 hcp hc
    by_cases hcD : c = D
    · subst hcD; rw [mD] at hc; cases hc; exact ⟨d, hD, hd1n⟩
    · rw [mo c hcD hcp] at hc; exact ⟨ce1, hc, rfl⟩
  intro q qe1 hq c1 hc1 c2 hc2 e1 e2 h1 h2 hname
  have hq' : upd (upd s.mem p (some ne)) D (some d1) q = some qe1 := hq
  have h1' : upd (upd s.mem p (some ne)) D (some d1) c1 = some e1 := h1
  have h2' : upd (upd s.mem p (some ne)) D (some d1) c2 = some e2 := h2
  by_cases hqD : q = D
  · subst hqD
    rw [mD] at hq'; cases hq'
    rw [hd1c] at hc1 hc2
    rcases List.mem_cons.1 hc1 with h1p | h1o
    · rcases List.mem_cons.1 hc2 with h2p | h2o
      · rw [h1p, h2p]
      · exfalso
        rw [h1p, mp] at h1'; cases h1'
        have hc2p : c2 ≠ p := fun hh => hi.fresh_not_child p hp q d hD (hh ▸ h2o)
        obtain ⟨ce, hce, hn⟩ := old c2 e2 hc2p h2'
        exact hN c2 h2o ce hce (by rw [← hn, ← hname])
    · have hc1p : c1 ≠ p := fun hh => hi.fresh_not_child p hp q d hD (hh ▸ h1o)
      obtain ⟨x1, hx1, hn1⟩ := old c1 e1 hc1p h1'
      rcases List.mem_cons.1 hc2 with h2p | h2o
      · exfalso
        rw [h2p, mp] at h2'; cases h2'
        exact hN c1 h1o x1 hx1 (by rw [← hn1, hname])
      · have hc2p : c2 ≠ p := fun hh => hi.fresh_not_child p hp q d hD (hh ▸ h2o)
        obtain ⟨x2, hx2, hn2⟩ := old c2 e2 hc2p h2'
        exact hu q d hD c1 h1o c2 h2o x1 x2 hx1 hx2 (by rw [← hn1, ← hn2]; exact hname)
  · by_cases hqp : q = p
    · subst hqp
      rw [mp] at hq'; cases hq'
      rw [hnec] at hc1; cases hc1
    · rw [mo q hqD hqp] at hq'
      have hc1p : c1 ≠ p := fun hh => hi.fresh_not_child p hp q qe1 hq' (hh ▸ hc1)
      have hc2p : c2 ≠ p := fun hh => hi.fresh_not_child p hp q qe1 hq' (hh ▸ hc2)
      obtain ⟨x1, hx1, hn1⟩ := old c1 e1 hc1p h1'
      obtain ⟨x2, hx2, hn2⟩ := old c2 e2 hc2p h2'
      exact hu q qe1 hq' c1 hc1 c2 hc2 x1 x2 hx1 hx2 (by rw [← hn1, ← hn2]; exact hname)

theorem write_tail_shape (s : vtfs_storage) (now : Nat) (entry : Ptr) (e : vtfs_entry)
    (buffer : List Nat) (len off new_size : Nat) :
    ∃ e1, (write_tail s now entry e buffer len off new_size).1 =
        { s with mem := upd s.mem entry (some e1) } ∧
      e1.children = e.children ∧ e1.name = e.name ∧ e1.parent = e.parent ∧
      e1.mode = e.mode ∧ e1.nlink = e.nlink ∧ e1.ino = e.ino := by
  unfold write_tail
  simp only
  split
  · exact ⟨_, rfl, rfl, rfl, rfl, rfl, rfl, rfl⟩
  · exact ⟨_, rfl, rfl, rfl, rfl, rfl, rfl, rfl⟩

theorem write_shape (s : vtfs_storage) (alloc : Option (Nat → Nat)) (now : Nat) (entry : Ptr)
    (buffer : List Nat) (len : Nat) (offset : Int) :
    (vtfs_storage_write s alloc now entry buffer len offset).1 = s ∨
    ∃ e e1, s.mem entry = some e ∧
      (vtfs_storage_write s alloc now entry buffer len offset).1 =
        { s with mem := upd s.mem entry (some e1) } ∧
      e1.children = e.children ∧ e1.name = e.name ∧ e1.parent = e.parent ∧
      e1.mode = e.mode ∧ e1.nlink = e.nlink ∧ e1.ino = e.ino := by
  unfold vtfs_storage_write
  cases he : s.mem entry with
  | none => exact Or.inl rfl
  | some e =>
    simp only
    split
    · exact Or.inl rfl
    · split
      · exact Or.inl rfl
      · split
        · split
          · exact Or.inl rfl
          · obtain ⟨e1, h1, h2⟩ := write_tail_shape s now entry _ buffer len
              (to_size_t offset) ((to_size_t offset + len) % 18446744073709551616)
            exact Or.inr ⟨e, e1, rfl, h1, h2⟩
        · obtain ⟨e1, h1, h2⟩ := write_tail_shape s now entry e buffer len
            (to_size_t offset) ((to_size_t offset + len) % 18446744073709551616)
          exact Or.inr ⟨e, e1, rfl, h1, h2⟩

theorem read_shape (s : vtfs_storage) (now : Nat) (entry : Ptr) (buffer : List Nat)
    (len : Nat) (offset : Int) :
    (vtfs_storage_read s now entry buffer len offset).1 = s ∨
    ∃ e, s.mem entry = some e ∧
      (vtfs_storage_read s now entry buffer len offset).1 =
        { s with mem := upd s.mem entry (some { e with atime := now }) } := by
  unfold vtfs_storage_read
  cases he : s.mem entry with
  | none => exact Or.inl rfl
  | some e =>
    simp only
    split
    · exact Or.inl rfl
    · split
      · exact Or.inl rfl
      · exact Or.inr ⟨e, rfl, rfl⟩

theorem add_link_shape (s : vtfs_storage) (entry parent : Ptr) (name : CStr) :
    (vtfs_storage_add_link s entry parent name).1 = s ∨
    ∃ e, s.mem entry = some e ∧
      (vtfs_storage_add_link s entry parent name).1 =
        { s with mem := upd s.mem entry (some { e with nlink := e.nlink + 1 }) } := by
  unfold vtfs_storage_add_link
  cases he : s.mem entry with
  | none => exact Or.inl rfl
  | some e =>
    cases hp : s.mem parent with
    | none => exact Or.inl rfl
    | some pe =>
      simp only
      split
      · exact Or.inl rfl
      · exact Or.inr ⟨e, rfl, rfl⟩

/-- the outcomes of a delete -/
theorem delete_shape (s : vtfs_storage) (hi : Inv s) (e : Ptr) :
    (vtfs_storage_delete_entry s e).1 = s ∨
    (∃ ent, s.mem e = some ent ∧ s.root ≠ some e ∧ ent.children = [] ∧
      nlink_dec ent.nlink ≠ 0 ∧
      vtfs_storage_delete_entry s e =
        ({ s with mem := upd s.mem e (some { ent with nlink := nlink_dec ent.nlink }) }, 0)) ∨
    (∃ ent, s.mem e = some ent ∧ s.root ≠ some e ∧ ent.children = [] ∧ ent.nlink = 1 ∧
      vtfs_storage_delete_entry s e =
        ({ s with mem := removed_heap s.mem e ent,
                  all_entries := s.all_entries.filter (fun c => decide (c ≠ e)) }, 0)) := by
  cases he : s.mem e with
  | none => left; unfold vtfs_storage_delete_entry; rw [he]
  | some ent =>
    by_cases hroot : s.root = some e
    · left; unfold vtfs_storage_delete_entry; simp only [he, hroot, if_true]
    · cases hg : (S_ISDIR ent.mode && !ent.children.isEmpty) with
      | true =>
        left; unfold vtfs_storage_delete_entry; simp only [he, hroot, if_false, hg, if_true]
      | false =>
        have hch := hi.no_children e ent he hg
        by_cases hn : nlink_dec ent.nlink = 0
        · right; right
          exact ⟨ent, rfl, hroot, hch, nlink_dec_eq_zero _ hn,
            delete_removed s e ent he hroot (fun _ => hch) hn⟩
        · right; left
          exact ⟨ent, rfl, hroot, hch, hn, delete_kept s e ent he hroot (fun _ => hch) hn⟩

theorem Inv.parent_ne {s : vtfs_storage} (hi : Inv s) (e : Ptr) (ent : vtfs_entry)
    (he : s.mem e = some ent) (hroot : s.root ≠ some e) (hch : ent.children = []) :
    ent.parent ≠ some e := by
  obtain ⟨q, qe, hq1, hq2, hq3⟩ := hi.has_parent e ent he hroot
  rw [hq1]
  intro hh
  cases hh
  rw [he] at hq2; cases hq2
  rw [hch] at hq3; cases hq3

theorem ReachableShort.inv_short {s : vtfs_storage} (h : ReachableShort s) : Inv s := Reach.inv h

theorem ReachableShort.unique_names {s : vtfs_storage} (h : ReachableShort s) :
    UniqueNames s := by
  unfold ReachableShort at h
  induction h with
  | init p now =>
    intro q qe hq c1 hc1
    have hi := Inv.init p now
    obtain ⟨_, ce, hce, hpar⟩ := hi.child_live q qe hq c1 hc1
    obtain ⟨_, _, _, hcc⟩ := hi.has_parent c1 ce hce (by
      intro hr
      obtain ⟨r, re, h1, h2, h3, _⟩ := hi.root_live
      rw [h1] at hr; cases hr
      exact (hi.child_live q qe hq c1 hc1).1 h1)
    simp only [vtfs_storage_init, alloc_entry] at hq hce
    by_cases hq1 : q = p
    · subst hq1; simp at hq; subst hq; cases hc1
    · rw [upd_other _ _ _ _ hq1] at hq; cases hq
  | create s kz now parent name mode ino skip hr hf hok ih =>
    have hi : Inv s := Reach.inv hr
    cases hD : s.mem parent with
    | none => unfold create_entry_internal; rw [hD]; exact ih
    | some d =>
      by_cases hdir : S_ISDIR d.mode = true
      · cases hl : vtfs_storage_lookup s parent name with
        | some c => rw [create_existing s kz now parent name mode ino skip c hl]; exact ih
        | none =>
          cases kz with
          | none =>
            unfold create_entry_internal
            simp only [hD, hdir, hl, alloc_entry]
            by_cases h0 : ino = 0
            · simp [h0]; exact ih
            · simp [h0]; exact ih
          | some p =>
            rw [create_ok s parent d name mode ino p now skip hD hdir hl]
            have hname : List.take VTFS_MAX_NAME_LEN name = name := List.take_of_length_le hok
            refine UniqueNames.names_add_child ih hi parent d _ (fresh_entry now name mode
              (if ino = 0 then s.next_ino else ino) parent) p _ hD (hf p rfl) rfl rfl rfl ?_
            show ∀ c ∈ d.children, ∀ ce, s.mem c = some ce →
              ce.name ≠ List.take VTFS_MAX_NAME_LEN name
            rw [hname]
            exact lookup_none_no_child s parent d name hD hdir hl
      · unfold create_entry_internal
        simp only [hD, hdir]
        exact ih
  | delete s e hr ih =>
    have hi : Inv s := Reach.inv hr
    rcases delete_shape s hi e with h1 | ⟨ent, he, _, _, _, h2⟩ | ⟨ent, he, hroot, hch, _, h2⟩
    · rw [h1]; exact ih
    · rw [h2]; exact ih.names_upd_fields e ent _ he rfl rfl
    · rw [h2]; exact ih.names_removed e ent (hi.parent_ne e ent he hroot hch)
  | read s now e buffer len offset _ ih =>
    rcases read_shape s now e buffer len offset with h1 | ⟨ent, he, h2⟩
    · rw [h1]; exact ih
    · rw [h2]; exact ih.names_upd_fields e ent _ he rfl rfl
  | write s alloc now e buffer len offset _ ih =>
    rcases write_shape s alloc now e buffer len offset with h1 | ⟨ent, e1, he, h2, h3, h4, _⟩
    · rw [h1]; exact ih
    · rw [h2]; exact ih.names_upd_fields e ent e1 he h3 h4
  | add_link s e parent name _ ih =>
    rcases add_link_shape s e parent name with h1 | ⟨ent, he, h2⟩
    · rw [h1]; exact ih
    · rw [h2]; exact ih.names_upd_fields e ent _ he rfl rfl

/-! ## Deleting entries -/

theorem delete_not_empty (s : vtfs_storage) (D : Ptr) (d : vtfs_entry)
    (hD : s.mem D = some d) (hroot : s.root ≠ some D) (hdir : S_ISDIR d.mode = true)
    (hne : d.children ≠ []) :
    vtfs_storage_delete_entry s D = (s, -ENOTEMPTY) := by
  unfold vtfs_storage_delete_entry
  have : d.children.isEmpty = false := by
    cases hc : d.children with
    | nil => exact absurd hc hne
    | cons a t => rfl
  simp only [hD, hroot, if_false, hdir, this, Bool.not_false, Bool.and_self, if_true]

theorem delete_no_children_ok (s : vtfs_storage) (D : Ptr) (d : vtfs_entry)
    (hD : s.mem D = some d) (hroot : s.root ≠ some D) (hch : d.children = []) :
    (vtfs_storage_delete_entry s D).2 = 0 := by
  by_cases hn : nlink_dec d.nlink = 0
  · rw [delete_removed s D d hD hroot (fun _ => hch) hn]
  · rw [delete_kept s D d hD hroot (fun _ => hch) hn]

theorem filter_ne_cons_self (c : Ptr) (l : List Ptr) (h : c ∉ l) :
    (c :: l).filter (fun x => decide (x ≠ c)) = l := by
  have h1 : (c :: l).filter (fun x => decide (x ≠ c)) = l.filter (fun x => decide (x ≠ c)) := by
    simp [List.filter_cons]
  rw [h1, List.filter_eq_self]
  intro a ha
  have : a ≠ c := fun hh => h (hh ▸ ha)
  simpa using this

theorem delete_each_children (D : Ptr) (L : List Ptr) :
    ∀ (s : vtfs_storage) (d : vtfs_entry), Inv s → s.mem D = some d → s.root ≠ some D →
      d.children = L → (∀ c ∈ L, ∀ ce, s.mem c = some ce → ce.nlink = 1) →
      ∀ t, delete_each s L = some t →
        ∃ dt, t.mem D = some dt ∧ dt.children = [] ∧ t.root ≠ some D := by
  induction L with
  | nil =>
    intro s d _ hD hroot hch _ t ht
    simp only [delete_each] at ht
    cases ht
    exact ⟨d, hD, hch, hroot⟩
  | cons c L ih =>
    intro s d hi hD hroot hch hone t ht
    have hcmem : c ∈ d.children := by rw [hch]; exact List.mem_cons_self _ _
    obtain ⟨hcroot, ce, hce, hcpar⟩ := hi.child_live D d hD c hcmem
    have hcD : c ≠ D := fun hh => hi.not_own_child D d hD (hh ▸ hcmem)
    have hnodup : (c :: L).Nodup := by rw [← hch]; exact hi.child_nodup D d hD
    have hcL : c ∉ L := (List.nodup_cons.1 hnodup).1
    simp only [delete_each] at ht
    by_cases hret : (vtfs_storage_delete_entry s c).2 = 0
    · rw [if_pos hret] at ht
      have hcch : ce.children = [] := by
        by_contra hne
        have hd := hi.parent_dir c ce hce hne
        rw [delete_not_empty s c ce hce hcroot hd hne] at hret
        have h39 : (-ENOTEMPTY : Int) ≠ 0 := by decide
        exact h39 hret
      have hn1 : ce.nlink = 1 := hone c (List.mem_cons_self _ _) ce hce
      have hdec : nlink_dec ce.nlink = 0 := by rw [hn1]; rfl
      have hdel := delete_removed s c ce hce hcroot (fun _ => hcch) hdec
      have hpe : ce.parent ≠ some c := by
        rw [hcpar]; intro hh; cases hh; exact hcD rfl
      have val := removed_heap_other s.mem c ce hpe
      have hi1 : Inv (vtfs_storage_delete_entry s c).1 := hi.delete c
      rw [hdel] at ht hi1
      refine ih _ _ hi1 (by
          show removed_heap s.mem c ce D = _
          rw [val D (fun hh => hcD hh.symm), hD]; rfl) hroot ?_ ?_ t ht
      · show d.children.filter (fun x => decide (x ≠ c)) = L
        rw [hch]; exact filter_ne_cons_self c L hcL
      · intro c1 hc1 ce1 hce1
        have hc1c : c1 ≠ c := fun hh => hcL (hh ▸ hc1)
        have hc1mem : c1 ∈ d.children := by rw [hch]; exact List.mem_cons_of_mem _ hc1
        have hc1D : c1 ≠ D := fun hh => hi.not_own_child D d hD (hh ▸ hc1mem)
        have hce1' : removed_heap s.mem c ce c1 = some ce1 := hce1
        rw [val c1 hc1c] at hce1'
        cases hm : s.mem c1 with
        | none => rw [hm] at hce1'; cases hce1'
        | some x =>
          rw [hm] at hce1'
          simp only [Option.map_some'] at hce1'
          cases hce1'
          have hno : ¬ (S_ISDIR ce.mode = true ∧ ce.parent = some c1) := by
            rw [hcpar]; intro hh
            have := hh.2; cases this; exact hc1D rfl
          show (if S_ISDIR ce.mode = true ∧ ce.parent = some c1 then nlink_dec x.nlink
            else x.nlink) = 1
          rw [if_neg hno]
          exact hone c1 (List.mem_cons_of_mem _ hc1) x hm
    · rw [if_neg hret] at ht; cases ht

theorem ex_dir_file_reach (ok : CStr → Prop) (h1 : ok [100]) (h2 : ok [102]) :
    Reach ok ex_dir_file :=
  Reach.create _ (some 3) 0 2 [102] (S_IFREG ||| 0o644) 0 false
    (Reach.create ex_root (some 2) 0 1 [100] (S_IFDIR ||| 0o755) 0 false (ex_root_reach ok)
      (fun p hp => by cases hp; rfl) h1)
    (fun p hp => by cases hp; rfl) h2

/-! ## The hard link of the adapter -/

theorem create_some (s : vtfs_storage) (kz : Option Ptr) (now : Nat) (D : Ptr) (N : CStr)
    (mode ino : Nat) (skip : Bool) (link : Ptr)
    (h : (create_entry_internal s kz now D N mode ino skip).2 = some link) :
    kz = some link ∧ ∃ d, s.mem D = some d ∧ S_ISDIR d.mode = true ∧
      vtfs_storage_lookup s D N = none := by
  cases hD : s.mem D with
  | none => unfold create_entry_internal at h; rw [hD] at h; cases h
  | some d =>
    by_cases hdir : S_ISDIR d.mode = true
    · cases hl : vtfs_storage_lookup s D N with
      | some c => rw [create_existing s kz now D N mode ino skip c hl] at h; cases h
      | none =>
        cases kz with
        | none =>
          unfold create_entry_internal at h
          simp only [hD, hdir, hl, alloc_entry] at h
          simp at h
        | some p =>
          rw [create_ok s D d N mode ino p now skip hD hdir hl] at h
          refine ⟨by simpa using h, d, rfl, hdir, rfl⟩
    · unfold create_entry_internal at h
      simp only [hD, hdir] at h
      simp at h

/-- The store a successful `vtfs_link` leaves. -/
theorem vtfs_link_ok (s : vtfs_storage) (now old_ino dir_ino : Nat) (name : CStr)
    (target parent link : Ptr) (te d : vtfs_entry)
    (ht : vtfs_storage_get_by_ino s old_ino = some target) (hte : s.mem target = some te)
    (hdir : S_ISDIR te.mode = false)
    (hp : vtfs_storage_get_by_ino s dir_ino = some parent) (hD : s.mem parent = some d)
    (hddir : S_ISDIR d.mode = true) (hl : vtfs_storage_lookup s parent name = none)
    (hlf : s.mem link = none) :
    vtfs_link s (some link) now old_ino dir_ino name =
      ({ (create_entry_internal s (some link) now parent name te.mode te.ino false).1 with
          mem := upd (upd (create_entry_internal s (some link) now parent name te.mode te.ino
              false).1.mem link
            (some { fresh_entry now name te.mode (if te.ino = 0 then s.next_ino else te.ino)
                      parent with data := te.data, size := te.size, capacity := te.capacity }))
            target (some { te with nlink := te.nlink + 1 }) }, 0) := by
  have hlt : target ≠ link := by
    intro hh; rw [hh, hlf] at hte; cases hte
  have hlp : link ≠ parent := by
    intro hh; rw [hh, hD] at hlf; cases hlf
  have htp : target ≠ parent := by
    intro hh; rw [hh, hD] at hte; cases hte; rw [hdir] at hddir; cases hddir
  have hcr := create_ok s parent d name te.mode te.ino link now false hD hddir hl
  unfold vtfs_link
  simp only [ht, hte, hdir, hp, Bool.false_eq_true, if_false]
  unfold vtfs_storage_create_entry
  rw [hcr]
  simp only [upd_same, upd_other _ _ _ _ hlp, upd_other _ _ _ _ htp,
    upd_other _ _ _ _ hlt, hte]
  unfold vtfs_storage_add_link
  simp only [upd_same, upd_other _ _ _ _ hlp, upd_other _ _ _ _ htp,
    upd_other _ _ _ _ hlt, upd_other _ _ _ _ (Ne.symm hlp),
    upd_other _ _ _ _ (Ne.symm hlt), hte, hdir, Bool.false_eq_true, if_false,
    ne_eq, not_true_eq_false]
  rfl

/-- The general form of the C10 finding: whenever `vtfs_link` returns 0 (the new record being
placed at a free address), the entry it created for the new name has content and size of
the target, and its id when that is not 0, but link count 1, while the target has its
previous link count plus 1. -/
theorem vtfs_link_counts (s : vtfs_storage) (kz : Option Ptr) (now old_ino dir_ino : Nat)
    (name : CStr) (hfresh : ∀ p, kz = some p → s.mem p = none)
    (hret : (vtfs_link s kz now old_ino dir_ino name).2 = 0) :
    ∃ target te link le te1, vtfs_storage_get_by_ino s old_ino = some target ∧
      s.mem target = some te ∧ kz = some link ∧
      (vtfs_link s kz now old_ino dir_ino name).1.mem link = some le ∧
      (vtfs_link s kz now old_ino dir_ino name).1.mem target = some te1 ∧
      (te.ino ≠ 0 → le.ino = te.ino) ∧ le.data = te.data ∧ le.size = te.size ∧
      le.nlink = 1 ∧ te1.nlink = te.nlink + 1 := by
  have hENOENT : (-ENOENT : Int) ≠ 0 := by decide
  have hEPERM : (-EPERM : Int) ≠ 0 := by decide
  have hEEXIST : (-EEXIST : Int) ≠ 0 := by decide
  cases ht : vtfs_storage_get_by_ino s old_ino with
  | none => unfold vtfs_link at hret; rw [ht] at hret; exact absurd hret hENOENT
  | some target =>
    cases hte : s.mem target with
    | none =>
      unfold vtfs_link at hret; rw [ht] at hret; simp only [hte] at hret
      exact absurd hret hENOENT
    | some te =>
      cases hdir : S_ISDIR te.mode with
      | true =>
        unfold vtfs_link at hret; rw [ht] at hret; simp only [hte, hdir, if_true] at hret
        exact absurd hret hEPERM
      | false =>
        cases hp : vtfs_storage_get_by_ino s dir_ino with
        | none =>
          unfold vtfs_link at hret; rw [ht] at hret
          simp only [hte, hdir, hp, Bool.false_eq_true, if_false] at hret
          exact absurd hret hENOENT
        | some parent =>
          cases hc : (vtfs_storage_create_entry s kz now parent name te.mode te.ino).2 with
          | none =>
            have hcn : vtfs_storage_create_entry s kz now parent name te.mode te.ino =
                ((vtfs_storage_create_entry s kz now parent name te.mode te.ino).1, none) := by
              rw [← hc]
            unfold vtfs_link at hret; rw [ht] at hret
            simp only [hte, hdir, hp, Bool.false_eq_true, if_false] at hret
            rw [hcn] at hret
            exact absurd hret hEEXIST
          | some link =>
            obtain ⟨hkz, d, hD, hddir, hl⟩ :=
              create_some s kz now parent name te.mode te.ino false link hc
            subst hkz
            have hlf := hfresh link rfl
            have hlt : link ≠ target := by
              intro hh; rw [← hh, hlf] at hte; cases hte
            rw [vtfs_link_ok s now old_ino dir_ino name target parent link te d ht hte hdir hp
              hD hddir hl hlf]
            refine ⟨target, te, link,
              { fresh_entry now name te.mode (if te.ino = 0 then s.next_ino else te.ino)
                  parent with data := te.data, size := te.size, capacity := te.capacity },
              { te with nlink := te.nlink + 1 }, rfl, hte, rfl, ?_, ?_, ?_, rfl, rfl, rfl, rfl⟩
            · show upd (upd _ link _) target _ link = _
              rw [upd_other _ _ _ _ hlt, upd_same]
            · show upd (upd _ link _) target _ target = _
              rw [upd_same]
            · intro h0
              show (if te.ino = 0 then s.next_ino else te.ino) = te.ino
              rw [if_neg h0]

/-! ## Example stores are reachable -/

theorem ex_file_short : ReachableShort ex_file := ex_file_reach _ (by decide)

theorem ex_dir_file_reachable : Reachable ex_dir_file := ex_dir_file_reach _ trivial trivial

theorem ex_written_reachable : Reachable ex_written :=
  Reach.write ex_file (some (fun _ => 0)) 1 2 [7, 8] 2 0 (ex_file_reach _ trivial)

/-! ## The claims -/

/-- C1 (amended): for a directory `D` of the store and a name `N` of at most
`VTFS_MAX_NAME_LEN` bytes that no child of `D` bears, `vtfs_storage_create_entry(D, N, mode,
0)` (with `kzalloc` handing out an unused address) returns the new entry, whose name is `N`
and whose parent is `D`; `vtfs_storage_lookup(D, N)` then returns that entry; and a second
`vtfs_storage_create_entry(D, N, ...)`, with any mode, id and allocator answer, returns no
entry and leaves the store as it is. -/
theorem create_then_lookup (s : vtfs_storage) (D : Ptr) (d : vtfs_entry) (N : CStr)
    (mode : Nat) (p : Ptr) (now : Nat)
    (hD : s.mem D = some d) (hdir : S_ISDIR d.mode = true)
    (hN : ∀ c ∈ d.children, ∀ ce, s.mem c = some ce → ce.name ≠ N)
    (hlen : N.length ≤ VTFS_MAX_NAME_LEN)
    (hp : s.mem p = none) :
    (vtfs_storage_create_entry s (some p) now D N mode 0).2 = some p ∧
    (∃ e, (vtfs_storage_create_entry s (some p) now D N mode 0).1.mem p = some e ∧
        e.name = N ∧ e.mode = mode ∧ e.parent = some D) ∧
    vtfs_storage_lookup (vtfs_storage_create_entry s (some p) now D N mode 0).1 D N = some p ∧
    ∀ (kz : Option Ptr) (now1 mode1 ino1 : Nat),
      vtfs_storage_create_entry (vtfs_storage_create_entry s (some p) now D N mode 0).1
          kz now1 D N mode1 ino1 =
        ((vtfs_storage_create_entry s (some p) now D N mode 0).1, none) := by
  have hpD : p ≠ D := by
    intro h; rw [h, hD] at hp; exact absurd hp (by simp)
  have hmiss := lookup_none_of_no_child s D d N hD hN
  have hc := create_ok s D d N mode 0 p now false hD hdir hmiss
  have hname : List.take VTFS_MAX_NAME_LEN N = N := List.take_of_length_le hlen
  have hlook : vtfs_storage_lookup (vtfs_storage_create_entry s (some p) now D N mode 0).1 D N
      = some p := by
    unfold vtfs_storage_create_entry
    rw [hc]
    simp [vtfs_storage_lookup, hdir, upd_other _ _ _ _ hpD, hname]
  refine ⟨?_, ?_, hlook, ?_⟩
  · unfold vtfs_storage_create_entry; rw [hc]
  · unfold vtfs_storage_create_entry; rw [hc]
    simp [upd_other _ _ _ _ hpD, hname]
  · intro kz now1 mode1 ino1
    exact create_existing _ kz now1 D N mode1 ino1 false p hlook

/-- C1, an instance: the file `a` created in the root of a fresh store. -/
theorem create_then_lookup_witness :
    (vtfs_storage_create_entry ex_root (some 2) 0 1 [97] (S_IFREG ||| 0o644) 0).2 = some 2 ∧
    vtfs_storage_lookup
      (vtfs_storage_create_entry ex_root (some 2) 0 1 [97] (S_IFREG ||| 0o644) 0).1 1 [97]
      = some 2 ∧
    vtfs_storage_create_entry
      (vtfs_storage_create_entry ex_root (some 2) 0 1 [97] (S_IFREG ||| 0o644) 0).1
      (some 3) 1 1 [97] (S_IFDIR ||| 0o755) 0 =
      ((vtfs_storage_create_entry ex_root (some 2) 0 1 [97] (S_IFREG ||| 0o644) 0).1, none) :=
  have h := create_then_lookup ex_root 1 _ [97] (S_IFREG ||| 0o644) 2 0 rfl (by decide)
    (fun c hc => by cases hc) (by decide) rfl
  ⟨h.1, h.2.2.1, h.2.2.2 (some 3) 1 (S_IFDIR ||| 0o755) 0⟩

/-- C1 as stated fails for a name of 256 bytes: the entry is stored under the first 255
bytes, a lookup of the name it was created with finds nothing, and a second create of the
same name succeeds. -/
theorem create_long_name_not_found :
    (vtfs_storage_create_entry ex_root (some 2) 0 1 ex_long_name (S_IFREG ||| 0o644) 0).2
      = some 2 ∧
    vtfs_storage_lookup
      (vtfs_storage_create_entry ex_root (some 2) 0 1 ex_long_name (S_IFREG ||| 0o644) 0).1
      1 ex_long_name = none ∧
    (vtfs_storage_create_entry
      (vtfs_storage_create_entry ex_root (some 2) 0 1 ex_long_name (S_IFREG ||| 0o644) 0).1
      (some 3) 0 1 ex_long_name (S_IFREG ||| 0o644) 0).2 = some 3 := by
  set_option maxRecDepth 100000 in decide

/-- C2: in a reachable store, for a regular file, a buffer `buf` and an offset that is not
negative with `offset + |buf|` within `VTFS_MAX_FILE_SIZE`: unless the allocator fails, the
write of `buf` at `offset` returns the length of `buf`, and a read of that length at the
same offset then returns the length and leaves the caller's buffer equal to `buf`. -/
theorem write_read_roundtrip (s : vtfs_storage) (hs : Reachable s) (entry : Ptr)
    (e : vtfs_entry) (he : s.mem entry = some e) (hreg : S_ISREG e.mode = true)
    (alloc : Option (Nat → Nat)) (now1 now2 : Nat) (buf out : List Nat) (offset : Int)
    (hoff : 0 ≤ offset) (hcap : offset.toNat + buf.length ≤ VTFS_MAX_FILE_SIZE)
    (hout : out.length = buf.length)
    (hmem : (vtfs_storage_write s alloc now1 entry buf buf.length offset).2 ≠ -ENOMEM) :
    (vtfs_storage_write s alloc now1 entry buf buf.length offset).2 = (buf.length : Int) ∧
    (vtfs_storage_read (vtfs_storage_write s alloc now1 entry buf buf.length offset).1
        now2 entry out buf.length offset).2 = ((buf.length : Int), buf) := by
  obtain ⟨off, rfl⟩ := Int.eq_ofNat_of_zero_le hoff
  simp only [Int.toNat_ofNat] at hcap
  have hb := hs.inv.buf entry e he
  have hM : VTFS_MAX_FILE_SIZE = 1048576 := by decide
  have halloc : e.capacity < off + buf.length → alloc ≠ none := by
    intro hgrow hnone
    subst hnone
    exact hmem (by rw [write_enomem s now1 entry e buf buf.length off he hreg hcap hgrow])
  obtain ⟨e1, hw, hmode, hb1, hsize, hbytes, _, _⟩ :=
    write_spec s alloc now1 entry e buf buf.length off he hreg hb hcap halloc
  rw [hw]
  refine ⟨rfl, ?_⟩
  dsimp only
  have he1 : ({ s with mem := upd s.mem entry (some e1) } : vtfs_storage).mem entry = some e1 := by
    simp
  have hreg1 : S_ISREG e1.mode = true := by rw [hmode]; exact hreg
  by_cases hlen : buf.length = 0
  · have hbuf : buf = [] := List.length_eq_zero.1 hlen
    have hout0 : out = [] := List.length_eq_zero.1 (by rw [hout, hlen])
    by_cases hlt : off < e1.size
    · rw [read_hit _ now2 entry e1 out buf.length off he1 hreg1 hb1 hlt]
      subst hbuf; subst hout0
      simp
    · rw [read_miss _ now2 entry e1 out buf.length off he1 hreg1
        (by rw [hM] at hcap; omega) (by omega)]
      subst hbuf; subst hout0
      simp
  · have hlt : off < e1.size := by rw [hsize]; omega
    rw [read_hit _ now2 entry e1 out buf.length off he1 hreg1 hb1 hlt]
    have hmin : min buf.length (e1.size - off) = buf.length := by rw [hsize]; omega
    rw [hmin]
    refine Prod.ext rfl ?_
    show _ = buf
    rw [hout]
    conv => rhs; rw [← range_map_getD buf]
    apply List.map_congr_left
    intro i hi
    have hi2 : i < buf.length := List.mem_range.1 hi
    rw [if_pos hi2, hbytes (off + i) (by omega) (by omega)]
    congr 1; omega

/-- C2, an instance: three bytes written at offset 5 of the empty example file. -/
theorem write_read_roundtrip_witness :
    (vtfs_storage_write ex_file (some (fun _ => 170)) 1 2 [7, 8, 9] 3 5).2 = 3 ∧
    (vtfs_storage_read (vtfs_storage_write ex_file (some (fun _ => 170)) 1 2 [7, 8, 9] 3 5).1
      2 2 [0, 0, 0] 3 5).2 = (3, [7, 8, 9]) :=
  write_read_roundtrip ex_file (ex_file_reach _ trivial) 2 _ rfl (by decide)
    (some (fun _ => 170)) 1 2 [7, 8, 9] [0, 0, 0] 5 (by decide) (by decide) rfl (by decide)

/-- C3, the code at the failing input: the example file after a write of one byte at offset
0, its 64 byte buffer handed out by an allocator that leaves `0xAA` in fresh memory.  A
write of one byte at offset 10 needs no growth and returns 1, and a read of the gap `[1, 10)`
then returns nine bytes `0xAA`, not zero bytes. -/
theorem sparse_write_gap_not_zeroed :
    ((vtfs_storage_write ex_file (some (fun _ => 170)) 1 2 [1] 1 0).1.mem 2).map
        (fun e => (e.size, e.capacity)) = some (1, 64) ∧
    (vtfs_storage_write (vtfs_storage_write ex_file (some (fun _ => 170)) 1 2 [1] 1 0).1
      none 2 2 [2] 1 10).2 = 1 ∧
    (vtfs_storage_read
      (vtfs_storage_write (vtfs_storage_write ex_file (some (fun _ => 170)) 1 2 [1] 1 0).1
        none 2 2 [2] 1 10).1 3 2 (List.replicate 9 0) 9 1).2 = (9, List.replicate 9 170) := by
  decide

/-- C4 (amended): in a reachable store, deleting a directory other than the root that has a
child returns `-ENOTEMPTY` and leaves the store as it is; and if every child of the
directory has link count 1, then after one successful delete of each child the delete of the
directory returns 0. -/
theorem delete_directory (s : vtfs_storage) (hs : Reachable s) (D : Ptr) (d : vtfs_entry)
    (hD : s.mem D = some d) (hroot : s.root ≠ some D) (hdir : S_ISDIR d.mode = true) :
    (d.children ≠ [] → vtfs_storage_delete_entry s D = (s, -ENOTEMPTY)) ∧
    ((∀ c ∈ d.children, ∀ ce, s.mem c = some ce → ce.nlink = 1) →
      ∀ t, delete_each s d.children = some t → (vtfs_storage_delete_entry t D).2 = 0) := by
  refine ⟨delete_not_empty s D d hD hroot hdir, ?_⟩
  intro hone t ht
  obtain ⟨dt, h1, h2, h3⟩ :=
    delete_each_children D d.children s d hs.inv hD hroot rfl hone t ht
  exact delete_no_children_ok t D dt h1 h3 h2

/-- C4, an instance: the directory `d` with its one file `f`. -/
theorem delete_directory_witness :
    vtfs_storage_delete_entry ex_dir_file 2 = (ex_dir_file, -ENOTEMPTY) ∧
    (vtfs_storage_delete_entry (vtfs_storage_delete_entry ex_dir_file 3).1 2).2 = 0 :=
  have h := delete_directory ex_dir_file ex_dir_file_reachable 2 _ rfl (by decide) (by decide)
  ⟨h.1 (by decide), h.2 (by decide) _ rfl⟩

/-- C4 as stated fails twice: on the root with a child the delete returns `-EBUSY`, not
`-ENOTEMPTY`; and when the only child of a directory has a second link, one successful
delete of the child leaves it in place and the delete of the directory returns
`-ENOTEMPTY`. -/
theorem delete_directory_with_linked_child :
    (vtfs_storage_delete_entry ex_dir_file 1).2 = -EBUSY ∧
    (delete_each (vtfs_storage_add_link ex_dir_file 3 2 [103]).1 [3]).map
      (fun t => (vtfs_storage_delete_entry t 2).2) = some (-ENOTEMPTY) := by
  decide

/-- C6: in every store reachable from `vtfs_storage_init` by create, delete, read, write and
add_link the root entry is present in the heap and in the registry and is its own parent,
and deleting it returns `-EBUSY` and leaves the store as it is. -/
theorem root_never_deleted (s : vtfs_storage) (hs : Reachable s) :
    ∃ r re, s.root = some r ∧ s.mem r = some re ∧ r ∈ s.all_entries ∧ re.parent = some r ∧
      vtfs_storage_delete_entry s r = (s, -EBUSY) := by
  obtain ⟨r, re, h1, h2, h3, _⟩ := hs.inv.root_live
  refine ⟨r, re, h1, h2, (hs.inv.registry r).2 (by rw [h2]; simp), h3, ?_⟩
  unfold vtfs_storage_delete_entry
  simp only [h2, h1, if_true]

/-- C6, an instance: the example store with one file. -/
theorem root_never_deleted_witness :
    ∃ r re, ex_file.root = some r ∧ ex_file.mem r = some re ∧ r ∈ ex_file.all_entries ∧
      re.parent = some r ∧ vtfs_storage_delete_entry ex_file r = (ex_file, -EBUSY) :=
  root_never_deleted ex_file (ex_file_reach _ trivial)

/-- C7: for an entry of a reachable store and an offset in the range of `loff_t` that is not
negative: a read of an entry that is no regular file returns `-EINVAL`; a read of a regular
file at or past the stored size returns 0 and leaves the caller's buffer as it is; a read
below the stored size returns `n = min(len, size - offset)` and puts bytes
`offset .. offset + n` of the content at the start of the buffer, the rest of the buffer
keeping its bytes; and in no case are the content, size or capacity of the entry changed. -/
theorem read_returns_stored_bytes (s : vtfs_storage) (hs : Reachable s) (entry : Ptr)
    (e : vtfs_entry) (he : s.mem entry = some e) (now : Nat) (buffer : List Nat) (len : Nat)
    (offset : Int) (hoff : 0 ≤ offset) (hrange : offset < 9223372036854775808) :
    (S_ISREG e.mode = false →
      vtfs_storage_read s now entry buffer len offset = (s, -EINVAL, buffer)) ∧
    (S_ISREG e.mode = true → (e.size : Int) ≤ offset →
      (vtfs_storage_read s now entry buffer len offset).2 = (0, buffer)) ∧
    (S_ISREG e.mode = true → offset < (e.size : Int) →
      (vtfs_storage_read s now entry buffer len offset).2.1 =
        ((min len (e.size - offset.toNat) : Nat) : Int) ∧
      (vtfs_storage_read s now entry buffer len offset).2.2.length = buffer.length ∧
      (∀ i, i < min len (e.size - offset.toNat) → i < buffer.length →
        (vtfs_storage_read s now entry buffer len offset).2.2.getD i 0 =
          byte_at e (offset.toNat + i)) ∧
      (∀ i, min len (e.size - offset.toNat) ≤ i →
        (vtfs_storage_read s now entry buffer len offset).2.2.getD i 0 = buffer.getD i 0)) ∧
    (∃ e1, (vtfs_storage_read s now entry buffer len offset).1.mem entry = some e1 ∧
      e1.data = e.data ∧ e1.size = e.size ∧ e1.capacity = e.capacity) := by
  obtain ⟨off, rfl⟩ := Int.eq_ofNat_of_zero_le hoff
  simp only [Int.toNat_ofNat]
  have hb := hs.inv.buf entry e he
  refine ⟨read_not_regular s now entry e buffer len off he, ?_, ?_, ?_⟩
  · intro hreg hge
    rw [read_miss s now entry e buffer len off he hreg (by omega) (by omega)]
  · intro hreg hlt
    have hlt1 : off < e.size := by omega
    rw [read_hit s now entry e buffer len off he hreg hb hlt1]
    refine ⟨rfl, by simp, ?_, ?_⟩
    · intro i h1 h2
      show ((List.range buffer.length).map _).getD i 0 = _
      rw [getD_range_map, if_pos h2, if_pos h1]
    · intro i h1
      show ((List.range buffer.length).map _).getD i 0 = _
      rw [getD_range_map]
      by_cases h2 : i < buffer.length
      · rw [if_pos h2, if_neg (by omega)]
      · rw [if_neg h2, List.getD_eq_getElem?_getD, List.getElem?_eq_none (by omega)]
        rfl
  · cases hreg : S_ISREG e.mode with
    | false =>
      rw [read_not_regular s now entry e buffer len off he hreg]
      exact ⟨e, he, rfl, rfl, rfl⟩
    | true =>
      by_cases hlt : off < e.size
      · rw [read_hit s now entry e buffer len off he hreg hb hlt]
        exact ⟨_, upd_same _ _ _, rfl, rfl, rfl⟩
      · rw [read_miss s now entry e buffer len off he hreg (by omega) (by omega)]
        exact ⟨e, he, rfl, rfl, rfl⟩

/-- C7, instances: reads of the two byte file at offsets 1 and 2, and a read of the root. -/
theorem read_returns_stored_bytes_witness :
    (vtfs_storage_read ex_written 3 2 [0, 0, 0] 3 1).2.1 = 1 ∧
    (vtfs_storage_read ex_written 3 2 [0, 0, 0] 3 2).2 = (0, [0, 0, 0]) ∧
    vtfs_storage_read ex_written 3 1 [0, 0, 0] 3 0 = (ex_written, -EINVAL, [0, 0, 0]) :=
  ⟨((read_returns_stored_bytes ex_written ex_written_reachable 2 _ rfl 3 [0, 0, 0] 3 1
      (by decide) (by decide)).2.2.1 (by decide) (by decide)).1,
   (read_returns_stored_bytes ex_written ex_written_reachable 2 _ rfl 3 [0, 0, 0] 3 2
      (by decide) (by decide)).2.1 (by decide) (by decide),
   (read_returns_stored_bytes ex_written ex_written_reachable 1 _ rfl 3 [0, 0, 0] 3 0
      (by decide) (by decide)).1 (by decide)⟩

/-- C8: for a regular file, an offset that is not negative and a length such that
`offset + len` is representable in `size_t`, a write returns `-EFBIG` exactly when
`offset + len` exceeds `VTFS_MAX_FILE_SIZE`; it then leaves the store as it is; and a write
with `offset + len` equal to `VTFS_MAX_FILE_SIZE` is carried out (it returns `len` unless
the allocator fails). -/
theorem write_too_large_iff (s : vtfs_storage) (entry : Ptr) (e : vtfs_entry)
    (he : s.mem entry = some e) (hreg : S_ISREG e.mode = true)
    (alloc : Option (Nat → Nat)) (now : Nat) (buffer : List Nat) (len : Nat) (offset : Int)
    (hoff : 0 ≤ offset) (hrep : offset.toNat + len < 18446744073709551616) :
    ((vtfs_storage_write s alloc now entry buffer len offset).2 = -EFBIG ↔
      VTFS_MAX_FILE_SIZE < offset.toNat + len) ∧
    ((vtfs_storage_write s alloc now entry buffer len offset).2 = -EFBIG →
      (vtfs_storage_write s alloc now entry buffer len offset).1 = s) ∧
    (offset.toNat + len = VTFS_MAX_FILE_SIZE →
      (vtfs_storage_write s alloc now entry buffer len offset).2 ≠ -EFBIG ∧
      (alloc ≠ none →
        (vtfs_storage_write s alloc now entry buffer len offset).2 = (len : Int))) := by
  obtain ⟨off, rfl⟩ := Int.eq_ofNat_of_zero_le hoff
  simp only [Int.toNat_ofNat] at hrep ⊢
  have hE : EFBIG = 27 := rfl
  have hN : ENOMEM = 12 := rfl
  have key : off + len ≤ VTFS_MAX_FILE_SIZE →
      (vtfs_storage_write s alloc now entry buffer len off).2 ≠ -EFBIG ∧
      (alloc ≠ none → (vtfs_storage_write s alloc now entry buffer len off).2 = (len : Int)) := by
    intro hsum
    by_cases hfit : off + len ≤ e.capacity
    · rw [write_inplace s alloc now entry e buffer len off he hreg hsum hfit]
      exact ⟨by show (len : Int) ≠ -EFBIG; rw [hE]; omega, fun _ => rfl⟩
    · cases alloc with
      | none =>
        rw [write_enomem s now entry e buffer len off he hreg hsum (by omega)]
        exact ⟨by show -ENOMEM ≠ -EFBIG; rw [hE, hN]; omega, fun h => absurd rfl h⟩
      | some fill =>
        rw [write_grow s fill now entry e buffer len off he hreg hsum (by omega)]
        exact ⟨by show (len : Int) ≠ -EFBIG; rw [hE]; omega, fun _ => rfl⟩
  refine ⟨⟨?_, ?_⟩, ?_, ?_⟩
  · intro h
    by_contra hle
    exact (key (by omega)).1 h
  · intro h
    rw [write_efbig s alloc now entry e buffer len off he hreg hrep h]
  · intro h
    by_cases hbig : VTFS_MAX_FILE_SIZE < off + len
    · rw [write_efbig s alloc now entry e buffer len off he hreg hrep hbig]
    · exact absurd h (key (by omega)).1
  · intro h
    exact key (by omega)

/-- C8, instances: one byte over the cap and exactly the cap. -/
theorem write_too_large_iff_witness :
    (vtfs_storage_write ex_file none 1 2 [] 1048577 0).2 = -EFBIG ∧
    (vtfs_storage_write ex_file none 1 2 [] 1048577 0).1 = ex_file ∧
    (vtfs_storage_write ex_file none 1 2 [] 1048576 0).2 ≠ -EFBIG :=
  have h := write_too_large_iff ex_file 2 _ rfl (by decide) none 1 [] 1048577 0
    (by decide) (by decide)
  ⟨h.1.2 (by decide), h.2.1 (h.1.2 (by decide)),
   ((write_too_large_iff ex_file 2 _ rfl (by decide) none 1 [] 1048576 0
      (by decide) (by decide)).2.2 (by decide)).1⟩

/-- C10, the code at the failing input: the regular file `a` (id 1001, content 7, 8, link
count 1) in the root, and `vtfs_link` binding the new name `b` in the root to it.  The link
returns 0; a lookup of `b` yields the new entry at address 3 and a lookup of `a` the entry
at address 2; both carry id 1001, content 7, 8 and size 2; but the link count under `b` is 1
while the link count under `a` is 2. -/
theorem link_names_differ_in_link_count :
    (vtfs_link ex_written (some 3) 2 1001 1000 [98]).2 = 0 ∧
    vtfs_storage_lookup (vtfs_link ex_written (some 3) 2 1001 1000 [98]).1 1 [98] = some 3 ∧
    vtfs_storage_lookup (vtfs_link ex_written (some 3) 2 1001 1000 [98]).1 1 [97] = some 2 ∧
    ((vtfs_link ex_written (some 3) 2 1001 1000 [98]).1.mem 3).map
      (fun e => (e.ino, (e.data.getD []).take e.size, e.size, e.nlink))
      = some (1001, [7, 8], 2, 1) ∧
    ((vtfs_link ex_written (some 3) 2 1001 1000 [98]).1.mem 2).map
      (fun e => (e.ino, (e.data.getD []).take e.size, e.size, e.nlink))
      = some (1001, [7, 8], 2, 2) := by
  decide

/-! ## The HTTP client: strings, base64 and percent-encoding -/

/-! ## C strings -/

theorem strchr_append_not_mem (t s : CStr) (c : Nat) (h : c ∉ t) :
    strchr (t ++ s) c = strchr s c := by
  induction t with
  | nil => rfl
  | cons x t ih =>
    have hx : x ≠ c := fun e => h (by simp [e])
    have ht : c ∉ t := fun e => h (by simp [e])
    simp [strchr, hx, ih ht]

theorem strchr_self (c : Nat) (s : CStr) : strchr (c :: s) c = some (c :: s) := by
  simp [strchr]

theorem strchr_none_of_not_mem (t : CStr) (c : Nat) (h : c ∉ t) : strchr t c = none := by
  have := strchr_append_not_mem t [] c h
  simpa [strchr] using this

theorem strstr_append_not_mem (t s p : CStr) (q : Nat) (h : q ∉ t) :
    strstr (t ++ s) (q :: p) = strstr s (q :: p) := by
  induction t with
  | nil => rfl
  | cons x t ih =>
    have hx : ¬ q = x := fun e => h (by simp [e])
    have ht : q ∉ t := fun e => h (by simp [e])
    simp [strstr, List.isPrefixOf, hx, ih ht]

theorem extract_data_field (t S : CStr) (ht : 34 ∉ t) :
    extract_json_field (str "\"data\":\"" ++ t ++ 34 :: S) (str "data") 4096 =
      .ok (if 4096 ≤ t.length then t.take 4095 else t) := by
  have h1 : strchr (t ++ 34 :: S) 34 = some (34 :: S) := by
    rw [strchr_append_not_mem _ _ _ ht, strchr_self]
  simp [extract_json_field, str, snprintf, strstr, strchr, h1, to_size_t]
  split_ifs with h
  · simp; omega
  · simp

/-! ## Base64 -/

theorem b64_and63_lt (x : Nat) : x &&& 63 < 64 :=
  Nat.lt_succ_of_le Nat.and_le_right

theorem b64_enc0 (a : Nat) (_ha : a < 256) : (a >>> 2) &&& 63 = a / 4 := by
  have h : (63 : Nat) = 2 ^ 6 - 1 := by norm_num
  rw [h, Nat.and_pow_two_sub_one_eq_mod, Nat.shiftRight_eq_div_pow]
  omega

theorem b64_or_add (x y k : Nat) (hy : y < 2 ^ k) : (x <<< k) ||| y = x * 2 ^ k + y := by
  rw [Nat.shiftLeft_eq, Nat.mul_comm x, Nat.mul_add_lt_is_or hy]

theorem b64_enc1 (a b : Nat) (_ha : a < 256) (hb : b < 256) :
    ((a <<< 4) ||| (b >>> 4)) &&& 63 = (a % 4) * 16 + b / 16 := by
  have h : (63 : Nat) = 2 ^ 6 - 1 := by norm_num
  have hy : b >>> 4 < 2 ^ 4 := by rw [Nat.shiftRight_eq_div_pow]; omega
  rw [h, Nat.and_pow_two_sub_one_eq_mod, b64_or_add _ _ _ hy, Nat.shiftRight_eq_div_pow]
  omega

theorem b64_enc2 (b c : Nat) (_hb : b < 256) (hc : c < 256) :
    ((b <<< 2) ||| (c >>> 6)) &&& 63 = (b % 16) * 4 + c / 64 := by
  have h : (63 : Nat) = 2 ^ 6 - 1 := by norm_num
  have hy : c >>> 6 < 2 ^ 2 := by rw [Nat.shiftRight_eq_div_pow]; omega
  rw [h, Nat.and_pow_two_sub_one_eq_mod, b64_or_add _ _ _ hy, Nat.shiftRight_eq_div_pow]
  omega

theorem b64_enc3 (c : Nat) : c &&& 63 = c % 64 := by
  have h : (63 : Nat) = 2 ^ 6 - 1 := by norm_num
  rw [h, Nat.and_pow_two_sub_one_eq_mod]

theorem b64_dec0 (s0 s1 : Nat) (_h0 : s0 < 64) (h1 : s1 < 64) :
    ((s0 <<< 2) ||| (s1 >>> 4)) % 256 = s0 * 4 + s1 / 16 := by
  have hy : s1 >>> 4 < 2 ^ 2 := by rw [Nat.shiftRight_eq_div_pow]; omega
  rw [b64_or_add _ _ _ hy, Nat.shiftRight_eq_div_pow]
  omega

theorem b64_dec1 (s1 s2 : Nat) (_h1 : s1 < 64) (h2 : s2 < 64) :
    ((s1 <<< 4) ||| (s2 >>> 2)) % 256 = (s1 % 16) * 16 + s2 / 4 := by
  have hy : s2 >>> 2 < 2 ^ 4 := by rw [Nat.shiftRight_eq_div_pow]; omega
  rw [b64_or_add _ _ _ hy, Nat.shiftRight_eq_div_pow]
  omega

theorem b64_dec2 (s2 s3 : Nat) (_h2 : s2 < 64) (h3 : s3 < 64) :
    ((s2 <<< 6) ||| s3) % 256 = (s2 % 4) * 64 + s3 := by
  have hy : s3 < 2 ^ 6 := by omega
  rw [b64_or_add _ _ _ hy]
  omega

theorem base64_value_char : ∀ k, k < 64 →
    base64_value (base64_chars.getD k 0) = k ∧ base64_chars.getD k 0 ≠ 61 := by
  decide

theorem base64_value_pad : base64_value 61 = 0 := by decide

theorem b64_quad (L j x0 x1 x2 x3 : Nat) (rest : CStr) :
    base64_decode_loop L j (x0 :: x1 :: x2 :: x3 :: rest) =
      (if j < L then [((base64_value x0 <<< 2) ||| (base64_value x1 >>> 4)) % 256] else []) ++
      (if j + 1 < L then [((base64_value x1 <<< 4) ||| (base64_value x2 >>> 2)) % 256] else []) ++
      (if j + 2 < L then [((base64_value x2 <<< 6) ||| base64_value x3) % 256] else []) ++
      base64_decode_loop L (if j + 2 < L then j + 3 else if j + 1 < L then j + 2
        else if j < L then j + 1 else j) rest := by
  rw [base64_decode_loop]
  by_cases h0 : j < L
  · by_cases h1 : j + 1 < L
    · by_cases h2 : j + 2 < L
      · simp [h0, h1, h2]
      · simp [h0, h1, h2]
    · have h2 : ¬ j + 2 < L := by omega
      simp [h0, h1, h2]
  · have h1 : ¬ j + 1 < L := by omega
    have h2 : ¬ j + 2 < L := by omega
    simp [h0, h1, h2]

theorem decode_loop_encode (X : List Nat) : (∀ x ∈ X, x < 256) → ∀ j L, j + X.length = L →
    base64_decode_loop L j (bytes_to_base64_loop X) = X := by
  induction X using bytes_to_base64_loop.induct with
  | case1 => intro _ j L _; simp [bytes_to_base64_loop, base64_decode_loop]
  | case2 a =>
    intro hb j L hL
    have ha : a < 256 := hb a (by simp)
    simp only [List.length_singleton] at hL
    have e1 := b64_enc1 a 0 ha (by norm_num)
    simp only [Nat.zero_div, Nat.add_zero] at e1
    have v0 := base64_value_char (a / 4) (by omega)
    have v1 := base64_value_char (a % 4 * 16) (by omega)
    rw [bytes_to_base64_loop, b64_enc0 a ha, e1, b64_quad, v0.1, v1.1,
      b64_dec0 _ _ (by omega) (by omega)]
    have h0 : j < L := by omega
    have h1 : ¬ j + 1 < L := by omega
    have h2 : ¬ j + 2 < L := by omega
    simp only [h0, h1, h2, if_true, if_false, List.append_nil, base64_decode_loop]
    simp
    omega
  | case3 a b =>
    intro hb j L hL
    have ha : a < 256 := hb a (by simp)
    have hb2 : b < 256 := hb b (by simp)
    simp only [List.length_cons, List.length_nil] at hL
    have e2 := b64_enc2 b 0 hb2 (by norm_num)
    simp only [Nat.zero_div, Nat.add_zero] at e2
    have v0 := base64_value_char (a / 4) (by omega)
    have v1 := base64_value_char (a % 4 * 16 + b / 16) (by omega)
    have v2 := base64_value_char (b % 16 * 4) (by omega)
    rw [bytes_to_base64_loop, b64_enc0 a ha, b64_enc1 a b ha hb2, e2, b64_quad, v0.1, v1.1,
      v2.1, b64_dec0 _ _ (by omega) (by omega), b64_dec1 _ _ (by omega) (by omega)]
    have h0 : j < L := by omega
    have h1 : j + 1 < L := by omega
    have h2 : ¬ j + 2 < L := by omega
    simp only [h0, h1, h2, if_true, if_false, List.append_nil, base64_decode_loop]
    simp
    omega
  | case4 a b c rest ih =>
    intro hb j L hL
    have ha : a < 256 := hb a (by simp)
    have hb2 : b < 256 := hb b (by simp)
    have hc : c < 256 := hb c (by simp)
    have hr : ∀ x ∈ rest, x < 256 := fun x hx => hb x (by simp [hx])
    simp only [List.length_cons] at hL
    have v0 := base64_value_char (a / 4) (by omega)
    have v1 := base64_value_char (a % 4 * 16 + b / 16) (by omega)
    have v2 := base64_value_char (b % 16 * 4 + c / 64) (by omega)
    have v3 := base64_value_char (c % 64) (by omega)
    rw [bytes_to_base64_loop, b64_enc0 a ha, b64_enc1 a b ha hb2, b64_enc2 b c hb2 hc, b64_enc3,
      b64_quad, v0.1, v1.1, v2.1, v3.1, b64_dec0 _ _ (by omega) (by omega),
      b64_dec1 _ _ (by omega) (by omega), b64_dec2 _ _ (by omega) (by omega)]
    have h0 : j < L := by omega
    have h1 : j + 1 < L := by omega
    have h2 : j + 2 < L := by omega
    simp only [h0, h1, h2, if_true]
    rw [ih hr (j + 3) L (by omega)]
    simp
    omega

theorem encode_loop_length (X : List Nat) :
    (bytes_to_base64_loop X).length = (X.length + 2) / 3 * 4 := by
  induction X using bytes_to_base64_loop.induct with
  | case1 => simp [bytes_to_base64_loop]
  | case2 a => simp [bytes_to_base64_loop]
  | case3 a b => simp [bytes_to_base64_loop]
  | case4 a b c rest ih =>
    rw [bytes_to_base64_loop]
    simp only [List.length_cons, ih]
    omega

theorem encode_loop_last (X : List Nat) : X ≠ [] →
    ((bytes_to_base64_loop X).getD ((bytes_to_base64_loop X).length - 1) 0 = 61 ↔
      X.length % 3 ≠ 0) ∧
    ((bytes_to_base64_loop X).getD ((bytes_to_base64_loop X).length - 2) 0 = 61 ↔
      X.length % 3 = 1) := by
  induction X using bytes_to_base64_loop.induct with
  | case1 => intro h; exact absurd rfl h
  | case2 a => intro _; simp [bytes_to_base64_loop]
  | case3 a b =>
    intro _
    have v2 := (base64_value_char _ (b64_and63_lt ((b <<< 2) ||| (0 >>> 6)))).2
    simp at v2
    simp [bytes_to_base64_loop, v2]
  | case4 a b c rest ih =>
    intro _
    have v2 := (base64_value_char _ (b64_and63_lt ((b <<< 2) ||| (c >>> 6)))).2
    have v3 := (base64_value_char _ (b64_and63_lt c)).2
    by_cases hr : rest = []
    · subst hr
      simp at v2 v3
      simp [bytes_to_base64_loop, v2, v3]
    · have hl := encode_loop_length rest
      have hpos : 0 < rest.length := List.length_pos.mpr hr
      have h4 : 4 ≤ (bytes_to_base64_loop rest).length := by omega
      have i := ih hr
      rw [bytes_to_base64_loop]
      simp only [List.length_cons]
      have e1 : (bytes_to_base64_loop rest).length + 1 + 1 + 1 + 1 - 1 =
          ((bytes_to_base64_loop rest).length - 1) + 4 := by omega
      have e2 : (bytes_to_base64_loop rest).length + 1 + 1 + 1 + 1 - 2 =
          ((bytes_to_base64_loop rest).length - 2) + 4 := by omega
      rw [e1, e2]
      simp only [List.getD_cons_succ]
      rw [i.1, i.2]
      constructor <;> omega

theorem encode_output_len (X : List Nat) :
    base64_output_len (bytes_to_base64_loop X) = X.length := by
  have hl := encode_loop_length X
  unfold base64_output_len
  by_cases hX : X = []
  · subst hX; simp [bytes_to_base64_loop]
  · have hpos : 0 < X.length := List.length_pos.mpr hX
    obtain ⟨h1, h2⟩ := encode_loop_last X hX
    rw [hl] at h1 h2
    simp only [hl, h1, h2]
    have hn : 0 < (X.length + 2) / 3 * 4 := by omega
    have hn1 : 1 < (X.length + 2) / 3 * 4 := by omega
    simp only [hn, hn1, true_and]
    split_ifs <;> omega

theorem decode_encode (X : List Nat) (hX : ∀ x ∈ X, x < 256) :
    base64_decode (bytes_to_base64_loop X) = .ok X := by
  have hl := encode_loop_length X
  unfold base64_decode
  rw [if_neg (by rw [hl]; omega), encode_output_len,
    decode_loop_encode X hX 0 X.length (by omega)]

/-- C11: for every byte sequence X, `bytes_to_base64` with a buffer that holds
the text gives a text that `base64_decode` accepts; the output length it
reports is the length of X and the bytes it stores are X. -/
theorem base64_roundtrip (X : List Nat) (base64_size : Nat) (hX : ∀ x ∈ X, x < 256)
    (hsize : (X.length + 2) / 3 * 4 + 1 ≤ base64_size) :
    ∃ text, bytes_to_base64 X base64_size = .ok text ∧
      base64_output_len text = X.length ∧ base64_decode text = .ok X := by
  refine ⟨bytes_to_base64_loop X, ?_, encode_output_len X, decode_encode X hX⟩
  unfold bytes_to_base64
  rw [if_neg (by omega)]

theorem base64_roundtrip_witness :
    ∃ text, bytes_to_base64 [0, 255, 16, 200] 9 = .ok text ∧
      base64_output_len text = 4 ∧ base64_decode text = .ok [0, 255, 16, 200] :=
  base64_roundtrip [0, 255, 16, 200] 9 (by decide) (by decide)

theorem call_received (cfg : http_config) (h : cfg.http_initialized = true) (response method
    buffer0 : CStr) (buffer_size : Nat) (args : List (CStr × CStr)) :
    (vtfs_http_call cfg (.received response) method buffer0 buffer_size args).ret =
      (if 400 ≤ (parse_http_response response buffer_size).status_code
        then (parse_http_response response buffer_size).status_code else 0) ∧
    (vtfs_http_call cfg (.received response) method buffer0 buffer_size args).response_buffer =
      (match (parse_http_response response buffer_size).body with
        | some b => b
        | none => buffer0) := by
  simp [vtfs_http_call, h]

theorem base64_decode_error_iff (input : CStr) :
    base64_decode input = .error (-EINVAL) ↔ input.length % 4 ≠ 0 := by
  unfold base64_decode
  split_ifs with h <;> simp [h]

theorem read_data_bad_length (cfg : http_config) (response stack path t S : CStr) (km : Bool)
    (size : Nat) (offset : Int) (hinit : cfg.http_initialized = true)
    (hbody : (parse_http_response response VTFS_HTTP_BUFFER_SIZE).body =
      some (str "\x7b\"result\":\x7b\"data\":\"" ++ t ++ 34 :: S))
    (ht : 34 ∉ t) (hlen : t.length % 4 ≠ 0) :
    ∃ e, e < 0 ∧
      vtfs_http_read cfg (.received response) stack km path size offset = .ret e [] := by
  have hc := call_received cfg hinit response (str "read") stack VTFS_HTTP_BUFFER_SIZE
    [(str "path", path), (str "offset", snprintf 32 (fmt_d offset)),
      (str "size", snprintf 32 (fmt_u size))]
  rw [hbody] at hc
  obtain ⟨hc1, hc2⟩ := hc
  simp only at hc2
  unfold vtfs_http_read
  simp only [hinit, Bool.not_true, Bool.false_eq_true, if_false]
  by_cases hret : (vtfs_http_call cfg (.received response) (str "read") stack
      VTFS_HTTP_BUFFER_SIZE [(str "path", path), (str "offset", snprintf 32 (fmt_d offset)),
      (str "size", snprintf 32 (fmt_u size))]).ret ≠ 0
  · rw [if_pos hret]; exact ⟨-ENOENT, by decide, rfl⟩
  rw [if_neg hret, hc2]
  by_cases herr : (strstr (str "\x7b\"result\":\x7b\"data\":\"" ++ t ++ 34 :: S)
      (str "\"error\"")).isSome = true
  · rw [if_pos herr]; exact ⟨-ENOENT, by decide, rfl⟩
  rw [if_neg herr]
  have h1 : strstr (str "\x7b\"result\":\x7b\"data\":\"" ++ t ++ 34 :: S) (str "\"result\"") =
      some (str "\"result\":\x7b\"data\":\"" ++ t ++ 34 :: S) := by
    simp [str, strstr]
  have h2 : strstr (str "\"result\":\x7b\"data\":\"" ++ t ++ 34 :: S) (str "\"data\"") =
      some (str "\"data\":\"" ++ t ++ 34 :: S) := by
    simp [str, strstr]
  simp only [h1, h2, VTFS_HTTP_BUFFER_SIZE, extract_data_field t S ht]
  cases km
  · exact ⟨-ENOMEM, by decide, rfl⟩
  · have hd : base64_decode (if 4096 ≤ t.length then t.take 4095 else t) = .error (-EINVAL) := by
      rw [base64_decode_error_iff]
      split_ifs with h
      · rw [List.length_take]; omega
      · exact hlen
    simp only [hd, Bool.not_true, Bool.false_eq_true, if_false]
    exact ⟨-EINVAL, by decide, rfl⟩

/-- Counterexample to C17: the text `!!!!` has no character of the base64
alphabet, yet `base64_decode` succeeds and stores three zero bytes, and
`vtfs_http_read` returns them as data. -/
theorem base64_decode_foreign_characters :
    base64_decode (str "!!!!") = .ok [0, 0, 0] ∧
    vtfs_http_read ex_cfg
      (.received (str "HTTP/1.1 200 OK\r\n\r\n\x7b\"result\":\x7b\"data\":\"!!!!\"\x7d\x7d"))
      [] true (str "/a") 3 0 = .ret 3 [0, 0, 0] := by
  decide

/-- C17 (amended): `base64_decode` reports a failure, `-EINVAL`, exactly for
the inputs whose length is not a multiple of 4 (every other input is decoded,
a character outside the alphabet as the value 0); and when the `data` field
of a read response holds a text whose length is not a multiple of 4,
`vtfs_http_read` returns a negative error code and no data. -/
theorem base64_decode_failure (cfg : http_config) (response stack path t S : CStr) (km : Bool)
    (size : Nat) (offset : Int) (hinit : cfg.http_initialized = true)
    (hbody : (parse_http_response response VTFS_HTTP_BUFFER_SIZE).body =
      some (str "\x7b\"result\":\x7b\"data\":\"" ++ t ++ 34 :: S))
    (ht : 34 ∉ t) (hlen : t.length % 4 ≠ 0) :
    (∀ input, base64_decode input = .error (-EINVAL) ↔ input.length % 4 ≠ 0) ∧
    (∀ input, input.length % 4 = 0 →
      base64_decode input = .ok (base64_decode_loop (base64_output_len input) 0 input)) ∧
    base64_decode t = .error (-EINVAL) ∧
    ∃ e, e < 0 ∧
      vtfs_http_read cfg (.received response) stack km path size offset = .ret e [] := by
  refine ⟨base64_decode_error_iff, ?_, (base64_decode_error_iff t).2 hlen,
    read_data_bad_length cfg response stack path t S km size offset hinit hbody ht hlen⟩
  intro input h
  unfold base64_decode
  rw [if_neg (by omega)]

theorem base64_decode_failure_witness :
    base64_decode (str "abc") = .error (-EINVAL) ∧
    ∃ e, e < 0 ∧ vtfs_http_read ex_cfg
      (.received (str "HTTP/1.1 200 OK\r\n\r\n\x7b\"result\":\x7b\"data\":\"abc\"\x7d\x7d"))
      [] true (str "/a") 3 0 = .ret e [] :=
  (base64_decode_failure ex_cfg
    (str "HTTP/1.1 200 OK\r\n\r\n\x7b\"result\":\x7b\"data\":\"abc\"\x7d\x7d") [] (str "/a")
    (str "abc") (str "\x7d\x7d") true 3 0 (by decide) (by decide) (by decide) (by decide)).2.2

/-! ## Percent-encoding -/

theorem url_encode_byte : ∀ c, c < 256 →
    url_unreserved c = rfc3986_unreserved c ∧
    hex.getD ((c >>> 4) &&& 15) 0 = upper_hex_digit (c / 16) ∧
    hex.getD (c &&& 15) 0 = upper_hex_digit (c % 16) := by
  set_option maxRecDepth 100000 in decide

theorem percent_encode_cons (c : Nat) (t : CStr) :
    percent_encode (c :: t) = percent_encode_byte c ++ percent_encode t := rfl

theorem percent_encode_byte_pos (c : Nat) : 0 < (percent_encode_byte c).length := by
  unfold percent_encode_byte; split_ifs <;> simp

theorem url_encode_loop_fits (limit : Nat) (s : CStr) : ∀ j, (∀ c ∈ s, c < 256) →
    j + (percent_encode s).length ≤ limit → url_encode_loop limit j s = percent_encode s := by
  induction s with
  | nil => intro j _ _; rfl
  | cons c t ih =>
    intro j hb hj
    have hc := url_encode_byte c (hb c (by simp))
    have ht : ∀ x ∈ t, x < 256 := fun x hx => hb x (by simp [hx])
    have hpos := percent_encode_byte_pos c
    rw [percent_encode_cons, List.length_append] at hj
    have hlt : j < limit := by omega
    rw [url_encode_loop, if_pos hlt, hc.1, hc.2.1, hc.2.2, percent_encode_cons]
    unfold percent_encode_byte at hj ⊢
    by_cases hu : rfc3986_unreserved c = true
    · simp only [hu, if_true, List.length_singleton] at hj ⊢
      rw [ih (j + 1) ht (by omega)]; rfl
    · rw [if_neg hu] at hj ⊢
      simp only [List.length_cons, List.length_nil] at hj
      rw [if_neg hu, ih (j + 3) ht (by omega)]; rfl

theorem url_encode_loop_length (limit : Nat) (s : CStr) : ∀ j,
    j + (url_encode_loop limit j s).length ≤ max j (limit + 2) := by
  induction s with
  | nil => intro j; simp [url_encode_loop]
  | cons c t ih =>
    intro j
    rw [url_encode_loop]
    split_ifs with h1 h2
    · have := ih (j + 1); simp only [List.length_cons]; omega
    · have := ih (j + 3); simp only [List.length_cons]; omega
    · simp

theorem digit_value_upper_hex : ∀ d, d < 16 → digit_value (upper_hex_digit d) = some d := by
  decide

theorem percent_decode_cons (c : Nat) (t : CStr) (h : c ≠ 37) :
    percent_decode (c :: t) = c :: percent_decode t := by
  cases t with
  | nil => simp [percent_decode]
  | cons a t =>
    cases t with
    | nil => simp [percent_decode]
    | cons b t => simp [percent_decode, h]

theorem percent_decode_encode (s : CStr) (hb : ∀ c ∈ s, c < 256) :
    percent_decode (percent_encode s) = s := by
  induction s with
  | nil => rfl
  | cons c t ih =>
    have hc : c < 256 := hb c (by simp)
    have ht : ∀ x ∈ t, x < 256 := fun x hx => hb x (by simp [hx])
    rw [percent_encode_cons]
    unfold percent_encode_byte
    by_cases hu : rfc3986_unreserved c = true
    · have h37 : c ≠ 37 := by
        intro e; subst e; revert hu; decide
      simp only [hu, if_true, List.singleton_append]
      rw [percent_decode_cons c _ h37, ih ht]
    · rw [Bool.not_eq_true] at hu
      simp only [hu, Bool.false_eq_true, if_false, List.cons_append, List.nil_append]
      rw [percent_decode, digit_value_upper_hex _ (by omega), digit_value_upper_hex _ (by omega)]
      simp only [ih ht]
      congr 1
      omega

theorem url_encode_spec_aux (s : CStr) (dst_size : Nat) (hb : ∀ c ∈ s, c < 256)
    (hsize : dst_size < 18446744073709551616)
    (hfit : (percent_encode s).length + 3 ≤ dst_size) :
    url_encode s dst_size = percent_encode s := by
  have hl : to_size_t ((dst_size : Int) - 3) = dst_size - 3 := by
    unfold to_size_t; omega
  unfold url_encode
  rw [hl]
  exact url_encode_loop_fits _ s 0 hb (by omega)

/-- Counterexample to C18: the encoding of `aaaaaa` is 6 bytes long and fits a
buffer of 8 bytes with its NUL, but `url_encode` stores only 5 bytes; in a
buffer of 512 bytes a text of 510 letters loses its last letter. -/
theorem url_encode_stops_early :
    (percent_encode (str "aaaaaa")).length + 1 ≤ 8 ∧
    url_encode (str "aaaaaa") 8 = str "aaaaa" ∧
    (percent_encode (List.replicate 510 97)).length + 1 ≤ 512 ∧
    url_encode (List.replicate 510 97) 512 = List.replicate 509 97 := by
  set_option maxRecDepth 100000 in decide

/-- C18 (amended): for every input string s whose encoding is at most
`dst_size - 3` bytes long, `url_encode` stores the encodings of the bytes of s
one after the other, a byte itself when it is an RFC 3986 unreserved
character and otherwise `%` with its two uppercase hexadecimal digits (also
for bytes from 0x80 on); the length it returns is the length of that text, and
percent-decoding the text gives back s. -/
theorem url_encode_spec (s : CStr) (dst_size : Nat) (hb : ∀ c ∈ s, c < 256)
    (hsize : dst_size < 18446744073709551616)
    (hfit : (percent_encode s).length + 3 ≤ dst_size) :
    url_encode s dst_size = percent_encode s ∧
    (url_encode s dst_size).length = (percent_encode s).length ∧
    percent_decode (url_encode s dst_size) = s := by
  rw [url_encode_spec_aux s dst_size hb hsize hfit]
  exact ⟨rfl, rfl, percent_decode_encode s hb⟩

theorem url_encode_spec_witness :
    url_encode (str "a b/\xe9~") 512 = str "a%20b%2F%E9~" ∧
    percent_decode (url_encode (str "a b/\xe9~") 512) = str "a b/\xe9~" :=
  have h := url_encode_spec (str "a b/\xe9~") 512 (by decide) (by decide) (by decide)
  ⟨h.1.trans (by decide), h.2.2⟩

/-! ## The request text -/

theorem strlcat_fits (q src : CStr) (size : Nat) (h : q.length + src.length + 1 ≤ size) :
    strlcat q src size = q ++ src := by
  unfold strlcat
  rw [List.take_of_length_le (by omega)]

theorem url_encode_length (s : CStr) : (url_encode s 512).length ≤ 511 := by
  have h := url_encode_loop_length (to_size_t ((512 : Nat) - 3 : Int)) s 0
  have e : to_size_t ((512 : Nat) - 3 : Int) = 509 := by decide
  rw [e] at h
  unfold url_encode
  rw [e]
  omega

theorem snprintf_fits (size : Nat) (text : CStr) (h : text.length + 1 ≤ size) :
    snprintf size text = text := by
  unfold snprintf
  rw [List.take_of_length_le (by omega)]

theorem build_query_three (k1 v1 k2 v2 k3 v3 : CStr)
    (h : k1.length + k2.length + k3.length ≤ 2000) :
    build_query [(k1, v1), (k2, v2), (k3, v3)] 0 [] =
      k1 ++ str "=" ++ url_encode v1 512 ++ str "&" ++ k2 ++ str "=" ++ url_encode v2 512 ++
        str "&" ++ k3 ++ str "=" ++ url_encode v3 512 := by
  have l1 := url_encode_length v1
  have l2 := url_encode_length v2
  have l3 := url_encode_length v3
  have e1 : (str "=").length = 1 := rfl
  have e2 : (str "&").length = 1 := rfl
  simp only [build_query, VTFS_HTTP_BUFFER_SIZE, Nat.lt_irrefl, if_false, Nat.zero_add,
    Nat.zero_lt_one, if_true, Nat.zero_lt_succ, Nat.reduceAdd, Nat.lt_add_one]
  have s1 := strlcat_fits ([]) (k1) 4096
    (by simp only [List.length_append, e1, e2, List.length_nil]; omega)
  rw [List.nil_append] at s1
  have s2 := strlcat_fits (k1) (str "=") 4096
    (by simp only [List.length_append, e1, e2, List.length_nil]; omega)
  have s3 := strlcat_fits (k1 ++ str "=") (url_encode v1 512) 4096
    (by simp only [List.length_append, e1, e2, List.length_nil]; omega)
  have s4 := strlcat_fits (k1 ++ str "=" ++ url_encode v1 512) (str "&") 4096
    (by simp only [List.length_append, e1, e2, List.length_nil]; omega)
  have s5 := strlcat_fits (k1 ++ str "=" ++ url_encode v1 512 ++ str "&") (k2) 4096
    (by simp only [List.length_append, e1, e2, List.length_nil]; omega)
  have s6 := strlcat_fits (k1 ++ str "=" ++ url_encode v1 512 ++ str "&" ++ k2) (str "=") 4096
    (by simp only [List.length_append, e1, e2, List.length_nil]; omega)
  have s7 := strlcat_fits (k1 ++ str "=" ++ url_encode v1 512 ++ str "&" ++ k2 ++ str "=") (url_encode v2 512) 4096
    (by simp only [List.length_append, e1, e2, List.length_nil]; omega)
  have s8 := strlcat_fits (k1 ++ str "=" ++ url_encode v1 512 ++ str "&" ++ k2 ++ str "=" ++ url_encode v2 512) (str "&") 4096
    (by simp only [List.length_append, e1, e2, List.length_nil]; omega)
  have s9 := strlcat_fits (k1 ++ str "=" ++ url_encode v1 512 ++ str "&" ++ k2 ++ str "=" ++ url_encode v2 512 ++ str "&") (k3) 4096
    (by simp only [List.length_append, e1, e2, List.length_nil]; omega)
  have s10 := strlcat_fits (k1 ++ str "=" ++ url_encode v1 512 ++ str "&" ++ k2 ++ str "=" ++ url_encode v2 512 ++ str "&" ++ k3) (str "=") 4096
    (by simp only [List.length_append, e1, e2, List.length_nil]; omega)
  have s11 := strlcat_fits (k1 ++ str "=" ++ url_encode v1 512 ++ str "&" ++ k2 ++ str "=" ++ url_encode v2 512 ++ str "&" ++ k3 ++ str "=") (url_encode v3 512) 4096
    (by simp only [List.length_append, e1, e2, List.length_nil]; omega)
  rw [s1, s2, s3, s4, s5, s6, s7, s8, s9, s10, s11]

theorem base64_chars_byte (k : Nat) : base64_chars.getD k 0 < 256 := by
  by_cases h : k < 64
  · revert k; decide
  · rw [List.getD_eq_default _ _ (by simpa [base64_chars, str] using h)]; decide

theorem encode_loop_bytes (X : List Nat) : ∀ c ∈ bytes_to_base64_loop X, c < 256 := by
  induction X using bytes_to_base64_loop.induct with
  | case1 => simp [bytes_to_base64_loop]
  | case2 a =>
    intro c hc
    simp only [bytes_to_base64_loop, List.mem_cons, List.mem_singleton, List.mem_nil_iff, or_false] at hc
    rcases hc with h | h | h | h <;> rw [h] <;> first | exact base64_chars_byte _ | decide
  | case3 a b =>
    intro c hc
    simp only [bytes_to_base64_loop, List.mem_cons, List.mem_singleton, List.mem_nil_iff, or_false] at hc
    rcases hc with h | h | h | h <;> rw [h] <;> first | exact base64_chars_byte _ | decide
  | case4 a b c rest ih =>
    intro x hx
    rw [bytes_to_base64_loop] at hx
    simp only [List.mem_cons] at hx
    rcases hx with h | h | h | h | h
    · rw [h]; exact base64_chars_byte _
    · rw [h]; exact base64_chars_byte _
    · rw [h]; exact base64_chars_byte _
    · rw [h]; exact base64_chars_byte _
    · exact ih x h

/-- C19 (amended): for every byte sequence D whose base64 text has a
percent-encoding of at most 509 bytes, and a configuration whose token, host
and port leave room in the 4096-byte request buffer, the request that
`vtfs_http_write` hands to `vtfs_http_call` carries the argument `data=`
followed by the complete percent-encoding of the base64 text of D (`+`, `/`
and `=` appear as `%2B`, `%2F` and `%3D`), between the `offset` argument and
the end of the request line. -/
theorem write_request_data (cfg : http_config) (net : net_reply) (stack path : CStr)
    (D : List Nat) (offset : Int) (hinit : cfg.http_initialized = true)
    (hnet : net ≠ .no_memory)
    (henc : (percent_encode (bytes_to_base64_loop D)).length ≤ 509)
    (hlen : cfg.token.length + cfg.server_host.length + (fmt_d cfg.server_port).length ≤ 2400) :
    ∃ r, vtfs_http_write_call cfg net stack true path D offset = .ok r ∧
      r.request = str "GET /write?token=" ++ cfg.token ++ str "&path=" ++ url_encode path 512 ++
        str "&offset=" ++ url_encode (snprintf 32 (fmt_d offset)) 512 ++
        str "&data=" ++ percent_encode (bytes_to_base64_loop D) ++
        str " HTTP/1.1\r\nHost: " ++ cfg.server_host ++ str ":" ++ fmt_d cfg.server_port ++
        str "\r\nConnection: close\r\n\r\n" ∧
      r.request_len = r.request.length := by
  have hd : url_encode (bytes_to_base64_loop D) 512 = percent_encode (bytes_to_base64_loop D) :=
    (url_encode_spec_aux (bytes_to_base64_loop D) 512 (encode_loop_bytes D) (by decide)
      (by omega))
  have hq := build_query_three (str "path") path (str "offset") (snprintf 32 (fmt_d offset))
    (str "data") (bytes_to_base64_loop D) (by decide)
  rw [hd] at hq
  have l1 := url_encode_length path
  have l2 := url_encode_length (snprintf 32 (fmt_d offset))
  have htext : format_request cfg (str "write")
      (build_query [(str "path", path), (str "offset", snprintf 32 (fmt_d offset)),
        (str "data", bytes_to_base64_loop D)] 0 []) =
      str "GET /write?token=" ++ cfg.token ++ str "&path=" ++ url_encode path 512 ++
        str "&offset=" ++ url_encode (snprintf 32 (fmt_d offset)) 512 ++
        str "&data=" ++ percent_encode (bytes_to_base64_loop D) ++
        str " HTTP/1.1\r\nHost: " ++ cfg.server_host ++ str ":" ++ fmt_d cfg.server_port ++
        str "\r\nConnection: close\r\n\r\n" := by
    rw [hq]
    unfold format_request
    simp [str]
  have hfit : snprintf VTFS_HTTP_BUFFER_SIZE (format_request cfg (str "write")
      (build_query [(str "path", path), (str "offset", snprintf 32 (fmt_d offset)),
        (str "data", bytes_to_base64_loop D)] 0 [])) = format_request cfg (str "write")
      (build_query [(str "path", path), (str "offset", snprintf 32 (fmt_d offset)),
        (str "data", bytes_to_base64_loop D)] 0 []) := by
    apply snprintf_fits
    rw [htext]
    simp only [List.length_append, VTFS_HTTP_BUFFER_SIZE]
    have e1 : (str "GET /write?token=").length = 17 := rfl
    have e2 : (str "&path=").length = 6 := rfl
    have e3 : (str "&offset=").length = 8 := rfl
    have e4 : (str "&data=").length = 6 := rfl
    have e5 : (str " HTTP/1.1\r\nHost: ").length = 17 := rfl
    have e6 : (str ":").length = 1 := rfl
    have e7 : (str "\r\nConnection: close\r\n\r\n").length = 23 := rfl
    rw [e1, e2, e3, e4, e5, e6, e7]
    omega
  unfold vtfs_http_write_call bytes_to_base64
  simp only [hinit, Bool.not_true, Bool.false_eq_true, if_false, Nat.lt_irrefl]
  unfold vtfs_http_call
  simp only [hinit, Bool.not_true, Bool.false_eq_true, if_false, hfit]
  cases net with
  | no_memory => exact absurd rfl hnet
  | refused => exact ⟨_, rfl, htext, rfl⟩
  | send_failed e => exact ⟨_, rfl, htext, rfl⟩
  | recv_failed e => exact ⟨_, rfl, htext, rfl⟩
  | received response => exact ⟨_, rfl, htext, rfl⟩

theorem write_request_data_witness :
    ∃ r, vtfs_http_write_call ex_cfg .refused [] true (str "/a") [251] 0 = .ok r ∧
      r.request = str "GET /write?token=" ++ ex_cfg.token ++ str "&path=" ++
        url_encode (str "/a") 512 ++
        str "&offset=" ++ url_encode (snprintf 32 (fmt_d 0)) 512 ++
        str "&data=" ++ percent_encode (bytes_to_base64_loop [251]) ++
        str " HTTP/1.1\r\nHost: " ++ ex_cfg.server_host ++ str ":" ++ fmt_d ex_cfg.server_port ++
        str "\r\nConnection: close\r\n\r\n" ∧
      r.request_len = r.request.length :=
  write_request_data ex_cfg .refused [] (str "/a") [251] 0 (by decide) (by decide) (by decide)
    (by decide)

/-- Counterexample to C19: for the one byte 0xFB the base64 text is `+w==`, and
the request carries `data=%2Bw%3D%3D`; the text `data=+w==` does not occur
in it. -/
theorem write_request_data_percent_encoded :
    bytes_to_base64 [251] 5 = .ok (str "+w==") ∧
    ∃ r, vtfs_http_write_call ex_cfg .refused [] true (str "/a") [251] 0 = .ok r ∧
      r.request = str ("GET /write?token=&path=%2Fa&offset=0&data=%2Bw%3D%3D HTTP/1.1\r\n" ++
        "Host: 127.0.0.1:8080\r\nConnection: close\r\n\r\n") ∧
      strstr r.request (str "data=+w==") = none :=
  ⟨by decide, _, rfl, by decide, by decide⟩

theorem write_request_data_truncated :
    bytes_to_base64 (List.replicate 384 0) 513 = .ok (List.replicate 512 65) ∧
    ∃ r, vtfs_http_write_call ex_cfg .refused [] true (str "/a") (List.replicate 384 0) 0 = .ok r ∧
      r.request = str "GET /write?token=&path=%2Fa&offset=0&data=" ++ List.replicate 509 65 ++
        str " HTTP/1.1\r\nHost: 127.0.0.1:8080\r\nConnection: close\r\n\r\n" :=
  ⟨by set_option maxRecDepth 100000 in decide, _,
    by set_option maxRecDepth 100000 in rfl,
    by set_option maxRecDepth 100000 in decide⟩

/-- C12: a chunk whose payload starts with a line feed is decoded wrongly. The
one chunk of the response holds the 4 bytes LF `abc`; `parse_http_response`
skips the line feed with the CRLF after the size line and stores `abc` CR.
The body of the claim's own example, `4 CRLF data CRLF 0 CRLF CRLF`, is decoded
to `data`. -/
theorem chunk_payload_leading_newline :
    parse_http_response
      (str "HTTP/1.1 200 OK\r\nTransfer-Encoding: chunked\r\n\r\n4\r\n\nabc\r\n0\r\n\r\n") 4096 =
      ⟨4, some (str "abc\r"), 200⟩ ∧
    parse_http_response
      (str "HTTP/1.1 200 OK\r\nTransfer-Encoding: chunked\r\n\r\n4\r\ndata\r\n0\r\n\r\n") 4096 =
      ⟨4, some (str "data"), 200⟩ := by
  decide

/-- C13: a body that holds the text `Transfer-Encoding: chunked` is taken for a
chunked body although no header declares it: the body comes back empty. -/
theorem unchunked_body_with_header_text :
    strstr (str "HTTP/1.1 200 OK\r\nContent-Type: text/plain\r\n")
      (str "Transfer-Encoding: chunked") = none ∧
    parse_http_response
      (str ("HTTP/1.1 200 OK\r\nContent-Type: text/plain\r\n\r\n" ++
        "\x7b\"result\":\"Transfer-Encoding: chunked\"\x7d")) 4096 =
      ⟨0, some [], 200⟩ := by
  decide

/-- C15: with status 500 and a body without the text `"error"`, the operations
create, write and delete return success (0, 0 and the size), and stat with
status 404 returns the values of the body; only read returns an error. -/
theorem error_status_not_an_error :
    vtfs_http_create ex_cfg
      (.received (str "HTTP/1.1 500 Internal Server Error\r\n\r\nfailure")) []
      (str "/a") (str "file") 420 = 0 ∧
    vtfs_http_write ex_cfg
      (.received (str "HTTP/1.1 500 Internal Server Error\r\n\r\nfailure")) [] true
      (str "/a") [1, 2, 3] 0 = 3 ∧
    vtfs_http_delete ex_cfg
      (.received (str "HTTP/1.1 500 Internal Server Error\r\n\r\nfailure")) []
      (str "/a") = 0 ∧
    vtfs_http_stat ex_cfg
      (.received (str ("HTTP/1.1 404 Not Found\r\n\r\n" ++
        "\x7b\"result\":\x7b\"type\":\"file\",\"size\":42\x7d\x7d"))) []
      (str "/a") = .ok (S_IFREG ||| 0o777, 42) ∧
    vtfs_http_read ex_cfg
      (.received (str "HTTP/1.1 500 Internal Server Error\r\n\r\nfailure")) [] true
      (str "/a") 3 0 = .ret (-ENOENT) [] := by
  decide

/-- C16: for a data field that holds the base64 text of the 12 bytes
`hello, world` and a requested size of 8, `base64_decode` stores 12 bytes in
the block of 8 bytes from `kmalloc(size)` before the length is cut to the
requested size. With a requested size of 12 the call returns the 12 bytes. -/
theorem read_decodes_past_block :
    bytes_to_base64 (str "hello, world") 17 = .ok (str "aGVsbG8sIHdvcmxk") ∧
    vtfs_http_read ex_cfg
      (.received (str ("HTTP/1.1 200 OK\r\n\r\n" ++
        "\x7b\"result\":\x7b\"data\":\"aGVsbG8sIHdvcmxk\"\x7d\x7d"))) [] true
      (str "/a") 8 0 = .overrun 12 8 ∧
    vtfs_http_read ex_cfg
      (.received (str ("HTTP/1.1 200 OK\r\n\r\n" ++
        "\x7b\"result\":\x7b\"data\":\"aGVsbG8sIHdvcmxk\"\x7d\x7d"))) [] true
      (str "/a") 12 0 = .ret 12 (str "hello, world") := by
  decide

/-- C20: with a path after the port the port is lost. For
`http://example:9000/api` the function `parse_url` stores the host `example`
and the port 8080, for `http://example:9000` the port 9000. -/
theorem parse_url_port_before_path :
    (parse_url ex_cfg (str "http://example:9000/api")).server_host = str "example" ∧
    (parse_url ex_cfg (str "http://example:9000/api")).server_port = 8080 ∧
    (parse_url ex_cfg (str "http://example:9000")).server_host = str "example" ∧
    (parse_url ex_cfg (str "http://example:9000")).server_port = 9000 := by
  decide

/-! ## The HTTP client: the stat response -/

/-! ### Decimal numbers -/

theorem fmt_digits_spec (fuel : Nat) : ∀ n, n < fuel →
    (∀ c ∈ fmt_digits 10 fuel n, 48 ≤ c ∧ c ≤ 57) ∧
    (fmt_digits 10 fuel n ≠ []) ∧
    (∀ acc, (fmt_digits 10 fuel n).foldl (fun a d => a * 10 + (d - 48)) acc =
      acc * 10 ^ (fmt_digits 10 fuel n).length + n) ∧
    (∀ k, 0 < k → n < 10 ^ k → (fmt_digits 10 fuel n).length ≤ k) := by
  induction fuel with
  | zero => intro n h; omega
  | succ fuel ih =>
    intro n hn
    rw [fmt_digits]
    by_cases h10 : n < 10
    · rw [if_pos h10]
      refine ⟨?_, by simp, ?_, ?_⟩
      · intro c hc; simp at hc; omega
      · intro acc; simp
      · intro k hk _; simp; omega
    · rw [if_neg h10]
      obtain ⟨i1, _, i3, i4⟩ := ih (n / 10) (by omega)
      refine ⟨?_, by simp, ?_, ?_⟩
      · intro c hc
        rw [List.mem_append] at hc
        rcases hc with hc | hc
        · exact i1 c hc
        · simp at hc; omega
      · intro acc
        rw [List.foldl_append, i3 acc]
        simp only [List.foldl_cons, List.foldl_nil, List.length_append, List.length_singleton]
        rw [pow_succ]
        have : 48 + n % 10 - 48 = n % 10 := by omega
        rw [this]
        have h2 : n / 10 * 10 + n % 10 = n := by omega
        calc (acc * 10 ^ (fmt_digits 10 fuel (n / 10)).length + n / 10) * 10 + n % 10
            = acc * (10 ^ (fmt_digits 10 fuel (n / 10)).length * 10) + (n / 10 * 10 + n % 10) := by
              ring
          _ = acc * (10 ^ (fmt_digits 10 fuel (n / 10)).length * 10) + n := by rw [h2]
      · intro k hk hlt
        simp only [List.length_append, List.length_singleton]
        cases k with
        | zero => omega
        | succ k =>
          have hk0 : 0 < k := by
            rcases Nat.eq_zero_or_pos k with h | h
            · subst h; simp at hlt; omega
            · exact h
          have := i4 k hk0 (by rw [pow_succ] at hlt; omega)
          omega

theorem fmt_u_digits (n : Nat) : ∀ c ∈ fmt_u n, 48 ≤ c ∧ c ≤ 57 :=
  (fmt_digits_spec (n + 1) n (by omega)).1

theorem fmt_u_ne_nil (n : Nat) : fmt_u n ≠ [] :=
  (fmt_digits_spec (n + 1) n (by omega)).2.1

theorem fmt_u_value (n : Nat) : (fmt_u n).foldl (fun a d => a * 10 + (d - 48)) 0 = n := by
  have h := (fmt_digits_spec (n + 1) n (by omega)).2.2.1 0
  simpa [fmt_u] using h

theorem fmt_u_length (n k : Nat) (hk : 0 < k) (h : n < 10 ^ k) : (fmt_u n).length ≤ k :=
  (fmt_digits_spec (n + 1) n (by omega)).2.2.2 k hk h

theorem digit_value_decimal (c : Nat) (h : 48 ≤ c ∧ c ≤ 57) : digit_value c = some (c - 48) := by
  unfold digit_value; rw [if_pos h]

theorem parse_integer_digits (ds rest : CStr) (hds : ∀ c ∈ ds, 48 ≤ c ∧ c ≤ 57) : ∀ acc,
    parse_integer 10 (ds ++ rest) acc =
      parse_integer 10 rest (ds.foldl (fun a d => a * 10 + (d - 48)) acc) := by
  induction ds with
  | nil => intro acc; rfl
  | cons d ds ih =>
    intro acc
    have hd := hds d (by simp)
    have hr : ∀ c ∈ ds, 48 ≤ c ∧ c ≤ 57 := fun c hc => hds c (by simp [hc])
    have hv : d - 48 < 10 := by omega
    simp only [List.cons_append, parse_integer, digit_value_decimal d hd, hv, if_true,
      List.foldl_cons]
    exact ih hr _

theorem kstrtoull_cons (d : Nat) (ds : CStr) (h : d ≠ 43) :
    kstrtoull (d :: ds) = _kstrtoull (d :: ds) := by
  unfold kstrtoull
  split
  · rename_i t heq
    simp only [List.cons.injEq] at heq
    exact absurd heq.1 h
  · rfl

theorem kstrtoll_cons (d : Nat) (ds : CStr) (h : d ≠ 45) :
    kstrtoll (d :: ds) =
      match kstrtoull (d :: ds) with
      | none => none
      | some v => if 9223372036854775808 ≤ v then none else some (v : Int) := by
  rw [kstrtoll]
  all_goals first
    | rfl
    | (intro t heq
       simp only [List.cons.injEq] at heq
       exact absurd heq.1 h)

theorem kstrtoull_fmt_u (n : Nat) (h : n < 18446744073709551616) :
    _kstrtoull (fmt_u n) = some n := by
  have hd := fmt_u_digits n
  have hne := fmt_u_ne_nil n
  have hv := fmt_u_value n
  have hp := parse_integer_digits (fmt_u n) [] hd 0
  rw [List.append_nil, hv] at hp
  unfold _kstrtoull
  simp only [hp, parse_integer]
  rw [if_neg (by omega), if_neg]
  · simp
  · intro e
    exact hne (List.length_eq_zero.mp (by simpa using e.symm))

theorem kstrtoll_fmt_u (n : Nat) :
    kstrtoll (fmt_u n) = if n < 9223372036854775808 then some (n : Int) else none := by
  have hd := fmt_u_digits n
  have hne := fmt_u_ne_nil n
  cases hs : fmt_u n with
  | nil => exact absurd hs hne
  | cons d ds =>
    have hd0 := hd d (by rw [hs]; simp)
    rw [kstrtoll_cons d ds (by omega), kstrtoull_cons d ds (by omega), ← hs]
    by_cases h64 : n < 18446744073709551616
    · rw [kstrtoull_fmt_u n h64]
      by_cases h : n < 9223372036854775808
      · simp [h]
      · simp [h]
    · have hv := fmt_u_value n
      have hp := parse_integer_digits (fmt_u n) [] hd 0
      rw [List.append_nil, hv] at hp
      have hk : _kstrtoull (fmt_u n) = none := by
        unfold _kstrtoull
        simp only [hp, parse_integer]
        rw [if_pos (by omega)]
      rw [hk, if_neg (by omega)]

/-! ### Scanning the result object -/

theorem brace_scan_no_brace (w rest : CStr) (hw : ∀ c ∈ w, c ≠ 123 ∧ c ≠ 125) :
    ∀ (bc : Int) (n : Nat), 0 < bc →
      brace_scan (w ++ rest) bc n = brace_scan rest bc (n + w.length) := by
  induction w with
  | nil => intro bc n _; rfl
  | cons c w ih =>
    intro bc n hbc
    have hc := hw c (by simp)
    have hr : ∀ x ∈ w, x ≠ 123 ∧ x ≠ 125 := fun x hx => hw x (by simp [hx])
    rw [List.cons_append, brace_scan, if_pos hbc, if_neg hc.1, if_neg hc.2,
      ih hr bc (n + 1) hbc, List.length_cons]
    congr 1
    omega

theorem number_text_digits (ds rest : CStr) (hds : ∀ c ∈ ds, 48 ≤ c ∧ c ≤ 57) :
    number_text (ds ++ 125 :: rest) = ds := by
  induction ds with
  | nil => simp [number_text]
  | cons d ds ih =>
    have hd := hds d (by simp)
    have hr : ∀ c ∈ ds, 48 ≤ c ∧ c ≤ 57 := fun c hc => hds c (by simp [hc])
    have h : d ≠ 44 ∧ d ≠ 125 ∧ d ≠ 93 ∧ d ≠ 32 ∧ d ≠ 9 ∧ d ≠ 10 ∧ d ≠ 13 := by omega
    rw [List.cons_append, number_text, if_pos h, ih hr]

theorem skip_blanks_digits (ds rest : CStr) (hds : ∀ c ∈ ds, 48 ≤ c ∧ c ≤ 57)
    (hne : ds ≠ []) : skip_blanks (ds ++ rest) = ds ++ rest := by
  cases ds with
  | nil => exact absurd rfl hne
  | cons d ds =>
    have hd := hds d (by simp)
    have h : ¬ (d = 32 ∨ d = 9) := by omega
    rw [List.cons_append, skip_blanks, if_neg h]

theorem digits_no_quote (ds : CStr) (hds : ∀ c ∈ ds, 48 ≤ c ∧ c ≤ 57) : 34 ∉ ds := by
  intro h; have := hds 34 h; omega

theorem digits_no_brace (ds : CStr) (hds : ∀ c ∈ ds, 48 ≤ c ∧ c ≤ 57) :
    ∀ c ∈ ds, c ≠ 123 ∧ c ≠ 125 := by
  intro c h; have := hds c h; omega

theorem status_code_nonneg (response : CStr) (body_size : Nat) :
    0 ≤ (parse_http_response response body_size).status_code := by
  unfold parse_http_response
  split
  · decide
  · split
    · decide
    · have hs : ∀ s : Nat, (0 : Int) ≤ if 100 ≤ s ∧ s ≤ 599 then (s : Int) else 500 := by
        intro s; split_ifs <;> omega
      simp only
      split
      · exact hs _
      · split <;> exact hs _

theorem call_ret_nonneg (cfg : http_config) (h : cfg.http_initialized = true) (response method
    buffer0 : CStr) (buffer_size : Nat) (args : List (CStr × CStr)) :
    ¬ (vtfs_http_call cfg (.received response) method buffer0 buffer_size args).ret < 0 := by
  rw [(call_received cfg h response method buffer0 buffer_size args).1]
  have := status_code_nonneg response buffer_size
  split_ifs <;> omega

theorem stat_known_type (cfg : http_config) (response stack path T : CStr) (N : Nat)
    (hinit : cfg.http_initialized = true)
    (hT : T = str "file" ∨ T = str "dir")
    (hbody : (parse_http_response response VTFS_HTTP_BUFFER_SIZE).body =
      some (str "\x7b\"result\":\x7b\"type\":\"" ++ T ++ str "\",\"size\":" ++ fmt_u N ++
        str "\x7d\x7d"))
    (hN : N < 9223372036854775808) :
    vtfs_http_stat cfg (.received response) stack path =
      .ok (if T = str "file" then S_IFREG ||| 0o777 else S_IFDIR ||| 0o777, (N : Int)) := by
  have hc := (call_received cfg hinit response (str "stat") stack VTFS_HTTP_BUFFER_SIZE
    [(str "path", path)]).2
  rw [hbody] at hc
  simp only at hc
  have hd := fmt_u_digits N
  have hq := digits_no_quote _ hd
  have hb := digits_no_brace _ hd
  have hne := fmt_u_ne_nil N
  have hlen : (fmt_u N).length ≤ 19 := fmt_u_length N 19 (by decide) (by omega)
  have hk := kstrtoll_fmt_u N
  rw [if_pos hN] at hk
  have hss := fun s p => strstr_append_not_mem (fmt_u N) s p 34 hq
  have hbs := fun rest bc n h => brace_scan_no_brace (fmt_u N) rest hb bc n h
  unfold vtfs_http_stat
  simp only [hinit, Bool.not_true, Bool.false_eq_true, if_false]
  rw [if_neg (call_ret_nonneg cfg hinit _ _ _ _ _), hc]
  generalize fmt_u N = ds at *
  have hscan : brace_scan (ds ++ [125, 125]) 1 21 = (0, 22 + ds.length) := by
    rw [hbs _ _ _ (by decide)]
    simp [brace_scan]
    omega
  have hnum : number_text (skip_blanks (ds ++ [125])) = ds := by
    rw [skip_blanks_digits ds _ hd hne, number_text_digits ds [] hd]
  have hsz : ¬ 32 ≤ ds.length := by omega
  have hz : ds.length ≠ 0 := fun e => hne (List.length_eq_zero.mp e)
  have hJ : ∀ (pre : CStr) (k : Nat), pre.length = k →
      List.take (k + ds.length + 1) (pre ++ (ds ++ [125, 125])) = pre ++ (ds ++ [125]) := by
    intro pre k hp
    have e : pre ++ (ds ++ [125, 125]) = (pre ++ (ds ++ [125])) ++ [125] := by simp
    rw [e, List.take_left' (by simp [hp]; omega)]
  have hl4 : ¬ 4095 ≤ 22 + ds.length := by omega
  have hl5 : ¬ 4095 ≤ 21 + ds.length := by omega
  have hscan2 : brace_scan (ds ++ [125, 125]) 1 20 = (0, 21 + ds.length) := by
    rw [hbs _ _ _ (by decide)]
    simp [brace_scan]
    omega
  rcases hT with rfl | rfl
  · have hJ1 := hJ [123, 34, 116, 121, 112, 101, 34, 58, 34, 102, 105, 108, 101, 34, 44, 34, 115, 105, 122, 101, 34, 58] 22 rfl
    simp only [List.cons_append, List.nil_append] at hJ1
    simp [-List.take_succ_cons, str, strstr, strchr, hss, brace_scan, hscan,
      VTFS_HTTP_BUFFER_SIZE, hl4, hJ1]
    simp [extract_json_field, extract_json_number, snprintf, str, strstr, strchr, to_size_t,
      hnum, hk, hsz, hz]
  · have hJ1 := hJ [123, 34, 116, 121, 112, 101, 34, 58, 34, 100, 105, 114, 34, 44, 34, 115, 105, 122, 101, 34, 58] 21 rfl
    simp only [List.cons_append, List.nil_append] at hJ1
    simp [-List.take_succ_cons, str, strstr, strchr, hss, brace_scan, hscan2,
      VTFS_HTTP_BUFFER_SIZE, hl5, hJ1]
    simp [extract_json_field, extract_json_number, snprintf, str, strstr, strchr, to_size_t,
      hnum, hk, hsz, hz]

theorem take_prefix_append (P Y : CStr) (m : Nat) :
    List.take (P.length + m) (P ++ Y) = P ++ List.take m Y := by
  rw [List.take_append_eq_append_take, List.take_of_length_le (by omega)]
  congr 2
  omega

theorem take_quote_free (T R : CStr) (m : Nat) :
    (m ≤ T.length ∧ List.take m (T ++ 34 :: R) = List.take m T) ∨
    (List.take m (T ++ 34 :: R) = T ++ 34 :: List.take (m - T.length - 1) R) := by
  by_cases h : m ≤ T.length
  · left
    refine ⟨h, ?_⟩
    rw [List.take_append_eq_append_take]
    have : m - T.length = 0 := by omega
    rw [this]; simp
  · right
    have e : m = T.length + ((m - T.length - 1) + 1) := by omega
    have e2 : List.take m (T ++ 34 :: R) =
        List.take (T.length + ((m - T.length - 1) + 1)) (T ++ 34 :: R) := by rw [← e]
    rw [e2, take_prefix_append, List.take_succ_cons]

theorem not_mem_take (T : CStr) (m c : Nat) (h : c ∉ T) : c ∉ List.take m T :=
  fun hc => h (List.mem_of_mem_take hc)

theorem extract_type_take (T R : CStr) (L : Nat) (hT : 34 ∉ T) (v : CStr)
    (h : extract_json_field (List.take L (str "\x7b\"type\":\"" ++ (T ++ 34 :: R))) (str "type") 16
      = .ok v) :
    v = if 16 ≤ T.length then T.take 15 else T := by
  by_cases hL : L < 9
  · exfalso
    revert h
    interval_cases L <;> simp [extract_json_field, str, snprintf, strstr, strchr]
  · have e : L = (str "\x7b\"type\":\"").length + (L - 9) := by
      have : (str "\x7b\"type\":\"").length = 9 := rfl
      omega
    rw [e, take_prefix_append] at h
    rcases take_quote_free T R (L - 9) with ⟨_, h1⟩ | h1
    · exfalso
      rw [h1] at h
      have hn := strchr_none_of_not_mem _ 34 (not_mem_take T (L - 9) 34 hT)
      revert h
      simp [extract_json_field, str, snprintf, strstr, strchr, hn]
    · rw [h1] at h
      have hs : strchr (T ++ 34 :: List.take (L - 9 - T.length - 1) R) 34 =
          some (34 :: List.take (L - 9 - T.length - 1) R) := by
        rw [strchr_append_not_mem _ _ _ hT, strchr_self]
      revert h
      simp [extract_json_field, str, snprintf, strstr, strchr, hs, to_size_t]
      intro h
      rw [← h]
      split_ifs with h16
      · simp; omega
      · simp

theorem stat_unknown_type (cfg : http_config) (response stack path T R : CStr)
    (hinit : cfg.http_initialized = true)
    (hbody : (parse_http_response response VTFS_HTTP_BUFFER_SIZE).body =
      some (str "\x7b\"result\":\x7b\"type\":\"" ++ (T ++ 34 :: R)))
    (hT : 34 ∉ T) (hf : T ≠ str "file") (hd : T ≠ str "dir") :
    ∃ e, e < 0 ∧ vtfs_http_stat cfg (.received response) stack path = .error e := by
  have hc := (call_received cfg hinit response (str "stat") stack VTFS_HTTP_BUFFER_SIZE
    [(str "path", path)]).2
  rw [hbody] at hc
  simp only at hc
  have hA := fun L v => extract_type_take T R L hT v
  have hx : str "\x7b\"type\":\"" ++ (T ++ 34 :: R) =
      123 :: 34 :: 116 :: 121 :: 112 :: 101 :: 34 :: 58 :: 34 :: (T ++ 34 :: R) := by
    simp [str]
  have hstr : str "type" = [116, 121, 112, 101] := rfl
  rw [hx, hstr] at hA
  have hty : ∀ v, (v = if 16 ≤ T.length then T.take 15 else T) →
      v ≠ [102, 105, 108, 101] ∧ v ≠ [100, 105, 114] := by
    intro v hv
    have hf2 : T ≠ [102, 105, 108, 101] := hf
    have hd2 : T ≠ [100, 105, 114] := hd
    split_ifs at hv with h16
    · have hl : v.length = 15 := by rw [hv, List.length_take]; omega
      constructor <;> intro e <;> rw [e] at hl <;> simp at hl
    · rw [hv]; exact ⟨hf2, hd2⟩
  unfold vtfs_http_stat
  simp only [hinit, Bool.not_true, Bool.false_eq_true, if_false]
  rw [if_neg (call_ret_nonneg cfg hinit _ _ _ _ _), hc]
  split_ifs with herr
  · exact ⟨-ENOENT, by decide, rfl⟩
  simp [str, strstr, strchr]
  repeat' split
  all_goals first
    | exact ⟨- EIO, by decide, rfl⟩
    | (have h1 := hA _ _ (by assumption)
       have h2 := hty _ h1
       first
         | exact absurd (by assumption) h2.1
         | exact absurd (by assumption) h2.2)

theorem isPrefixOf_take (p X : CStr) : ∀ L, p.isPrefixOf (List.take L X) = true →
    p.isPrefixOf X = true := by
  intro L h
  rw [List.isPrefixOf_iff_prefix] at h ⊢
  exact h.trans (List.take_prefix L X)

theorem strstr_take_none (p : CStr) (X : CStr) : ∀ L, strstr X p = none →
    strstr (List.take L X) p = none := by
  induction X with
  | nil => intro L h; simpa using h
  | cons c t ih =>
    intro L h
    rw [strstr] at h
    by_cases hp : p.isPrefixOf (c :: t) = true
    · rw [if_pos hp] at h; exact absurd h (by simp)
    · rw [if_neg hp] at h
      cases L with
      | zero =>
        have hne : p ≠ [] := by
          intro e; subst e; exact hp (by simp [List.isPrefixOf])
        simp [strstr, hne]
      | succ L =>
        rw [List.take_succ_cons, strstr]
        have hp2 : ¬ p.isPrefixOf (c :: List.take L t) = true := by
          intro h2
          have := isPrefixOf_take p (c :: t) (L + 1) (by rw [List.take_succ_cons]; exact h2)
          exact hp this
        rw [if_neg hp2]
        exact ih L h

theorem isPrefixOf_quote (w : CStr) : ∀ T R : CStr, 34 ∉ w → 34 ∉ T →
    (w ++ [34]).isPrefixOf (T ++ 34 :: R) = true → w = T := by
  induction w with
  | nil =>
    intro T R _ hT h
    cases T with
    | nil => rfl
    | cons c T =>
      have hc : c ≠ 34 := fun e => hT (by simp [e])
      simp [List.isPrefixOf] at h
      exact absurd h.symm hc
  | cons a w ih =>
    intro T R hw hT h
    have ha : a ≠ 34 := fun e => hw (by simp [e])
    have hw2 : 34 ∉ w := fun e => hw (by simp [e])
    cases T with
    | nil =>
      simp [List.isPrefixOf] at h
      exact absurd h.1 ha
    | cons c T =>
      have hT2 : 34 ∉ T := fun e => hT (by simp [e])
      simp [List.isPrefixOf] at h
      rw [h.1, ih T R hw2 hT2 (by simpa using h.2)]

theorem no_size_field (T : CStr) (hT : 34 ∉ T) (L : Nat) :
    (extract_json_number (List.take L (str "\x7b\"type\":\"" ++ (T ++ str "\"\x7d\x7d")))
      (str "size") 32).toOption = none := by
  by_cases hs : T = str "size"
  · subst hs
    rcases Nat.lt_or_ge L 17 with h | h
    · interval_cases L <;> decide
    · rw [List.take_of_length_le (by simp [str]; omega)]
      decide
  · have hpre : List.isPrefixOf [115, 105, 122, 101, 34] (T ++ 34 :: [125, 125]) = false := by
      rw [Bool.eq_false_iff]
      intro h
      have := isPrefixOf_quote [115, 105, 122, 101] T _ (by decide) hT h
      exact hs this.symm
    have hss := fun s p => strstr_append_not_mem T s p 34 hT
    have hn : strstr (str "\x7b\"type\":\"" ++ (T ++ str "\"\x7d\x7d")) (str "\"size\"") = none := by
      simp [str, strstr, hpre, hss]
    have hn2 := strstr_take_none _ _ L hn
    have hpat : snprintf 128 (str "\"" ++ str "size" ++ str "\"") = str "\"size\"" := by decide
    unfold extract_json_number
    simp only [hpat, hn2]
    rfl

theorem no_type_field (ds : CStr) (hds : 34 ∉ ds) (L : Nat) :
    extract_json_field (List.take L (str "\x7b\"size\":" ++ (ds ++ str "\x7d\x7d")))
      (str "type") 16 = .error (-ENOENT) := by
  have hss := fun s p => strstr_append_not_mem ds s p 34 hds
  have hn : strstr (str "\x7b\"size\":" ++ (ds ++ str "\x7d\x7d")) (str "\"type\"") = none := by
    simp [str, strstr, hss]
  have hn2 := strstr_take_none _ _ L hn
  have hpat : snprintf 128 (str "\"" ++ str "type" ++ str "\"") = str "\"type\"" := by decide
  unfold extract_json_field
  simp only [hpat, hn2]

theorem stat_missing_type (cfg : http_config) (response stack path ds : CStr)
    (hinit : cfg.http_initialized = true)
    (hbody : (parse_http_response response VTFS_HTTP_BUFFER_SIZE).body =
      some (str "\x7b\"result\":\x7b\"size\":" ++ (ds ++ str "\x7d\x7d")))
    (hds : 34 ∉ ds) :
    ∃ e, e < 0 ∧ vtfs_http_stat cfg (.received response) stack path = .error e := by
  have hc := (call_received cfg hinit response (str "stat") stack VTFS_HTTP_BUFFER_SIZE
    [(str "path", path)]).2
  rw [hbody] at hc
  simp only at hc
  have hA := fun L => no_type_field ds hds L
  have hx : str "\x7b\"size\":" ++ (ds ++ str "\x7d\x7d") =
      123 :: 34 :: 115 :: 105 :: 122 :: 101 :: 34 :: 58 :: (ds ++ [125, 125]) := by
    simp [str]
  have hstr : str "type" = [116, 121, 112, 101] := rfl
  rw [hx, hstr] at hA
  have hA2 : ∀ L v, extract_json_field
      (List.take L (123 :: 34 :: 115 :: 105 :: 122 :: 101 :: 34 :: 58 :: (ds ++ [125, 125])))
      [116, 121, 112, 101] 16 ≠ .ok v := by
    intro L v h
    rw [hA L] at h
    cases h
  unfold vtfs_http_stat
  simp only [hinit, Bool.not_true, Bool.false_eq_true, if_false]
  rw [if_neg (call_ret_nonneg cfg hinit _ _ _ _ _), hc]
  split_ifs with herr
  · exact ⟨-ENOENT, by decide, rfl⟩
  simp [str, strstr, strchr]
  repeat' split
  all_goals first
    | exact ⟨- EIO, by decide, rfl⟩
    | exact absurd (by assumption) (hA2 _ _)

theorem stat_missing_size (cfg : http_config) (response stack path T : CStr)
    (hinit : cfg.http_initialized = true)
    (hbody : (parse_http_response response VTFS_HTTP_BUFFER_SIZE).body =
      some (str "\x7b\"result\":\x7b\"type\":\"" ++ (T ++ str "\"\x7d\x7d")))
    (hT : 34 ∉ T) :
    ∃ e, e < 0 ∧ vtfs_http_stat cfg (.received response) stack path = .error e := by
  have hc := (call_received cfg hinit response (str "stat") stack VTFS_HTTP_BUFFER_SIZE
    [(str "path", path)]).2
  rw [hbody] at hc
  simp only at hc
  have hA := fun L => no_size_field T hT L
  have hx : str "\x7b\"type\":\"" ++ (T ++ str "\"\x7d\x7d") =
      123 :: 34 :: 116 :: 121 :: 112 :: 101 :: 34 :: 58 :: 34 :: (T ++ [34, 125, 125]) := by
    simp [str]
  have hstr : str "size" = [115, 105, 122, 101] := rfl
  rw [hx, hstr] at hA
  have hA2 : ∀ L v, extract_json_number
      (List.take L (123 :: 34 :: 116 :: 121 :: 112 :: 101 :: 34 :: 58 :: 34 :: (T ++ [34, 125, 125])))
      [115, 105, 122, 101] 32 ≠ .ok v := by
    intro L v h
    have h2 := hA L
    rw [h] at h2
    cases h2
  unfold vtfs_http_stat
  simp only [hinit, Bool.not_true, Bool.false_eq_true, if_false]
  rw [if_neg (call_ret_nonneg cfg hinit _ _ _ _ _), hc]
  split_ifs with herr
  · exact ⟨-ENOENT, by decide, rfl⟩
  simp [str, strstr, strchr]
  repeat' split
  all_goals first
    | exact ⟨- EIO, by decide, rfl⟩
    | exact absurd (by assumption) (hA2 _ _)

/-- Counterexample to C14: for N = 2^63 the body
`{"result":{"type":"file","size":9223372036854775808}}` with status 200 makes
`vtfs_http_stat` return `-EIO` (`kstrtoll` rejects the number). -/
theorem stat_size_out_of_range :
    vtfs_http_stat ex_cfg
      (.received (str ("HTTP/1.1 200 OK\r\n\r\n" ++
        "\x7b\"result\":\x7b\"type\":\"file\",\"size\":9223372036854775808\x7d\x7d"))) []
      (str "/a") = .error (- EIO) := by
  decide

/-- C14 (amended): for every natural number N below 2^63 and a response whose
body is `{"result":{"type":"file","size":N}}`, `vtfs_http_stat` reports the mode
`S_IFREG|0777` and the size N; with `"type":"dir"` it reports `S_IFDIR|0777`
and N; with any other type string (free of double quotes), or with the type
field or the size field missing, it returns a negative error code. -/
theorem stat_spec (cfg : http_config) (response stack path : CStr) (N : Nat)
    (hinit : cfg.http_initialized = true) (hN : N < 9223372036854775808) :
    ((parse_http_response response VTFS_HTTP_BUFFER_SIZE).body =
        some (str "\x7b\"result\":\x7b\"type\":\"file\",\"size\":" ++ fmt_u N ++ str "\x7d\x7d") →
      vtfs_http_stat cfg (.received response) stack path = .ok (S_IFREG ||| 0o777, (N : Int))) ∧
    ((parse_http_response response VTFS_HTTP_BUFFER_SIZE).body =
        some (str "\x7b\"result\":\x7b\"type\":\"dir\",\"size\":" ++ fmt_u N ++ str "\x7d\x7d") →
      vtfs_http_stat cfg (.received response) stack path = .ok (S_IFDIR ||| 0o777, (N : Int))) ∧
    (∀ T : CStr, 34 ∉ T → T ≠ str "file" → T ≠ str "dir" →
      (parse_http_response response VTFS_HTTP_BUFFER_SIZE).body =
        some (str "\x7b\"result\":\x7b\"type\":\"" ++ T ++ str "\",\"size\":" ++ fmt_u N ++
          str "\x7d\x7d") →
      ∃ e, e < 0 ∧ vtfs_http_stat cfg (.received response) stack path = .error e) ∧
    ((parse_http_response response VTFS_HTTP_BUFFER_SIZE).body =
        some (str "\x7b\"result\":\x7b\"size\":" ++ fmt_u N ++ str "\x7d\x7d") →
      ∃ e, e < 0 ∧ vtfs_http_stat cfg (.received response) stack path = .error e) ∧
    (∀ T : CStr, 34 ∉ T →
      (parse_http_response response VTFS_HTTP_BUFFER_SIZE).body =
        some (str "\x7b\"result\":\x7b\"type\":\"" ++ T ++ str "\"\x7d\x7d") →
      ∃ e, e < 0 ∧ vtfs_http_stat cfg (.received response) stack path = .error e) := by
  refine ⟨?_, ?_, ?_, ?_, ?_⟩
  · intro hb
    have h := stat_known_type cfg response stack path (str "file") N hinit (Or.inl rfl)
      (by rw [hb]; simp [str]) hN
    rw [h, if_pos rfl]
  · intro hb
    have h := stat_known_type cfg response stack path (str "dir") N hinit (Or.inr rfl)
      (by rw [hb]; simp [str]) hN
    rw [h, if_neg (by decide)]
  · intro T hT hf hd hb
    exact stat_unknown_type cfg response stack path T (str ",\"size\":" ++ fmt_u N ++ str "\x7d\x7d")
      hinit (by rw [hb]; simp [str]) hT hf hd
  · intro hb
    exact stat_missing_type cfg response stack path (fmt_u N) hinit (by rw [hb]; simp [str])
      (digits_no_quote _ (fmt_u_digits N))
  · intro T hT hb
    exact stat_missing_size cfg response stack path T hinit (by rw [hb]; simp [str]) hT

theorem stat_spec_witness :
    vtfs_http_stat ex_cfg
      (.received (str ("HTTP/1.1 200 OK\r\n\r\n" ++
        "\x7b\"result\":\x7b\"type\":\"file\",\"size\":42\x7d\x7d"))) []
      (str "/a") = .ok (S_IFREG ||| 0o777, 42) :=
  (stat_spec ex_cfg (str ("HTTP/1.1 200 OK\r\n\r\n" ++
      "\x7b\"result\":\x7b\"type\":\"file\",\"size\":42\x7d\x7d")) [] (str "/a") 42
    (by decide) (by decide)).1 (by decide)

/-! ## The HTTP client: what the callers of `vtfs_http_call` make of a reply -/

theorem base64_chars_no_quote (k : Nat) : base64_chars.getD k 0 ≠ 34 := by
  by_cases h : k < 64
  · revert k; decide
  · rw [List.getD_eq_default _ _ (by simpa [base64_chars, str] using h)]; decide

theorem encode_loop_no_quote (X : List Nat) : 34 ∉ bytes_to_base64_loop X := by
  induction X using bytes_to_base64_loop.induct with
  | case1 => simp [bytes_to_base64_loop]
  | case2 a =>
    intro hc
    simp only [bytes_to_base64_loop, List.mem_cons, List.mem_singleton, List.mem_nil_iff,
      or_false] at hc
    rcases hc with h | h | h | h
    · exact base64_chars_no_quote _ h.symm
    · exact base64_chars_no_quote _ h.symm
    · exact absurd h (by decide)
    · exact absurd h (by decide)
  | case3 a b =>
    intro hc
    simp only [bytes_to_base64_loop, List.mem_cons, List.mem_singleton, List.mem_nil_iff,
      or_false] at hc
    rcases hc with h | h | h | h
    · exact base64_chars_no_quote _ h.symm
    · exact base64_chars_no_quote _ h.symm
    · exact base64_chars_no_quote _ h.symm
    · exact absurd h (by decide)
  | case4 a b c rest ih =>
    intro hx
    rw [bytes_to_base64_loop] at hx
    simp only [List.mem_cons] at hx
    rcases hx with h | h | h | h | h
    · exact base64_chars_no_quote _ h.symm
    · exact base64_chars_no_quote _ h.symm
    · exact base64_chars_no_quote _ h.symm
    · exact base64_chars_no_quote _ h.symm
    · exact ih h

theorem read_data_decoded (cfg : http_config) (response stack path : CStr) (D : List Nat)
    (size : Nat) (offset : Int) (hinit : cfg.http_initialized = true)
    (hstatus : (parse_http_response response VTFS_HTTP_BUFFER_SIZE).status_code < 400)
    (hbody : (parse_http_response response VTFS_HTTP_BUFFER_SIZE).body =
      some (str "\x7b\"result\":\x7b\"data\":\"" ++ bytes_to_base64_loop D ++ str "\"\x7d\x7d"))
    (hD : ∀ x ∈ D, x < 256) (hlen : D.length ≤ 3000) :
    vtfs_http_read cfg (.received response) stack true path size offset =
      if size < D.length then .overrun D.length size else .ret (D.length : Int) D := by
  have hc := call_received cfg hinit response (str "read") stack VTFS_HTTP_BUFFER_SIZE
    [(str "path", path), (str "offset", snprintf 32 (fmt_d offset)),
      (str "size", snprintf 32 (fmt_u size))]
  rw [hbody, if_neg (by omega)] at hc
  obtain ⟨hc1, hc2⟩ := hc
  simp only at hc2
  have hq := encode_loop_no_quote D
  have hl := encode_loop_length D
  have hdec := decode_encode D hD
  have hss := fun s p => strstr_append_not_mem (bytes_to_base64_loop D) s p 34 hq
  have hpre : List.isPrefixOf [101, 114, 114, 111, 114, 34]
      (bytes_to_base64_loop D ++ 34 :: [125, 125]) = false := by
    rw [Bool.eq_false_iff]
    intro h
    have e := isPrefixOf_quote [101, 114, 114, 111, 114] _ _ (by decide) hq h
    have : (bytes_to_base64_loop D).length = 5 := by rw [← e]; rfl
    omega
  have herr : strstr (str "\x7b\"result\":\x7b\"data\":\"" ++ bytes_to_base64_loop D ++
      str "\"\x7d\x7d") (str "\"error\"") = none := by
    simp [str, strstr, hpre, hss]
  have h1 : strstr (str "\x7b\"result\":\x7b\"data\":\"" ++ bytes_to_base64_loop D ++
      str "\"\x7d\x7d") (str "\"result\"") =
      some (str "\"result\":\x7b\"data\":\"" ++ bytes_to_base64_loop D ++ 34 :: str "\x7d\x7d") := by
    simp [str, strstr]
  have h2 : strstr (str "\"result\":\x7b\"data\":\"" ++ bytes_to_base64_loop D ++
      34 :: str "\x7d\x7d") (str "\"data\"") =
      some (str "\"data\":\"" ++ bytes_to_base64_loop D ++ 34 :: str "\x7d\x7d") := by
    simp [str, strstr]
  have hx := extract_data_field (bytes_to_base64_loop D) (str "\x7d\x7d") hq
  rw [if_neg (by omega)] at hx
  unfold vtfs_http_read
  simp only [hinit, Bool.not_true, Bool.false_eq_true, if_false, hc1, ne_eq, not_true_eq_false,
    hc2, herr, Option.isSome_none, h1, h2]
  simp only [VTFS_HTTP_BUFFER_SIZE, hx, hdec]
  split_ifs with h
  · rfl
  · rw [List.take_of_length_le (le_refl _), to_int_small _ (by omega)]

theorem read_error_status (cfg : http_config) (response stack path : CStr) (km : Bool)
    (size : Nat) (offset : Int) (hinit : cfg.http_initialized = true)
    (hstatus : 400 ≤ (parse_http_response response VTFS_HTTP_BUFFER_SIZE).status_code) :
    vtfs_http_read cfg (.received response) stack km path size offset = .ret (-ENOENT) [] := by
  have hc := (call_received cfg hinit response (str "read") stack VTFS_HTTP_BUFFER_SIZE
    [(str "path", path), (str "offset", snprintf 32 (fmt_d offset)),
      (str "size", snprintf 32 (fmt_u size))]).1
  rw [if_pos hstatus] at hc
  unfold vtfs_http_read
  simp only [hinit, Bool.not_true, Bool.false_eq_true, if_false]
  rw [if_pos (by rw [hc]; omega)]

theorem write_call_ok (cfg : http_config) (net : net_reply) (stack path : CStr)
    (data : List Nat) (offset : Int) (hinit : cfg.http_initialized = true) :
    vtfs_http_write_call cfg net stack true path data offset =
      .ok (vtfs_http_call cfg net (str "write") stack VTFS_HTTP_BUFFER_SIZE
        [(str "path", path), (str "offset", snprintf 32 (fmt_d offset)),
          (str "data", bytes_to_base64_loop data)]) := by
  unfold vtfs_http_write_call bytes_to_base64
  simp only [hinit, Bool.not_true, Bool.false_eq_true, if_false, Nat.lt_irrefl]

theorem error_status_ignored (cfg : http_config) (response stack path type body : CStr)
    (mode offset : Int) (data : List Nat) (hinit : cfg.http_initialized = true)
    (hbody : (parse_http_response response VTFS_HTTP_BUFFER_SIZE).body = some body)
    (herr : strstr body (str "\"error\"") = none) :
    vtfs_http_create cfg (.received response) stack path type mode = 0 ∧
    vtfs_http_delete cfg (.received response) stack path = 0 ∧
    vtfs_http_write cfg (.received response) stack true path data offset = to_int data.length := by
  refine ⟨?_, ?_, ?_⟩
  · have hc := (call_received cfg hinit response (str "create") stack VTFS_HTTP_BUFFER_SIZE
      [(str "path", path), (str "type", type), (str "mode", snprintf 16 (fmt_o mode))]).2
    rw [hbody] at hc
    simp only at hc
    unfold vtfs_http_create
    simp only [hinit, Bool.not_true, Bool.false_eq_true, if_false]
    rw [if_neg (call_ret_nonneg cfg hinit _ _ _ _ _), hc, herr]
    simp only [Option.isSome_none, Bool.false_eq_true, if_false]
  · have hc := (call_received cfg hinit response (str "delete") stack VTFS_HTTP_BUFFER_SIZE
      [(str "path", path)]).2
    rw [hbody] at hc
    simp only at hc
    unfold vtfs_http_delete
    simp only [hinit, Bool.not_true, Bool.false_eq_true, if_false]
    rw [if_neg (call_ret_nonneg cfg hinit _ _ _ _ _), hc, herr]
    simp only [Option.isSome_none, Bool.false_eq_true, if_false]
  · have hc := (call_received cfg hinit response (str "write") stack VTFS_HTTP_BUFFER_SIZE
      [(str "path", path), (str "offset", snprintf 32 (fmt_d offset)),
        (str "data", bytes_to_base64_loop data)]).2
    rw [hbody] at hc
    simp only at hc
    unfold vtfs_http_write
    rw [write_call_ok cfg _ stack path data offset hinit]
    simp only
    rw [if_neg (call_ret_nonneg cfg hinit _ _ _ _ _), hc, herr]
    simp only [Option.isSome_none, Bool.false_eq_true, if_false]

/-! ## The server address -/

theorem digit_value_slash : digit_value 47 = none := by decide

theorem kstrtoint_digits_slash (ds path : CStr) (hds : ∀ c ∈ ds, 48 ≤ c ∧ c ≤ 57)
    (hne : ds ≠ []) : kstrtoint (ds ++ 47 :: path) = none := by
  have hp := parse_integer_digits ds (47 :: path) hds 0
  have hp2 : parse_integer 10 (47 :: path) (ds.foldl (fun a d => a * 10 + (d - 48)) 0) =
      (ds.foldl (fun a d => a * 10 + (d - 48)) 0, 47 :: path) := by
    rw [parse_integer, digit_value_slash]
  rw [hp2] at hp
  have hk : _kstrtoull (ds ++ 47 :: path) = none := by
    unfold _kstrtoull
    simp only [hp]
    split_ifs <;> simp_all
  cases ds with
  | nil => exact absurd rfl hne
  | cons d ds =>
    have hd := hds d (by simp)
    rw [List.cons_append] at hk ⊢
    unfold kstrtoint
    rw [kstrtoll_cons d _ (by omega), kstrtoull_cons d _ (by omega), hk]

theorem kstrtoint_fmt_u (p : Nat) (hp : p < 2147483648) : kstrtoint (fmt_u p) = some (p : Int) := by
  unfold kstrtoint
  rw [kstrtoll_fmt_u, if_pos (by omega)]
  simp only
  rw [if_neg (by omega)]

theorem parse_url_port (cfg : http_config) (host path : CStr) (p : Nat)
    (h58 : 58 ∉ host) (h47 : 47 ∉ host) (hlen : host.length < 256) :
    parse_url cfg (str "http://" ++ host ++ str ":" ++ fmt_u p ++ str "/" ++ path) =
      { cfg with server_host := host, server_port := 8080 } ∧
    (p < 2147483648 → parse_url cfg (str "http://" ++ host ++ str ":" ++ fmt_u p) =
      { cfg with server_host := host, server_port := (p : Int) }) := by
  have hd := fmt_u_digits p
  have hne := fmt_u_ne_nil p
  have hd47 : 47 ∉ fmt_u p := by intro h; have := hd 47 h; omega
  constructor
  · have e : str "http://" ++ host ++ str ":" ++ fmt_u p ++ str "/" ++ path =
        str "http://" ++ (host ++ 58 :: (fmt_u p ++ 47 :: path)) := by simp [str]
    have hpre : (str "http://").isPrefixOf (str "http://" ++ (host ++ 58 :: (fmt_u p ++ 47 :: path)))
        = true := by simp [str]
    have hdrop : (str "http://" ++ (host ++ 58 :: (fmt_u p ++ 47 :: path))).drop 7 =
        host ++ 58 :: (fmt_u p ++ 47 :: path) := by simp [str]
    have hc : strchr (host ++ 58 :: (fmt_u p ++ 47 :: path)) 58 =
        some (58 :: (fmt_u p ++ 47 :: path)) := by
      rw [strchr_append_not_mem _ _ _ h58, strchr_self]
    have hs : strchr (host ++ 58 :: (fmt_u p ++ 47 :: path)) 47 = some (47 :: path) := by
      rw [strchr_append_not_mem _ _ _ h47]
      have : strchr (58 :: (fmt_u p ++ 47 :: path)) 47 = strchr (fmt_u p ++ 47 :: path) 47 := by
        simp [strchr]
      rw [this, strchr_append_not_mem _ _ _ hd47, strchr_self]
    have hk := kstrtoint_digits_slash (fmt_u p) path hd hne
    rw [e]
    unfold parse_url
    simp only [hpre, if_true, hdrop, hc, hs, List.drop_succ_cons, List.drop_zero, hk]
    simp only [List.length_append, List.length_cons]
    have e1 : host.length + ((fmt_u p).length + (path.length + 1) + 1) -
        ((fmt_u p).length + (path.length + 1) + 1) = host.length := by omega
    have e2 : host.length + ((fmt_u p).length + (path.length + 1) + 1) - (path.length + 1) =
        host.length + (fmt_u p).length + 1 := by omega
    rw [e1, e2, if_neg (show ¬ host.length + (fmt_u p).length + 1 < host.length by omega),
      if_neg (show ¬ 256 ≤ host.length by omega), List.take_left' rfl]
  · intro hp
    have e : str "http://" ++ host ++ str ":" ++ fmt_u p =
        str "http://" ++ (host ++ 58 :: fmt_u p) := by simp [str]
    have hpre : (str "http://").isPrefixOf (str "http://" ++ (host ++ 58 :: fmt_u p)) = true := by
      simp [str]
    have hdrop : (str "http://" ++ (host ++ 58 :: fmt_u p)).drop 7 = host ++ 58 :: fmt_u p := by
      simp [str]
    have hc : strchr (host ++ 58 :: fmt_u p) 58 = some (58 :: fmt_u p) := by
      rw [strchr_append_not_mem _ _ _ h58, strchr_self]
    have hs : strchr (host ++ 58 :: fmt_u p) 47 = none := by
      apply strchr_none_of_not_mem
      intro h
      rw [List.mem_append, List.mem_cons] at h
      rcases h with h | h | h
      · exact h47 h
      · exact absurd h (by decide)
      · exact hd47 h
    have hk := kstrtoint_fmt_u p hp
    rw [e]
    unfold parse_url
    simp only [hpre, if_true, hdrop, hc, hs, List.drop_succ_cons, List.drop_zero, hk]
    simp only [List.length_append, List.length_cons]
    have e1 : host.length + ((fmt_u p).length + 1) - ((fmt_u p).length + 1) = host.length := by
      omega
    rw [e1, if_neg (show ¬ 256 ≤ host.length by omega), List.take_left' rfl]

/-! ## The HTTP client: the body of a response -/

theorem unchunked_body_verbatim (response body s0 s1 : CStr) (body_size : Nat)
    (hs0 : strstr response (str "HTTP/1.") = some s0) (hs1 : strchr s0 32 = some s1)
    (hfirst : strstr response (str "\r\n\r\n") = some (str "\r\n\r\n" ++ body))
    (hnone : strstr response (str "Transfer-Encoding: chunked") = none)
    (hlen : body.length < body_size) (hsize : body_size < 2147483648) :
    (parse_http_response response body_size).body = some body ∧
    (parse_http_response response body_size).ret = (body.length : Int) := by
  have hd : (str "\r\n\r\n" ++ body).drop 4 = body := by simp [str]
  have hh : (str "\r\n\r\n" ++ body).head? = some 13 := by simp [str]
  unfold parse_http_response
  simp only [hs0, hs1, hfirst, hnone, hh, if_true, hd, Option.isSome_none, Bool.false_eq_true,
    if_false]
  rw [if_neg (by omega), List.take_of_length_le (le_refl _), to_int_small _ (by omega)]
  exact ⟨rfl, rfl⟩

theorem digit_value_lower_hex : ∀ d, d < 16 →
    digit_value (lower_hex_digit d) = some d ∧ lower_hex_digit d ≠ 13 ∧
    lower_hex_digit d ≠ 10 ∧ (0 < d → lower_hex_digit d ≠ 48) := by
  decide

theorem chunk_size_text_spec (fuel : Nat) : ∀ n, n < fuel →
    (∀ acc, (chunk_size_text fuel n).foldl
      (fun a c => a * 16 + (digit_value c).getD 0) acc =
      acc * 16 ^ (chunk_size_text fuel n).length + n) ∧
    (∀ c ∈ chunk_size_text fuel n, ∃ d, d < 16 ∧ c = lower_hex_digit d) ∧
    (0 < n → ∃ d t, 0 < d ∧ d < 16 ∧ chunk_size_text fuel n = lower_hex_digit d :: t) := by
  induction fuel with
  | zero => intro n h; omega
  | succ fuel ih =>
    intro n hn
    rw [chunk_size_text]
    by_cases h16 : n < 16
    · rw [if_pos h16]
      refine ⟨?_, ?_, ?_⟩
      · intro acc
        simp [(digit_value_lower_hex n h16).1]
      · intro c hc
        simp at hc
        exact ⟨n, h16, hc⟩
      · intro hpos
        exact ⟨n, [], hpos, h16, rfl⟩
    · rw [if_neg h16]
      obtain ⟨i1, i2, i3⟩ := ih (n / 16) (by omega)
      refine ⟨?_, ?_, ?_⟩
      · intro acc
        rw [List.foldl_append, i1 acc]
        simp only [List.foldl_cons, List.foldl_nil, List.length_append, List.length_singleton,
          (digit_value_lower_hex (n % 16) (by omega)).1, Option.getD_some]
        rw [pow_succ]
        have h2 : n / 16 * 16 + n % 16 = n := by omega
        calc (acc * 16 ^ (chunk_size_text fuel (n / 16)).length + n / 16) * 16 + n % 16
            = acc * (16 ^ (chunk_size_text fuel (n / 16)).length * 16) +
                (n / 16 * 16 + n % 16) := by ring
          _ = acc * (16 ^ (chunk_size_text fuel (n / 16)).length * 16) + n := by rw [h2]
      · intro c hc
        rw [List.mem_append] at hc
        rcases hc with hc | hc
        · exact i2 c hc
        · simp at hc
          exact ⟨n % 16, by omega, hc⟩
      · intro _
        obtain ⟨d, t, hd0, hd16, ht⟩ := i3 (by omega)
        exact ⟨d, t ++ [lower_hex_digit (n % 16)], hd0, hd16, by rw [ht]; rfl⟩

theorem parse_integer_hex (ds rest : CStr) (hds : ∀ c ∈ ds, ∃ d, d < 16 ∧ c = lower_hex_digit d) :
    ∀ acc, parse_integer 16 (ds ++ rest) acc =
      parse_integer 16 rest (ds.foldl (fun a c => a * 16 + (digit_value c).getD 0) acc) := by
  induction ds with
  | nil => intro acc; rfl
  | cons c ds ih =>
    intro acc
    obtain ⟨d, hd, hc⟩ := hds c (by simp)
    have hr : ∀ x ∈ ds, ∃ d, d < 16 ∧ x = lower_hex_digit d := fun x hx => hds x (by simp [hx])
    have hv := (digit_value_lower_hex d hd).1
    rw [List.cons_append, parse_integer, hc, hv]
    simp only [hd, if_true, List.foldl_cons, hv, Option.getD_some]
    exact ih hr _

theorem simple_strtoul_chunk_size (n : Nat) (rest : CStr) (hpos : 0 < n)
    (hn : n < 18446744073709551616) :
    simple_strtoul (chunk_size_text (n + 1) n ++ 13 :: rest) 16 = (n, 13 :: rest) := by
  obtain ⟨h1, h2, h3⟩ := chunk_size_text_spec (n + 1) n (by omega)
  obtain ⟨d, t, hd0, hd16, ht⟩ := h3 hpos
  have hne48 := (digit_value_lower_hex d hd16).2.2.2 hd0
  have hfix : parse_integer_fixup_radix 16 (chunk_size_text (n + 1) n ++ 13 :: rest) =
      chunk_size_text (n + 1) n ++ 13 :: rest := by
    rw [ht, List.cons_append]
    unfold parse_integer_fixup_radix
    split
    · rename_i x t2 heq
      simp only [List.cons.injEq] at heq
      exact absurd heq.1.symm (by omega)
    · rfl
  have hp := parse_integer_hex (chunk_size_text (n + 1) n) (13 :: rest) h2 0
  have hv := h1 0
  simp only [Nat.zero_mul, Nat.zero_add] at hv
  rw [hv] at hp
  have h13 : parse_integer 16 (13 :: rest) n = (n, 13 :: rest) := by
    rw [parse_integer]
    have : digit_value 13 = none := by decide
    rw [this]
  unfold simple_strtoul
  rw [hfix, hp, h13]
  simp only
  rw [Nat.mod_eq_of_lt hn]

theorem skip_crlf_crlf (c : Nat) (t : CStr) (h13 : c ≠ 13) (h10 : c ≠ 10) :
    skip_crlf (13 :: 10 :: c :: t) = c :: t := by
  have h : ¬ (c = 13 ∨ c = 10) := by omega
  simp [skip_crlf, h]

theorem chunked_body_head (chunks : List CStr) (hne : ∀ p ∈ chunks, p ≠ []) :
    ∃ c t, chunked_body chunks = c :: t ∧ c ≠ 13 ∧ c ≠ 10 := by
  cases chunks with
  | nil => exact ⟨48, str "\r\n\r\n", rfl, by decide, by decide⟩
  | cons p rest =>
    have hp : 0 < p.length := List.length_pos.mpr (hne p (by simp))
    obtain ⟨_, _, h3⟩ := chunk_size_text_spec (p.length + 1) p.length (by omega)
    obtain ⟨d, t, _, hd16, ht⟩ := h3 hp
    have hd := digit_value_lower_hex d hd16
    refine ⟨lower_hex_digit d, t ++ str "\r\n" ++ p ++ str "\r\n" ++ chunked_body rest, ?_,
      hd.2.1, hd.2.2.1⟩
    rw [chunked_body, ht]
    simp

theorem chunk_loop_chunks (limit : Nat) (hlimit : limit < 18446744073709551616) :
    ∀ (chunks : List CStr) (fuel total : Nat) (out : List Nat),
      (∀ p ∈ chunks, ∃ c t, p = c :: t ∧ c ≠ 13 ∧ c ≠ 10) →
      chunks.length < fuel → total + chunk_total chunks < limit →
      chunk_loop limit fuel (chunked_body chunks) total out =
        (total + chunk_total chunks, out ++ chunk_payloads chunks) := by
  intro chunks
  induction chunks with
  | nil =>
    intro fuel total out _ hf ht
    cases fuel with
    | zero => omega
    | succ fuel =>
      have h0 : simple_strtoul (chunked_body []) 16 = (0, str "\r\n\r\n") := by decide
      simp only [chunk_total, Nat.add_zero] at ht
      rw [chunk_loop, if_pos ht]
      simp only [h0, if_true, chunk_total, chunk_payloads, Nat.add_zero, List.append_nil]
  | cons p rest ih =>
    intro fuel total out hv hf ht
    cases fuel with
    | zero => omega
    | succ fuel =>
      obtain ⟨c, t, hp, hc13, hc10⟩ := hv p (by simp)
      have hrest : ∀ q ∈ rest, ∃ c t, q = c :: t ∧ c ≠ 13 ∧ c ≠ 10 :=
        fun q hq => hv q (by simp [hq])
      have hne : ∀ q ∈ rest, q ≠ [] := by
        intro q hq e
        obtain ⟨_, _, h, _⟩ := hrest q hq
        rw [e] at h; cases h
      obtain ⟨c2, t2, hb, hb13, hb10⟩ := chunked_body_head rest hne
      simp only [chunk_total] at ht
      have hpos : 0 < p.length := by rw [hp]; simp
      have hbody : chunked_body (p :: rest) = chunk_size_text (p.length + 1) p.length ++
          13 :: (10 :: (p ++ 13 :: 10 :: chunked_body rest)) := by
        rw [chunked_body]; simp [str]
      have hs := simple_strtoul_chunk_size p.length (10 :: (p ++ 13 :: 10 :: chunked_body rest))
        hpos (by omega)
      have hskip : skip_crlf (13 :: 10 :: (p ++ 13 :: 10 :: chunked_body rest)) =
          p ++ 13 :: 10 :: chunked_body rest := by
        rw [hp, List.cons_append, skip_crlf_crlf c _ hc13 hc10]
      have hskip2 : skip_crlf (13 :: 10 :: chunked_body rest) = chunked_body rest := by
        rw [hb, skip_crlf_crlf c2 _ hb13 hb10]
      rw [chunk_loop, if_pos (by omega), hbody, hs]
      simp only
      rw [if_neg (by omega), hskip, Nat.mod_eq_of_lt (by omega), if_neg (by omega),
        List.drop_left, List.take_left, hskip2]
      rw [ih fuel (total + p.length) (out ++ p) hrest (by simpa using hf) (by omega)]
      simp only [chunk_total, chunk_payloads, List.append_assoc, Nat.add_assoc]

theorem chunk_count_le (chunks : List CStr) (hne : ∀ p ∈ chunks, p ≠ []) :
    chunks.length ≤ chunk_total chunks := by
  induction chunks with
  | nil => simp [chunk_total]
  | cons p rest ih =>
    have hp : 0 < p.length := List.length_pos.mpr (hne p (by simp))
    have := ih (fun q hq => hne q (by simp [hq]))
    simp only [List.length_cons, chunk_total]
    omega

theorem chunked_body_decoded (response s0 s1 : CStr) (chunks : List CStr) (body_size : Nat)
    (hs0 : strstr response (str "HTTP/1.") = some s0) (hs1 : strchr s0 32 = some s1)
    (hfirst : strstr response (str "\r\n\r\n") = some (str "\r\n\r\n" ++ chunked_body chunks))
    (hchunked : (strstr response (str "Transfer-Encoding: chunked")).isSome = true)
    (hv : ∀ p ∈ chunks, ∃ c t, p = c :: t ∧ c ≠ 13 ∧ c ≠ 10)
    (hlen : chunk_total chunks + 1 < body_size) (hsize : body_size < 2147483648) :
    (parse_http_response response body_size).body = some (chunk_payloads chunks) ∧
    (parse_http_response response body_size).ret = (chunk_total chunks : Int) := by
  have hd : (str "\r\n\r\n" ++ chunked_body chunks).drop 4 = chunked_body chunks := by simp [str]
  have hh : (str "\r\n\r\n" ++ chunked_body chunks).head? = some 13 := by simp [str]
  have hl : to_size_t ((body_size : Int) - 1) = body_size - 1 := by unfold to_size_t; omega
  have hne : ∀ q ∈ chunks, q ≠ [] := by
    intro q hq e
    obtain ⟨_, _, h, _⟩ := hv q hq
    rw [e] at h; cases h
  have hcount := chunk_count_le chunks hne
  have hloop := chunk_loop_chunks (body_size - 1) (by omega) chunks (body_size - 1 + 1) 0 [] hv
    (by omega) (by omega)
  unfold parse_http_response
  simp only [hs0, hs1, hfirst, hchunked, hh, if_true, hd, hl, hloop, Nat.zero_add,
    List.nil_append]
  rw [to_int_small _ (by omega)]
  exact ⟨trivial, rfl⟩

theorem chunked_body_example :
    chunked_body [str "data"] = str "4\r\ndata\r\n0\r\n\r\n" ∧
    chunked_body [str "hello, world, hello", str "\nabc"] =
      str "13\r\nhello, world, hello\r\n4\r\n\nabc\r\n0\r\n\r\n" := by
  decide

theorem chunk_loop_fuel (limit : Nat) : ∀ (fuel fuel2 : Nat) (p : CStr) (total : Nat)
    (out : List Nat), limit - total < fuel → limit - total < fuel2 →
    chunk_loop limit fuel p total out = chunk_loop limit fuel2 p total out := by
  intro fuel
  induction fuel with
  | zero => intro fuel2 p total out h; omega
  | succ fuel ih =>
    intro fuel2 p total out h1 h2
    cases fuel2 with
    | zero => omega
    | succ fuel2 =>
      rw [chunk_loop, chunk_loop]
      by_cases ht : total < limit
      · rw [if_pos ht, if_pos ht]
        by_cases h0 : (simple_strtoul p 16).1 = 0
        · simp only [h0, if_true]
        · simp only [h0, if_false]
          by_cases hc : limit ≤ (total + (simple_strtoul p 16).1) % 18446744073709551616
          · simp only [hc, if_true]
            exact ih fuel2 _ _ _ (by omega) (by omega)
          · simp only [hc, if_false]
            exact ih fuel2 _ _ _ (by omega) (by omega)
      · rw [if_neg ht, if_neg ht]

/-! ## The id counter -/

theorem create_shape (s : vtfs_storage) (kz : Option Ptr) (now : Nat) (parent : Ptr)
    (name : CStr) (mode ino : Nat) (skip : Bool) :
    ((create_entry_internal s kz now parent name mode ino skip).2 = none ∧
      ((create_entry_internal s kz now parent name mode ino skip).1 = s ∨
        (kz = none ∧ ino = 0 ∧
          (create_entry_internal s kz now parent name mode ino skip).1 =
            { s with next_ino := s.next_ino + 1 }))) ∨
    (∃ p d, kz = some p ∧ s.mem parent = some d ∧ S_ISDIR d.mode = true ∧
      vtfs_storage_lookup s parent name = none) := by
  cases hD : s.mem parent with
  | none => left; unfold create_entry_internal; rw [hD]; exact ⟨rfl, Or.inl rfl⟩
  | some d =>
    by_cases hdir : S_ISDIR d.mode = true
    · cases hl : vtfs_storage_lookup s parent name with
      | some c =>
        left; rw [create_existing s kz now parent name mode ino skip c hl]
        exact ⟨rfl, Or.inl rfl⟩
      | none =>
        cases kz with
        | none =>
          left
          unfold create_entry_internal
          simp only [hD, hdir, hl, alloc_entry]
          by_cases h0 : ino = 0
          · simp [h0]
          · simp [h0]
        | some p => right; exact ⟨p, d, rfl, rfl, hdir, rfl⟩
    · left
      unfold create_entry_internal
      simp only [hD, hdir]
      exact ⟨rfl, Or.inl rfl⟩

theorem create_next_ino_le (s : vtfs_storage) (kz : Option Ptr) (now : Nat) (parent : Ptr)
    (name : CStr) (mode ino : Nat) (skip : Bool) :
    s.next_ino ≤ (create_entry_internal s kz now parent name mode ino skip).1.next_ino := by
  rcases create_shape s kz now parent name mode ino skip with ⟨_, h | ⟨_, _, h⟩⟩ | ⟨p, d, hk, hD, hdir, hl⟩
  · rw [h]
  · rw [h]; exact Nat.le_succ _
  · subst hk
    rw [create_ok s parent d name mode ino p now skip hD hdir hl]
    show s.next_ino ≤ if ino = 0 then s.next_ino + 1 else s.next_ino
    split <;> omega

theorem delete_next_ino (s : vtfs_storage) (e : Ptr) :
    (vtfs_storage_delete_entry s e).1.next_ino = s.next_ino := by
  unfold vtfs_storage_delete_entry
  split
  · rfl
  · split
    · rfl
    · split
      · rfl
      · dsimp only
        split <;> rfl

theorem read_next_ino (s : vtfs_storage) (now : Nat) (entry : Ptr) (buffer : List Nat)
    (len : Nat) (offset : Int) :
    (vtfs_storage_read s now entry buffer len offset).1.next_ino = s.next_ino := by
  rcases read_shape s now entry buffer len offset with h | ⟨_, _, h⟩ <;> rw [h]

theorem write_next_ino (s : vtfs_storage) (alloc : Option (Nat → Nat)) (now : Nat)
    (entry : Ptr) (buffer : List Nat) (len : Nat) (offset : Int) :
    (vtfs_storage_write s alloc now entry buffer len offset).1.next_ino = s.next_ino := by
  rcases write_shape s alloc now entry buffer len offset with h | ⟨_, _, _, h, _⟩ <;> rw [h]

theorem add_link_next_ino (s : vtfs_storage) (entry parent : Ptr) (name : CStr) :
    (vtfs_storage_add_link s entry parent name).1.next_ino = s.next_ino := by
  rcases add_link_shape s entry parent name with h | ⟨_, _, h⟩ <;> rw [h]

theorem ReachFrom.next_ino_le {s0 t : vtfs_storage} (h : ReachFrom s0 t) :
    s0.next_ino ≤ t.next_ino := by
  induction h with
  | refl => exact Nat.le_refl _
  | create s kz now parent name mode ino skip _ _ ih =>
    exact Nat.le_trans ih (create_next_ino_le s kz now parent name mode ino skip)
  | delete s e _ ih => rw [delete_next_ino]; exact ih
  | read s now e buffer len offset _ ih => rw [read_next_ino]; exact ih
  | write s alloc now e buffer len offset _ ih => rw [write_next_ino]; exact ih
  | add_link s e parent name _ ih => rw [add_link_next_ino]; exact ih

theorem create_new_entry (s : vtfs_storage) (kz : Option Ptr) (now : Nat) (parent : Ptr)
    (name : CStr) (mode ino : Nat) (skip : Bool) (p : Ptr)
    (hfresh : ∀ q, kz = some q → s.mem q = none)
    (h : (create_entry_internal s kz now parent name mode ino skip).2 = some p) :
    (create_entry_internal s kz now parent name mode ino skip).1.mem p =
        some (fresh_entry now name mode (if ino = 0 then s.next_ino else ino) parent) ∧
      (create_entry_internal s kz now parent name mode ino skip).1.next_ino =
        (if ino = 0 then s.next_ino + 1 else s.next_ino) := by
  obtain ⟨hk, d, hD, hdir, hl⟩ := create_some s kz now parent name mode ino skip p h
  subst hk
  have hp : s.mem p = none := hfresh p rfl
  have hne : p ≠ parent := by intro hh; rw [hh, hD] at hp; cases hp
  rw [create_ok s parent d name mode ino p now skip hD hdir hl]
  refine ⟨?_, rfl⟩
  show upd (upd s.mem p _) parent _ p = _
  rw [upd_other _ _ _ _ hne, upd_same]
  rfl

/-- C30 (counterexample): a create with id 0 whose allocation fails returns no
entry and has advanced the next-id counter all the same, here from 1001 to
1002. -/
theorem create_failed_advances_counter :
    (create_entry_internal ex_root none 0 1 [97] (S_IFREG ||| 0o644) 0 false).2 = none ∧
      ex_root.next_ino = 1001 ∧
      (create_entry_internal ex_root none 0 1 [97] (S_IFREG ||| 0o644) 0 false).1.next_ino
        = 1002 := by
  refine ⟨?_, ?_, ?_⟩ <;> decide

/-- C30 (amended): the counter is 1001 right after init. A successful create
with a nonzero explicit id gives the new entry exactly that id and leaves the
counter unchanged; a successful create with id 0 gives the new entry the
current value of the counter and advances the counter by 1, and every later
successful create with id 0, whatever operations lie in between, gives its
entry a strictly greater id. A create that fails because the parent is no
directory or the name exists leaves the whole store unchanged; a create that
fails at the allocation of the entry leaves it unchanged for a nonzero id, and
for id 0 the counter has advanced by 1 and nothing else has changed. -/
theorem create_id_counter (s : vtfs_storage) (kz : Option Ptr) (now : Nat) (parent : Ptr)
    (name : CStr) (mode ino : Nat) (skip : Bool)
    (hfresh : ∀ q, kz = some q → s.mem q = none) :
    (∀ r now0, (vtfs_storage_init (some r) now0).1.next_ino = 1001) ∧
    (∀ p, (create_entry_internal s kz now parent name mode ino skip).2 = some p →
      ∃ e, (create_entry_internal s kz now parent name mode ino skip).1.mem p = some e ∧
        e.ino = (if ino = 0 then s.next_ino else ino) ∧
        (create_entry_internal s kz now parent name mode ino skip).1.next_ino =
          (if ino = 0 then s.next_ino + 1 else s.next_ino) ∧
        (ino = 0 → ∀ t, ReachFrom (create_entry_internal s kz now parent name mode ino skip).1 t →
          ∀ kz2 now2 parent2 name2 mode2 skip2 p2 e2,
            (∀ q, kz2 = some q → t.mem q = none) →
            (create_entry_internal t kz2 now2 parent2 name2 mode2 0 skip2).2 = some p2 →
            (create_entry_internal t kz2 now2 parent2 name2 mode2 0 skip2).1.mem p2 = some e2 →
            e.ino < e2.ino)) ∧
    ((s.mem parent = none ∨ (∃ pe, s.mem parent = some pe ∧ S_ISDIR pe.mode = false) ∨
        (vtfs_storage_lookup s parent name).isSome = true) →
      create_entry_internal s kz now parent name mode ino skip = (s, none)) ∧
    (∀ pe, s.mem parent = some pe → S_ISDIR pe.mode = true →
      vtfs_storage_lookup s parent name = none → kz = none →
      create_entry_internal s kz now parent name mode ino skip =
        (if ino = 0 then { s with next_ino := s.next_ino + 1 } else s, none)) ∧
    ((create_entry_internal s kz now parent name mode ino skip).2 = none →
      ((kz ≠ none ∨ ino ≠ 0) →
        (create_entry_internal s kz now parent name mode ino skip).1 = s) ∧
      ((create_entry_internal s kz now parent name mode ino skip).1 = s ∨
        (create_entry_internal s kz now parent name mode ino skip).1 =
          { s with next_ino := s.next_ino + 1 })) := by
  refine ⟨fun r now0 => rfl, ?_, ?_, ?_, ?_⟩
  · intro p hp
    obtain ⟨h1, h2⟩ := create_new_entry s kz now parent name mode ino skip p hfresh hp
    refine ⟨_, h1, rfl, h2, ?_⟩
    intro h0 t ht kz2 now2 parent2 name2 mode2 skip2 p2 e2 hf2 hp2 he2
    obtain ⟨h3, _⟩ := create_new_entry t kz2 now2 parent2 name2 mode2 0 skip2 p2 hf2 hp2
    rw [h3] at he2
    cases he2
    have hle := ht.next_ino_le
    rw [h2] at hle
    subst h0
    show s.next_ino < t.next_ino
    simp only [if_true] at hle
    omega
  · intro hcause
    rcases hcause with h1 | ⟨pe, h1, h2⟩ | h1
    · unfold create_entry_internal; rw [h1]
    · unfold create_entry_internal; simp only [h1, h2, Bool.not_false, if_true]
    · obtain ⟨c, hc⟩ := Option.isSome_iff_exists.1 h1
      exact create_existing s kz now parent name mode ino skip c hc
  · intro pe hpe hdir hl hk
    subst hk
    unfold create_entry_internal
    simp only [hpe, hdir, hl, alloc_entry]
    by_cases h0 : ino = 0
    · simp [h0]
    · simp [h0]
  · intro hnone
    rcases create_shape s kz now parent name mode ino skip with
      ⟨_, h | ⟨hk, h0, h⟩⟩ | ⟨p, d, hk, hD, hdir, hl⟩
    · exact ⟨fun _ => h, Or.inl h⟩
    · refine ⟨fun hor => ?_, Or.inr h⟩
      rcases hor with h1 | h1
      · exact absurd hk h1
      · exact absurd h0 h1
    · subst hk
      rw [create_ok s parent d name mode ino p now skip hD hdir hl] at hnone
      cases hnone

theorem create_id_counter_witness :
    (create_entry_internal ex_root (some 2) 0 1 [97] (S_IFREG ||| 0o644) 0 false).2 = some 2 ∧
    ∃ e, (create_entry_internal ex_root (some 2) 0 1 [97] (S_IFREG ||| 0o644) 0 false).1.mem 2
        = some e ∧ e.ino = 1001 ∧
      (create_entry_internal ex_root (some 2) 0 1 [97] (S_IFREG ||| 0o644) 0 false).1.next_ino
        = 1002 := by
  have h := create_id_counter ex_root (some 2) 0 1 [97] (S_IFREG ||| 0o644) 0 false
    (by intro q hq; cases hq; rfl)
  obtain ⟨e, h1, h2, h3, _⟩ := h.2.1 2 (by decide)
  exact ⟨by decide, e, h1, h2, h3⟩

/-! ## The capacity of the content buffer -/

theorem write_capacity_with (s : vtfs_storage) (entry : Ptr) (e e1 : vtfs_entry)
    (hi : Inv s) (he : s.mem entry = some e) (hb1 : buf_ok e1)
    (hc : e.capacity ≤ e1.capacity) (q : Ptr) (qe : vtfs_entry) (hq : s.mem q = some qe) :
    ∃ qe1, ({ s with mem := upd s.mem entry (some e1) } : vtfs_storage).mem q = some qe1 ∧
      qe1.size ≤ qe1.capacity ∧ qe.capacity ≤ qe1.capacity ∧
      (q ≠ entry → qe1.capacity = qe.capacity) := by
  by_cases hqe : q = entry
  · subst hqe
    rw [he] at hq; cases hq
    exact ⟨e1, upd_same _ _ _, hb1.1, hc, fun h => absurd rfl h⟩
  · refine ⟨qe, ?_, (hi.buf q qe hq).1, Nat.le_refl _, fun _ => rfl⟩
    show upd s.mem entry (some e1) q = some qe
    rw [upd_other _ _ _ _ hqe]; exact hq

/-- C29: in a reachable store, for a regular file and a write of `len` bytes
at the offset `off`: after the call every entry of the store has a capacity
that is at least its size and at least its capacity before the call, and only
the written entry can have a new capacity. If `off + len` is within the
capacity of the file the capacity is unchanged; if it exceeds the capacity and
the write succeeds, the new capacity is at least twice the old one, at least
64 and at least `off + len`; a write that fails leaves the capacity as it is. -/
theorem write_capacity (s : vtfs_storage) (hr : Reachable s) (alloc : Option (Nat → Nat))
    (now : Nat) (entry : Ptr) (e : vtfs_entry) (buffer : List Nat) (len off : Nat)
    (he : s.mem entry = some e) (hreg : S_ISREG e.mode = true)
    (hrep : off + len < 18446744073709551616) :
    (∀ q qe, s.mem q = some qe →
      ∃ qe1, (vtfs_storage_write s alloc now entry buffer len (off : Int)).1.mem q = some qe1 ∧
        qe1.size ≤ qe1.capacity ∧ qe.capacity ≤ qe1.capacity ∧
        (q ≠ entry → qe1.capacity = qe.capacity)) ∧
    ∃ e1, (vtfs_storage_write s alloc now entry buffer len (off : Int)).1.mem entry = some e1 ∧
      (off + len ≤ e.capacity → e1.capacity = e.capacity) ∧
      (e.capacity < off + len →
        0 ≤ (vtfs_storage_write s alloc now entry buffer len (off : Int)).2 →
        2 * e.capacity ≤ e1.capacity ∧ 64 ≤ e1.capacity ∧ off + len ≤ e1.capacity) ∧
      ((vtfs_storage_write s alloc now entry buffer len (off : Int)).2 < 0 →
        e1.capacity = e.capacity) := by
  have hi : Inv s := Reach.inv hr
  have hb : buf_ok e := hi.buf entry e he
  have hsame : ∀ q qe, s.mem q = some qe → ∃ qe1, s.mem q = some qe1 ∧
      qe1.size ≤ qe1.capacity ∧ qe.capacity ≤ qe1.capacity ∧
      (q ≠ entry → qe1.capacity = qe.capacity) :=
    fun q qe hq => ⟨qe, hq, (hi.buf q qe hq).1, Nat.le_refl _, fun _ => rfl⟩
  by_cases hbig : VTFS_MAX_FILE_SIZE < off + len
  · rw [write_efbig s alloc now entry e buffer len off he hreg hrep hbig]
    refine ⟨hsame, e, he, fun _ => rfl, fun _ h0 => ?_, fun _ => rfl⟩
    exact absurd (show (0 : Int) ≤ -EFBIG from h0) (by decide)
  · have hsum : off + len ≤ VTFS_MAX_FILE_SIZE := Nat.le_of_not_lt hbig
    by_cases hfit : off + len ≤ e.capacity
    · rw [write_inplace s alloc now entry e buffer len off he hreg hsum hfit]
      refine ⟨fun q qe hq => write_capacity_with s entry e _ hi he
        (buf_ok_written_inplace e now buffer len off hb hsum hfit) (Nat.le_refl _) q qe hq,
        _, upd_same _ _ _, fun _ => rfl, fun h => absurd hfit (Nat.not_le_of_lt h),
        fun _ => rfl⟩
    · have hlt : e.capacity < off + len := Nat.lt_of_not_le hfit
      cases alloc with
      | none =>
        rw [write_enomem s now entry e buffer len off he hreg hsum hlt]
        refine ⟨hsame, e, he, fun _ => rfl, fun _ h0 => ?_, fun _ => rfl⟩
        exact absurd (show (0 : Int) ≤ -ENOMEM from h0) (by decide)
      | some fill =>
        rw [write_grow s fill now entry e buffer len off he hreg hsum hlt]
        obtain ⟨g1, g2, g3, _⟩ := grown_capacity_bounds e len off
        have hcap : (written_grown e fill now buffer len off).capacity =
          grown_capacity e len off := rfl
        refine ⟨fun q qe hq => write_capacity_with s entry e _ hi he
          (buf_ok_written_grown e fill now buffer len off hb hsum hlt)
          (by rw [hcap]; omega) q qe hq,
          _, upd_same _ _ _, fun h => absurd h hfit, fun _ _ => ?_, fun h => ?_⟩
        · rw [hcap]; exact ⟨by omega, g3, g1⟩
        · exact absurd h (by simp)

/-- C29, an instance: the first write to the empty example file, two bytes at
offset 0, takes the capacity from 0 to 64. -/
theorem write_capacity_witness :
    ex_file.mem 2 ≠ none ∧
    ∃ e1, (vtfs_storage_write ex_file (some (fun _ => 0)) 1 2 [7, 8] 2 0).1.mem 2 = some e1 ∧
      64 ≤ e1.capacity ∧ e1.size ≤ e1.capacity := by
  have h := write_capacity ex_file (ex_file_reach _ trivial) (some (fun _ => 0)) 1 2
    (fresh_entry 0 [97] (S_IFREG ||| 0o644) 1001 1) [7, 8] 2 0 (by decide) (by decide) (by decide)
  obtain ⟨e1, h1, _, h3, _⟩ := h.2
  obtain ⟨qe1, h4, h5, _⟩ := h.1 2 _ (by decide : ex_file.mem 2 = some
    (fresh_entry 0 [97] (S_IFREG ||| 0o644) 1001 1))
  refine ⟨by decide, e1, h1, (h3 (by decide) (by decide)).2.1, ?_⟩
  rw [h1] at h4; cases h4; exact h5

/-! ## Induction over the reachable stores by the shape of a step -/

theorem add_link_shape_file (s : vtfs_storage) (entry parent : Ptr) (name : CStr) :
    (vtfs_storage_add_link s entry parent name).1 = s ∨
    ∃ e, s.mem entry = some e ∧ S_ISDIR e.mode = false ∧
      (vtfs_storage_add_link s entry parent name).1 =
        { s with mem := upd s.mem entry (some { e with nlink := e.nlink + 1 }) } := by
  unfold vtfs_storage_add_link
  split
  · rename_i e _ he _
    by_cases hd : S_ISDIR e.mode = true
    · left; rw [if_pos hd]
    · right
      rw [if_neg hd]
      exact ⟨e, he, by simpa using hd, rfl⟩
  · left; rfl

theorem Reach.shapes {ok : CStr → Prop} (P : vtfs_storage → Prop)
    (hinit : ∀ p now, P (vtfs_storage_init (some p) now).1)
    (hnext : ∀ s, Inv s → P s → P { s with next_ino := s.next_ino + 1 })
    (hupd : ∀ s p e e1, Inv s → P s → s.mem p = some e → e1.children = e.children →
      e1.name = e.name → e1.parent = e.parent → e1.mode = e.mode → e1.ino = e.ino →
      (e1.nlink = e.nlink ∨ S_ISDIR e.mode = false ∨
        (e.children = [] ∧ s.root ≠ some p ∧ nlink_dec e.nlink ≠ 0)) →
      P { s with mem := upd s.mem p (some e1) })
    (hadd : ∀ s D d N mode ino p now, Inv s → P s → s.mem D = some d →
      S_ISDIR d.mode = true → vtfs_storage_lookup s D N = none → s.mem p = none → ok N →
      P { root := s.root, all_entries := p :: s.all_entries,
          next_ino := if ino = 0 then s.next_ino + 1 else s.next_ino,
          mem := upd (upd s.mem p (some (fresh_entry now N mode
                  (if ino = 0 then s.next_ino else ino) D))) D
                (some { d with children := p :: d.children,
                               nlink := if S_ISDIR mode then d.nlink + 1 else d.nlink }) })
    (hrem : ∀ s e ent, Inv s → P s → s.mem e = some ent → s.root ≠ some e →
      ent.children = [] → ent.nlink = 1 →
      P { s with mem := removed_heap s.mem e ent,
                 all_entries := s.all_entries.filter (fun c => decide (c ≠ e)) })
    {s : vtfs_storage} (h : Reach ok s) : P s := by
  induction h with
  | init p now => exact hinit p now
  | create s kz now parent name mode ino skip hr hf hok ih =>
    have hi : Inv s := Reach.inv hr
    rcases create_shape s kz now parent name mode ino skip with
      ⟨_, h | ⟨_, _, h⟩⟩ | ⟨p, d, hk, hD, hdir, hl⟩
    · rw [h]; exact ih
    · rw [h]; exact hnext s hi ih
    · subst hk
      rw [create_ok s parent d name mode ino p now skip hD hdir hl]
      exact hadd s parent d name mode ino p now hi ih hD hdir hl (hf p rfl) hok
  | delete s e hr ih =>
    have hi : Inv s := Reach.inv hr
    rcases delete_shape s hi e with h1 | ⟨ent, he, hroot, hch, hn, h2⟩ |
      ⟨ent, he, hroot, hch, hn, h2⟩
    · rw [h1]; exact ih
    · rw [h2]
      exact hupd s e ent _ hi ih he rfl rfl rfl rfl rfl (Or.inr (Or.inr ⟨hch, hroot, hn⟩))
    · rw [h2]; exact hrem s e ent hi ih he hroot hch hn
  | read s now e buffer len offset hr ih =>
    rcases read_shape s now e buffer len offset with h1 | ⟨ent, he, h2⟩
    · rw [h1]; exact ih
    · rw [h2]; exact hupd s e ent _ (Reach.inv hr) ih he rfl rfl rfl rfl rfl (Or.inl rfl)
  | write s alloc now e buffer len offset hr ih =>
    rcases write_shape s alloc now e buffer len offset with
      h1 | ⟨ent, e1, he, h2, h3, h4, h5, h6, h7, h8⟩
    · rw [h1]; exact ih
    · rw [h2]; exact hupd s e ent e1 (Reach.inv hr) ih he h3 h4 h5 h6 h8 (Or.inl h7)
  | add_link s e parent name hr ih =>
    rcases add_link_shape_file s e parent name with h1 | ⟨ent, he, hf, h2⟩
    · rw [h1]; exact ih
    · rw [h2]
      exact hupd s e ent _ (Reach.inv hr) ih he rfl rfl rfl rfl rfl (Or.inr (Or.inl hf))

/-! ## Link counts of directories -/

theorem countP_filter_ne_eq (P : Ptr → Bool) (e : Ptr) (l : List Ptr) (hnd : l.Nodup) :
    List.countP P (l.filter (fun c => decide (c ≠ e))) +
      (if e ∈ l ∧ P e = true then 1 else 0) = List.countP P l := by
  induction l with
  | nil => simp
  | cons a t ih =>
    have hnd1 := (List.nodup_cons.1 hnd)
    have ih1 := ih hnd1.2
    by_cases hae : a = e
    · subst hae
      have hf : (a :: t).filter (fun c => decide (c ≠ a)) = t.filter (fun c => decide (c ≠ a)) := by
        simp
      rw [hf]
      have hnot : ¬ (a ∈ t ∧ P a = true) := fun h => hnd1.1 h.1
      rw [if_neg hnot] at ih1
      by_cases hP : P a = true
      · rw [if_pos ⟨List.mem_cons_self _ _, hP⟩, List.countP_cons_of_pos _ _ hP]
        omega
      · rw [if_neg (fun h => hP h.2), List.countP_cons_of_neg _ _ hP]
        omega
    · have hf : (a :: t).filter (fun c => decide (c ≠ e)) =
          a :: t.filter (fun c => decide (c ≠ e)) := by
        simp [hae]
      rw [hf]
      have hiff : (e ∈ a :: t ∧ P e = true) ↔ (e ∈ t ∧ P e = true) := by
        simp [List.mem_cons, Ne.symm hae]
      rw [if_congr hiff rfl rfl]
      by_cases hP : P a = true
      · rw [List.countP_cons_of_pos _ _ hP, List.countP_cons_of_pos _ _ hP]
        omega
      · rw [List.countP_cons_of_neg _ _ hP, List.countP_cons_of_neg _ _ hP]
        omega

theorem DirLinks.links_init (p now : Nat) : DirLinks (vtfs_storage_init (some p) now).1 := by
  intro q qe hq _
  simp only [vtfs_storage_init, alloc_entry] at hq ⊢
  by_cases hqp : q = p
  · subst hqp
    simp at hq
    subst hq
    simp [dirCount]
  · rw [upd_other _ _ _ _ hqp] at hq; cases hq

theorem DirLinks.links_upd_fields {s : vtfs_storage} (h : DirLinks s) (p : Ptr)
    (e e1 : vtfs_entry) (hp : s.mem p = some e) (hch : e1.children = e.children)
    (hmode : e1.mode = e.mode) (hn : S_ISDIR e.mode = true → e1.nlink = e.nlink) :
    DirLinks { s with mem := upd s.mem p (some e1) } := by
  intro q qe hq hdir
  have hcount : ∀ l, dirCount (upd s.mem p (some e1)) l = dirCount s.mem l := fun l =>
    dirCount_congr _ _ l (fun c _ => isDirAt_upd_same_mode s.mem p e e1 hp hmode c)
  show qe.nlink = (if s.root = some q then 2 else 1) + dirCount (upd s.mem p (some e1)) qe.children
  rw [hcount]
  rcases upd_eq_some _ _ _ _ _ hq with ⟨h1, h2⟩ | ⟨h1, h2⟩
  · subst h1; subst h2
    rw [hmode] at hdir
    rw [hn hdir, hch]
    exact h q e hp hdir
  · exact h q qe h2 hdir

theorem DirLinks.links_add_child {s : vtfs_storage} (h : DirLinks s) (hi : Inv s) (D : Ptr)
    (d : vtfs_entry) (N : CStr) (mode ino : Nat) (p : Ptr) (now n : Nat)
    (hD : s.mem D = some d) (hdir : S_ISDIR d.mode = true) (hp : s.mem p = none) :
    DirLinks { root := s.root, all_entries := p :: s.all_entries, next_ino := n,
               mem := upd (upd s.mem p (some (fresh_entry now N mode ino D))) D
                 (some { d with children := p :: d.children,
                                nlink := if S_ISDIR mode then d.nlink + 1 else d.nlink }) } := by
  have hne : p ≠ D := by intro hh; rw [hh, hD] at hp; cases hp
  have hroot : s.root ≠ some p := by
    obtain ⟨r, re, h1, h2, _⟩ := hi.root_live
    intro hh; rw [h1] at hh; cases hh; rw [hp] at h2; cases h2
  have hdirAt : ∀ c, c ≠ p →
      isDirAt (upd (upd s.mem p (some (fresh_entry now N mode ino D))) D
        (some { d with children := p :: d.children,
                       nlink := if S_ISDIR mode then d.nlink + 1 else d.nlink })) c =
      isDirAt s.mem c := by
    intro c hc
    unfold isDirAt
    by_cases hcD : c = D
    · subst hcD; rw [upd_same, hD]
    · rw [upd_other _ _ _ _ hcD, upd_other _ _ _ _ hc]
  have hcount : ∀ l, p ∉ l →
      dirCount (upd (upd s.mem p (some (fresh_entry now N mode ino D))) D
        (some { d with children := p :: d.children,
                       nlink := if S_ISDIR mode then d.nlink + 1 else d.nlink })) l =
      dirCount s.mem l := fun l hl =>
    dirCount_congr _ _ l (fun c hc => hdirAt c (fun hh => hl (hh ▸ hc)))
  intro q qe hq hqdir
  show qe.nlink = (if s.root = some q then 2 else 1) + dirCount _ qe.children
  rcases upd_eq_some _ _ _ _ _ hq with ⟨h1, h2⟩ | ⟨h1, h2⟩
  · subst h1; subst h2
    have hold := h q d hD hdir
    show (if S_ISDIR mode then d.nlink + 1 else d.nlink) =
      (if s.root = some q then 2 else 1) + dirCount _ (p :: d.children)
    have hpdir : isDirAt (upd (upd s.mem p (some (fresh_entry now N mode ino q))) q
        (some { d with children := p :: d.children,
                       nlink := if S_ISDIR mode then d.nlink + 1 else d.nlink })) p =
        S_ISDIR mode := by
      unfold isDirAt
      rw [upd_other _ _ _ _ hne, upd_same]
      rfl
    unfold dirCount at hcount ⊢
    rw [List.countP_cons, hcount _ (hi.fresh_not_child p hp q d hD), hpdir]
    unfold dirCount at hold
    by_cases hm : S_ISDIR mode = true
    · rw [if_pos hm, if_pos hm, hold]; omega
    · rw [if_neg hm, if_neg hm, hold]; omega
  · rcases upd_eq_some _ _ _ _ _ h2 with ⟨h3, h4⟩ | ⟨h3, h4⟩
    · subst h3; subst h4
      rw [if_neg hroot]
      show 1 = 1 + dirCount _ []
      simp [dirCount]
    · rw [hcount _ (hi.fresh_not_child p hp q qe h4)]
      exact h q qe h4 hqdir

theorem DirLinks.links_removed {s : vtfs_storage} (h : DirLinks s) (hi : Inv s) (e : Ptr)
    (ent : vtfs_entry) (he : s.mem e = some ent) (hroot : s.root ≠ some e)
    (hch : ent.children = []) :
    DirLinks { s with mem := removed_heap s.mem e ent,
                      all_entries := s.all_entries.filter (fun c => decide (c ≠ e)) } := by
  have hpe := hi.parent_ne e ent he hroot hch
  intro q qe hq hdir
  have hqe : q ≠ e := by
    intro hh; subst hh
    have : removed_heap s.mem q ent q = some qe := hq
    rw [removed_heap_self] at this; cases this
  have hq1 : removed_heap s.mem e ent q = some qe := hq
  rw [removed_heap_other s.mem e ent hpe q hqe] at hq1
  cases hx : s.mem q with
  | none => rw [hx] at hq1; cases hq1
  | some xe =>
    rw [hx] at hq1
    simp only [Option.map_some', Option.some.injEq] at hq1
    subst hq1
    have hxdir : S_ISDIR xe.mode = true := hdir
    have hold := h q xe hx hxdir
    have hdirAt : ∀ c, c ≠ e → isDirAt (removed_heap s.mem e ent) c = isDirAt s.mem c := by
      intro c hc
      unfold isDirAt
      rw [removed_heap_other s.mem e ent hpe c hc]
      cases s.mem c <;> rfl
    have hcount : dirCount (removed_heap s.mem e ent)
        (xe.children.filter (fun c => decide (c ≠ e))) =
        dirCount s.mem (xe.children.filter (fun c => decide (c ≠ e))) :=
      dirCount_congr _ _ _ (fun c hc => hdirAt c (by simpa using (List.mem_filter.1 hc).2))
    have hcnt := countP_filter_ne_eq (isDirAt s.mem) e xe.children (hi.child_nodup q xe hx)
    have heDir : isDirAt s.mem e = S_ISDIR ent.mode := by unfold isDirAt; rw [he]
    show (if S_ISDIR ent.mode = true ∧ ent.parent = some q then nlink_dec xe.nlink else xe.nlink)
      = (if s.root = some q then 2 else 1) +
        dirCount (removed_heap s.mem e ent) (xe.children.filter (fun c => decide (c ≠ e)))
    rw [hcount]
    unfold dirCount at hold ⊢
    rw [heDir] at hcnt
    by_cases hc : S_ISDIR ent.mode = true ∧ ent.parent = some q
    · have hmem : e ∈ xe.children := by
        obtain ⟨q1, qe1, h1, h2, h3⟩ := hi.has_parent e ent he hroot
        rw [hc.2] at h1; cases h1
        rw [hx] at h2; cases h2
        exact h3
      rw [if_pos hc]
      rw [if_pos ⟨hmem, hc.1⟩] at hcnt
      have hge : 2 ≤ xe.nlink := by rw [hold]; split <;> omega
      have hdec : nlink_dec xe.nlink = xe.nlink - 1 := by
        unfold nlink_dec; rw [if_neg (by omega)]
      rw [hdec, hold]
      omega
    · rw [if_neg hc]
      have hnot : ¬ (e ∈ xe.children ∧ S_ISDIR ent.mode = true) := by
        intro hh
        obtain ⟨_, ce, h1, h2⟩ := hi.child_live q xe hx e hh.1
        rw [he] at h1; cases h1
        exact hc ⟨hh.2, h2⟩
      rw [if_neg hnot] at hcnt
      rw [hold]
      omega

theorem Reach.dir_links {ok : CStr → Prop} {s : vtfs_storage} (h : Reach ok s) :
    DirLinks s := by
  refine Reach.shapes DirLinks DirLinks.links_init (fun s _ ih => ih) ?_ ?_ ?_ h
  · intro s p e e1 hi ih hp hch _ _ hmode _ hn
    refine ih.links_upd_fields p e e1 hp hch hmode (fun hdir => ?_)
    rcases hn with hn | hn | ⟨h1, h2, h3⟩
    · exact hn
    · rw [hdir] at hn; cases hn
    · exfalso
      have hl := ih p e hp hdir
      rw [if_neg h2, h1] at hl
      simp only [dirCount, List.countP_nil] at hl
      rw [hl] at h3
      exact h3 (by decide)
  · intro s D d N mode ino p now hi ih hD hdir _ hp _
    exact ih.links_add_child hi D d N mode _ p now _ hD hdir hp
  · intro s e ent hi ih he hroot hch _
    exact ih.links_removed hi e ent he hroot hch

theorem ex_dir_reach (ok : CStr → Prop) (h : ok [100]) : Reach ok ex_dir :=
  Reach.create ex_root (some 2) 0 1 [100] (S_IFDIR ||| 0o755) 0 false (ex_root_reach ok)
    (by intro p hp; cases hp; rfl) h

/-- C28 (the code at the failing input): after init and one
`vtfs_storage_create_entry` of a directory `d` under the root, a state reached
by create alone, the directory `d` is a live directory without children and
its link count is 1, where the claim has 2 plus the number of child
directories, that is 2. -/
theorem fresh_directory_link_count :
    Reachable ex_dir ∧
    (ex_dir.mem 2).map (fun e => (S_ISDIR e.mode, e.nlink, dirCount ex_dir.mem e.children)) =
      some (true, 1, 0) :=
  ⟨ex_dir_reach _ trivial, by decide⟩

/-- What the code does with the link count of a directory in general: in every
state reachable from `vtfs_storage_init` through the operations of the store
the root, which `vtfs_storage_init` sets to 2, has 2 plus the number of its
children that are directories, and every other directory, which `alloc_entry`
leaves at 1, has 1 plus the number of its children that are directories. The
part of the count that create and delete keep, one per child directory, is as
C28 has it; the start value of a directory made by create is one short. -/
theorem directory_link_count (s : vtfs_storage) (hs : Reachable s) (q : Ptr) (qe : vtfs_entry)
    (hq : s.mem q = some qe) (hdir : S_ISDIR qe.mode = true) :
    (s.root = some q → qe.nlink = 2 + dirCount s.mem qe.children) ∧
    (s.root ≠ some q → qe.nlink = 1 + dirCount s.mem qe.children) := by
  have h := Reach.dir_links hs q qe hq hdir
  constructor
  · intro hr; rw [if_pos hr] at h; exact h
  · intro hr; rw [if_neg hr] at h; exact h

/-- An instance of `directory_link_count`: the root of the example store with
one directory has link count 3, the directory has link count 1. -/
theorem directory_link_count_witness :
    (∃ re, ex_dir.mem 1 = some re ∧ re.nlink = 2 + dirCount ex_dir.mem re.children) ∧
    (∃ de, ex_dir.mem 2 = some de ∧ de.nlink = 1 + dirCount ex_dir.mem de.children) :=
  ⟨⟨_, rfl, (directory_link_count ex_dir (ex_dir_reach _ trivial) 1 _ rfl (by decide)).1
      (by decide)⟩,
   ⟨_, rfl, (directory_link_count ex_dir (ex_dir_reach _ trivial) 2 _ rfl (by decide)).2
      (by decide)⟩⟩

/-! ## Ids of entries -/

theorem ReachAuto.reachable {s : vtfs_storage} (h : ReachAuto s) : Reachable s := by
  induction h with
  | init p now => exact Reach.init p now
  | create s kz now parent name mode skip _ hf ih =>
    exact Reach.create s kz now parent name mode 0 skip ih hf trivial
  | delete s e _ ih => exact Reach.delete s e ih
  | read s now e buffer len offset _ ih => exact Reach.read s now e buffer len offset ih
  | write s alloc now e buffer len offset _ ih =>
    exact Reach.write s alloc now e buffer len offset ih
  | add_link s e parent name _ ih => exact Reach.add_link s e parent name ih

theorem FreshIds.ids_upd_fields {s : vtfs_storage} (h : FreshIds s) (p : Ptr)
    (e e1 : vtfs_entry) (hp : s.mem p = some e) (hino : e1.ino = e.ino) :
    FreshIds { s with mem := upd s.mem p (some e1) } := by
  have key : ∀ q qe, upd s.mem p (some e1) q = some qe →
      ∃ qe0, s.mem q = some qe0 ∧ qe0.ino = qe.ino := by
    intro q qe hq
    rcases upd_eq_some _ _ _ _ _ hq with ⟨h1, h2⟩ | ⟨h1, h2⟩
    · subst h1; subst h2; exact ⟨e, hp, hino.symm⟩
    · exact ⟨qe, h2, rfl⟩
  constructor
  · intro q qe hq
    obtain ⟨qe0, h1, h2⟩ := key q qe hq
    rw [← h2]; exact h.1 q qe0 h1
  · intro q1 q2 a b ha hb hab
    obtain ⟨a0, h1, h2⟩ := key q1 a ha
    obtain ⟨b0, h3, h4⟩ := key q2 b hb
    exact h.2 q1 q2 a0 b0 h1 h3 (by rw [h2, h4]; exact hab)

theorem FreshIds.ids_add_child {s : vtfs_storage} (h : FreshIds s) (D : Ptr)
    (d d1 : vtfs_entry) (N : CStr) (mode : Nat) (p : Ptr) (now : Nat)
    (hD : s.mem D = some d) (hp : s.mem p = none) (hino : d1.ino = d.ino) :
    FreshIds { root := s.root, all_entries := p :: s.all_entries,
               next_ino := s.next_ino + 1,
               mem := upd (upd s.mem p (some (fresh_entry now N mode s.next_ino D))) D
                 (some d1) } := by
  have key : ∀ q qe, upd (upd s.mem p (some (fresh_entry now N mode s.next_ino D))) D
      (some d1) q = some qe →
      (q = p ∧ qe.ino = s.next_ino) ∨ (q ≠ p ∧ ∃ qe0, s.mem q = some qe0 ∧ qe0.ino = qe.ino) := by
    intro q qe hq
    have hne : p ≠ D := by intro hh; rw [hh, hD] at hp; cases hp
    rcases upd_eq_some _ _ _ _ _ hq with ⟨h1, h2⟩ | ⟨h1, h2⟩
    · subst h1; subst h2; exact Or.inr ⟨Ne.symm hne, d, hD, hino.symm⟩
    · rcases upd_eq_some _ _ _ _ _ h2 with ⟨h3, h4⟩ | ⟨h3, h4⟩
      · subst h3; subst h4; exact Or.inl ⟨rfl, rfl⟩
      · exact Or.inr ⟨h3, qe, h4, rfl⟩
  constructor
  · intro q qe hq
    show qe.ino < s.next_ino + 1
    rcases key q qe hq with ⟨_, h2⟩ | ⟨_, qe0, h1, h2⟩
    · omega
    · have := h.1 q qe0 h1; omega
  · intro q1 q2 a b ha hb hab
    rcases key q1 a ha with ⟨h1, h2⟩ | ⟨h1, a0, h2, h3⟩ <;>
      rcases key q2 b hb with ⟨h4, h5⟩ | ⟨h4, b0, h5, h6⟩
    · rw [h1, h4]
    · have := h.1 q2 b0 h5; omega
    · have := h.1 q1 a0 h2; omega
    · exact h.2 q1 q2 a0 b0 h2 h5 (by rw [h3, h6]; exact hab)

theorem FreshIds.ids_removed {s : vtfs_storage} (h : FreshIds s) (e : Ptr)
    (ent : vtfs_entry) (hpe : ent.parent ≠ some e) :
    FreshIds { s with mem := removed_heap s.mem e ent,
                      all_entries := s.all_entries.filter (fun c => decide (c ≠ e)) } := by
  have key : ∀ q qe, removed_heap s.mem e ent q = some qe →
      ∃ qe0, s.mem q = some qe0 ∧ qe0.ino = qe.ino := by
    intro q qe hq
    have hqe : q ≠ e := by
      intro hh; subst hh; rw [removed_heap_self] at hq; cases hq
    rw [removed_heap_other s.mem e ent hpe q hqe] at hq
    cases hx : s.mem q with
    | none => rw [hx] at hq; cases hq
    | some xe =>
      rw [hx] at hq
      simp only [Option.map_some', Option.some.injEq] at hq
      subst hq
      exact ⟨xe, rfl, rfl⟩
  constructor
  · intro q qe hq
    obtain ⟨qe0, h1, h2⟩ := key q qe hq
    rw [← h2]; exact h.1 q qe0 h1
  · intro q1 q2 a b ha hb hab
    obtain ⟨a0, h1, h2⟩ := key q1 a ha
    obtain ⟨b0, h3, h4⟩ := key q2 b hb
    exact h.2 q1 q2 a0 b0 h1 h3 (by rw [h2, h4]; exact hab)

theorem ReachAuto.fresh_ids {s : vtfs_storage} (h : ReachAuto s) : FreshIds s := by
  induction h with
  | init p now =>
    have hm : ∀ q qe, (vtfs_storage_init (some p) now).1.mem q = some qe →
        q = p ∧ qe.ino = 1000 := by
      intro q qe hq
      simp only [vtfs_storage_init, alloc_entry] at hq
      by_cases hqp : q = p
      · subst hqp
        simp at hq
        subst hq
        exact ⟨rfl, rfl⟩
      · rw [upd_other _ _ _ _ hqp] at hq; cases hq
    constructor
    · intro q qe hq
      rw [(hm q qe hq).2]
      show 1000 < VTFS_ROOT_INO + 1
      decide
    · intro q1 q2 a b ha hb _
      rw [(hm q1 a ha).1, (hm q2 b hb).1]
  | create s kz now parent name mode skip hr hf ih =>
    rcases create_shape s kz now parent name mode 0 skip with
      ⟨_, h | ⟨_, _, h⟩⟩ | ⟨p, d, hk, hD, hdir, hl⟩
    · rw [h]; exact ih
    · rw [h]; exact ⟨fun q qe hq => Nat.lt_succ_of_lt (ih.1 q qe hq), ih.2⟩
    · subst hk
      rw [create_ok s parent d name mode 0 p now skip hD hdir hl]
      exact ih.ids_add_child parent d _ name mode p now hD (hf p rfl) rfl
  | delete s e hr ih =>
    have hi : Inv s := Reach.inv hr.reachable
    rcases delete_shape s hi e with h1 | ⟨ent, he, _, _, _, h2⟩ | ⟨ent, he, hroot, hch, _, h2⟩
    · rw [h1]; exact ih
    · rw [h2]; exact ih.ids_upd_fields e ent _ he rfl
    · rw [h2]; exact ih.ids_removed e ent (hi.parent_ne e ent he hroot hch)
  | read s now e buffer len offset _ ih =>
    rcases read_shape s now e buffer len offset with h1 | ⟨ent, he, h2⟩
    · rw [h1]; exact ih
    · rw [h2]; exact ih.ids_upd_fields e ent _ he rfl
  | write s alloc now e buffer len offset _ ih =>
    rcases write_shape s alloc now e buffer len offset with
      h1 | ⟨ent, e1, he, h2, _, _, _, _, _, h8⟩
    · rw [h1]; exact ih
    · rw [h2]; exact ih.ids_upd_fields e ent e1 he h8
  | add_link s e parent name _ ih =>
    rcases add_link_shape s e parent name with h1 | ⟨ent, he, h2⟩
    · rw [h1]; exact ih
    · rw [h2]; exact ih.ids_upd_fields e ent _ he rfl

theorem get_by_ino_unique (s : vtfs_storage) (hi : Inv s) (p : Ptr) (e : vtfs_entry)
    (hp : s.mem p = some e)
    (hu : ∀ q e2, s.mem q = some e2 → e2.ino = e.ino → q = p) :
    vtfs_storage_get_by_ino s e.ino = some p := by
  cases hf : vtfs_storage_get_by_ino s e.ino with
  | none =>
    unfold vtfs_storage_get_by_ino at hf
    have hmem : p ∈ s.all_entries := (hi.registry p).2 (by rw [hp]; simp)
    have := List.find?_eq_none.1 hf p hmem
    rw [hp] at this
    simp at this
  | some x =>
    unfold vtfs_storage_get_by_ino at hf
    have hx := List.find?_some hf
    cases hmx : s.mem x with
    | none => rw [hmx] at hx; cases hx
    | some xe =>
      rw [hmx] at hx
      rw [hu x xe hmx (by simpa using hx)]

theorem ex_file_auto : ReachAuto ex_file :=
  ReachAuto.create ex_root (some 2) 0 1 [97] (S_IFREG ||| 0o644) false (ReachAuto.init 1 0)
    (by intro p hp; cases hp; rfl)

/-- C27 (counterexample): after init, one create of the file `a` and the
adapter's link operation giving it the second name `b`, the two live entries at
the addresses 2 and 3 have the same id 1001, and `vtfs_storage_get_by_ino(1001)`
returns the entry at address 3, not the one at address 2. -/
theorem link_shares_id :
    (vtfs_link ex_file (some 3) 1 1001 1000 [98]).2 = 0 ∧
    (ex_linked.mem 2).map (fun e => e.ino) = some 1001 ∧
    (ex_linked.mem 3).map (fun e => e.ino) = some 1001 ∧
    vtfs_storage_get_by_ino ex_linked 1001 = some 3 := by
  decide

/-- C27 (amended): in every state reachable from `vtfs_storage_init` through
create with automatic ids (id argument 0), delete, read, write and add_link, no
two live entries have the same id, and for every live entry `e`
`vtfs_storage_get_by_ino(e.id)` returns `e` itself. -/
theorem automatic_ids_unique (s : vtfs_storage) (hs : ReachAuto s) (p : Ptr) (e : vtfs_entry)
    (hp : s.mem p = some e) :
    (∀ q e2, s.mem q = some e2 → e2.ino = e.ino → q = p) ∧
    vtfs_storage_get_by_ino s e.ino = some p := by
  have hu : ∀ q e2, s.mem q = some e2 → e2.ino = e.ino → q = p :=
    fun q e2 hq hino => hs.fresh_ids.2 q p e2 e hq hp hino
  exact ⟨hu, get_by_ino_unique s (Reach.inv hs.reachable) p e hp hu⟩

/-- C27, an instance: the example file `a` is found by its id 1001. -/
theorem automatic_ids_unique_witness :
    ex_file.mem 2 ≠ none ∧ vtfs_storage_get_by_ino ex_file 1001 = some 2 :=
  ⟨by decide, (automatic_ids_unique ex_file ex_file_auto 2
    (fresh_entry 0 [97] (S_IFREG ||| 0o644) 1001 1) (by decide)).2⟩

/-! ## Full paths -/

theorem path_join_snoc (ns : List CStr) (n : CStr) :
    path_join (ns ++ [n]) = path_join ns ++ 47 :: n := by
  induction ns with
  | nil => simp [path_join]
  | cons a t ih => simp [path_join, ih]

theorem PathTo.nil_root {s : vtfs_storage} {p : Ptr} {ns : List CStr} (h : PathTo s p ns)
    (hn : ns = []) : s.root = some p := by
  cases h with
  | root r hr => exact hr
  | child q c qe ce ns1 _ _ _ _ => simp at hn

theorem PathTo.root_nil {s : vtfs_storage} (hi : Inv s) {p : Ptr} {ns : List CStr}
    (h : PathTo s p ns) (hr : s.root = some p) : ns = [] := by
  cases h with
  | root r _ => rfl
  | child q c qe ce ns1 _ hq hc _ => exact absurd hr (hi.child_live q qe hq p hc).1

theorem PathTo.live {s : vtfs_storage} (hi : Inv s) {p : Ptr} {ns : List CStr}
    (h : PathTo s p ns) : ∃ e, s.mem p = some e := by
  cases h with
  | root r hr =>
    obtain ⟨r1, re, h1, h2, _⟩ := hi.root_live
    rw [h1] at hr; cases hr
    exact ⟨re, h2⟩
  | child q c qe ce ns1 _ _ _ hce => exact ⟨ce, hce⟩

theorem build_path_root (s : vtfs_storage) (r : Ptr) (hr : s.root = some r) (size fuel : Nat)
    (hsize : 2 ≤ size) (hfuel : 0 < fuel) : build_path s fuel r size = some (str "/") := by
  obtain ⟨f, rfl⟩ : ∃ f, fuel = f + 1 := ⟨fuel - 1, by omega⟩
  have ht : strncpy (str "/") size = str "/" := by
    unfold strncpy
    exact List.take_of_length_le (by simpa [str] using by omega)
  unfold build_path
  cases s.mem r with
  | none => simp only [ht]
  | some e => simp only [hr, if_true, ht]

theorem build_path_spec (s : vtfs_storage) (hi : Inv s) (size : Nat) {p : Ptr}
    {ns : List CStr} (h : PathTo s p ns) :
    ∀ fuel, ns.length < fuel →
      ∃ text, build_path s fuel p size = some text ∧
        ((path_text ns).length < size → text = path_text ns) := by
  induction h with
  | root r hr =>
    intro fuel hfuel
    obtain ⟨f, rfl⟩ : ∃ f, fuel = f + 1 := ⟨fuel - 1, by omega⟩
    refine ⟨strncpy (str "/") size, ?_, ?_⟩
    · unfold build_path
      cases s.mem r with
      | none => rfl
      | some e => simp only [hr, if_true]
    · intro hfit
      unfold strncpy
      exact List.take_of_length_le (Nat.le_of_lt hfit)
  | child q c qe ce ns1 hq1 hq hc hce ih =>
    intro fuel hfuel
    obtain ⟨f, rfl⟩ : ∃ f, fuel = f + 1 := ⟨fuel - 1, by omega⟩
    have hlen : ns1.length < f := by
      simp only [List.length_append, List.length_singleton] at hfuel; omega
    obtain ⟨hnr, ce1, hce1, hpar⟩ := hi.child_live q qe hq c hc
    rw [hce] at hce1; cases hce1
    have htext : path_text (ns1 ++ [ce.name]) = path_join ns1 ++ 47 :: ce.name := by
      unfold path_text
      rw [if_neg (by simp), path_join_snoc]
    unfold build_path
    simp only [hce, hnr, if_false, hpar]
    by_cases hqr : s.root = some q
    · have hnil := hq1.root_nil hi hqr
      subst hnil
      simp only [hqr, ne_eq, not_true_eq_false, if_false]
      refine ⟨_, rfl, ?_⟩
      intro hfit
      rw [htext] at hfit ⊢
      simp only [path_join, List.nil_append, List.length_cons] at hfit ⊢
      exact snprintf_fits size _ (by simp [str]; omega)
    · obtain ⟨t, ht, hspec⟩ := ih f hlen
      simp only [ne_eq, hqr, not_false_eq_true, if_true, ht]
      refine ⟨_, rfl, ?_⟩
      intro hfit
      rw [htext] at hfit ⊢
      have hne : ns1 ≠ [] := fun hh => hqr (hq1.nil_root hh)
      have hpt : path_text ns1 = path_join ns1 := by unfold path_text; rw [if_neg hne]
      simp only [List.length_append, List.length_cons] at hfit
      have hl1 : (path_join ns1).length + ce.name.length + 1 < size := hfit
      have ht1 : t = path_join ns1 := by
        rw [hspec (by rw [hpt]; omega), hpt]
      have e1 : (str "/").length = 1 := rfl
      have s1 : strlcat (path_join ns1) (str "/") size = path_join ns1 ++ str "/" :=
        strlcat_fits _ _ size (by rw [e1]; omega)
      have s2 : strlcat (path_join ns1 ++ str "/") ce.name size =
          path_join ns1 ++ str "/" ++ ce.name :=
        strlcat_fits _ _ size (by rw [List.length_append, e1]; omega)
      rw [ht1, s1, s2]
      simp [str]

theorem PathTo.mono {s t : vtfs_storage} (hroot : t.root = s.root)
    (hmem : ∀ q qe, s.mem q = some qe → ∃ qe1, t.mem q = some qe1 ∧ qe1.name = qe.name ∧
      ∀ c ∈ qe.children, c ∈ qe1.children)
    {p : Ptr} {ns : List CStr} (h : PathTo s p ns) : PathTo t p ns := by
  induction h with
  | root r hr => exact PathTo.root r (by rw [hroot]; exact hr)
  | child q c qe ce ns1 _ hq hc hce ih =>
    obtain ⟨qe1, h1, _, h3⟩ := hmem q qe hq
    obtain ⟨ce1, h4, h5, _⟩ := hmem c ce hce
    rw [← h5]
    exact PathTo.child q c qe1 ce1 ns1 ih h1 (h3 c hc) h4

theorem Rooted.paths_init (p now : Nat) : Rooted (vtfs_storage_init (some p) now).1 := by
  intro q qe hq
  have hqp : q = p := by
    simp only [vtfs_storage_init, alloc_entry] at hq
    by_contra hne
    rw [upd_other _ _ _ _ hne] at hq; cases hq
  subst hqp
  exact ⟨[], PathTo.root q rfl⟩

theorem Rooted.paths_upd_fields {s : vtfs_storage} (h : Rooted s) (p : Ptr)
    (e e1 : vtfs_entry) (hp : s.mem p = some e) (hch : e1.children = e.children)
    (hname : e1.name = e.name) :
    Rooted { s with mem := upd s.mem p (some e1) } := by
  have hmono : ∀ q ns, PathTo s q ns →
      PathTo { s with mem := upd s.mem p (some e1) } q ns := by
    intro q ns hq
    refine PathTo.mono (by rfl) ?_ hq
    intro x xe hx
    by_cases hxp : x = p
    · subst hxp
      rw [hp] at hx; cases hx
      exact ⟨e1, upd_same _ _ _, hname, fun c hc => by rw [hch]; exact hc⟩
    · exact ⟨xe, by show upd s.mem p (some e1) x = some xe; rw [upd_other _ _ _ _ hxp]; exact hx,
        rfl, fun c hc => hc⟩
  intro q qe hq
  rcases upd_eq_some _ _ _ _ _ hq with ⟨h1, _⟩ | ⟨_, h2⟩
  · subst h1
    obtain ⟨ns, hns⟩ := h q e hp
    exact ⟨ns, hmono q ns hns⟩
  · obtain ⟨ns, hns⟩ := h q qe h2
    exact ⟨ns, hmono q ns hns⟩

theorem Rooted.paths_add_child {s : vtfs_storage} (h : Rooted s) (D : Ptr)
    (d d1 ne : vtfs_entry) (p : Ptr) (n : Nat)
    (hD : s.mem D = some d) (hp : s.mem p = none)
    (hd1c : d1.children = p :: d.children) (hd1n : d1.name = d.name) :
    Rooted { root := s.root, all_entries := p :: s.all_entries, next_ino := n,
             mem := upd (upd s.mem p (some ne)) D (some d1) } := by
  have hne : p ≠ D := by intro hh; rw [hh, hD] at hp; cases hp
  have hmono : ∀ q ns, PathTo s q ns →
      PathTo { root := s.root, all_entries := p :: s.all_entries, next_ino := n,
               mem := upd (upd s.mem p (some ne)) D (some d1) } q ns := by
    intro q ns hq
    refine PathTo.mono (by rfl) ?_ hq
    intro x xe hx
    by_cases hxD : x = D
    · subst hxD
      rw [hD] at hx; cases hx
      exact ⟨d1, upd_same _ _ _, hd1n, fun c hc => by rw [hd1c]; exact List.mem_cons_of_mem _ hc⟩
    · have hxp : x ≠ p := by intro hh; rw [hh, hp] at hx; cases hx
      refine ⟨xe, ?_, rfl, fun c hc => hc⟩
      show upd (upd s.mem p (some ne)) D (some d1) x = some xe
      rw [upd_other _ _ _ _ hxD, upd_other _ _ _ _ hxp]; exact hx
  intro q qe hq
  rcases upd_eq_some _ _ _ _ _ hq with ⟨h1, _⟩ | ⟨_, h2⟩
  · subst h1
    obtain ⟨ns, hns⟩ := h q d hD
    exact ⟨ns, hmono q ns hns⟩
  · rcases upd_eq_some _ _ _ _ _ h2 with ⟨h3, h4⟩ | ⟨_, h4⟩
    · subst h3; subst h4
      obtain ⟨ns, hns⟩ := h D d hD
      refine ⟨ns ++ [qe.name], PathTo.child D q d1 qe ns (hmono D ns hns) (upd_same _ _ _) ?_ ?_⟩
      · rw [hd1c]; exact List.mem_cons_self _ _
      · show upd (upd s.mem q (some qe)) D (some d1) q = some qe
        rw [upd_other _ _ _ _ hne, upd_same]
    · obtain ⟨ns, hns⟩ := h q qe h4
      exact ⟨ns, hmono q ns hns⟩

theorem PathTo.path_removed {s : vtfs_storage} (hi : Inv s) (e : Ptr) (ent : vtfs_entry)
    (he : s.mem e = some ent) (hroot : s.root ≠ some e) (hch : ent.children = [])
    {p : Ptr} {ns : List CStr} (h : PathTo s p ns) (hpe : p ≠ e) :
    PathTo { s with mem := removed_heap s.mem e ent,
                    all_entries := s.all_entries.filter (fun c => decide (c ≠ e)) } p ns := by
  have hpar := hi.parent_ne e ent he hroot hch
  induction h with
  | root r hr => exact PathTo.root r hr
  | child q c qe ce ns1 _ hq hc hce ih =>
    have hqe : q ≠ e := by
      intro hh; subst hh
      rw [he] at hq; cases hq
      rw [hch] at hc; cases hc
    have h1 := removed_heap_other s.mem e ent hpar q hqe
    have h2 := removed_heap_other s.mem e ent hpar c hpe
    rw [hq] at h1
    rw [hce] at h2
    simp only [Option.map_some'] at h1 h2
    have hmem : c ∈ qe.children.filter (fun c => decide (c ≠ e)) :=
      List.mem_filter.2 ⟨hc, by simpa using hpe⟩
    have hstep := PathTo.child q c _ _ ns1 (ih hqe) h1 hmem h2
    exact hstep

theorem Rooted.paths_removed {s : vtfs_storage} (h : Rooted s) (hi : Inv s) (e : Ptr)
    (ent : vtfs_entry) (he : s.mem e = some ent) (hroot : s.root ≠ some e)
    (hch : ent.children = []) :
    Rooted { s with mem := removed_heap s.mem e ent,
                    all_entries := s.all_entries.filter (fun c => decide (c ≠ e)) } := by
  have hpar := hi.parent_ne e ent he hroot hch
  intro q qe hq
  have hqe : q ≠ e := by
    intro hh; subst hh
    have : removed_heap s.mem q ent q = some qe := hq
    rw [removed_heap_self] at this; cases this
  have hq1 : removed_heap s.mem e ent q = some qe := hq
  rw [removed_heap_other s.mem e ent hpar q hqe] at hq1
  cases hx : s.mem q with
  | none => rw [hx] at hq1; cases hq1
  | some xe =>
    obtain ⟨ns, hns⟩ := h q xe hx
    exact ⟨ns, hns.path_removed hi e ent he hroot hch hqe⟩

theorem Reach.rooted {ok : CStr → Prop} {s : vtfs_storage} (h : Reach ok s) : Rooted s := by
  refine Reach.shapes Rooted Rooted.paths_init (fun s _ ih => ?_) ?_ ?_ ?_ h
  · intro q qe hq
    obtain ⟨ns, hns⟩ := ih q qe hq
    have hm : ∀ x xe, s.mem x = some xe → ∃ qe1,
        ({ s with next_ino := s.next_ino + 1 } : vtfs_storage).mem x = some qe1 ∧
          qe1.name = xe.name ∧ ∀ c ∈ xe.children, c ∈ qe1.children :=
      fun x xe hx => ⟨xe, hx, rfl, fun c hc => hc⟩
    exact ⟨ns, PathTo.mono (by rfl) hm hns⟩
  · intro s p e e1 _ ih hp hch hname _ _ _ _
    exact ih.paths_upd_fields p e e1 hp hch hname
  · intro s D d N mode ino p now _ ih hD _ _ hp _
    exact ih.paths_add_child D d _ _ p _ hD hp rfl rfl
  · intro s e ent hi ih he hroot hch _
    exact ih.paths_removed hi e ent he hroot hch

/-- C21: in every reachable store, `vtfs_get_full_path` of the root is `/`
(for a buffer of at least 2 bytes); for every entry reached from the root
through the names n1, ..., nk with k >= 1 it is `/n1/n2/.../nk`, provided that
text and its NUL fit the buffer; and every entry of the store is reached from
the root through some names n1, ..., nk, and the recursion over its parents
ends after at most k + 1 calls whatever the size of the buffer. -/
theorem full_path_spec (s : vtfs_storage) (hs : Reachable s) :
    (∀ r size fuel, s.root = some r → 2 ≤ size → 0 < fuel →
      vtfs_get_full_path s fuel r size = some (str "/")) ∧
    (∀ e ns size fuel, PathTo s e ns → ns ≠ [] → (path_join ns).length < size →
      ns.length < fuel → vtfs_get_full_path s fuel e size = some (path_join ns)) ∧
    (∀ e ent, s.mem e = some ent → ∃ ns, PathTo s e ns ∧
      ∀ size fuel, ns.length < fuel → (vtfs_get_full_path s fuel e size).isSome = true) := by
  have hi : Inv s := Reach.inv hs
  refine ⟨?_, ?_, ?_⟩
  · intro r size fuel hr hsize hfuel
    exact build_path_root s r hr size fuel hsize hfuel
  · intro e ns size fuel hp hne hfit hfuel
    obtain ⟨text, h1, h2⟩ := build_path_spec s hi size hp fuel hfuel
    have hpt : path_text ns = path_join ns := by unfold path_text; rw [if_neg hne]
    unfold vtfs_get_full_path
    rw [h1, h2 (by rw [hpt]; exact hfit), hpt]
  · intro e ent he
    obtain ⟨ns, hns⟩ := Reach.rooted hs e ent he
    refine ⟨ns, hns, fun size fuel hfuel => ?_⟩
    obtain ⟨text, h1, _⟩ := build_path_spec s hi size hns fuel hfuel
    unfold vtfs_get_full_path
    rw [h1]; rfl

/-- C21, an instance: the file `f` of the directory `d` of the example store
has the full path `/d/f`. -/
theorem full_path_spec_witness :
    PathTo ex_dir_file 3 [[100], [102]] ∧
    vtfs_get_full_path ex_dir_file 3 3 512 = some (str "/d/f") := by
  have hp : PathTo ex_dir_file 3 [[100], [102]] := by
    obtain ⟨e1, h1, c1⟩ : ∃ e, ex_dir_file.mem 1 = some e ∧ 2 ∈ e.children :=
      ⟨_, rfl, by decide⟩
    obtain ⟨e2, h2, n2, c2⟩ : ∃ e, ex_dir_file.mem 2 = some e ∧ e.name = [100] ∧
        3 ∈ e.children := ⟨_, rfl, rfl, by decide⟩
    obtain ⟨e3, h3, n3⟩ : ∃ e, ex_dir_file.mem 3 = some e ∧ e.name = [102] := ⟨_, rfl, rfl⟩
    have p2 := PathTo.child 1 2 e1 e2 [] (PathTo.root 1 rfl) h1 c1 h2
    rw [n2] at p2
    have p3 := PathTo.child 2 3 e2 e3 _ p2 h2 c2 h3
    rw [n3] at p3
    exact p3
  exact ⟨hp, (full_path_spec ex_dir_file ex_dir_file_reachable).2.1 3 [[100], [102]] 512 3 hp
    (by decide) (by decide) (by decide)⟩

/-! ## The replay to the remote side -/

theorem build_path_total (s : vtfs_storage) (hs : Reachable s) (entry : Ptr) (size : Nat) :
    ∃ fuel0, ∀ fuel, fuel0 ≤ fuel → ∃ text, build_path s fuel entry size = some text := by
  cases he : s.mem entry with
  | none =>
    refine ⟨1, fun fuel hfuel => ?_⟩
    obtain ⟨f, rfl⟩ : ∃ f, fuel = f + 1 := ⟨fuel - 1, by omega⟩
    unfold build_path
    rw [he]
    exact ⟨_, rfl⟩
  | some e =>
    obtain ⟨ns, hns⟩ := Reach.rooted hs entry e he
    refine ⟨ns.length + 1, fun fuel hfuel => ?_⟩
    obtain ⟨text, h1, _⟩ := build_path_spec s (Reach.inv hs) size hns fuel (by omega)
    exact ⟨text, h1⟩

theorem write_remote_returns (server_url : Option CStr) (cfg : http_config)
    (s : vtfs_storage) (hs : Reachable s) (alloc : Option (Nat → Nat)) (now : Nat)
    (entry : Ptr) (buffer : List Nat) (len : Nat) (offset : Int) :
    ∃ fuel0, ∀ fuel, fuel0 ≤ fuel → ∀ rc, ∃ trace,
      vtfs_storage_write_remote server_url cfg rc fuel s alloc now entry buffer len offset =
        .ok (vtfs_storage_write s alloc now entry buffer len offset, trace) := by
  have hr1 : Reachable (vtfs_storage_write s alloc now entry buffer len offset).1 :=
    Reach.write s alloc now entry buffer len offset hs
  obtain ⟨fuel0, hf⟩ := build_path_total _ hr1 entry 512
  refine ⟨fuel0, fun fuel hfuel rc => ?_⟩
  obtain ⟨text, ht⟩ := hf fuel hfuel
  unfold vtfs_storage_write_remote
  simp only [ht]
  repeat' split
  all_goals exact ⟨_, rfl⟩

theorem write_replay_offset_zero (server_url : Option CStr) (cfg : http_config)
    (rc : remote_call) (fuel : Nat) (s : vtfs_storage) (alloc : Option (Nat → Nat))
    (now : Nat) (entry : Ptr) (buffer : List Nat) (len : Nat) (offset : Int)
    (r : vtfs_storage × Int) (call : Except Int http_result)
    (h : vtfs_storage_write_remote server_url cfg rc fuel s alloc now entry buffer len offset =
      .ok (r, some call)) :
    ∃ path, build_path (vtfs_storage_write s alloc now entry buffer len offset).1 fuel entry 512
        = some path ∧
      call = vtfs_http_write_call cfg rc.net rc.stack rc.km path (buffer.take len) 0 := by
  unfold vtfs_storage_write_remote at h
  split at h
  · cases h
  · dsimp only at h
    split at h
    · cases h
    · split at h
      · cases h
      · split at h
        · cases h
        · split at h
          · split at h
            · cases h
            · rename_i path hp
              refine ⟨path, hp, ?_⟩
              unfold sync_write_to_server at h
              split at h
              · cases h
              · simp only [Except.ok.injEq, Prod.mk.injEq, Option.some.injEq] at h
                exact h.2.symm
          · cases h

/-- C26 (the code at the failing input): with the remote side configured, a
write of the byte 9 at offset 5 to the example file `a` succeeds locally
(returns 1, the file then has 6 bytes), and the request replayed to the remote
side for the path `/a` carries `offset=0`, not `offset=5`. -/
theorem write_replay_at_offset_zero :
    (vtfs_storage_write ex_file (some (fun _ => 0)) 1 2 [9] 1 5).2 = 1 ∧
    ((vtfs_storage_write ex_file (some (fun _ => 0)) 1 2 [9] 1 5).1.mem 2).map
      (fun e => e.size) = some 6 ∧
    (vtfs_storage_write_remote (some (str "http://127.0.0.1:8080")) ex_cfg
        ⟨.received (str "HTTP/1.1 200 OK\r\n\r\n\x7b\"result\":\"ok\"\x7d"), [], true⟩ 2
        ex_file (some (fun _ => 0)) 1 2 [9] 1 5).toOption.map
      (fun x => x.2.map (fun c => c.toOption.map (fun r => r.request))) =
    some (some (some (str ("GET /write?token=&path=%2Fa&offset=0&data=CQ%3D%3D HTTP/1.1\r\n" ++
      "Host: 127.0.0.1:8080\r\nConnection: close\r\n\r\n")))) := by
  refine ⟨by decide, by decide, ?_⟩
  set_option maxRecDepth 100000 in decide

/-! ## What a remote read can return -/

theorem base64_decode_loop_length (output_len : Nat) (j : Nat) (input : CStr) :
    (base64_decode_loop output_len j input).length ≤ input.length / 4 * 3 := by
  induction j, input using base64_decode_loop.induct output_len with
  | case1 j x0 x1 x2 x3 rest a b c d o1 j1 o2 j2 o3 ih =>
    rw [base64_decode_loop]
    have hle : ∀ (c : Prop) [Decidable c] (x : Nat),
        (if c then [x] else ([] : List Nat)).length ≤ 1 := by
      intro c _ x; split <;> simp
    simp only [List.length_append]
    refine Nat.le_trans (Nat.add_le_add (Nat.add_le_add (Nat.add_le_add (hle _ _) (hle _ _))
      (hle _ _)) ih) ?_
    simp only [List.length_cons]
    omega
  | case2 j input hne =>
    rw [base64_decode_loop]
    · simp
    · intro x0 x1 x2 x3 rest h
      exact hne x0 x1 x2 x3 rest h

theorem base64_decode_length (input : CStr) (out : List Nat)
    (h : base64_decode input = .ok out) : out.length ≤ input.length / 4 * 3 := by
  unfold base64_decode at h
  split at h
  · cases h
  · cases h
    exact base64_decode_loop_length _ _ _

theorem base64_decode_error (input : CStr) (e : Int)
    (h : base64_decode input = .error e) : e < 0 := by
  unfold base64_decode at h
  split at h
  · cases h; decide
  · cases h

theorem extract_json_field_length (json field : CStr) (r : CStr)
    (h : extract_json_field json field 4096 = .ok r) : r.length ≤ 4095 := by
  unfold extract_json_field at h
  dsimp only at h
  split at h
  · cases h
  · split at h
    · cases h
    · split at h
      · cases h
      · cases h
        rw [List.length_take]
        split
        · have : to_size_t ((4096 : Nat) - 1 : Int) = 4095 := by decide
          rw [this]; omega
        · omega

theorem extract_json_field_error (json field : CStr) (n : Nat) (e : Int)
    (h : extract_json_field json field n = .error e) : e < 0 := by
  unfold extract_json_field at h
  dsimp only at h
  split at h
  · cases h; decide
  · split at h
    · cases h; decide
    · split at h
      · cases h; decide
      · cases h

theorem read_ret_shape (cfg : http_config) (net : net_reply) (stack : CStr) (km : Bool)
    (path : CStr) (size : Nat) (offset : Int) (k : Int) (b : List Nat)
    (h : vtfs_http_read cfg net stack km path size offset = .ret k b) :
    (k < 0 ∧ b = []) ∨ (k = (b.length : Int) ∧ b.length ≤ size ∧ b.length ≤ 3072) := by
  unfold vtfs_http_read at h
  have hneg : (-ENOENT : Int) < 0 := by decide
  have hmem : (-ENOMEM : Int) < 0 := by decide
  split at h
  · cases h; exact Or.inl ⟨hneg, rfl⟩
  · dsimp only at h
    split at h
    · cases h; exact Or.inl ⟨hneg, rfl⟩
    · split at h
      · cases h; exact Or.inl ⟨hneg, rfl⟩
      · split at h
        · cases h; exact Or.inl ⟨hneg, rfl⟩
        · split at h
          · cases h; exact Or.inl ⟨hneg, rfl⟩
          · split at h
            · rename_i e he
              cases h
              exact Or.inl ⟨extract_json_field_error _ _ _ _ he, rfl⟩
            · rename_i data_str hd
              split at h
              · cases h; exact Or.inl ⟨hmem, rfl⟩
              · split at h
                · rename_i e he
                  cases h
                  exact Or.inl ⟨base64_decode_error _ _ he, rfl⟩
                · rename_i decoded hdec
                  have hl1 := extract_json_field_length _ _ _ hd
                  have hl2 := base64_decode_length _ _ hdec
                  split at h
                  · cases h
                  · rename_i hsz
                    try rw [if_neg hsz] at h
                    simp only [read_outcome.ret.injEq] at h
                    obtain ⟨hk, hb⟩ := h
                    right
                    have hlen : decoded.length ≤ 3072 := by omega
                    rw [List.take_of_length_le (Nat.le_refl _)] at hb
                    rw [← hk, ← hb]
                    exact ⟨to_int_small _ (by omega), by omega, hlen⟩

/-! ## The read of the adapter -/

theorem memcpy_take (dst b : List Nat) (h : b.length ≤ dst.length) :
    (memcpy dst 0 b b.length).take b.length = b := by
  apply List.ext_getElem
  · rw [List.length_take, memcpy_length]; omega
  · intro i h1 h2
    have hg := memcpy_getD dst 0 b b.length i
    rw [if_pos (by omega), if_pos ⟨Nat.zero_le _, by omega⟩] at hg
    rw [List.getElem_take]
    simp only [List.getD_eq_getElem?_getD, Nat.sub_zero] at hg
    rw [List.getElem?_eq_getElem (by rw [memcpy_length]; omega),
      List.getElem?_eq_getElem h2] at hg
    simpa using hg

theorem memcpy_nothing (dst : List Nat) : memcpy dst 0 [] 0 = dst := by
  unfold memcpy
  have : (fun i => if 0 ≤ i ∧ i < 0 + 0 then ([] : List Nat).getD (i - 0) 0 else dst.getD i 0)
      = fun i => dst.getD i 0 := by
    funext i
    rw [if_neg (by omega)]
  rw [this, range_map_getD]

theorem vtfs_read_at_end (server_url : Option CStr) (cfg : http_config) (fuel : Nat)
    (env : read_env) (s : vtfs_storage) (ino len off : Nat) (entry : Ptr) (e : vtfs_entry)
    (hg : vtfs_storage_get_by_ino s ino = some entry) (he : s.mem entry = some e)
    (hreg : S_ISREG e.mode = true) (h64 : off < 18446744073709551616) (hsz : e.size ≤ off) :
    vtfs_read server_url cfg fuel env s ino len (off : Int) = .ok (s, 0, [], (off : Int)) := by
  unfold vtfs_read
  simp only [hg, he, hreg, to_size_t_ofNat off h64, Bool.not_true, Bool.false_eq_true, if_false]
  rw [if_pos hsz]

theorem vtfs_read_remote (server_url : Option CStr) (cfg : http_config) (fuel : Nat)
    (env : read_env) (s : vtfs_storage) (ino len off : Nat) (entry : Ptr) (e : vtfs_entry)
    (path : CStr) (k : Int) (b : List Nat)
    (hg : vtfs_storage_get_by_ino s ino = some entry) (he : s.mem entry = some e)
    (hreg : S_ISREG e.mode = true) (h64 : off < 18446744073709551616) (hsz : off < e.size)
    (hkm : env.km = true) (huser : env.user = true) (hkb : env.kbuffer.length = len)
    (hurl : use_remote_server server_url = true)
    (hpath : vtfs_get_full_path s fuel entry 256 = some path)
    (hread : vtfs_http_read cfg env.read.net env.read.stack env.read.km path len (off : Int) =
      .ret k b) (hk : 0 ≤ k) :
    vtfs_read server_url cfg fuel env s ino len (off : Int) = .ok (s, k, b, (off : Int) + k) := by
  rcases read_ret_shape _ _ _ _ _ _ _ _ _ hread with ⟨h1, _⟩ | ⟨h1, h2, _⟩
  · omega
  · unfold vtfs_read
    simp only [hg, he, hreg, to_size_t_ofNat off h64, Bool.not_true, Bool.false_eq_true,
      if_false, hkm, hurl, if_true, hpath, hread, huser]
    have hge : ¬ off ≥ e.size := by omega
    have hk1 : ¬ k < 0 := by omega
    simp only [hge, hk1, if_false, Bool.not_true, Bool.false_eq_true]
    subst h1
    simp only [Int.toNat_ofNat]
    rw [memcpy_take _ _ (by omega)]

theorem vtfs_read_local (server_url : Option CStr) (cfg : http_config) (fuel : Nat)
    (env : read_env) (s : vtfs_storage) (ino len off : Nat) (entry : Ptr) (e : vtfs_entry)
    (path : CStr)
    (hg : vtfs_storage_get_by_ino s ino = some entry) (he : s.mem entry = some e)
    (hreg : S_ISREG e.mode = true) (hb : buf_ok e) (hsz : off < e.size)
    (hkm : env.km = true) (huser : env.user = true)
    (hpath : vtfs_get_full_path s fuel entry 256 = some path)
    (hfail : use_remote_server server_url = false ∨
      ∃ k b, vtfs_http_read cfg env.read.net env.read.stack env.read.km path len (off : Int) =
        .ret k b ∧ k < 0) :
    vtfs_read server_url cfg fuel env s ino len (off : Int) =
      .ok ((vtfs_storage_read s env.now entry env.kbuffer len (off : Int)).1,
        (vtfs_storage_read s env.now entry env.kbuffer len (off : Int)).2.1,
        (vtfs_storage_read s env.now entry env.kbuffer len (off : Int)).2.2.take
          (vtfs_storage_read s env.now entry env.kbuffer len (off : Int)).2.1.toNat,
        (off : Int) + (vtfs_storage_read s env.now entry env.kbuffer len (off : Int)).2.1) := by
  have h64 : off < 18446744073709551616 := by
    have := hb.2.1
    have hM : VTFS_MAX_FILE_SIZE = 1048576 := by decide
    omega
  have hhit := read_hit s env.now entry e env.kbuffer len off he hreg hb hsz
  have hnn : ¬ (vtfs_storage_read s env.now entry env.kbuffer len (off : Int)).2.1 < 0 := by
    rw [hhit]; simp only; omega
  unfold vtfs_read
  simp only [hg, he, hreg, to_size_t_ofNat off h64, Bool.not_true, Bool.false_eq_true,
    if_false, hkm]
  have hge : ¬ off ≥ e.size := by omega
  have hm1 : (-1 : Int) < 0 := by decide
  rcases hfail with h0 | ⟨k, b, hread, hk⟩
  · simp only [hge, h0, Bool.false_eq_true, if_false, hm1, if_true, hnn, huser, Bool.not_true]
  · rcases read_ret_shape _ _ _ _ _ _ _ _ _ hread with ⟨_, h2⟩ | ⟨h1, _, _⟩
    · subst h2
      cases hu : use_remote_server server_url with
      | false =>
        simp only [hge, Bool.false_eq_true, if_false, hm1, if_true, hnn, huser, Bool.not_true]
      | true =>
        simp only [hge, if_false, if_true, hpath, hread, List.length_nil, memcpy_nothing, hk,
          hnn, huser, Bool.not_true, Bool.false_eq_true]
    · omega

/-- C24 (counterexample): the example file `a` is empty in the local store. A
remote read of its path `/a` succeeds and returns the three bytes 1, 2, 3, yet
`vtfs_read` of 4 bytes at offset 0, with the remote side configured and
answering the same, returns 0 and no bytes: the offset is at the locally
cached size and the remote side is not asked. -/
theorem read_at_local_size_skips_remote :
    vtfs_storage_get_by_ino ex_file 1001 = some 2 ∧
    (ex_file.mem 2).map (fun e => (S_ISREG e.mode, e.size)) = some (true, 0) ∧
    vtfs_get_full_path ex_file 2 2 256 = some (str "/a") ∧
    vtfs_http_read ex_cfg
      (.received (str "HTTP/1.1 200 OK\r\n\r\n\x7b\"result\":\x7b\"data\":\"AQID\"\x7d\x7d"))
      [] true (str "/a") 4 0 = .ret 3 [1, 2, 3] ∧
    (vtfs_read (some (str "http://127.0.0.1:8080")) ex_cfg 2
      ⟨true, [0, 0, 0, 0],
        ⟨.received (str "HTTP/1.1 200 OK\r\n\r\n\x7b\"result\":\x7b\"data\":\"AQID\"\x7d\x7d"),
          [], true⟩, 5, true⟩
      ex_file 1001 4 0).toOption.map (fun x => x.2) = some (0, [], 0) := by
  refine ⟨by decide, by decide, by decide, ?_, ?_⟩
  · set_option maxRecDepth 100000 in decide
  · set_option maxRecDepth 100000 in decide

/-- C24 (amended): in a reachable store, for a `vtfs_read` of a regular file
at the offset `off`. If `off` is at or past the locally cached size, the
function returns 0 and no bytes, whatever the remote side would answer. If
`off` is below the locally cached size and `kmalloc` and `copy_to_user`
succeed, the function returns (the computation of the path ends), and: with a
remote endpoint configured and a remote read that succeeds, the count and the
bytes returned are those of the remote read, whatever the local cache holds;
with no remote endpoint configured, or a remote read that fails, they are
those of `vtfs_storage_read`. -/
theorem file_read_remote_first (server_url : Option CStr) (cfg : http_config)
    (env : read_env) (s : vtfs_storage) (hs : Reachable s) (ino len off : Nat) (entry : Ptr)
    (e : vtfs_entry) (hg : vtfs_storage_get_by_ino s ino = some entry)
    (he : s.mem entry = some e) (hreg : S_ISREG e.mode = true) :
    (e.size ≤ off → off < 18446744073709551616 → ∀ fuel,
      vtfs_read server_url cfg fuel env s ino len (off : Int) = .ok (s, 0, [], (off : Int))) ∧
    (off < e.size → env.km = true → env.user = true → env.kbuffer.length = len →
      ∃ fuel0, ∀ fuel, fuel0 ≤ fuel →
        ∃ path, vtfs_get_full_path s fuel entry 256 = some path ∧
          (use_remote_server server_url = true → ∀ k b,
            vtfs_http_read cfg env.read.net env.read.stack env.read.km path len (off : Int) =
              .ret k b → 0 ≤ k →
            vtfs_read server_url cfg fuel env s ino len (off : Int) =
              .ok (s, k, b, (off : Int) + k)) ∧
          ((use_remote_server server_url = false ∨
              ∃ k b, vtfs_http_read cfg env.read.net env.read.stack env.read.km path len
                (off : Int) = .ret k b ∧ k < 0) →
            vtfs_read server_url cfg fuel env s ino len (off : Int) =
              .ok ((vtfs_storage_read s env.now entry env.kbuffer len (off : Int)).1,
                (vtfs_storage_read s env.now entry env.kbuffer len (off : Int)).2.1,
                (vtfs_storage_read s env.now entry env.kbuffer len (off : Int)).2.2.take
                  (vtfs_storage_read s env.now entry env.kbuffer len (off : Int)).2.1.toNat,
                (off : Int) +
                  (vtfs_storage_read s env.now entry env.kbuffer len (off : Int)).2.1))) := by
  have hb : buf_ok e := (Reach.inv hs).buf entry e he
  refine ⟨fun hsz h64 fuel => vtfs_read_at_end server_url cfg fuel env s ino len off entry e
    hg he hreg h64 hsz, ?_⟩
  intro hsz hkm huser hkb
  have h64 : off < 18446744073709551616 := by
    have := hb.2.1
    have hM : VTFS_MAX_FILE_SIZE = 1048576 := by decide
    omega
  obtain ⟨fuel0, hf⟩ := build_path_total s hs entry 256
  refine ⟨fuel0, fun fuel hfuel => ?_⟩
  obtain ⟨path, hpath⟩ := hf fuel hfuel
  refine ⟨path, hpath, ?_, ?_⟩
  · intro hurl k b hread hk
    exact vtfs_read_remote server_url cfg fuel env s ino len off entry e path k b hg he hreg
      h64 hsz hkm huser hkb hurl hpath hread hk
  · intro hfail
    exact vtfs_read_local server_url cfg fuel env s ino len off entry e path hg he hreg hb hsz
      hkm huser hpath hfail

/-- C24, an instance: the example file holds the bytes 7, 8 locally; the
remote read returns the bytes 1, 2, 3, and these are what `vtfs_read` returns. -/
theorem file_read_remote_first_witness :
    vtfs_storage_get_by_ino ex_written 1001 = some 2 ∧
    ∃ fuel, vtfs_read (some (str "http://127.0.0.1:8080")) ex_cfg fuel
      ⟨true, [0, 0, 0, 0],
        ⟨.received (str "HTTP/1.1 200 OK\r\n\r\n\x7b\"result\":\x7b\"data\":\"AQID\"\x7d\x7d"),
          [], true⟩, 5, true⟩
      ex_written 1001 4 0 = .ok (ex_written, 3, [1, 2, 3], 3) := by
  obtain ⟨e, he, hreg, hsz, hname⟩ : ∃ e, ex_written.mem 2 = some e ∧ S_ISREG e.mode = true ∧
      0 < e.size ∧ e.name = [97] := ⟨_, rfl, by decide, by decide, rfl⟩
  obtain ⟨r, hr, hc⟩ : ∃ r, ex_written.mem 1 = some r ∧ 2 ∈ r.children := ⟨_, rfl, by decide⟩
  have hthm := (file_read_remote_first (some (str "http://127.0.0.1:8080")) ex_cfg
    ⟨true, [0, 0, 0, 0],
      ⟨.received (str "HTTP/1.1 200 OK\r\n\r\n\x7b\"result\":\x7b\"data\":\"AQID\"\x7d\x7d"),
        [], true⟩, 5, true⟩
    ex_written ex_written_reachable 1001 4 0 2 e (by decide) he hreg).2 hsz rfl rfl rfl
  obtain ⟨fuel0, hf⟩ := hthm
  obtain ⟨path, hpath, hremote, _⟩ := hf (fuel0 + 2) (by omega)
  have hp := PathTo.child 1 2 r e [] (PathTo.root 1 rfl) hr hc he
  rw [hname] at hp
  obtain ⟨text, h1, h2⟩ := build_path_spec ex_written (Reach.inv ex_written_reachable) 256 hp
    (fuel0 + 2) (by simp)
  have htext : text = str "/a" := h2 (by decide)
  have hpa : path = str "/a" := by
    unfold vtfs_get_full_path at hpath
    rw [h1] at hpath
    cases hpath
    exact htext
  subst hpa
  refine ⟨by decide, fuel0 + 2, ?_⟩
  have hres := hremote (by decide) 3 [1, 2, 3]
    (by set_option maxRecDepth 100000 in decide) (by decide)
  exact hres

/-! ## Fill on miss -/

theorem fetch_stat_failure (server_url : Option CStr) (cfg : http_config) (fuel : Nat)
    (env : lookup_env) (s : vtfs_storage) (parent : Ptr) (name path0 : CStr) (e : Int)
    (hpath : vtfs_get_full_path s fuel parent 512 = some path0)
    (hstat : vtfs_http_stat cfg env.stat.net env.stat.stack (remote_child_path path0 name) =
      .error e) :
    fetch_from_remote server_url cfg fuel env s parent name = .ok (s, none) := by
  unfold fetch_from_remote
  split
  · rfl
  · simp only [hpath, hstat]

theorem fetch_read_failure (server_url : Option CStr) (cfg : http_config) (fuel : Nat)
    (env : lookup_env) (s s1 : vtfs_storage) (parent entry : Ptr) (name path0 : CStr)
    (mode : Nat) (size k : Int) (b : List Nat)
    (hurl : use_remote_server server_url = true)
    (hpath : vtfs_get_full_path s fuel parent 512 = some path0)
    (hstat : vtfs_http_stat cfg env.stat.net env.stat.stack (remote_child_path path0 name) =
      .ok (mode, size))
    (hreg : S_ISREG mode = true) (hsize : 0 < size)
    (hcreate : vtfs_storage_create_entry_no_sync s env.kz env.now parent name mode 0 =
      (s1, some entry))
    (hkm : env.km = true)
    (hread : vtfs_http_read cfg env.read.net env.read.stack env.read.km
      (remote_child_path path0 name) (to_size_t size) 0 = .ret k b)
    (hk : k < 0) :
    fetch_from_remote server_url cfg fuel env s parent name = .ok (s1, some entry) := by
  have hk1 : ¬ k > 0 := by omega
  unfold fetch_from_remote
  simp only [hurl, Bool.not_true, Bool.false_eq_true, if_false, hpath, hstat, hcreate, hreg,
    hsize, gt_iff_lt, and_self, if_true, hkm, hread]
  rw [if_neg (by omega)]

/-- C23 (the code at the failing input): a lookup of the name `a` in the root
of the fresh store misses locally; the remote stat of `/a` succeeds and reports
a regular file of 5 bytes; the remote read of its content fails (the
connection is refused). The lookup does not report NotFound: it returns the
entry at address 2, and the store now holds a new empty file `a` in the root. -/
theorem lookup_keeps_entry_when_read_fails :
    vtfs_storage_lookup ex_root 1 (str "a") = none ∧ ex_root.all_entries = [1] ∧
    vtfs_http_read ex_cfg .refused [] true (str "/a") 5 0 = .ret (-ENOENT) [] ∧
    (vtfs_lookup (some (str "http://127.0.0.1:8080")) ex_cfg 2
      ⟨⟨.received (str ("HTTP/1.1 200 OK\r\n\r\n" ++
          "\x7b\"result\":\x7b\"type\":\"file\",\"size\":5\x7d\x7d")), [], true⟩,
        some 2, 0, true, ⟨.refused, [], true⟩, some (fun _ => 0), 1, ⟨.refused, [], true⟩, true⟩
      ex_root 1000 (str "a")).toOption.map (fun x => (x.2.1, x.2.2, x.1.all_entries)) =
      some (0, some 2, [2, 1]) ∧
    (vtfs_lookup (some (str "http://127.0.0.1:8080")) ex_cfg 2
      ⟨⟨.received (str ("HTTP/1.1 200 OK\r\n\r\n" ++
          "\x7b\"result\":\x7b\"type\":\"file\",\"size\":5\x7d\x7d")), [], true⟩,
        some 2, 0, true, ⟨.refused, [], true⟩, some (fun _ => 0), 1, ⟨.refused, [], true⟩, true⟩
      ex_root 1000 (str "a")).toOption.map
      (fun x => ((x.1.mem 2).map (fun e => (e.name, e.size)),
        vtfs_storage_lookup x.1 1 (str "a"))) =
      some (some (str "a", 0), some 2) := by
  refine ⟨by decide, by decide, ?_, ?_, ?_⟩
  · set_option maxRecDepth 100000 in decide
  · set_option maxRecDepth 100000 in decide
  · set_option maxRecDepth 100000 in decide

theorem getD_eq_of_map (C : List Nat) (n : Nat) (hC : C.length = n) (f : Nat → Nat)
    (hf : ∀ i, i < n → f i = C.getD i 0) : (List.range n).map f = C := by
  apply List.ext_getElem
  · simp [hC]
  · intro i h1 h2
    simp only [List.getElem_map, List.getElem_range]
    rw [hf i (by omega), List.getD_eq_getElem?_getD, List.getElem?_eq_getElem h2]
    rfl

theorem fetch_file (server_url : Option CStr) (cfg : http_config) (fuel : Nat)
    (env : lookup_env) (s : vtfs_storage) (P p : Ptr) (N path0 : CStr) (mode n : Nat)
    (C : List Nat) (trace : Option (Except Int http_result))
    (hurl : use_remote_server server_url = true)
    (hpath : vtfs_get_full_path s fuel P 512 = some path0)
    (hstat : vtfs_http_stat cfg env.stat.net env.stat.stack (remote_child_path path0 N) =
      .ok (mode, (n : Int)))
    (hreg : S_ISREG mode = true) (hn : 0 < n) (hn64 : n < 18446744073709551616)
    (hcreate : (vtfs_storage_create_entry_no_sync s env.kz env.now P N mode 0).2 = some p)
    (hkm : env.km = true)
    (hread : vtfs_http_read cfg env.read.net env.read.stack env.read.km
      (remote_child_path path0 N) n 0 = .ret (n : Int) C)
    (hwrite : vtfs_storage_write_remote server_url cfg env.write fuel
        (vtfs_storage_create_entry_no_sync s env.kz env.now P N mode 0).1 env.alloc
        env.now_write p C n 0 =
      .ok (vtfs_storage_write (vtfs_storage_create_entry_no_sync s env.kz env.now P N mode 0).1
        env.alloc env.now_write p C n 0, trace)) :
    fetch_from_remote server_url cfg fuel env s P N =
      .ok ((vtfs_storage_write (vtfs_storage_create_entry_no_sync s env.kz env.now P N mode 0).1
        env.alloc env.now_write p C n 0).1, some p) := by
  have hc : vtfs_storage_create_entry_no_sync s env.kz env.now P N mode 0 =
      ((vtfs_storage_create_entry_no_sync s env.kz env.now P N mode 0).1, some p) :=
    Prod.ext rfl hcreate
  have hpos : (0 : Int) < (n : Int) := by omega
  have hsz : to_size_t (n : Int) = n := to_size_t_ofNat n hn64
  unfold fetch_from_remote
  simp only [hurl, Bool.not_true, Bool.false_eq_true, if_false, hpath, hstat]
  rw [hc]
  simp only [hreg, gt_iff_lt, hpos, and_self, if_true, hkm, hsz, hread, hwrite]

/-- C22: in a reachable store, for a directory `P` found by its inode number,
a name `N` of at most 255 bytes that no child of `P` bears, a size `n > 0` and
a content `C` of `n` bytes, with the remote side configured and the
allocations of the lookup succeeding: the computation of the path of `P` ends,
and if the remote stat of that path joined with `N` reports a regular file of
size `n` and the remote read of `n` bytes at offset 0 returns `C`, then
`vtfs_lookup` returns the new entry, a regular file with the name `N` and the
parent `P` that `vtfs_storage_lookup(P, N)` finds from then on, and
`vtfs_storage_read(entry, n, 0)`, a function of the local store alone, returns
`n` and the bytes `C`. -/
theorem lookup_read_through (server_url : Option CStr) (cfg : http_config)
    (env : lookup_env) (s : vtfs_storage) (hs : Reachable s) (pino : Nat) (P p : Ptr)
    (pe : vtfs_entry) (N : CStr) (mode n : Nat) (C : List Nat) (fill : Nat → Nat)
    (hg : vtfs_storage_get_by_ino s pino = some P) (hP : s.mem P = some pe)
    (hdir : S_ISDIR pe.mode = true) (habs : vtfs_storage_lookup s P N = none)
    (hN : N.length ≤ VTFS_MAX_NAME_LEN) (hurl : use_remote_server server_url = true)
    (hkz : env.kz = some p) (hfresh : s.mem p = none) (hkm : env.km = true)
    (halloc : env.alloc = some fill) (hinode : env.inode = true)
    (hreg : S_ISREG mode = true) (hn : 0 < n) (hC : C.length = n) :
    ∃ fuel0, ∀ fuel, fuel0 ≤ fuel →
      ∃ path0, vtfs_get_full_path s fuel P 512 = some path0 ∧
        (vtfs_http_stat cfg env.stat.net env.stat.stack (remote_child_path path0 N) =
            .ok (mode, (n : Int)) →
          vtfs_http_read cfg env.read.net env.read.stack env.read.km
            (remote_child_path path0 N) n 0 = .ret (n : Int) C →
          ∃ s1 e, vtfs_lookup server_url cfg fuel env s pino N = .ok (s1, 0, some p) ∧
            s1.mem p = some e ∧ e.name = N ∧ e.mode = mode ∧ e.parent = some P ∧
            vtfs_storage_lookup s1 P N = some p ∧
            ∀ now buffer, buffer.length = n →
              (vtfs_storage_read s1 now p buffer n 0).2 = ((n : Int), C)) := by
  obtain ⟨stat, kz, now0, km, read, alloc, now_write, write, inode⟩ := env
  simp only at hkz hkm halloc hinode
  subst hkz; subst hkm; subst halloc; subst hinode
  have hne : p ≠ P := by intro hh; rw [hh, hP] at hfresh; cases hfresh
  have hcr := create_ok s P pe N mode 0 p now0 true hP hdir habs
  have hcr2 : (vtfs_storage_create_entry_no_sync s (some p) now0 P N mode 0).2 = some p := by
    unfold vtfs_storage_create_entry_no_sync; rw [hcr]
  have hs1 : Reachable (vtfs_storage_create_entry_no_sync s (some p) now0 P N mode 0).1 :=
    Reach.create s (some p) now0 P N mode 0 true hs (by intro q hq; cases hq; exact hfresh)
      trivial
  have hname : List.take VTFS_MAX_NAME_LEN N = N := List.take_of_length_le hN
  have hfe : (vtfs_storage_create_entry_no_sync s (some p) now0 P N mode 0).1.mem p =
      some (fresh_entry now0 N mode s.next_ino P) := by
    unfold vtfs_storage_create_entry_no_sync; rw [hcr]
    show upd (upd s.mem p _) P _ p = _
    rw [upd_other _ _ _ _ hne, upd_same]
    rfl
  have hPe : (vtfs_storage_create_entry_no_sync s (some p) now0 P N mode 0).1.mem P =
      some { pe with children := p :: pe.children,
                     nlink := if S_ISDIR mode then pe.nlink + 1 else pe.nlink } := by
    unfold vtfs_storage_create_entry_no_sync; rw [hcr]
    show upd (upd s.mem p _) P _ P = _
    rw [upd_same]
  obtain ⟨f1, hf1⟩ := build_path_total s hs P 512
  obtain ⟨f2, hf2⟩ := write_remote_returns server_url cfg _ hs1 (some fill) now_write p C n 0
  refine ⟨max f1 f2, fun fuel hfuel => ?_⟩
  obtain ⟨path0, hpath⟩ := hf1 fuel (le_trans (le_max_left _ _) hfuel)
  refine ⟨path0, hpath, ?_⟩
  intro hstat hread
  obtain ⟨trace, hwr⟩ := hf2 fuel (le_trans (le_max_right _ _) hfuel) write
  have hn3 : n ≤ 3072 := by
    rcases read_ret_shape _ _ _ _ _ _ _ _ _ hread with ⟨h1, _⟩ | ⟨_, _, h3⟩
    · omega
    · omega
  have hM : VTFS_MAX_FILE_SIZE = 1048576 := by decide
  have hfetch := fetch_file server_url cfg fuel
    ⟨stat, some p, now0, true, read, some fill, now_write, write, true⟩ s P p N path0 mode n C
    trace hurl hpath hstat hreg hn (by omega) hcr2 rfl hread hwr
  have hbfe : buf_ok (fresh_entry now0 N mode s.next_ino P) := by simp [buf_ok, fresh_entry]
  have hw := write_grow _ fill now_write p (fresh_entry now0 N mode s.next_ino P) C n 0 hfe hreg
    (by rw [hM]; omega) (by show 0 < 0 + n; omega)
  simp only [Nat.cast_zero] at hw
  refine ⟨(vtfs_storage_write (vtfs_storage_create_entry_no_sync s (some p) now0 P N mode 0).1
      (some fill) now_write p C n 0).1,
    written_grown (fresh_entry now0 N mode s.next_ino P) fill now_write C n 0, ?_, ?_,
    hname, rfl, rfl, ?_, ?_⟩
  · unfold vtfs_lookup
    simp only [hg, habs, hfetch, if_true]
  · rw [hw]; exact upd_same _ _ _
  · rw [hw]
    unfold vtfs_storage_lookup
    have hmP : upd (vtfs_storage_create_entry_no_sync s (some p) now0 P N mode 0).1.mem p
        (some (written_grown (fresh_entry now0 N mode s.next_ino P) fill now_write C n 0)) P =
        some { pe with children := p :: pe.children,
                       nlink := if S_ISDIR mode then pe.nlink + 1 else pe.nlink } := by
      rw [upd_other _ _ _ _ (Ne.symm hne)]; exact hPe
    simp only [hmP, hdir, Bool.not_true, Bool.false_eq_true, if_false]
    rw [List.find?_cons_of_pos]
    simp only [upd_same]
    exact decide_eq_true hname
  · intro now buffer hbuf
    rw [hw]
    have hb1 := buf_ok_written_grown (fresh_entry now0 N mode s.next_ino P) fill now_write C n 0
      hbfe (by rw [hM]; omega) (by show 0 < 0 + n; omega)
    have hsize : (written_grown (fresh_entry now0 N mode s.next_ino P) fill now_write C n 0).size
        = n := by
      show (if 0 + n > 0 then 0 + n else 0) = n
      rw [if_pos (by omega)]; omega
    have hrd := read_hit
      ({ (vtfs_storage_create_entry_no_sync s (some p) now0 P N mode 0).1 with
          mem := upd (vtfs_storage_create_entry_no_sync s (some p) now0 P N mode 0).1.mem p
            (some (written_grown (fresh_entry now0 N mode s.next_ino P) fill now_write C n 0)) })
      now p _ buffer n 0 (upd_same _ _ _) hreg hb1 (by rw [hsize]; exact hn)
    simp only [Nat.cast_zero] at hrd
    rw [hrd, hsize, hbuf]
    have hmin : min n (n - 0) = n := by omega
    rw [hmin]
    refine Prod.ext rfl ?_
    refine getD_eq_of_map C n hC _ (fun i hi => ?_)
    rw [if_pos hi, Nat.zero_add,
      byte_at_written_grown _ fill now_write C n 0 hbfe (by show 0 < 0 + n; omega) i,
      if_pos ⟨Nat.zero_le _, by omega⟩, Nat.sub_zero]

/-- C22, an instance: the fresh store, a lookup of `a` in the root, a remote
side that reports a file of 3 bytes and serves the bytes 1, 2, 3. -/
theorem lookup_read_through_witness :
    vtfs_storage_lookup ex_root 1 (str "a") = none ∧
    ∃ fuel s1, vtfs_lookup (some (str "http://127.0.0.1:8080")) ex_cfg fuel
        ⟨⟨.received (str ("HTTP/1.1 200 OK\r\n\r\n" ++
            "\x7b\"result\":\x7b\"type\":\"file\",\"size\":3\x7d\x7d")), [], true⟩,
          some 2, 0, true,
          ⟨.received (str "HTTP/1.1 200 OK\r\n\r\n\x7b\"result\":\x7b\"data\":\"AQID\"\x7d\x7d"),
            [], true⟩,
          some (fun _ => 0), 1, ⟨.refused, [], true⟩, true⟩
        ex_root 1000 (str "a") = .ok (s1, 0, some 2) ∧
      (vtfs_storage_read s1 9 2 [0, 0, 0] 3 0).2 = (3, [1, 2, 3]) := by
  obtain ⟨re, hre, hdir⟩ : ∃ re, ex_root.mem 1 = some re ∧ S_ISDIR re.mode = true :=
    ⟨_, rfl, by decide⟩
  have hthm := lookup_read_through (some (str "http://127.0.0.1:8080")) ex_cfg
    ⟨⟨.received (str ("HTTP/1.1 200 OK\r\n\r\n" ++
        "\x7b\"result\":\x7b\"type\":\"file\",\"size\":3\x7d\x7d")), [], true⟩,
      some 2, 0, true,
      ⟨.received (str "HTTP/1.1 200 OK\r\n\r\n\x7b\"result\":\x7b\"data\":\"AQID\"\x7d\x7d"),
        [], true⟩,
      some (fun _ => 0), 1, ⟨.refused, [], true⟩, true⟩
    ex_root (ex_root_reach _) 1000 1 2 re (str "a") (S_IFREG ||| 0o777) 3 [1, 2, 3]
    (fun _ => 0) (by decide) hre hdir (by decide) (by decide) (by decide) rfl (by decide) rfl
    rfl rfl (by decide) (by decide) rfl
  obtain ⟨fuel0, hf⟩ := hthm
  obtain ⟨path0, hpath, himp⟩ := hf (fuel0 + 1) (by omega)
  have hroot := build_path_root ex_root 1 rfl 512 (fuel0 + 1) (by decide) (by omega)
  have hp0 : path0 = str "/" := by
    unfold vtfs_get_full_path at hpath
    rw [hroot] at hpath
    cases hpath
    rfl
  subst hp0
  obtain ⟨s1, e, h1, _, _, _, _, _, h7⟩ := himp
    (by set_option maxRecDepth 100000 in decide) (by set_option maxRecDepth 100000 in decide)
  exact ⟨by decide, fuel0 + 1, s1, h1, h7 9 [0, 0, 0] rfl⟩

/-! ## What delete and write leave alone -/

theorem find_congr {α : Type} (f g : α → Bool) (l : List α) (h : ∀ x ∈ l, f x = g x) :
    l.find? f = l.find? g := by
  induction l with
  | nil => rfl
  | cons a t ih =>
    rw [List.find?_cons, List.find?_cons, h a (List.mem_cons_self _ _),
      ih (fun x hx => h x (List.mem_cons_of_mem _ hx))]

theorem lookup_upd_fields (s : vtfs_storage) (p : Ptr) (e e1 : vtfs_entry)
    (hp : s.mem p = some e) (hch : e1.children = e.children) (hname : e1.name = e.name)
    (hmode : e1.mode = e.mode) (q : Ptr) (N : CStr) :
    vtfs_storage_lookup { s with mem := upd s.mem p (some e1) } q N =
      vtfs_storage_lookup s q N := by
  have hfind : ∀ l : List Ptr,
      l.find? (fun c => match upd s.mem p (some e1) c with
        | some ce => decide (ce.name = N)
        | none => false) =
      l.find? (fun c => match s.mem c with
        | some ce => decide (ce.name = N)
        | none => false) := by
    intro l
    refine find_congr _ _ l (fun c _ => ?_)
    by_cases hc : c = p
    · subst hc; simp only [upd_same, hp, hname]
    · simp only [upd_other _ _ _ _ hc]
  unfold vtfs_storage_lookup
  by_cases hq : q = p
  · subst hq
    simp only [upd_same, hp, hmode, hch]
    split
    · rfl
    · exact hfind _
  · simp only [upd_other _ _ _ _ hq]
    split
    · rfl
    · split
      · rfl
      · exact hfind _

theorem lookup_child (s : vtfs_storage) (hi : Inv s) (hu : UniqueNames s) (q c : Ptr)
    (qe ce : vtfs_entry) (hq : s.mem q = some qe) (hc : c ∈ qe.children)
    (hce : s.mem c = some ce) : vtfs_storage_lookup s q ce.name = some c := by
  have hdir : S_ISDIR qe.mode = true :=
    hi.parent_dir q qe hq (by intro h; rw [h] at hc; cases hc)
  cases hf : vtfs_storage_lookup s q ce.name with
  | none =>
    unfold vtfs_storage_lookup at hf
    simp only [hq, hdir, Bool.not_true, Bool.false_eq_true, if_false] at hf
    have := List.find?_eq_none.1 hf c hc
    rw [hce] at this
    simp at this
  | some x =>
    unfold vtfs_storage_lookup at hf
    simp only [hq, hdir, Bool.not_true, Bool.false_eq_true, if_false] at hf
    have hx := List.find?_some hf
    have hxm := List.mem_of_find?_eq_some hf
    cases hmx : s.mem x with
    | none => rw [hmx] at hx; cases hx
    | some xe =>
      rw [hmx] at hx
      rw [hu q qe hq x hxm c hc xe ce hmx hce (by simpa using hx)]

theorem lookup_only_named (s : vtfs_storage) (q c : Ptr) (qe ce : vtfs_entry)
    (hq : s.mem q = some qe) (hdir : S_ISDIR qe.mode = true) (hc : c ∈ qe.children)
    (hce : s.mem c = some ce)
    (hu : ∀ x ∈ qe.children, ∀ xe, s.mem x = some xe → xe.name = ce.name → x = c) :
    vtfs_storage_lookup s q ce.name = some c := by
  cases hf : vtfs_storage_lookup s q ce.name with
  | none =>
    unfold vtfs_storage_lookup at hf
    simp only [hq, hdir, Bool.not_true, Bool.false_eq_true, if_false] at hf
    have := List.find?_eq_none.1 hf c hc
    rw [hce] at this
    simp at this
  | some x =>
    unfold vtfs_storage_lookup at hf
    simp only [hq, hdir, Bool.not_true, Bool.false_eq_true, if_false] at hf
    have hx := List.find?_some hf
    have hxm := List.mem_of_find?_eq_some hf
    cases hmx : s.mem x with
    | none => rw [hmx] at hx; cases hx
    | some xe =>
      rw [hmx] at hx
      rw [hu x hxm xe hmx (by simpa using hx)]

/-! ## Stores made with the directory operations of the adapter -/

theorem Inv.mkdir {s : vtfs_storage} (h : Inv s) (kz : Option Ptr) (now : Nat) (inode : Bool)
    (parent_ino : Nat) (name : CStr) (mode : Nat)
    (hfresh : ∀ p, kz = some p → s.mem p = none) :
    Inv (vtfs_mkdir s kz now inode parent_ino name mode).1 := by
  unfold vtfs_mkdir
  cases hg : vtfs_storage_get_by_ino s parent_ino with
  | none => exact h
  | some parent =>
    have hi1 := h.create kz now parent name (S_IFDIR ||| (mode &&& 0o777)) 0 false hfresh
    have hnew := create_new_entry s kz now parent name (S_IFDIR ||| (mode &&& 0o777)) 0 false
    unfold vtfs_storage_create_entry
    simp only
    cases hc : create_entry_internal s kz now parent name (S_IFDIR ||| (mode &&& 0o777)) 0 false
      with
    | mk s1 r =>
      rw [hc] at hi1 hnew
      simp only at hi1 hnew
      cases r with
      | none => exact hi1
      | some entry =>
        have hm : s1.mem entry = some (fresh_entry now name (S_IFDIR ||| (mode &&& 0o777))
            s.next_ino parent) := (hnew entry hfresh rfl).1
        have hb : buf_ok
            { fresh_entry now name (S_IFDIR ||| (mode &&& 0o777)) s.next_ino parent with
              nlink := 2 } :=
          hi1.buf entry (fresh_entry now name (S_IFDIR ||| (mode &&& 0o777)) s.next_ino parent) hm
        have hi2 := hi1.upd_fields entry _
          { fresh_entry now name (S_IFDIR ||| (mode &&& 0o777)) s.next_ino parent with nlink := 2 }
          hm rfl rfl rfl hb
          ⟨(by decide : 1 ≤ 2), fun _ => by
            show 1 + dirCount s1.mem [] ≤ 2
            simp [dirCount]⟩
        simp only [hm]
        cases inode with
        | false => exact hi2.delete entry
        | true => exact hi2

theorem Inv.link {s : vtfs_storage} (h : Inv s) (kz : Option Ptr) (now : Nat)
    (old_ino dir_ino : Nat) (new_name : CStr)
    (hfresh : ∀ p, kz = some p → s.mem p = none) :
    Inv (vtfs_link s kz now old_ino dir_ino new_name).1 := by
  unfold vtfs_link
  cases hg : vtfs_storage_get_by_ino s old_ino with
  | none => exact h
  | some target =>
    simp only
    cases ht : s.mem target with
    | none => exact h
    | some te =>
      simp only
      by_cases hd : S_ISDIR te.mode = true
      · simp only [hd, if_true]; exact h
      · simp only [hd, Bool.false_eq_true, if_false]
        cases hp : vtfs_storage_get_by_ino s dir_ino with
        | none => exact h
        | some parent =>
          have hi1 := h.create kz now parent new_name te.mode te.ino false hfresh
          unfold vtfs_storage_create_entry
          simp only
          cases hc : create_entry_internal s kz now parent new_name te.mode te.ino false with
          | mk s1 r =>
            rw [hc] at hi1
            simp only at hi1
            cases r with
            | none => exact hi1
            | some link =>
              simp only
              have hi2 : Inv (match s1.mem link, s1.mem target with
                  | some le, some te1 =>
                    let le1 := { le with data := te1.data, size := te1.size,
                                         capacity := te1.capacity }
                    { s1 with mem := upd s1.mem link (some le1) }
                  | _, _ => s1) := by
                cases hl : s1.mem link with
                | none => exact hi1
                | some le =>
                  cases ht1 : s1.mem target with
                  | none => exact hi1
                  | some te1 =>
                    exact hi1.upd_fields link le _ hl rfl rfl rfl (hi1.buf target te1 ht1)
                      (hi1.links link le hl)
              split
              · exact (hi2.add_link target parent new_name).delete link
              · exact hi2.add_link target parent new_name

theorem Reach.to_adapter {ok : CStr → Prop} {s : vtfs_storage} (h : Reach ok s) :
    ReachAdapter ok s := by
  induction h with
  | init p now => exact ReachAdapter.init p now
  | create s kz now parent name mode ino skip _ hf hok ih =>
    exact ReachAdapter.create s kz now parent name mode ino skip ih hf hok
  | delete s e _ ih => exact ReachAdapter.delete s e ih
  | read s now e buffer len offset _ ih => exact ReachAdapter.read s now e buffer len offset ih
  | write s alloc now e buffer len offset _ ih =>
    exact ReachAdapter.write s alloc now e buffer len offset ih
  | add_link s e parent name _ ih => exact ReachAdapter.add_link s e parent name ih

theorem Inv.rmdir {s : vtfs_storage} (h : Inv s) (parent_ino : Nat) (name : CStr) :
    Inv (vtfs_rmdir s parent_ino name).1 := by
  unfold vtfs_rmdir
  cases vtfs_storage_get_by_ino s parent_ino with
  | none => exact h
  | some parent =>
    simp only
    cases vtfs_storage_lookup s parent name with
    | none => exact h
    | some child =>
      simp only
      cases s.mem child with
      | none => exact h
      | some ce =>
        simp only
        split
        · exact h
        · split
          · exact h
          · split
            · exact h.delete child
            · exact h.delete child

theorem ReachAdapter.adapter_inv {ok : CStr → Prop} {s : vtfs_storage}
    (h : ReachAdapter ok s) : Inv s := by
  induction h with
  | init p now => exact Inv.init p now
  | create s kz now parent name mode ino skip _ hf _ ih =>
    exact ih.create kz now parent name mode ino skip hf
  | delete s e _ ih => exact ih.delete e
  | read s now e buffer len offset _ ih => exact ih.read now e buffer len offset
  | write s alloc now e buffer len offset _ ih => exact ih.write alloc now e buffer len offset
  | add_link s e parent name _ ih => exact ih.add_link e parent name
  | mkdir s kz now inode parent_ino name mode _ hf _ ih =>
    exact ih.mkdir kz now inode parent_ino name mode hf
  | rmdir s parent_ino name _ ih => exact ih.rmdir parent_ino name

theorem UniqueNames.names_create {s : vtfs_storage} (hu : UniqueNames s) (hi : Inv s)
    (kz : Option Ptr) (now : Nat) (parent : Ptr) (name : CStr) (mode ino : Nat) (skip : Bool)
    (hf : ∀ p, kz = some p → s.mem p = none) (hok : name.length ≤ VTFS_MAX_NAME_LEN) :
    UniqueNames (create_entry_internal s kz now parent name mode ino skip).1 := by
  cases hD : s.mem parent with
  | none => unfold create_entry_internal; rw [hD]; exact hu
  | some d =>
    by_cases hdir : S_ISDIR d.mode = true
    · cases hl : vtfs_storage_lookup s parent name with
      | some c => rw [create_existing s kz now parent name mode ino skip c hl]; exact hu
      | none =>
        cases kz with
        | none =>
          unfold create_entry_internal
          simp only [hD, hdir, hl, alloc_entry]
          by_cases h0 : ino = 0
          · simp [h0]; exact hu
          · simp [h0]; exact hu
        | some p =>
          rw [create_ok s parent d name mode ino p now skip hD hdir hl]
          have hname : List.take VTFS_MAX_NAME_LEN name = name := List.take_of_length_le hok
          refine UniqueNames.names_add_child hu hi parent d _ (fresh_entry now name mode
            (if ino = 0 then s.next_ino else ino) parent) p _ hD (hf p rfl) rfl rfl rfl ?_
          show ∀ c ∈ d.children, ∀ ce, s.mem c = some ce →
            ce.name ≠ List.take VTFS_MAX_NAME_LEN name
          rw [hname]
          exact lookup_none_no_child s parent d name hD hdir hl
    · unfold create_entry_internal
      simp only [hD, hdir]
      exact hu

theorem UniqueNames.names_delete {s : vtfs_storage} (hu : UniqueNames s) (hi : Inv s)
    (e : Ptr) : UniqueNames (vtfs_storage_delete_entry s e).1 := by
  rcases delete_shape s hi e with h1 | ⟨ent, he, _, _, _, h2⟩ | ⟨ent, he, hroot, hch, _, h2⟩
  · rw [h1]; exact hu
  · rw [h2]; exact hu.names_upd_fields e ent _ he rfl rfl
  · rw [h2]; exact hu.names_removed e ent (hi.parent_ne e ent he hroot hch)

theorem UniqueNames.names_add_link {s : vtfs_storage} (hu : UniqueNames s)
    (e parent : Ptr) (name : CStr) : UniqueNames (vtfs_storage_add_link s e parent name).1 := by
  rcases add_link_shape s e parent name with h1 | ⟨ent, he, h2⟩
  · rw [h1]; exact hu
  · rw [h2]; exact hu.names_upd_fields e ent _ he rfl rfl

theorem UniqueNames.names_mkdir {s : vtfs_storage} (hu : UniqueNames s) (hi : Inv s)
    (kz : Option Ptr) (now : Nat) (inode : Bool) (parent_ino : Nat) (name : CStr) (mode : Nat)
    (hf : ∀ p, kz = some p → s.mem p = none) (hok : name.length ≤ VTFS_MAX_NAME_LEN) :
    UniqueNames (vtfs_mkdir s kz now inode parent_ino name mode).1 := by
  unfold vtfs_mkdir
  cases hg : vtfs_storage_get_by_ino s parent_ino with
  | none => exact hu
  | some parent =>
    have hu1 := hu.names_create hi kz now parent name (S_IFDIR ||| (mode &&& 0o777)) 0 false
      hf hok
    have hi1 := hi.create kz now parent name (S_IFDIR ||| (mode &&& 0o777)) 0 false hf
    unfold vtfs_storage_create_entry
    simp only
    cases hc : create_entry_internal s kz now parent name (S_IFDIR ||| (mode &&& 0o777)) 0 false
      with
    | mk s1 r =>
      rw [hc] at hu1 hi1
      simp only at hu1 hi1
      cases r with
      | none => exact hu1
      | some entry =>
        simp only
        cases hm : s1.mem entry with
        | none =>
          simp only
          cases inode with
          | false => exact hu1.names_delete hi1 entry
          | true => exact hu1
        | some e =>
          have hu2 := hu1.names_upd_fields entry e { e with nlink := 2 } hm rfl rfl
          simp only
          cases inode with
          | false =>
            have hi2 := (hi.mkdir kz now true parent_ino name mode hf)
            unfold vtfs_mkdir vtfs_storage_create_entry at hi2
            simp only [hg, hc, hm] at hi2
            exact hu2.names_delete hi2 entry
          | true => exact hu2

theorem UniqueNames.names_rmdir {s : vtfs_storage} (hu : UniqueNames s) (hi : Inv s)
    (parent_ino : Nat) (name : CStr) : UniqueNames (vtfs_rmdir s parent_ino name).1 := by
  unfold vtfs_rmdir
  cases vtfs_storage_get_by_ino s parent_ino with
  | none => exact hu
  | some parent =>
    simp only
    cases vtfs_storage_lookup s parent name with
    | none => exact hu
    | some child =>
      simp only
      cases s.mem child with
      | none => exact hu
      | some ce =>
        simp only
        split
        · exact hu
        · split
          · exact hu
          · split
            · exact hu.names_delete hi child
            · exact hu.names_delete hi child

theorem UniqueNames.names_link {s : vtfs_storage} (hu : UniqueNames s) (hi : Inv s)
    (kz : Option Ptr) (now : Nat) (old_ino dir_ino : Nat) (new_name : CStr)
    (hf : ∀ p, kz = some p → s.mem p = none) (hok : new_name.length ≤ VTFS_MAX_NAME_LEN) :
    UniqueNames (vtfs_link s kz now old_ino dir_ino new_name).1 := by
  unfold vtfs_link
  cases hg : vtfs_storage_get_by_ino s old_ino with
  | none => exact hu
  | some target =>
    simp only
    cases ht : s.mem target with
    | none => exact hu
    | some te =>
      simp only
      by_cases hd : S_ISDIR te.mode = true
      · simp only [hd, if_true]; exact hu
      · simp only [hd, Bool.false_eq_true, if_false]
        cases hp : vtfs_storage_get_by_ino s dir_ino with
        | none => exact hu
        | some parent =>
          have hu1 := hu.names_create hi kz now parent new_name te.mode te.ino false hf hok
          have hi1 := hi.create kz now parent new_name te.mode te.ino false hf
          unfold vtfs_storage_create_entry
          simp only
          cases hc : create_entry_internal s kz now parent new_name te.mode te.ino false with
          | mk s1 r =>
            rw [hc] at hu1 hi1
            simp only at hu1 hi1
            cases r with
            | none => exact hu1
            | some link =>
              simp only
              have h2 : UniqueNames (match s1.mem link, s1.mem target with
                  | some le, some te1 =>
                    let le1 := { le with data := te1.data, size := te1.size,
                                         capacity := te1.capacity }
                    { s1 with mem := upd s1.mem link (some le1) }
                  | _, _ => s1) ∧ Inv (match s1.mem link, s1.mem target with
                  | some le, some te1 =>
                    let le1 := { le with data := te1.data, size := te1.size,
                                         capacity := te1.capacity }
                    { s1 with mem := upd s1.mem link (some le1) }
                  | _, _ => s1) := by
                cases hl : s1.mem link with
                | none => exact ⟨hu1, hi1⟩
                | some le =>
                  cases ht1 : s1.mem target with
                  | none => exact ⟨hu1, hi1⟩
                  | some te1 =>
                    exact ⟨hu1.names_upd_fields link le _ hl rfl rfl,
                      hi1.upd_fields link le _ hl rfl rfl rfl (hi1.buf target te1 ht1)
                        (hi1.links link le hl)⟩
              split
              · exact (h2.1.names_add_link target parent new_name).names_delete
                  (h2.2.add_link target parent new_name) link
              · exact h2.1.names_add_link target parent new_name

theorem ReachAdapter.adapter_unique_names {s : vtfs_storage}
    (h : ReachAdapter (fun name => name.length ≤ VTFS_MAX_NAME_LEN) s) : UniqueNames s := by
  induction h with
  | init p now => exact ReachableShort.unique_names (Reach.init p now)
  | create s kz now parent name mode ino skip hr hf hok ih =>
    exact ih.names_create hr.adapter_inv kz now parent name mode ino skip hf hok
  | delete s e hr ih => exact ih.names_delete hr.adapter_inv e
  | read s now e buffer len offset _ ih =>
    rcases read_shape s now e buffer len offset with h1 | ⟨ent, he, h2⟩
    · rw [h1]; exact ih
    · rw [h2]; exact ih.names_upd_fields e ent _ he rfl rfl
  | write s alloc now e buffer len offset _ ih =>
    rcases write_shape s alloc now e buffer len offset with h1 | ⟨ent, e1, he, h2, h3, h4, _⟩
    · rw [h1]; exact ih
    · rw [h2]; exact ih.names_upd_fields e ent e1 he h3 h4
  | add_link s e parent name _ ih => exact ih.names_add_link e parent name
  | mkdir s kz now inode parent_ino name mode hr hf hok ih =>
    exact ih.names_mkdir hr.adapter_inv kz now inode parent_ino name mode hf hok
  | rmdir s parent_ino name hr ih => exact ih.names_rmdir hr.adapter_inv parent_ino name

theorem ex_mkdir_adapter (ok : CStr → Prop) (h : ok [100]) : ReachAdapter ok ex_mkdir :=
  ReachAdapter.mkdir ex_root (some 2) 0 true 1000 [100] 0o755 (ReachAdapter.init 1 0)
    (fun p hp => by cases hp; rfl) h

/-! ## Deleting an entry: the last link, and one link of several -/

theorem ex_twins_reach : Reachable ex_twins :=
  Reach.create _ (some 3) 0 1 ex_long_name (S_IFREG ||| 0o644) 0 false
    (Reach.create ex_root (some 2) 0 1 ex_long_name (S_IFREG ||| 0o644) 0 false
      (ex_root_reach _) (fun p hp => by cases hp; rfl) trivial)
    (fun p hp => by cases hp; rfl) trivial

/-- C5 (counterexample): after init and two creates of one name of 256 bytes
the root has two children stored under the same 255 bytes, at the addresses 2
and 3. The entry at 3 is not the root, has link count 1 and no children;
`vtfs_storage_delete_entry` on it returns 0 and takes it out of the store, and
the lookup of its stored name in its parent then returns the entry at 2, not
nothing. -/
theorem delete_last_link_twin :
    Reachable ex_twins ∧ ex_twins.root = some 1 ∧
    (ex_twins.mem 3).map (fun e => (e.nlink, e.children, e.parent,
      decide (e.name = List.replicate 255 97))) = some (1, [], some 1, true) ∧
    (vtfs_storage_delete_entry ex_twins 3).2 = 0 ∧
    (vtfs_storage_delete_entry ex_twins 3).1.mem 3 = none ∧
    vtfs_storage_lookup (vtfs_storage_delete_entry ex_twins 3).1 1 (List.replicate 255 97) =
      some 2 :=
  ⟨ex_twins_reach, by set_option maxRecDepth 100000 in decide,
    by set_option maxRecDepth 100000 in decide,
    by set_option maxRecDepth 100000 in decide, by set_option maxRecDepth 100000 in decide,
    by set_option maxRecDepth 100000 in decide⟩

/-- C5 (amended): in a store made from `vtfs_storage_init` by the operations of
the store (create, delete, read, write, add_link) and by `vtfs_mkdir` and
`vtfs_rmdir` of the adapter, deleting an entry that is not the root, has link
count 1 and no children returns 0; afterwards the entry is gone from the heap,
from the registry and from the children of its parent, every other entry is
still in the heap and in the registry, and the link count of the parent is one
lower if the entry was a directory and unchanged otherwise. A lookup of the
entry's name in the parent finds nothing when no other child of the parent
bears the same stored name, which is the case in every such store made with
names of at most `VTFS_MAX_NAME_LEN` bytes. -/
theorem delete_last_link (s : vtfs_storage) (hs : ReachAdapter (fun _ => True) s) (e : Ptr)
    (ent : vtfs_entry) (he : s.mem e = some ent) (hroot : s.root ≠ some e)
    (hn : ent.nlink = 1) (hch : ent.children = []) :
    ∃ q qe, ent.parent = some q ∧ s.mem q = some qe ∧ e ∈ qe.children ∧
      (vtfs_storage_delete_entry s e).2 = 0 ∧
      (vtfs_storage_delete_entry s e).1.mem e = none ∧
      e ∉ (vtfs_storage_delete_entry s e).1.all_entries ∧
      (∃ qe1, (vtfs_storage_delete_entry s e).1.mem q = some qe1 ∧ e ∉ qe1.children ∧
        (S_ISDIR ent.mode = true → qe1.nlink + 1 = qe.nlink) ∧
        (S_ISDIR ent.mode = false → qe1.nlink = qe.nlink)) ∧
      ((∀ c ∈ qe.children, c ≠ e → ∀ ce, s.mem c = some ce → ce.name ≠ ent.name) →
        vtfs_storage_lookup (vtfs_storage_delete_entry s e).1 q ent.name = none) ∧
      (ReachAdapter (fun name => name.length ≤ VTFS_MAX_NAME_LEN) s →
        vtfs_storage_lookup (vtfs_storage_delete_entry s e).1 q ent.name = none) ∧
      (∀ p, p ≠ e → s.mem p ≠ none →
        (vtfs_storage_delete_entry s e).1.mem p ≠ none ∧
        p ∈ (vtfs_storage_delete_entry s e).1.all_entries) := by
  have hi : Inv s := hs.adapter_inv
  obtain ⟨q, qe, hq1, hq2, hq3⟩ := hi.has_parent e ent he hroot
  have hpe := hi.parent_ne e ent he hroot hch
  have hqe : q ≠ e := by
    intro hh; rw [hh] at hq1; exact hpe hq1
  have hdec : nlink_dec ent.nlink = 0 := by rw [hn]; rfl
  rw [delete_removed s e ent he hroot (fun _ => hch) hdec]
  have val := removed_heap_other s.mem e ent hpe
  have hlook : (∀ c ∈ qe.children, c ≠ e → ∀ ce, s.mem c = some ce → ce.name ≠ ent.name) →
      vtfs_storage_lookup
        ({ s with mem := removed_heap s.mem e ent,
                  all_entries := s.all_entries.filter (fun c => decide (c ≠ e)) } : vtfs_storage)
        q ent.name = none := by
    intro hloc
    apply lookup_none_of_no_child _ q _ ent.name
      (by show removed_heap s.mem e ent q = _; rw [val q hqe, hq2]; rfl)
    intro c hc ce1 hce1 hname
    have hc' : c ∈ qe.children.filter (fun c => decide (c ≠ e)) := hc
    obtain ⟨hc1, hc2⟩ := List.mem_filter.1 hc'
    have hce : c ≠ e := by simpa using hc2
    have hce1' : removed_heap s.mem e ent c = some ce1 := hce1
    rw [val c hce] at hce1'
    cases hmc : s.mem c with
    | none => rw [hmc] at hce1'; cases hce1'
    | some ce =>
      rw [hmc] at hce1'
      simp only [Option.map_some'] at hce1'
      cases hce1'
      exact hloc c hc1 hce ce hmc hname
  refine ⟨q, qe, hq1, hq2, hq3, rfl, removed_heap_self _ _ _, ?_, ?_, hlook, ?_, ?_⟩
  · show e ∉ s.all_entries.filter (fun c => decide (c ≠ e))
    simp [List.mem_filter]
  · refine ⟨_, by show removed_heap s.mem e ent q = _; rw [val q hqe, hq2]; rfl, ?_, ?_, ?_⟩
    · show e ∉ qe.children.filter (fun c => decide (c ≠ e))
      simp [List.mem_filter]
    · intro hd
      show (if S_ISDIR ent.mode = true ∧ ent.parent = some q then nlink_dec qe.nlink
        else qe.nlink) + 1 = qe.nlink
      rw [if_pos ⟨hd, hq1⟩]
      have h1 := (hi.links q qe hq2).2 (hi.parent_dir q qe hq2 (List.ne_nil_of_mem hq3))
      have h2 : 0 < dirCount s.mem qe.children := by
        unfold dirCount
        rw [List.countP_pos_iff]
        exact ⟨e, hq3, by unfold isDirAt; rw [he]; exact hd⟩
      unfold nlink_dec
      split <;> omega
    · intro hd
      show (if S_ISDIR ent.mode = true ∧ ent.parent = some q then nlink_dec qe.nlink
        else qe.nlink) = qe.nlink
      rw [if_neg (by rw [hd]; simp)]
  · intro hshort
    apply hlook
    intro c hc hce ce hmc hname
    exact hce (hshort.adapter_unique_names q qe hq2 c hc e hq3 ce ent hmc he hname)
  · intro p hp hlive
    constructor
    · show removed_heap s.mem e ent p ≠ none
      rw [val p hp]
      cases hmp : s.mem p with
      | none => exact absurd hmp hlive
      | some pe => simp
    · show p ∈ s.all_entries.filter (fun c => decide (c ≠ e))
      rw [List.mem_filter]
      exact ⟨(hi.registry p).2 hlive, by simpa using hp⟩

/-- C5 (amended), an instance: the file `a` of the example store. -/
theorem delete_last_link_witness :
    (vtfs_storage_delete_entry ex_file 2).2 = 0 ∧
    (vtfs_storage_delete_entry ex_file 2).1.mem 2 = none ∧
    vtfs_storage_lookup (vtfs_storage_delete_entry ex_file 2).1 1 [97] = none := by
  obtain ⟨q, qe, h1, _, _, h4, h5, _, _, _, h9, _⟩ :=
    delete_last_link ex_file (Reach.to_adapter (ex_file_reach _ trivial)) 2 _ rfl (by decide)
      rfl rfl
  cases h1
  exact ⟨h4, h5, h9 (Reach.to_adapter ex_file_short)⟩

theorem ex_twins_linked_reach : Reachable ex_twins_linked :=
  Reach.add_link ex_twins 2 1 [98] ex_twins_reach

/-- C32 (counterexample): in the store with two children of the root stored
under the same 255 bytes (addresses 2 and 3), after `vtfs_storage_add_link` the
older one, at 2, has link count 2. It is a regular file and not the root;
`vtfs_storage_delete_entry` on it returns 0 and leaves it in the store with
link count 1, and the lookup of its stored name in its parent returns the
entry at 3, not the entry at 2. -/
theorem delete_linked_entry_twin :
    Reachable ex_twins_linked ∧ ex_twins_linked.root = some 1 ∧
    (ex_twins_linked.mem 2).map (fun e => (e.nlink, S_ISDIR e.mode, e.parent,
      decide (e.name = List.replicate 255 97))) = some (2, false, some 1, true) ∧
    (vtfs_storage_delete_entry ex_twins_linked 2).2 = 0 ∧
    ((vtfs_storage_delete_entry ex_twins_linked 2).1.mem 2).map (fun e => e.nlink) = some 1 ∧
    vtfs_storage_lookup (vtfs_storage_delete_entry ex_twins_linked 2).1 1
      (List.replicate 255 97) = some 3 :=
  ⟨ex_twins_linked_reach, by set_option maxRecDepth 100000 in decide,
    by set_option maxRecDepth 100000 in decide, by set_option maxRecDepth 100000 in decide,
    by set_option maxRecDepth 100000 in decide, by set_option maxRecDepth 100000 in decide⟩

/-- C32 (amended): in every store, for an entry `e` other than the root whose
link count is greater than 1 and which is not a directory with children,
`vtfs_storage_delete_entry(e)` returns 0 and the store afterwards is the store
before with the link count of `e` lowered by 1: the registry, the root, the
id counter, every other entry and every other field of `e` (content, name,
parent, children) are as before. Every lookup gives the same result as before,
and `e` is still among the children of every entry that had it as a child. In a
directory that has `e` as a child the lookup of the name of `e` returns `e`
when no other child of the directory bears the same stored name. In a
well-formed store `e` has a parent and is in the registry, and when no two
children of one directory bear the same stored name the lookup of the name of
`e` in its parent returns `e`. That is the case in every store made from
`vtfs_storage_init` by the operations of the store and by `vtfs_mkdir` and
`vtfs_rmdir` of the adapter with names of at most `VTFS_MAX_NAME_LEN` bytes. -/
theorem delete_linked_entry (s : vtfs_storage) (e : Ptr) (ent : vtfs_entry)
    (he : s.mem e = some ent) (hroot : s.root ≠ some e) (hn : 1 < ent.nlink)
    (hch : ¬ (S_ISDIR ent.mode = true ∧ ent.children ≠ [])) :
    vtfs_storage_delete_entry s e =
      ({ s with mem := upd s.mem e (some { ent with nlink := ent.nlink - 1 }) }, 0) ∧
    (∀ q N, vtfs_storage_lookup (vtfs_storage_delete_entry s e).1 q N =
      vtfs_storage_lookup s q N) ∧
    (∀ q qe, s.mem q = some qe → e ∈ qe.children →
      (∃ qe1, (vtfs_storage_delete_entry s e).1.mem q = some qe1 ∧ e ∈ qe1.children) ∧
      (S_ISDIR qe.mode = true →
        (∀ c ∈ qe.children, ∀ ce, s.mem c = some ce → ce.name = ent.name → c = e) →
        vtfs_storage_lookup (vtfs_storage_delete_entry s e).1 q ent.name = some e)) ∧
    (Inv s → ∃ q qe, ent.parent = some q ∧
      (vtfs_storage_delete_entry s e).1.mem q = some qe ∧ e ∈ qe.children ∧
      e ∈ (vtfs_storage_delete_entry s e).1.all_entries ∧
      (UniqueNames s →
        vtfs_storage_lookup (vtfs_storage_delete_entry s e).1 q ent.name = some e)) ∧
    (ReachAdapter (fun name => name.length ≤ VTFS_MAX_NAME_LEN) s →
      ∃ q, ent.parent = some q ∧
        vtfs_storage_lookup (vtfs_storage_delete_entry s e).1 q ent.name = some e) := by
  have hdec : nlink_dec ent.nlink = ent.nlink - 1 := by
    unfold nlink_dec; rw [if_neg (by omega)]
  have hch1 : S_ISDIR ent.mode = true → ent.children = [] := by
    intro hd
    by_contra hne
    exact hch ⟨hd, hne⟩
  have hdel := delete_kept s e ent he hroot hch1 (by rw [hdec]; omega)
  rw [hdec] at hdel
  have hlk : ∀ q N, vtfs_storage_lookup (vtfs_storage_delete_entry s e).1 q N =
      vtfs_storage_lookup s q N := by
    intro q N
    rw [hdel]
    exact lookup_upd_fields s e ent { ent with nlink := ent.nlink - 1 } he rfl rfl rfl q N
  refine ⟨hdel, hlk, ?_, ?_, ?_⟩
  · intro q qe hq hmem
    constructor
    · rw [hdel]
      by_cases hqe : q = e
      · subst hqe
        rw [he] at hq
        cases hq
        exact ⟨_, upd_same _ _ _, hmem⟩
      · exact ⟨qe, by show upd s.mem e _ q = some qe; rw [upd_other _ _ _ _ hqe]; exact hq,
          hmem⟩
    · intro hdir hloc
      rw [hlk]
      exact lookup_only_named s q e qe ent hq hdir hmem he hloc
  · intro hi
    obtain ⟨q, qe, hpar, hq, hmem⟩ := hi.has_parent e ent he hroot
    have hqe : q ≠ e := by
      intro hh; subst hh
      exact hi.not_own_child q qe hq hmem
    refine ⟨q, qe, hpar, ?_, hmem, ?_, ?_⟩
    · rw [hdel]
      show upd s.mem e _ q = some qe
      rw [upd_other _ _ _ _ hqe]; exact hq
    · rw [hdel]
      exact (hi.registry e).2 (by rw [he]; simp)
    · intro hu
      rw [hlk]
      exact lookup_child s hi hu q e qe ent hq hmem he
  · intro hshort
    have hi : Inv s := hshort.adapter_inv
    obtain ⟨q, qe, hpar, hq, hmem⟩ := hi.has_parent e ent he hroot
    refine ⟨q, hpar, ?_⟩
    rw [hlk]
    exact lookup_child s hi hshort.adapter_unique_names q e qe ent hq hmem he

/-- C32 (amended), two instances. The directory `d` that `vtfs_mkdir` made in
the root has link count 2 and no children: one delete returns 0, leaves it
with link count 1 and among the children of the root, and the lookup of `d`
in the root finds it as before. The example file after one add_link has link
count 2: one delete takes it back to 1 and the lookup of its name finds it as
before. -/
theorem delete_linked_entry_witness :
    ((ex_mkdir.mem 2).map (fun e => (S_ISDIR e.mode, e.nlink, e.children)) =
        some (true, 2, []) ∧
      (vtfs_storage_delete_entry ex_mkdir 2).2 = 0 ∧
      ((vtfs_storage_delete_entry ex_mkdir 2).1.mem 2).map (fun e => e.nlink) = some 1 ∧
      (∃ qe1, (vtfs_storage_delete_entry ex_mkdir 2).1.mem 1 = some qe1 ∧ 2 ∈ qe1.children) ∧
      vtfs_storage_lookup (vtfs_storage_delete_entry ex_mkdir 2).1 1 [100] = some 2) ∧
    (((vtfs_storage_add_link ex_file 2 1 [98]).1.mem 2).map (fun e => e.nlink) = some 2 ∧
      (vtfs_storage_delete_entry (vtfs_storage_add_link ex_file 2 1 [98]).1 2).2 = 0 ∧
      ((vtfs_storage_delete_entry (vtfs_storage_add_link ex_file 2 1 [98]).1 2).1.mem 2).map
        (fun e => e.nlink) = some 1 ∧
      vtfs_storage_lookup (vtfs_storage_delete_entry (vtfs_storage_add_link ex_file 2 1 [98]).1
        2).1 1 [97] = some 2) := by
  constructor
  · obtain ⟨ent, he, hn, hname, hkids, hpar⟩ :
        ∃ ent, ex_mkdir.mem 2 = some ent ∧ 1 < ent.nlink ∧
          ent.name = [100] ∧ ent.children = [] ∧ ent.parent = some 1 :=
      ⟨_, rfl, by decide, rfl, rfl, rfl⟩
    obtain ⟨qe, hq, hqc⟩ : ∃ qe, ex_mkdir.mem 1 = some qe ∧ qe.children = [2] :=
      ⟨_, rfl, rfl⟩
    have h := delete_linked_entry ex_mkdir 2 ent he (by decide) hn
      (by rw [hkids]; simp)
    obtain ⟨q, h1, h5⟩ := h.2.2.2.2 (ex_mkdir_adapter _ (by decide))
    rw [hpar] at h1
    cases h1
    rw [hname] at h5
    exact ⟨by decide, by decide, by decide, (h.2.2.1 1 qe hq (by rw [hqc]; simp)).1, h5⟩
  · obtain ⟨ent, he, hn, hreg, hname, hpar⟩ :
        ∃ ent, (vtfs_storage_add_link ex_file 2 1 [98]).1.mem 2 = some ent ∧ 1 < ent.nlink ∧
          S_ISDIR ent.mode = false ∧ ent.name = [97] ∧ ent.parent = some 1 :=
      ⟨_, rfl, by decide, by decide, rfl, rfl⟩
    have hr : ReachableShort (vtfs_storage_add_link ex_file 2 1 [98]).1 :=
      Reach.add_link ex_file 2 1 [98] ex_file_short
    have h := delete_linked_entry _ 2 ent he (by decide) hn (by rw [hreg]; simp)
    obtain ⟨q, h1, h4⟩ := h.2.2.2.2 (Reach.to_adapter hr)
    rw [hpar] at h1
    cases h1
    rw [hname] at h4
    exact ⟨by decide, by decide, by decide, h4⟩

/-! ## The content buffers as blocks of memory -/

theorem content_view_mem (h : block_store) (p : Ptr) :
    (content_view h).mem p =
      (h.store.mem p).map (fun e => { e with data := (h.data_ptr p).bind h.blocks }) := rfl

theorem storage_ext (s t : vtfs_storage) (h1 : s.root = t.root)
    (h2 : s.all_entries = t.all_entries) (h3 : s.next_ino = t.next_ino)
    (h4 : ∀ q, s.mem q = t.mem q) : s = t := by
  cases s with
  | mk r1 a1 n1 m1 =>
    cases t with
    | mk r2 a2 n2 m2 =>
      simp only at h1 h2 h3 h4
      have h5 : m1 = m2 := funext h4
      subst h1 h2 h3 h5
      rfl

/-- The tail of the write on blocks and on records: when the pointer of the entry
addresses a block and no other entry holds it, the store the blocks stand for
afterwards is what `write_tail` gives on the records. -/
theorem write_tail_blocks_view (h : block_store) (s : vtfs_storage) (now : Nat) (entry : Ptr)
    (e : vtfs_entry) (buffer : List Nat) (len off new_size : Nat)
    (hroot : s.root = h.store.root) (hall : s.all_entries = h.store.all_entries)
    (hino : s.next_ino = h.store.next_ino)
    (hmem : ∀ q, q ≠ entry → s.mem q = (content_view h).mem q)
    (hvalid : ∀ a, h.data_ptr entry = some a → h.blocks a ≠ none)
    (hown : ∀ q, q ≠ entry → ∀ a, h.data_ptr q = some a → h.data_ptr entry ≠ some a) :
    (write_tail_blocks h now entry e buffer len off new_size).map
        (fun r => (content_view r.1, r.2)) =
      some (write_tail s now entry { e with data := (h.data_ptr entry).bind h.blocks }
        buffer len off new_size) := by
  unfold write_tail_blocks write_tail
  cases hp : h.data_ptr entry with
  | none =>
    simp only [Option.map_some', Option.none_bind, Option.map_none']
    refine congrArg some (Prod.ext ?_ rfl)
    apply storage_ext
    · exact hroot.symm
    · exact hall.symm
    · exact hino.symm
    · intro q
      by_cases hq : q = entry
      · subst hq
        simp only [content_view_mem, upd_same, Option.map_some', hp, Option.none_bind]
        split <;> rfl
      · simp only [content_view_mem, upd_other _ _ _ _ hq]
        rw [hmem q hq, content_view_mem]
  | some a =>
    cases hb : h.blocks a with
    | none => exact absurd hb (hvalid a hp)
    | some d =>
      simp only [Option.map_some', Option.some_bind, hb]
      refine congrArg some (Prod.ext ?_ rfl)
      apply storage_ext
      · exact hroot.symm
      · exact hall.symm
      · exact hino.symm
      · intro q
        by_cases hq : q = entry
        · subst hq
          simp only [content_view_mem, upd_same, Option.map_some', hp, Option.some_bind,
            if_true]
          split <;> rfl
        · simp only [content_view_mem, upd_other _ _ _ _ hq]
          rw [hmem q hq, content_view_mem]
          cases hdq : h.data_ptr q with
          | none => rfl
          | some x =>
            have hx : x ≠ a := by
              intro hh
              subst hh
              exact hown q hq x hdq hp
            simp only [Option.some_bind, if_neg hx]

/-- Where the buffer of the written entry is held by no other entry,
`vtfs_storage_write` on blocks is `vtfs_storage_write` on records: if the
pointer of the entry addresses a block, no other entry holds the same pointer
and the allocator hands out an address that no other entry holds, the call is
defined, returns the same value, and the store the blocks stand for afterwards
is the store the function on records gives. -/
theorem write_blocks_view (h : block_store) (alloc : Option (Nat × (Nat → Nat))) (now : Nat)
    (entry : Ptr) (buffer : List Nat) (len : Nat) (offset : Int)
    (hvalid : ∀ a, h.data_ptr entry = some a → h.blocks a ≠ none)
    (hown : ∀ q, q ≠ entry → ∀ a, h.data_ptr q = some a → h.data_ptr entry ≠ some a)
    (hfresh : ∀ a fill, alloc = some (a, fill) → ∀ q, q ≠ entry → h.data_ptr q ≠ some a) :
    (vtfs_storage_write_blocks h alloc now entry buffer len offset).map
        (fun r => (content_view r.1, r.2)) =
      some (vtfs_storage_write (content_view h) (alloc.map Prod.snd) now entry buffer len
        offset) := by
  unfold vtfs_storage_write_blocks vtfs_storage_write
  rw [content_view_mem]
  cases he : h.store.mem entry with
  | none => rfl
  | some e =>
    simp only [Option.map_some']
    by_cases hreg : S_ISREG e.mode = true
    · simp only [hreg, Bool.not_true, Bool.false_eq_true, if_false]
      by_cases hbig : (to_size_t offset + len) % 18446744073709551616 > VTFS_MAX_FILE_SIZE
      · simp only [hbig, if_true]
        rfl
      · simp only [hbig, if_false]
        by_cases hgrow : (to_size_t offset + len) % 18446744073709551616 > e.capacity
        · simp only [hgrow, if_true]
          generalize (if (to_size_t offset + len) % 18446744073709551616 ⊔
              e.capacity * 2 % 18446744073709551616 < 64 then 64
            else (to_size_t offset + len) % 18446744073709551616 ⊔
              e.capacity * 2 % 18446744073709551616) = ncap
          cases alloc with
          | none => rfl
          | some af =>
            obtain ⟨a, fill⟩ := af
            have hfr := hfresh a fill rfl
            unfold krealloc_blocks krealloc
            simp only [Option.map_some']
            cases hp : h.data_ptr entry with
            | none =>
              simp only [Option.none_bind, Option.getD_none]
              refine (write_tail_blocks_view _ (content_view h) now entry _ buffer len _ _
                (by rfl) (by rfl) (by rfl) ?_ ?_ ?_).trans ?_
              · intro q hq
                simp only [content_view_mem, if_neg hq]
                cases hdq : h.data_ptr q with
                | none => rfl
                | some x =>
                  have hx : x ≠ a := fun hh => hfr q hq (by rw [hdq, hh])
                  simp only [Option.some_bind, if_neg hx]
              · intro x hx
                simp only [if_true] at hx
                cases hx
                simp
              · intro q hq x hx
                simp only [if_neg hq] at hx
                simp only [if_true]
                intro hh
                cases hh
                exact hfr q hq hx
              · simp only [if_true, Option.some_bind]
            | some old =>
              cases hb : h.blocks old with
              | none => exact absurd hb (hvalid old hp)
              | some d =>
                simp only [Option.some_bind, hb, Option.getD_some, Option.map_some']
                refine (write_tail_blocks_view _ (content_view h) now entry _ buffer len _ _
                  (by rfl) (by rfl) (by rfl) ?_ ?_ ?_).trans ?_
                · intro q hq
                  simp only [content_view_mem, if_neg hq]
                  cases hdq : h.data_ptr q with
                  | none => rfl
                  | some x =>
                    have hx : x ≠ a := fun hh => hfr q hq (by rw [hdq, hh])
                    have hx2 : x ≠ old := by
                      intro hh
                      subst hh
                      exact hown q hq x hdq hp
                    simp only [Option.some_bind, if_neg hx, if_neg hx2]
                · intro x hx
                  simp only [if_true] at hx
                  cases hx
                  simp
                · intro q hq x hx
                  simp only [if_neg hq] at hx
                  simp only [if_true]
                  intro hh
                  cases hh
                  exact hfr q hq hx
                · simp only [if_true, Option.some_bind]
        · simp only [hgrow, if_false]
          exact write_tail_blocks_view h (content_view h) now entry e buffer len _ _ rfl rfl rfl
            (fun _ _ => rfl) hvalid hown
    · simp only [hreg, Bool.not_false, if_true]
      rfl

/-- Where the pointer of the entry addresses a block, `vtfs_storage_read` on
blocks is `vtfs_storage_read` on records. -/
theorem read_blocks_view (h : block_store) (now : Nat) (entry : Ptr) (buffer : List Nat)
    (len : Nat) (offset : Int)
    (hvalid : ∀ a, h.data_ptr entry = some a → h.blocks a ≠ none) :
    (vtfs_storage_read_blocks h now entry buffer len offset).map
        (fun r => (content_view r.1, r.2)) =
      some (vtfs_storage_read (content_view h) now entry buffer len offset) := by
  unfold vtfs_storage_read_blocks vtfs_storage_read
  rw [content_view_mem]
  cases he : h.store.mem entry with
  | none => rfl
  | some e =>
    simp only [Option.map_some']
    by_cases hreg : S_ISREG e.mode = true
    · simp only [hreg, Bool.not_true, Bool.false_eq_true, if_false]
      by_cases hend : to_size_t offset ≥ e.size
      · simp only [hend, if_true]
        rfl
      · simp only [hend, if_false]
        have hmem : ∀ q, (content_view
            { store := { h.store with mem := upd h.store.mem entry (some { e with atime := now }) },
              data_ptr := h.data_ptr, blocks := h.blocks }).mem q =
            upd (content_view h).mem entry
              (some { e with data := (h.data_ptr entry).bind h.blocks, atime := now }) q := by
          intro q
          simp only [content_view_mem]
          by_cases hq : q = entry
          · subst hq
            simp only [upd_same, Option.map_some']
          · simp only [upd_other _ _ _ _ hq, content_view_mem]
        cases hp : h.data_ptr entry with
        | none =>
          simp only [Option.map_some', Option.none_bind]
          refine congrArg some (Prod.ext ?_ rfl)
          apply storage_ext
          · rfl
          · rfl
          · rfl
          · intro q
            show (content_view _).mem q = _
            rw [hmem q, hp]
            rfl
        | some a =>
          cases hb : h.blocks a with
          | none => exact absurd hb (hvalid a hp)
          | some d =>
            simp only [Option.some_bind, hb, Option.map_some']
            split
            · refine congrArg some (Prod.ext ?_ rfl)
              apply storage_ext
              · rfl
              · rfl
              · rfl
              · intro q
                show (content_view _).mem q = _
                rw [hmem q, hp]
                simp only [Option.some_bind, hb]
            · refine congrArg some (Prod.ext ?_ rfl)
              apply storage_ext
              · rfl
              · rfl
              · rfl
              · intro q
                show (content_view _).mem q = _
                rw [hmem q, hp]
                simp only [Option.some_bind, hb]
    · simp only [hreg, Bool.not_false, if_true]
      rfl

theorem get_by_ino_view (h : block_store) (ino : Nat) :
    vtfs_storage_get_by_ino (content_view h) ino = vtfs_storage_get_by_ino h.store ino := by
  unfold vtfs_storage_get_by_ino
  show h.store.all_entries.find? _ = _
  refine find_congr _ _ _ (fun p _ => ?_)
  rw [content_view_mem]
  cases h.store.mem p <;> rfl

theorem lookup_view (h : block_store) (parent : Ptr) (name : CStr) :
    vtfs_storage_lookup (content_view h) parent name =
      vtfs_storage_lookup h.store parent name := by
  unfold vtfs_storage_lookup
  rw [content_view_mem]
  cases h.store.mem parent with
  | none => rfl
  | some pe =>
    simp only [Option.map_some']
    split
    · rfl
    · refine find_congr _ _ _ (fun p _ => ?_)
      rw [content_view_mem]
      cases h.store.mem p <;> rfl

/-- Right after a successful call `vtfs_link` on blocks and `vtfs_link` on records
agree: the store the blocks stand for is the store the function on records
gives, where the new entry carries the bytes of the target. -/
theorem link_blocks_view (h : block_store) (now old_ino dir_ino : Nat) (name : CStr)
    (target parent link : Ptr) (te d : vtfs_entry)
    (ht : vtfs_storage_get_by_ino h.store old_ino = some target)
    (hte : h.store.mem target = some te) (hdir : S_ISDIR te.mode = false)
    (hp : vtfs_storage_get_by_ino h.store dir_ino = some parent)
    (hD : h.store.mem parent = some d) (hddir : S_ISDIR d.mode = true)
    (hl : vtfs_storage_lookup h.store parent name = none)
    (hlf : h.store.mem link = none) :
    (vtfs_link_blocks h (some link) now old_ino dir_ino name).map
        (fun r => (content_view r.1, r.2)) =
      some (vtfs_link (content_view h) (some link) now old_ino dir_ino name) := by
  have hlt : target ≠ link := by
    intro hh; rw [hh, hlf] at hte; cases hte
  have hlp : link ≠ parent := by
    intro hh; rw [hh, hD] at hlf; cases hlf
  have htp : target ≠ parent := by
    intro hh; rw [hh, hD] at hte; cases hte; rw [hdir] at hddir; cases hddir
  rw [vtfs_link_ok (content_view h) now old_ino dir_ino name target parent link
    { te with data := (h.data_ptr target).bind h.blocks }
    { d with data := (h.data_ptr parent).bind h.blocks }
    (by rw [get_by_ino_view]; exact ht) (by rw [content_view_mem, hte]; rfl) hdir
    (by rw [get_by_ino_view]; exact hp) (by rw [content_view_mem, hD]; rfl) hddir
    (by rw [lookup_view]; exact hl) (by rw [content_view_mem, hlf]; rfl)]
  rw [create_ok (content_view h) parent { d with data := (h.data_ptr parent).bind h.blocks }
    name te.mode te.ino link now false (by rw [content_view_mem, hD]; rfl) hddir
    (by rw [lookup_view]; exact hl)]
  have hcr := create_ok h.store parent d name te.mode te.ino link now false hD hddir hl
  unfold vtfs_link_blocks
  simp only [ht, hte, hdir, hp, Bool.false_eq_true, if_false]
  unfold vtfs_storage_create_entry
  rw [hcr]
  simp only [upd_same, upd_other _ _ _ _ hlp, upd_other _ _ _ _ htp,
    upd_other _ _ _ _ hlt, hte]
  unfold vtfs_storage_add_link
  simp only [upd_same, upd_other _ _ _ _ hlp, upd_other _ _ _ _ htp,
    upd_other _ _ _ _ hlt, upd_other _ _ _ _ (Ne.symm hlp),
    upd_other _ _ _ _ (Ne.symm hlt), hte, hdir, Bool.false_eq_true, if_false,
    ne_eq, not_true_eq_false, Option.map_some']
  refine congrArg some (Prod.ext ?_ rfl)
  apply storage_ext
  · rfl
  · rfl
  · rfl
  · intro q
    simp only [content_view_mem]
    by_cases hq1 : q = target
    · subst hq1
      simp only [upd_same, Option.map_some', if_neg hlt]
    · by_cases hq2 : q = link
      · subst hq2
        simp only [upd_other _ _ _ _ hq1, upd_same, Option.map_some', if_true]
        rfl
      · by_cases hq3 : q = parent
        · subst hq3
          simp only [upd_other _ _ _ _ hq1, upd_other _ _ _ _ hq2, upd_same, Option.map_some',
            if_neg hq2]
        · simp only [upd_other _ _ _ _ hq1, upd_other _ _ _ _ hq2, upd_other _ _ _ _ hq3,
            if_neg hq2]
          rfl

/-- C33 (counterexample): the example file `a` (entry at address 2) holds the
bytes 7, 8 in the block at address 100, and `vtfs_link` has given it the
second name `b` (entry at address 3), whose pointer `data` is the same
address. A read of two bytes through the entry of `b` gives 7, 8. The write of
the byte 9 at offset 0 through the entry of `a` fits the capacity and returns
1; after it the read through the entry of `b`, another entry, gives 9, 8. -/
theorem write_reaches_linked_entry :
    ex_blocks_linked.map (fun h => (vtfs_storage_lookup h.store 1 [97],
      vtfs_storage_lookup h.store 1 [98], h.data_ptr 2, h.data_ptr 3)) =
      some (some 2, some 3, some 100, some 100) ∧
    (ex_blocks_linked.bind (fun h => vtfs_storage_read_blocks h 2 3 [0, 0] 2 0)).map
      (fun r => r.2) = some (2, [7, 8]) ∧
    (ex_blocks_linked.bind (fun h => vtfs_storage_write_blocks h none 2 2 [9] 1 0)).map
      (fun r => r.2) = some 1 ∧
    ((ex_blocks_linked.bind (fun h => vtfs_storage_write_blocks h none 2 2 [9] 1 0)).bind
      (fun r => vtfs_storage_read_blocks r.1 3 3 [0, 0] 2 0)).map (fun r => r.2) =
      some (2, [9, 8]) := by
  refine ⟨by decide, by decide, by decide, by decide⟩

/-- C33 (amended): in a store made from `vtfs_storage_init` by the operations of
the store (create, delete, read, write, add_link) and by `vtfs_mkdir` and
`vtfs_rmdir` of the adapter, where no two entries hold the same buffer, for a
regular file with size `s0` and a write of `len` bytes of `buf` at the offset
`off` (not negative, `off + len` below 2^64) that succeeds, that is, returns a
value that is not negative: the value returned is `len`, and the store
afterwards is the store before with the record of the entry replaced, so every
other entry, the registry, the root and the id counter are as before. In the
new record the size is
`max s0 (off + len)`, the bytes at `[off, off + len)` are those of `buf`, every
byte at a position below `s0` and outside `[off, off + len)` is as before, and
the id, the name, the mode, the link count, the parent and the children are as
before. -/
theorem write_frame (s : vtfs_storage) (hs : ReachAdapter (fun _ => True) s)
    (alloc : Option (Nat → Nat))
    (now : Nat) (entry : Ptr) (e : vtfs_entry) (buffer : List Nat) (len off : Nat)
    (he : s.mem entry = some e) (hreg : S_ISREG e.mode = true)
    (hrep : off + len < 18446744073709551616)
    (hok : 0 ≤ (vtfs_storage_write s alloc now entry buffer len (off : Int)).2) :
    ∃ e1, vtfs_storage_write s alloc now entry buffer len (off : Int) =
        ({ s with mem := upd s.mem entry (some e1) }, (len : Int)) ∧
      e1.size = max e.size (off + len) ∧
      (∀ i, off ≤ i → i < off + len → byte_at e1 i = buffer.getD (i - off) 0) ∧
      (∀ i, i < e.size → ¬ (off ≤ i ∧ i < off + len) → byte_at e1 i = byte_at e i) ∧
      e1.ino = e.ino ∧ e1.name = e.name ∧ e1.mode = e.mode ∧ e1.nlink = e.nlink ∧
      e1.parent = e.parent ∧ e1.children = e.children := by
  have hi : Inv s := hs.adapter_inv
  have hb : buf_ok e := hi.buf entry e he
  have hmax : (if off + len > e.size then off + len else e.size) = max e.size (off + len) := by
    split <;> omega
  by_cases hbig : VTFS_MAX_FILE_SIZE < off + len
  · rw [write_efbig s alloc now entry e buffer len off he hreg hrep hbig] at hok
    exact absurd (show (0 : Int) ≤ -EFBIG from hok) (by decide)
  · have hsum : off + len ≤ VTFS_MAX_FILE_SIZE := Nat.le_of_not_lt hbig
    by_cases hfit : off + len ≤ e.capacity
    · refine ⟨written_inplace e now buffer len off,
        write_inplace s alloc now entry e buffer len off he hreg hsum hfit, hmax, ?_, ?_,
        rfl, rfl, rfl, rfl, rfl, rfl⟩
      · intro i h1 h2
        rw [byte_at_written_inplace e now buffer len off hb hfit i, if_pos ⟨h1, h2⟩]
      · intro i _ h2
        rw [byte_at_written_inplace e now buffer len off hb hfit i, if_neg h2]
    · have hlt : e.capacity < off + len := Nat.lt_of_not_le hfit
      cases alloc with
      | none =>
        rw [write_enomem s now entry e buffer len off he hreg hsum hlt] at hok
        exact absurd (show (0 : Int) ≤ -ENOMEM from hok) (by decide)
      | some fill =>
        refine ⟨written_grown e fill now buffer len off,
          write_grow s fill now entry e buffer len off he hreg hsum hlt, hmax, ?_, ?_,
          rfl, rfl, rfl, rfl, rfl, rfl⟩
        · intro i h1 h2
          rw [byte_at_written_grown e fill now buffer len off hb hlt i, if_pos ⟨h1, h2⟩]
        · intro i h1 h2
          have hcap := hb.1
          rw [byte_at_written_grown e fill now buffer len off hb hlt i, if_neg h2,
            if_neg (by omega), if_pos (by omega)]

/-- C33 (amended), an instance: the example file with the bytes 7, 8; a write
of the byte 9 at offset 1 returns 1 and leaves the byte at offset 0 as it
is. -/
theorem write_frame_witness :
    ∃ e1, vtfs_storage_write ex_written (some (fun _ => 0)) 2 2 [9] 1 1 =
        ({ ex_written with mem := upd ex_written.mem 2 (some e1) }, 1) ∧
      e1.size = 2 ∧ byte_at e1 0 = 7 ∧ byte_at e1 1 = 9 ∧ e1.name = [97] := by
  obtain ⟨e, he, hreg, hsize, hb0, hname⟩ : ∃ e, ex_written.mem 2 = some e ∧
      S_ISREG e.mode = true ∧ e.size = 2 ∧ byte_at e 0 = 7 ∧ e.name = [97] :=
    ⟨_, rfl, by decide, rfl, by decide, rfl⟩
  obtain ⟨e1, h1, h2, h3, h4, _, h6, _⟩ := write_frame ex_written
    (Reach.to_adapter ex_written_reachable) (some (fun _ => 0)) 2 2 e [9] 1 1 he hreg
    (by decide) (by decide)
  refine ⟨e1, h1, ?_, ?_, ?_, ?_⟩
  · rw [h2, hsize]; rfl
  · rw [h4 0 (by rw [hsize]; decide) (by decide), hb0]
  · rw [h3 1 (by decide) (by decide)]; rfl
  · rw [h6, hname]

/-! ## Registry and tree -/

theorem parent_chain_of_path (s : vtfs_storage) (hi : Inv s) {p : Ptr} {ns : List CStr}
    (h : PathTo s p ns) : parent_chain s ns.length p = s.root := by
  induction h with
  | root r hr => rw [hr]; rfl
  | child q c qe ce ns1 _ hq hc hce ih =>
    obtain ⟨_, ce1, hce1, hpar⟩ := hi.child_live q qe hq c hc
    rw [hce] at hce1; cases hce1
    rw [List.length_append, List.length_singleton]
    unfold parent_chain
    simp only [hce, hpar]
    exact ih

/-- C35: in every state reachable from `vtfs_storage_init` through create,
delete, read, write and add_link, the entries of the global registry are
exactly the root and the children of the directories of the registry; every
entry of the registry other than the root occurs exactly once in the registry
and exactly once among the children of the entry that its parent pointer
names, which is an entry of the registry; and from every entry of the registry
the parent pointers lead to the root in finitely many steps. -/
theorem registry_tree_consistent (s : vtfs_storage) (hs : Reachable s) :
    (∀ p, p ∈ s.all_entries ↔
      (s.root = some p ∨ ∃ q qe, q ∈ s.all_entries ∧ s.mem q = some qe ∧
        S_ISDIR qe.mode = true ∧ p ∈ qe.children)) ∧
    (∀ p, p ∈ s.all_entries → s.root ≠ some p →
      s.all_entries.count p = 1 ∧
      ∃ e q qe, s.mem p = some e ∧ e.parent = some q ∧ q ∈ s.all_entries ∧
        s.mem q = some qe ∧ qe.children.count p = 1) ∧
    (∀ p, p ∈ s.all_entries → ∃ n, parent_chain s n p = s.root) := by
  have hi : Inv s := Reach.inv hs
  have hlive : ∀ p, p ∈ s.all_entries → ∃ e, s.mem p = some e := by
    intro p hp
    have h := (hi.registry p).1 hp
    cases hm : s.mem p with
    | none => exact absurd hm h
    | some e => exact ⟨e, rfl⟩
  have hreg : ∀ p e, s.mem p = some e → p ∈ s.all_entries := by
    intro p e hp
    exact (hi.registry p).2 (by rw [hp]; simp)
  refine ⟨?_, ?_, ?_⟩
  · intro p
    constructor
    · intro hp
      obtain ⟨e, he⟩ := hlive p hp
      by_cases hr : s.root = some p
      · exact Or.inl hr
      · obtain ⟨q, qe, _, hq, hmem⟩ := hi.has_parent p e he hr
        exact Or.inr ⟨q, qe, hreg q qe hq, hq,
          hi.parent_dir q qe hq (by intro h; rw [h] at hmem; cases hmem), hmem⟩
    · intro h
      rcases h with hr | ⟨q, qe, _, hq, _, hmem⟩
      · obtain ⟨r, re, h1, h2, _⟩ := hi.root_live
        rw [h1] at hr; cases hr
        exact hreg p re h2
      · obtain ⟨_, ce, hce, _⟩ := hi.child_live q qe hq p hmem
        exact hreg p ce hce
  · intro p hp hr
    obtain ⟨e, he⟩ := hlive p hp
    obtain ⟨q, qe, hpar, hq, hmem⟩ := hi.has_parent p e he hr
    exact ⟨List.count_eq_one_of_mem hi.registry_nodup hp, e, q, qe, he, hpar, hreg q qe hq, hq,
      List.count_eq_one_of_mem (hi.child_nodup q qe hq) hmem⟩
  · intro p hp
    obtain ⟨e, he⟩ := hlive p hp
    obtain ⟨ns, hns⟩ := Reach.rooted hs p e he
    exact ⟨ns.length, parent_chain_of_path s hi hns⟩

/-- C35, an instance: the file `f` in the directory `d` of the example store
is once in the registry and two steps below the root. -/
theorem registry_tree_consistent_witness :
    ex_dir_file.all_entries.count 3 = 1 ∧ ∃ n, parent_chain ex_dir_file n 3 = some 1 := by
  have h := registry_tree_consistent ex_dir_file ex_dir_file_reachable
  exact ⟨(h.2.1 3 (by decide) (by decide)).1, h.2.2 3 (by decide)⟩

/-! ## Directory listing -/

theorem iterate_children_all (s : vtfs_storage) (cs : List Ptr)
    (hlive : ∀ c ∈ cs, ∃ d, child_dirent s c = some d) :
    ∀ (offset pos stored : Nat) (out : List dir_entry_out), 2 ≤ offset →
      iterate_children s (fun _ => true) cs offset pos stored out =
        (((stored + (cs.drop (offset - 2)).length : Nat) : Int),
          pos + (cs.drop (offset - 2)).length,
          out ++ (cs.drop (offset - 2)).filterMap (child_dirent s)) := by
  induction cs with
  | nil =>
    intro offset pos stored out _
    simp [iterate_children]
  | cons c rest ih =>
    intro offset pos stored out hoff
    have hrest : ∀ x ∈ rest, ∃ d, child_dirent s x = some d :=
      fun x hx => hlive x (List.mem_cons_of_mem _ hx)
    unfold iterate_children
    by_cases h2 : offset > 2
    · rw [if_pos h2, ih hrest (offset - 1) pos stored out (by omega)]
      have hd : (c :: rest).drop (offset - 2) = rest.drop (offset - 1 - 2) := by
        obtain ⟨k, hk⟩ : ∃ k, offset - 2 = k + 1 := ⟨offset - 3, by omega⟩
        rw [hk, List.drop_succ_cons]
        congr 1
        omega
      rw [hd]
    · rw [if_neg h2]
      obtain ⟨d, hd⟩ := hlive c (List.mem_cons_self _ _)
      have h0 : offset - 2 = 0 := by omega
      simp only [hd, Bool.not_true, Bool.false_eq_true, if_false]
      rw [ih hrest offset (pos + 1) (stored + 1) (out ++ [d]) hoff, h0]
      simp only [List.drop_zero, List.length_cons, List.filterMap_cons, hd, List.append_assoc,
        List.singleton_append]
      refine Prod.ext ?_ (Prod.ext ?_ rfl)
      · show ((stored + 1 + rest.length : Nat) : Int) = ((stored + (rest.length + 1) : Nat) : Int)
        congr 1
        omega
      · show pos + 1 + rest.length = pos + (rest.length + 1)
        omega

theorem filterMap_length_live (s : vtfs_storage) (cs : List Ptr)
    (hlive : ∀ c ∈ cs, ∃ d, child_dirent s c = some d) :
    (cs.filterMap (child_dirent s)).length = cs.length := by
  induction cs with
  | nil => rfl
  | cons c rest ih =>
    obtain ⟨d, hd⟩ := hlive c (List.mem_cons_self _ _)
    rw [List.filterMap_cons, hd]
    simp only [List.length_cons]
    rw [ih (fun x hx => hlive x (List.mem_cons_of_mem _ hx))]

/-- C36: in a reachable store, for a directory with the children `c1 ... cn`
(in the order of its list) and a callback that accepts every entry: each child
is listed once in the list and gives the entry (name, id, type) of its record,
where the type is `DT_DIR` for a directory and `DT_REG` for a regular file.
Started at position 0, `vtfs_iterate` emits `.` with the id of the directory,
`..` with the id of the parent, then the entries of `c1 ... cn`, returns
`2 + n` and leaves the position at `2 + n`. Started at a position `p >= 2` it
emits the entries of the children after the first `p - 2`, returns their
number and advances the position by it, so at `p = 2 + n` it emits nothing. -/
theorem iterate_lists_directory (s : vtfs_storage) (hs : Reachable s) (ino : Nat)
    (parent_ino : Option Nat) (d : Ptr) (de : vtfs_entry)
    (hg : vtfs_storage_get_by_ino s ino = some d) (hd : s.mem d = some de)
    (hdir : S_ISDIR de.mode = true) :
    de.children.Nodup ∧
    (∀ c ∈ de.children, ∃ ce, s.mem c = some ce ∧
      child_dirent s c = some ⟨ce.name, ce.ino,
        if S_ISDIR ce.mode then DT_DIR else if S_ISREG ce.mode then DT_REG else DT_UNKNOWN⟩) ∧
    vtfs_iterate s (fun _ => true) ino parent_ino 0 =
      (((2 + de.children.length : Nat) : Int), 2 + de.children.length,
        [⟨str ".", ino, DT_DIR⟩, ⟨str "..", parent_ino.getD ino, DT_DIR⟩] ++
          de.children.filterMap (child_dirent s)) ∧
    (de.children.filterMap (child_dirent s)).length = de.children.length ∧
    (∀ p, 2 ≤ p →
      vtfs_iterate s (fun _ => true) ino parent_ino p =
        (((de.children.length - (p - 2) : Nat) : Int), p + (de.children.length - (p - 2)),
          (de.children.drop (p - 2)).filterMap (child_dirent s)) ∧
      ((de.children.drop (p - 2)).filterMap (child_dirent s)).length =
        de.children.length - (p - 2)) ∧
    vtfs_iterate s (fun _ => true) ino parent_ino (2 + de.children.length) =
      (0, 2 + de.children.length, []) := by
  have hi : Inv s := Reach.inv hs
  have hent : ∀ c ∈ de.children, ∃ ce, s.mem c = some ce ∧
      child_dirent s c = some ⟨ce.name, ce.ino,
        if S_ISDIR ce.mode then DT_DIR else if S_ISREG ce.mode then DT_REG else DT_UNKNOWN⟩ := by
    intro c hc
    obtain ⟨_, ce, hce, _⟩ := hi.child_live d de hd c hc
    refine ⟨ce, hce, ?_⟩
    unfold child_dirent
    rw [hce]
    rfl
  have hlive : ∀ c ∈ de.children, ∃ x, child_dirent s c = some x := by
    intro c hc
    obtain ⟨ce, _, h⟩ := hent c hc
    exact ⟨_, h⟩
  have hp : ∀ p, 2 ≤ p →
      vtfs_iterate s (fun _ => true) ino parent_ino p =
        (((de.children.length - (p - 2) : Nat) : Int), p + (de.children.length - (p - 2)),
          (de.children.drop (p - 2)).filterMap (child_dirent s)) := by
    intro p h2
    unfold vtfs_iterate
    simp only [hg, hd, hdir, Bool.not_true, Bool.false_eq_true, if_false]
    rw [if_neg (by omega), if_neg (by omega),
      iterate_children_all s de.children hlive p p 0 [] h2]
    simp only [Nat.zero_add, List.length_drop, List.nil_append]
  refine ⟨hi.child_nodup d de hd, hent, ?_, filterMap_length_live s _ hlive, ?_, ?_⟩
  · unfold vtfs_iterate
    simp only [hg, hd, hdir, Bool.not_true, Bool.false_eq_true, if_false, if_true]
    rw [iterate_children_all s de.children hlive 2 (0 + 2) 2 _ (Nat.le_refl _)]
    simp only [Nat.sub_self, List.drop_zero, Nat.zero_add]
  · intro p h2
    refine ⟨hp p h2, ?_⟩
    rw [filterMap_length_live s _ (fun c hc => hlive c (List.mem_of_mem_drop hc)),
      List.length_drop]
  · rw [hp _ (by omega)]
    have h0 : de.children.length - (2 + de.children.length - 2) = 0 := by omega
    have h1 : 2 + de.children.length - 2 = de.children.length := by omega
    rw [h0, h1, List.drop_length]
    rfl

/-- C36, an instance: the listing of the root of the example store with the
directory `d`. -/
theorem iterate_lists_directory_witness :
    vtfs_storage_get_by_ino ex_dir_file 1000 = some 1 ∧
    vtfs_iterate ex_dir_file (fun _ => true) 1000 none 0 =
      (3, 3, [⟨str ".", 1000, DT_DIR⟩, ⟨str "..", 1000, DT_DIR⟩, ⟨[100], 1001, DT_DIR⟩]) ∧
    vtfs_iterate ex_dir_file (fun _ => true) 1000 none 3 = (0, 3, []) := by
  obtain ⟨de, hd, hdir, hch⟩ : ∃ de, ex_dir_file.mem 1 = some de ∧ S_ISDIR de.mode = true ∧
      de.children = [2] := ⟨_, rfl, by decide, rfl⟩
  have h := iterate_lists_directory ex_dir_file ex_dir_file_reachable 1000 none 1 de
    (by decide) hd hdir
  obtain ⟨_, _, h3, _, _, h6⟩ := h
  rw [hch] at h3 h6
  exact ⟨by decide, h3, h6⟩

/-! ## mkdir and rmdir of the adapter -/

theorem S_ISDIR_mkdir_mode (mode : Nat) : S_ISDIR (S_IFDIR ||| (mode &&& 0o777)) = true := by
  unfold S_ISDIR
  have h1 : (S_IFDIR ||| (mode &&& 0o777)) &&& S_IFMT = S_IFDIR := by
    apply Nat.eq_of_testBit_eq
    intro i
    simp only [Nat.testBit_and, Nat.testBit_or]
    by_cases hi : i < 16
    · interval_cases i <;> simp [S_IFDIR, S_IFMT, Nat.testBit]
    · have h2 : S_IFMT.testBit i = false :=
        Nat.testBit_lt_two_pow (lt_of_lt_of_le (by decide : S_IFMT < 2 ^ 16)
          (Nat.pow_le_pow_right (by decide) (by omega)))
      have h3 : S_IFDIR.testBit i = false :=
        Nat.testBit_lt_two_pow (lt_of_lt_of_le (by decide : S_IFDIR < 2 ^ 16)
          (Nat.pow_le_pow_right (by decide) (by omega)))
      simp [h2, h3]
  rw [h1]
  decide

theorem mkdir_link_count (s : vtfs_storage) (now pino : Nat) (P p : Ptr) (pe : vtfs_entry)
    (N : CStr) (mode : Nat)
    (hg : vtfs_storage_get_by_ino s pino = some P) (hP : s.mem P = some pe)
    (hdir : S_ISDIR pe.mode = true) (habs : vtfs_storage_lookup s P N = none)
    (hfresh : s.mem p = none) :
    (vtfs_mkdir s (some p) now true pino N mode).2 = 0 ∧
    (vtfs_mkdir s (some p) now true pino N mode).1.mem p =
      some { fresh_entry now N (S_IFDIR ||| (mode &&& 0o777)) s.next_ino P with nlink := 2 } ∧
    (vtfs_mkdir s (some p) now true pino N mode).1.mem P =
      some { pe with children := p :: pe.children, nlink := pe.nlink + 1 } := by
  have hne : p ≠ P := by intro hh; rw [hh, hP] at hfresh; cases hfresh
  have hcr := create_ok s P pe N (S_IFDIR ||| (mode &&& 0o777)) 0 p now false hP hdir habs
  have hm := S_ISDIR_mkdir_mode mode
  unfold vtfs_mkdir vtfs_storage_create_entry
  simp only [hg, hcr, upd_other _ _ _ _ hne, upd_same, Bool.not_true, Bool.false_eq_true,
    if_false, if_true, hm]
  refine ⟨trivial, rfl, ?_⟩
  rw [upd_other _ _ _ _ (Ne.symm hne), upd_same]

theorem rmdir_keeps_linked_directory (s : vtfs_storage) (pino : Nat) (P p : Ptr)
    (ce : vtfs_entry) (N : CStr)
    (hg : vtfs_storage_get_by_ino s pino = some P) (hl : vtfs_storage_lookup s P N = some p)
    (hp : s.mem p = some ce) (hdir : S_ISDIR ce.mode = true) (hch : ce.children = [])
    (hroot : s.root ≠ some p) (hn : ce.nlink = 2) :
    vtfs_rmdir s pino N =
      ({ s with mem := upd s.mem p (some { ce with nlink := 1 }) }, 0) ∧
    vtfs_storage_lookup (vtfs_rmdir s pino N).1 P N = some p := by
  have hdec : nlink_dec ce.nlink = 1 := by rw [hn]; rfl
  have hdel := delete_kept s p ce hp hroot (fun _ => hch) (by rw [hdec]; decide)
  rw [hdec] at hdel
  have h1 : vtfs_rmdir s pino N =
      ({ s with mem := upd s.mem p (some { ce with nlink := 1 }) }, 0) := by
    unfold vtfs_rmdir
    simp only [hg, hl, hp, hdir, hch, hdel, List.isEmpty_nil, Bool.not_true, Bool.false_eq_true,
      if_false, ne_eq, not_true_eq_false]
  refine ⟨h1, ?_⟩
  rw [h1]
  show vtfs_storage_lookup { s with mem := upd s.mem p (some { ce with nlink := 1 }) } P N = _
  rw [lookup_upd_fields s p ce { ce with nlink := 1 } hp rfl rfl rfl P N]
  exact hl

/-- C34 (the code at the failing input): on the fresh store `vtfs_mkdir` of
`d` in the root returns 0; the new directory has no children and link count
2, the root has link count 3. One `vtfs_rmdir` of `d` returns 0, and
afterwards `vtfs_storage_lookup` of `d` in the root still returns the entry,
now with link count 1, and the root still has link count 3. Only a second
`vtfs_rmdir` removes the entry and gives the root its link count 2 back. -/
theorem rmdir_after_mkdir_keeps_directory :
    (vtfs_mkdir ex_root (some 2) 0 true 1000 [100] 0o755).2 = 0 ∧
    (ex_root.mem 1).map (fun e => e.nlink) = some 2 ∧
    (ex_mkdir.mem 1).map (fun e => e.nlink) = some 3 ∧
    (ex_mkdir.mem 2).map (fun e => (S_ISDIR e.mode, e.nlink, e.children)) =
      some (true, 2, []) ∧
    (vtfs_rmdir ex_mkdir 1000 [100]).2 = 0 ∧
    vtfs_storage_lookup (vtfs_rmdir ex_mkdir 1000 [100]).1 1 [100] = some 2 ∧
    ((vtfs_rmdir ex_mkdir 1000 [100]).1.mem 2).map (fun e => e.nlink) = some 1 ∧
    ((vtfs_rmdir ex_mkdir 1000 [100]).1.mem 1).map (fun e => e.nlink) = some 3 ∧
    (vtfs_rmdir (vtfs_rmdir ex_mkdir 1000 [100]).1 1000 [100]).2 = 0 ∧
    vtfs_storage_lookup (vtfs_rmdir (vtfs_rmdir ex_mkdir 1000 [100]).1 1000 [100]).1 1 [100]
      = none ∧
    ((vtfs_rmdir (vtfs_rmdir ex_mkdir 1000 [100]).1 1000 [100]).1.mem 1).map
      (fun e => e.nlink) = some 2 := by
  refine ⟨by decide, by decide, by decide, by decide, by decide, by decide, by decide,
    by decide, by decide, by decide, by decide⟩

/-! ## Concurrent calls of create -/

theorem create_check_insert (s : vtfs_storage) (parent : Ptr) (c : create_call)
    (hfresh : ∀ p, c.kz = some p → s.mem p = none) :
    create_entry_internal s c.kz c.now parent c.name c.mode c.ino c.skip_sync =
      match create_check s parent c with
      | .done r => (s, r)
      | _ => create_insert s parent c := by
  unfold create_entry_internal create_check create_insert
  cases hP : s.mem parent with
  | none => rfl
  | some pe =>
    simp only
    by_cases hdir : S_ISDIR pe.mode = true
    · simp only [hdir, Bool.not_true, Bool.false_eq_true, if_false]
      cases hl : (vtfs_storage_lookup s parent c.name).isSome with
      | true => simp only [if_true]
      | false =>
        simp only [Bool.false_eq_true, if_false]
        cases hk : c.kz with
        | none => simp only [alloc_entry]
        | some p =>
          have hp := hfresh p hk
          have hne : parent ≠ p := by intro hh; rw [hh, hp] at hP; cases hP
          simp only [alloc_entry]
          by_cases h0 : c.ino = 0
          · simp only [h0, if_true, upd_other _ _ _ _ hne, hP]
          · simp only [h0, if_false, upd_other _ _ _ _ hne, hP]
    · simp only [hdir, Bool.not_false, if_true]

/-- C31 (the code at the failing input): two callers create the name `a` in
the root of the fresh store. When the second caller runs its lookup before the
first has inserted its entry (schedule first, second, first, second), both
calls return an entry, and the root has two children with the name `a`. When
the calls run one after the other, the second returns no entry. -/
theorem concurrent_create_same_name_twice :
    (run_schedule 1 (ex_root, start_threads
        [⟨[97], S_IFREG ||| 0o644, 0, false, some 2, 0⟩,
         ⟨[97], S_IFREG ||| 0o644, 0, false, some 3, 0⟩]) [0, 1, 0, 1]).2.map (fun t => t.pc) =
      [.done (some 2), .done (some 3)] ∧
    ((run_schedule 1 (ex_root, start_threads
        [⟨[97], S_IFREG ||| 0o644, 0, false, some 2, 0⟩,
         ⟨[97], S_IFREG ||| 0o644, 0, false, some 3, 0⟩]) [0, 1, 0, 1]).1.mem 1).map
      (fun e => e.children) = some [3, 2] ∧
    ((run_schedule 1 (ex_root, start_threads
        [⟨[97], S_IFREG ||| 0o644, 0, false, some 2, 0⟩,
         ⟨[97], S_IFREG ||| 0o644, 0, false, some 3, 0⟩]) [0, 1, 0, 1]).1.mem 2).map
      (fun e => e.name) = some [97] ∧
    ((run_schedule 1 (ex_root, start_threads
        [⟨[97], S_IFREG ||| 0o644, 0, false, some 2, 0⟩,
         ⟨[97], S_IFREG ||| 0o644, 0, false, some 3, 0⟩]) [0, 1, 0, 1]).1.mem 3).map
      (fun e => e.name) = some [97] ∧
    (run_schedule 1 (ex_root, start_threads
        [⟨[97], S_IFREG ||| 0o644, 0, false, some 2, 0⟩,
         ⟨[97], S_IFREG ||| 0o644, 0, false, some 3, 0⟩]) [0, 0, 1, 1]).2.map (fun t => t.pc) =
      [.done (some 2), .done none] := by
  refine ⟨by decide, by decide, by decide, by decide, by decide⟩

theorem nodup_getElem?_inj {α : Type} (l : List α) (h : l.Nodup) (i j : Nat) (a : α)
    (hi : l[i]? = some a) (hj : l[j]? = some a) : i = j := by
  have hil : i < l.length := (List.getElem?_eq_some.1 hi).1
  have hjl : j < l.length := (List.getElem?_eq_some.1 hj).1
  by_contra hne
  rcases Nat.lt_or_gt_of_ne hne with hlt | hgt
  · exact (List.nodup_iff_getElem?_ne_getElem?.1 h) i j hlt hjl (by rw [hi, hj])
  · exact (List.nodup_iff_getElem?_ne_getElem?.1 h) j i hgt hil (by rw [hi, hj])

theorem thread_index_inj {β : Type} (f : create_call → β) (ts : List create_thread)
    (hn : ((ts.map (fun t => t.call)).map f).Nodup) (j k : Nat) (tj tk : create_thread)
    (hj : ts[j]? = some tj) (hk : ts[k]? = some tk) (he : f tj.call = f tk.call) : j = k := by
  refine nodup_getElem?_inj _ hn j k (f tj.call) ?_ ?_
  · rw [List.getElem?_map, List.getElem?_map, hj]; rfl
  · rw [List.getElem?_map, List.getElem?_map, hk, he]; rfl

theorem set_getElem?_thread (ts : List create_thread) (i : Nat) (t t1 : create_thread)
    (hi : ts[i]? = some t) (j : Nat) :
    (ts.set i t1)[j]? = if j = i then some t1 else ts[j]? := by
  have hil : i < ts.length := (List.getElem?_eq_some.1 hi).1
  rw [List.getElem?_set]
  by_cases h : i = j
  · rw [if_pos h, if_pos hil, if_pos h.symm]
  · rw [if_neg h, if_neg (Ne.symm h)]

theorem set_map_call (ts : List create_thread) (i : Nat) (t t1 : create_thread)
    (hi : ts[i]? = some t) (hc : t1.call = t.call) :
    (ts.set i t1).map (fun x => x.call) = ts.map (fun x => x.call) := by
  apply List.ext_getElem?
  intro j
  rw [List.getElem?_map, List.getElem?_map, set_getElem?_thread ts i t t1 hi j]
  by_cases h : j = i
  · rw [if_pos h, h, hi]
    simp only [Option.map_some', hc]
  · rw [if_neg h]

theorem create_insert_ok (s : vtfs_storage) (P : Ptr) (c : create_call) (p : Ptr)
    (pe : vtfs_entry) (hk : c.kz = some p) (hP : s.mem P = some pe) (hne : p ≠ P) :
    create_insert s P c =
      ({ root := s.root, all_entries := p :: s.all_entries,
         next_ino := if c.ino = 0 then s.next_ino + 1 else s.next_ino,
         mem := upd (upd s.mem p (some (fresh_entry c.now c.name c.mode
                  (if c.ino = 0 then s.next_ino else c.ino) P))) P
                (some { pe with children := p :: pe.children,
                                nlink := if S_ISDIR c.mode then pe.nlink + 1 else pe.nlink }) },
       some p) := by
  unfold create_insert
  simp only [hk, alloc_entry]
  by_cases h0 : c.ino = 0
  · simp only [h0, if_true, upd_other _ _ _ _ (Ne.symm hne), hP]
    rfl
  · simp only [h0, if_false, upd_other _ _ _ _ (Ne.symm hne), hP]
    rfl

theorem CreateInv.step_check {P : Ptr} {calls : List create_call} {s : vtfs_storage}
    {ts : List create_thread} (h : CreateInv P calls s ts)
    (hnames : (calls.map (fun c => c.name)).Nodup)
    (i : Nat) (t : create_thread) (hi : ts[i]? = some t) (hpc : t.pc = .start) :
    create_check s P t.call = .checked ∧
    CreateInv P calls s (ts.set i { t with pc := .checked }) := by
  obtain ⟨pe, hP, hdir⟩ := h.parent_dir
  have hset := set_getElem?_thread ts i t { t with pc := .checked } hi
  have hcall : t.call ∈ calls := by
    rw [← h.calls_eq]
    exact List.mem_map.2 ⟨t, List.mem_iff_getElem?.2 ⟨i, hi⟩, rfl⟩
  have hlook : vtfs_storage_lookup s P t.call.name = none := by
    refine lookup_none_of_no_child s P pe _ hP (fun c hc ce hce => ?_)
    rcases h.children pe hP c hc ce hce with h1 | ⟨j, t2, hj, hd, hn⟩
    · exact h1 t.call hcall
    · intro heq
      have hji : j = i := thread_index_inj (fun c => c.name) ts (by rw [h.calls_eq]; exact hnames)
        j i t2 t hj hi (show t2.call.name = t.call.name from hn.symm.trans heq)
      subst hji
      rw [hi] at hj; cases hj
      rw [hpc] at hd; cases hd
  refine ⟨?_, ?_⟩
  · unfold create_check
    simp only [hP, hdir, hlook, Bool.not_true, Bool.false_eq_true, if_false, Option.isSome_none]
  · refine ⟨?_, ⟨pe, hP, hdir⟩, ?_, ?_, ?_⟩
    · exact (set_map_call ts i t { t with pc := .checked } hi rfl).trans h.calls_eq
    · intro pe1 hP1 c hc ce hce
      rcases h.children pe1 hP1 c hc ce hce with h1 | ⟨j, t2, hj, hd, hn⟩
      · exact Or.inl h1
      · refine Or.inr ⟨j, t2, ?_, hd, hn⟩
        rw [hset j]
        by_cases hji : j = i
        · subst hji
          rw [hi] at hj; cases hj
          rw [hpc] at hd; cases hd
        · rw [if_neg hji]; exact hj
    · intro j t2 r hj hd
      rw [hset j] at hj
      by_cases hji : j = i
      · rw [if_pos hji] at hj; cases hj; cases hd
      · rw [if_neg hji] at hj
        exact h.returned j t2 r hj hd
    · intro j t2 hj hnd
      rw [hset j] at hj
      by_cases hji : j = i
      · rw [if_pos hji] at hj; cases hj
        exact h.pending i t hi (by intro r hr; rw [hpc] at hr; cases hr)
      · rw [if_neg hji] at hj
        exact h.pending j t2 hj hnd

theorem CreateInv.step_insert {P : Ptr} {calls : List create_call} {s : vtfs_storage}
    {ts : List create_thread} (h : CreateInv P calls s ts)
    (hkz : (calls.map (fun c => c.kz)).Nodup)
    (hshort : ∀ c ∈ calls, c.name.length ≤ VTFS_MAX_NAME_LEN)
    (i : Nat) (t : create_thread) (hi : ts[i]? = some t) (hpc : t.pc = .checked) :
    CreateInv P calls (create_insert s P t.call).1
      (ts.set i { t with pc := .done (create_insert s P t.call).2 }) := by
  obtain ⟨pe, hP, hdir⟩ := h.parent_dir
  obtain ⟨p, hk, hp, hne⟩ := h.pending i t hi (by intro r hr; rw [hpc] at hr; cases hr)
  have hcall : t.call ∈ calls := by
    rw [← h.calls_eq]
    exact List.mem_map.2 ⟨t, List.mem_iff_getElem?.2 ⟨i, hi⟩, rfl⟩
  have hname : List.take VTFS_MAX_NAME_LEN t.call.name = t.call.name :=
    List.take_of_length_le (hshort _ hcall)
  rw [create_insert_ok s P t.call p pe hk hP hne]
  have hset := set_getElem?_thread ts i t { t with pc := .done (some p) } hi
  -- the heap after the insertion
  have hmP : upd (upd s.mem p (some (fresh_entry t.call.now t.call.name t.call.mode
      (if t.call.ino = 0 then s.next_ino else t.call.ino) P))) P
      (some { pe with children := p :: pe.children,
                      nlink := if S_ISDIR t.call.mode then pe.nlink + 1 else pe.nlink }) P =
      some { pe with children := p :: pe.children,
                     nlink := if S_ISDIR t.call.mode then pe.nlink + 1 else pe.nlink } :=
    upd_same _ _ _
  have hmp : upd (upd s.mem p (some (fresh_entry t.call.now t.call.name t.call.mode
      (if t.call.ino = 0 then s.next_ino else t.call.ino) P))) P
      (some { pe with children := p :: pe.children,
                      nlink := if S_ISDIR t.call.mode then pe.nlink + 1 else pe.nlink }) p =
      some (fresh_entry t.call.now t.call.name t.call.mode
        (if t.call.ino = 0 then s.next_ino else t.call.ino) P) := by
    rw [upd_other _ _ _ _ hne, upd_same]
  have hmo : ∀ x ce, x ≠ p →
      upd (upd s.mem p (some (fresh_entry t.call.now t.call.name t.call.mode
        (if t.call.ino = 0 then s.next_ino else t.call.ino) P))) P
        (some { pe with children := p :: pe.children,
                        nlink := if S_ISDIR t.call.mode then pe.nlink + 1 else pe.nlink }) x =
        some ce → ∃ ce0, s.mem x = some ce0 ∧ ce0.name = ce.name := by
    intro x ce hx hce
    rcases upd_eq_some _ _ _ _ _ hce with ⟨h1, h2⟩ | ⟨_, h2⟩
    · subst h1; subst h2; exact ⟨pe, hP, rfl⟩
    · rw [upd_other _ _ _ _ hx] at h2; exact ⟨ce, h2, rfl⟩
  have hkeep : ∀ x ce0, s.mem x = some ce0 →
      ∃ ce, upd (upd s.mem p (some (fresh_entry t.call.now t.call.name t.call.mode
        (if t.call.ino = 0 then s.next_ino else t.call.ino) P))) P
        (some { pe with children := p :: pe.children,
                        nlink := if S_ISDIR t.call.mode then pe.nlink + 1 else pe.nlink }) x =
        some ce ∧ ce.name = ce0.name := by
    intro x ce0 hx
    have hxp : x ≠ p := by intro hh; rw [hh, hp] at hx; cases hx
    by_cases hxP : x = P
    · subst hxP
      rw [hP] at hx; cases hx
      exact ⟨_, hmP, rfl⟩
    · exact ⟨ce0, by rw [upd_other _ _ _ _ hxP, upd_other _ _ _ _ hxp]; exact hx, rfl⟩
  refine ⟨?_, ⟨_, hmP, hdir⟩, ?_, ?_, ?_⟩
  · exact (set_map_call ts i t { t with pc := .done (some p) } hi rfl).trans h.calls_eq
  · intro pe1 hP1 c hc ce hce
    have hP1' : upd (upd s.mem p _) P _ P = some pe1 := hP1
    rw [hmP] at hP1'
    cases hP1'
    by_cases hcp : c = p
    · subst hcp
      have hce' : upd (upd s.mem c _) P _ c = some ce := hce
      rw [hmp] at hce'
      cases hce'
      refine Or.inr ⟨i, { t with pc := .done (some c) }, ?_, rfl, hname⟩
      rw [hset i, if_pos rfl]
    · have hc0 : c ∈ pe.children := by
        rcases List.mem_cons.1 hc with h1 | h1
        · exact absurd h1 hcp
        · exact h1
      obtain ⟨ce0, hce0, hn0⟩ := hmo c ce hcp hce
      rcases h.children pe hP c hc0 ce0 hce0 with h1 | ⟨j, t2, hj, hd, hn⟩
      · exact Or.inl (fun c1 hc1 => by rw [← hn0]; exact h1 c1 hc1)
      · refine Or.inr ⟨j, t2, ?_, hd, by rw [← hn0]; exact hn⟩
        rw [hset j]
        by_cases hji : j = i
        · subst hji
          rw [hi] at hj; cases hj
          rw [hpc] at hd; cases hd
        · rw [if_neg hji]; exact hj
  · intro j t2 r hj hd
    rw [hset j] at hj
    by_cases hji : j = i
    · rw [if_pos hji] at hj
      cases hj
      cases hd
      exact ⟨p, _, _, rfl, hk, hmP, List.mem_cons_self _ _, hmp, hname⟩
    · rw [if_neg hji] at hj
      obtain ⟨p2, pe2, ce2, h1, h2, h3, h4, h5, h6⟩ := h.returned j t2 r hj hd
      rw [hP] at h3; cases h3
      obtain ⟨ce, h7, h8⟩ := hkeep p2 ce2 h5
      exact ⟨p2, _, ce, h1, h2, hmP, List.mem_cons_of_mem _ h4, h7, by rw [h8]; exact h6⟩
  · intro j t2 hj hnd
    rw [hset j] at hj
    by_cases hji : j = i
    · rw [if_pos hji] at hj
      cases hj
      exact absurd rfl (hnd (some p))
    · rw [if_neg hji] at hj
      obtain ⟨p2, h1, h2, h3⟩ := h.pending j t2 hj hnd
      have hp2 : p2 ≠ p := by
        intro hh
        subst hh
        exact hji (thread_index_inj (fun c => c.kz) ts (by rw [h.calls_eq]; exact hkz)
          j i t2 t hj hi (show t2.call.kz = t.call.kz by rw [h1, hk]))
      refine ⟨p2, h1, ?_, h3⟩
      show upd (upd s.mem p _) P _ p2 = none
      rw [upd_other _ _ _ _ h3, upd_other _ _ _ _ hp2]; exact h2

theorem CreateInv.step {P : Ptr} {calls : List create_call} {s : vtfs_storage}
    {ts : List create_thread} (h : CreateInv P calls s ts)
    (hnames : (calls.map (fun c => c.name)).Nodup) (hkz : (calls.map (fun c => c.kz)).Nodup)
    (hshort : ∀ c ∈ calls, c.name.length ≤ VTFS_MAX_NAME_LEN)
    (i : Nat) (t : create_thread) (hi : ts[i]? = some t) :
    CreateInv P calls (thread_step s P t).1 (ts.set i (thread_step s P t).2) := by
  cases hpc : t.pc with
  | start =>
    obtain ⟨h1, h2⟩ := h.step_check hnames i t hi hpc
    unfold thread_step
    simp only [hpc, h1]
    exact h2
  | checked =>
    unfold thread_step
    simp only [hpc]
    exact h.step_insert hkz hshort i t hi hpc
  | done r =>
    unfold thread_step
    simp only [hpc]
    have hsame : ts.set i t = ts := by
      apply List.ext_getElem?
      intro j
      rw [set_getElem?_thread ts i t t hi j]
      by_cases hji : j = i
      · rw [if_pos hji, hji, hi]
      · rw [if_neg hji]
    rw [hsame]
    exact h

theorem CreateInv.run {P : Ptr} {calls : List create_call}
    (hnames : (calls.map (fun c => c.name)).Nodup) (hkz : (calls.map (fun c => c.kz)).Nodup)
    (hshort : ∀ c ∈ calls, c.name.length ≤ VTFS_MAX_NAME_LEN) (sched : List Nat) :
    ∀ (s : vtfs_storage) (ts : List create_thread), CreateInv P calls s ts →
      CreateInv P calls (run_schedule P (s, ts) sched).1 (run_schedule P (s, ts) sched).2 := by
  induction sched with
  | nil => intro s ts h; exact h
  | cons i rest ih =>
    intro s ts h
    unfold run_schedule
    cases hi : ts[i]? with
    | none => exact ih s ts h
    | some t => exact ih _ _ (h.step hnames hkz hshort i t hi)

theorem CreateInv.start (s : vtfs_storage) (P : Ptr) (pe : vtfs_entry)
    (calls : List create_call) (hP : s.mem P = some pe) (hdir : S_ISDIR pe.mode = true)
    (hnew : ∀ c ∈ calls, vtfs_storage_lookup s P c.name = none)
    (hfresh : ∀ c ∈ calls, ∃ p, c.kz = some p ∧ s.mem p = none) :
    CreateInv P calls s (start_threads calls) := by
  have hget : ∀ (j : Nat) (t : create_thread), (start_threads calls)[j]? = some t →
      t.pc = .start ∧ t.call ∈ calls := by
    intro j t hj
    unfold start_threads at hj
    rw [List.getElem?_map] at hj
    cases hc : calls[j]? with
    | none => rw [hc] at hj; cases hj
    | some c =>
      rw [hc] at hj
      cases hj
      exact ⟨rfl, List.mem_iff_getElem?.2 ⟨j, hc⟩⟩
  refine ⟨?_, ⟨pe, hP, hdir⟩, ?_, ?_, ?_⟩
  · unfold start_threads
    rw [List.map_map]
    exact List.map_id _
  · intro pe1 hP1 c hc ce hce
    rw [hP] at hP1; cases hP1
    exact Or.inl (fun c1 hc1 =>
      lookup_none_no_child s P pe c1.name hP hdir (hnew c1 hc1) c hc ce hce)
  · intro j t r hj hd
    rw [(hget j t hj).1] at hd; cases hd
  · intro j t hj _
    obtain ⟨p, h1, h2⟩ := hfresh t.call (hget j t hj).2
    exact ⟨p, h1, h2, by intro hh; rw [hh, hP] at h2; cases h2⟩

theorem concurrent_create_distinct_names (s : vtfs_storage) (P : Ptr) (pe : vtfs_entry)
    (calls : List create_call) (hP : s.mem P = some pe) (hdir : S_ISDIR pe.mode = true)
    (hnames : (calls.map (fun c => c.name)).Nodup)
    (hshort : ∀ c ∈ calls, c.name.length ≤ VTFS_MAX_NAME_LEN)
    (hnew : ∀ c ∈ calls, vtfs_storage_lookup s P c.name = none)
    (hfresh : ∀ c ∈ calls, ∃ p, c.kz = some p ∧ s.mem p = none)
    (hkz : (calls.map (fun c => c.kz)).Nodup) (sched : List Nat)
    (hdone : ∀ t ∈ (run_schedule P (s, start_threads calls) sched).2, ∃ r, t.pc = .done r) :
    (run_schedule P (s, start_threads calls) sched).2.map (fun t => t.call) = calls ∧
    ∀ (j : Nat) (t : create_thread),
      (run_schedule P (s, start_threads calls) sched).2[j]? = some t →
      ∃ p, t.pc = .done (some p) ∧ t.call.kz = some p ∧
        vtfs_storage_lookup (run_schedule P (s, start_threads calls) sched).1 P t.call.name =
          some p := by
  have h := CreateInv.run hnames hkz hshort sched s _
    (CreateInv.start s P pe calls hP hdir hnew hfresh)
  refine ⟨h.calls_eq, ?_⟩
  intro j t hj
  obtain ⟨r, hr⟩ := hdone t (List.mem_iff_getElem?.2 ⟨j, hj⟩)
  obtain ⟨p, pe1, ce, h1, h2, h3, h4, h5, h6⟩ := h.returned j t r hj hr
  subst h1
  refine ⟨p, hr, h2, ?_⟩
  obtain ⟨pe2, h7, h8⟩ := h.parent_dir
  rw [h3] at h7; cases h7
  have hcall : t.call ∈ calls := by
    rw [← h.calls_eq]
    exact List.mem_map.2 ⟨t, List.mem_iff_getElem?.2 ⟨j, hj⟩, rfl⟩
  cases hf : vtfs_storage_lookup (run_schedule P (s, start_threads calls) sched).1 P
      t.call.name with
  | none =>
    unfold vtfs_storage_lookup at hf
    simp only [h3, h8, Bool.not_true, Bool.false_eq_true, if_false] at hf
    have := List.find?_eq_none.1 hf p h4
    rw [h5] at this
    simp [h6] at this
  | some x =>
    unfold vtfs_storage_lookup at hf
    simp only [h3, h8, Bool.not_true, Bool.false_eq_true, if_false] at hf
    have hx := List.find?_some hf
    have hxm := List.mem_of_find?_eq_some hf
    cases hmx : (run_schedule P (s, start_threads calls) sched).1.mem x with
    | none => rw [hmx] at hx; cases hx
    | some xe =>
      rw [hmx] at hx
      have hxn : xe.name = t.call.name := by simpa using hx
      rcases h.children pe1 h3 x hxm xe hmx with h9 | ⟨k, t2, hk, hd, hn⟩
      · exact absurd hxn (h9 t.call hcall)
      · have hkj : k = j := thread_index_inj (fun c => c.name) _
          (by rw [h.calls_eq]; exact hnames) k j t2 t hk hj
          (show t2.call.name = t.call.name from hn.symm.trans hxn)
        subst hkj
        rw [hj] at hk; cases hk
        rw [hr] at hd
        cases hd
        rfl

end Vtfs
